import Mathlib

/-! Bidirectional path tracer (bpt_veach): shallow embedding and verified properties.

The C++ program computes with `float` and `double`.  The embedding is written over an
arbitrary linearly ordered field `F`.  The library functions the program calls
(`std::sqrt`, `std::cos`, `std::sin`), the `float` constants of
`mathematics/constant.hpp` and the conversion `to_float` of a value to `std::float_t`
are collected in a record `FloatOps F` that every definition receives (`std::pow`,
which only `SaveImage` calls, is an argument of that function).

An operation on `double` operands is read as the exact field operation.  The rounding
of `float` is part of the model where a result of the program depends on it:
`Mersenne.get_float` rounds the generator output to a `float`; `Sample::Triangle`,
`Camera::We`, `Camera::evaluate`, `Camera::sensor` and the densities and throughputs of
the two walks of `bdpt.hpp` apply `to_float` wherever the program stores a value in a
`std::float_t` or computes on `float` operands (the values a sampler or a material
returns are converted where the walk binds them); the `Orthogonal` constructor compares
with the `float` constant `0.995f`.  The remaining `float` operations
(`Sample::HemiSphere`, `generate_ray`, the emitter, the colours of `process()`) are read
as exact.  `to_float` has two readings: the identity (`FloatOps.ExactFloat`, instances
`realOps` and `rationalOps`), which is exact arithmetic, and the rounding to IEEE 754
binary32 `round_binary32` (`FloatOps.Binary32`, instances `realBinary32Ops` and
`binary32Ops`), which is the arithmetic of the program where `std::float_t` is `float`
and every `float` operation is rounded to `float` (`FLT_EVAL_METHOD == 0`).  Overflow, infinities and NaN
are outside the model (a division by zero yields `0`, as in every Lean field), except in
`Camera.evaluate`, which compares a quotient whose divisor can be zero.  Machine
integers are natural numbers reduced modulo `2^w`.

All definitions of the embedding are computable: instantiated at `ℚ` they evaluate.
Only the instances over the reals are not: `realOps` and `realBinary32Ops`, which
supply `Real.sqrt`, and the sensor `sensor_dark_pixel`.
-/

namespace BPT

/-! # Part I: the embedding -/

/-! ## Numeric primitives -/

/-- Library functions and constants of `mathematics/constant.hpp` the program relies on. -/
structure FloatOps (F : Type) where
  /-- Reading of `std::sqrt`. -/
  sqrt : F → F
  /-- Reading of `std::cos`. -/
  cos : F → F
  /-- Reading of `std::sin`. -/
  sin : F → F
  /-- Constant `inv_pi` (1/pi). -/
  inv_pi : F
  /-- Constant `inv_2pi` (1/(2 pi)). -/
  inv_2pi : F
  /-- Constant `two_pi` (2 pi). -/
  two_pi : F
  /-- Conversion of a value to `std::float_t`: the result of an operation on `float`
  operands, and the narrowing of a `double` that is stored in a `float`. -/
  to_float : F → F

/-- The square root of the model is the exact non-negative square root
(as `Real.sqrt` is on the reals). -/
def FloatOps.ExactSqrt {F : Type} [LinearOrderedField F] (M : FloatOps F) : Prop :=
  (∀ a : F, 0 ≤ a → M.sqrt a * M.sqrt a = a) ∧ (∀ a : F, 0 ≤ M.sqrt a)

/-- Rounding of `q` to an integer: to nearest, a tie to the even neighbour. -/
def round_even {F : Type} [LinearOrderedField F] [FloorRing F] (q : F) : Int :=
  let n := ⌊q⌋
  if q - n < 1 / 2 then n
  else if 1 / 2 < q - n then n + 1
  else if n % 2 = 0 then n else n + 1

/-- The upper end `2^(e+1)` of the binade `[2^e, 2^(e+1))` that holds `a`: the search
starts at `top` and halves it at most `fuel` times. -/
def binade_top {F : Type} [LinearOrderedField F] : Nat → F → F → F
  | 0, top, _ => top
  | fuel + 1, top, a => if top / 2 ≤ a then top else binade_top fuel (top / 2) a

/-- The `float` (IEEE 754 binary32) nearest to `x`: 24 significant bits, round to
nearest, ties to even; below `2^-126` the spacing stays `2^-149` (subnormal numbers).
The exponent is not bounded above: a value that the program would round to an infinity
(`2^128` or more) is rounded with the spacing `2^104` of the last binade. -/
def round_binary32 {F : Type} [LinearOrderedField F] [FloorRing F] (x : F) : F :=
  let ulp := binade_top 253 (2 ^ 128) |x| / 2 ^ 24
  (round_even (x / ulp) : F) * ulp

/-- The conversion to `float` of the model is the identity: the reading in exact
arithmetic. -/
def FloatOps.ExactFloat {F : Type} [LinearOrderedField F] (M : FloatOps F) : Prop :=
  ∀ x : F, M.to_float x = x

/-- The conversion to `float` of the model is the rounding to binary32 the program
performs. -/
def FloatOps.Binary32 {F : Type} [LinearOrderedField F] [FloorRing F] (M : FloatOps F) :
    Prop :=
  ∀ x : F, M.to_float x = round_binary32 x

/-! ## `epsilon.hpp` -/

section Epsilon
variable (F : Type) [LinearOrderedField F]

/-- `#define EPSILON_RAY 0.00001` -/
def EPSILON_RAY : F := 1 / 100000

/-- `#define EPSILON_DISTANCE 0.00005` -/
def EPSILON_DISTANCE : F := 5 / 100000

/-- `#define EPSILON_COS_THETA 0.00001` -/
def EPSILON_COS_THETA : F := 1 / 100000

/-- `#define EPSILON_BLACK 1.e-8f` -/
def EPSILON_BLACK : F := 1 / 100000000

end Epsilon

/-! ## `mathematics/double3.hpp` -/

/-- Class `Double3`: a 3D vector. -/
@[ext]
structure Double3 (F : Type) where
  x : F
  y : F
  z : F

namespace Double3
variable {F : Type} [LinearOrderedField F]

/-- Unary minus. -/
def neg (a : Double3 F) : Double3 F := ⟨-a.x, -a.y, -a.z⟩

/-- `operator +` -/
def add (a value : Double3 F) : Double3 F := ⟨a.x + value.x, a.y + value.y, a.z + value.z⟩

/-- `operator -` (binary) -/
def sub (a value : Double3 F) : Double3 F := ⟨a.x - value.x, a.y - value.y, a.z - value.z⟩

/-- `operator *` by a scalar. -/
def mul (a : Double3 F) (value : F) : Double3 F := ⟨a.x * value, a.y * value, a.z * value⟩

/-- `operator /` by a scalar. -/
def div (a : Double3 F) (value : F) : Double3 F := ⟨a.x / value, a.y / value, a.z / value⟩

/-- `normalise()` -/
def normalise (M : FloatOps F) (a : Double3 F) : Double3 F :=
  (Double3.mk a.x a.y a.z).div (M.sqrt (a.x * a.x + a.y * a.y + a.z * a.z))

/-- `absdot()` -/
def absdot (a value : Double3 F) : F := |a.x * value.x + a.y * value.y + a.z * value.z|

/-- `dot()` -/
def dot (a value : Double3 F) : F := a.x * value.x + a.y * value.y + a.z * value.z

/-- `cross()` -/
def cross (a value : Double3 F) : Double3 F :=
  ⟨a.y * value.z - a.z * value.y, a.z * value.x - a.x * value.z, a.x * value.y - a.y * value.x⟩

/-- `magnitude()` -/
def magnitude (M : FloatOps F) (a : Double3 F) : F :=
  M.sqrt (a.x * a.x + a.y * a.y + a.z * a.z)

/-- `Double3::Zero` -/
def Zero : Double3 F := ⟨0, 0, 0⟩
/-- `Double3::One` -/
def One : Double3 F := ⟨1, 1, 1⟩
/-- `Double3::X` -/
def X : Double3 F := ⟨1, 0, 0⟩
/-- `Double3::Y` -/
def Y : Double3 F := ⟨0, 1, 0⟩
/-- `Double3::Z` -/
def Z : Double3 F := ⟨0, 0, 1⟩

end Double3

/-! ## `mathematics/orthogonal.hpp` -/

/-- Class `Orthogonal`: a local frame. -/
@[ext]
structure Orthogonal (F : Type) where
  x_axis : Double3 F
  y_axis : Double3 F
  z_axis : Double3 F

namespace Orthogonal
variable {F : Type} [LinearOrderedField F]

/-- Default constructor `Orthogonal()`: the world axes. -/
def default : Orthogonal F := ⟨Double3.X, Double3.Y, Double3.Z⟩

/-- Constructor `Orthogonal( Double3 const& vector )`.  The threshold `0.995f` is a
`float` literal: its value is `8346665 / 2^23`, the `float` nearest to `0.995`. -/
def ctor (M : FloatOps F) (vector : Double3 F) : Orthogonal F :=
  let z_axis := vector.normalise M
  let tmp : Double3 F := if |z_axis.x| > 8346665 / 8388608 then Double3.Y else Double3.X
  let y_axis := (z_axis.cross tmp).normalise M
  let x_axis := y_axis.cross z_axis
  ⟨x_axis, y_axis, z_axis⟩

/-- `to_world()` -/
def to_world (o : Orthogonal F) (value : Double3 F) : Double3 F :=
  ((o.x_axis.mul value.x).add (o.y_axis.mul value.y)).add (o.z_axis.mul value.z)

/-- `to_local()` -/
def to_local (o : Orthogonal F) (value : Double3 F) : Double3 F :=
  ⟨o.x_axis.dot value, o.y_axis.dot value, o.z_axis.dot value⟩

/-- `tangent()` -/
def tangent (o : Orthogonal F) : Double3 F := o.x_axis
/-- `bitangent()` -/
def bitangent (o : Orthogonal F) : Double3 F := o.y_axis
/-- `normal()` -/
def normal (o : Orthogonal F) : Double3 F := o.z_axis

end Orthogonal

/-! ## `random/mersenne.hpp` -/

/-- Class `Random::Mersenne`; `seed` is a `std::uint32_t`. -/
structure Mersenne where
  seed : Nat
deriving DecidableEq, Repr

namespace Mersenne

/-- Default constructor `Mersenne()`: the member initialiser `seed{11}`. -/
def default : Mersenne := ⟨11⟩

/-- Constructor `Mersenne( std::uint32_t const seed )`; the argument is converted to
32 bits. -/
def ctor (seed : Nat) : Mersenne := ⟨seed % 2 ^ 32⟩

/-- Private method `next()`: returns the output and the updated generator.  Every
`std::uint32_t` operation is reduced modulo `2^32`. -/
def next (g : Mersenne) : Nat × Mersenne :=
  let seed := (((1812433253 * (g.seed ^^^ (g.seed >>> 30))) % 2 ^ 32 + 1) % 2 ^ 32) &&& 0xFFFFFFFF
  let x := seed
  let x := x ^^^ (x >>> 11)
  let x := x ^^^ (((x <<< 7) % 2 ^ 32) &&& 0x9D2C5680)
  let x := x ^^^ (((x <<< 15) % 2 ^ 32) &&& 0xEFC60000)
  let x := x ^^^ (x >>> 18)
  (x, ⟨seed⟩)

/-- `get_integer()` -/
def get_integer (g : Mersenne) : Nat × Mersenne := g.next

/-- The conversion of a `std::uint32_t` to `float` that `get_float()` applies to the
output of `next()`: 24 significant bits, round to nearest, ties to even.  The result
is the integer value of the `float`. -/
def uint32_to_float (n : Nat) : Nat :=
  let shift :=
    if n < 2 ^ 24 then 0 else if n < 2 ^ 25 then 1 else if n < 2 ^ 26 then 2
    else if n < 2 ^ 27 then 3 else if n < 2 ^ 28 then 4 else if n < 2 ^ 29 then 5
    else if n < 2 ^ 30 then 6 else if n < 2 ^ 31 then 7 else 8
  let q := n / 2 ^ shift
  let r := n % 2 ^ shift
  let q := if 2 * r > 2 ^ shift ∨ (2 * r = 2 ^ shift ∧ q % 2 = 1) then q + 1 else q
  q * 2 ^ shift

/-- `get_float()`: `next() / 4294967295.f`.  The `float` literal `4294967295.f` is
`2^32`, the integer is converted to `float` before the division, and the division by a
power of two is exact, so this is the value the program computes. -/
def get_float {F : Type} [LinearOrderedField F] (g : Mersenne) : F × Mersenne :=
  ((uint32_to_float g.next.1 : F) / 4294967296, g.next.2)

end Mersenne

/-! ## `colour/colour.hpp` -/

/-- Struct `Colour`. -/
@[ext]
structure Colour (F : Type) where
  r : F
  g : F
  b : F

namespace Colour
variable {F : Type} [LinearOrderedField F]

/-- `operator +` -/
def add (a value : Colour F) : Colour F := ⟨a.r + value.r, a.g + value.g, a.b + value.b⟩
/-- `operator *` by a colour. -/
def mul (a value : Colour F) : Colour F := ⟨a.r * value.r, a.g * value.g, a.b * value.b⟩
/-- `operator *` by a scalar. -/
def smul (a : Colour F) (value : F) : Colour F := ⟨a.r * value, a.g * value, a.b * value⟩
/-- `operator /` by a scalar. -/
def sdiv (a : Colour F) (value : F) : Colour F := ⟨a.r / value, a.g / value, a.b / value⟩
/-- `is_black()` -/
def is_black (a : Colour F) : Bool := decide (max a.r (max a.g a.b) < EPSILON_BLACK F)
/-- The three channels converted to `std::float_t`, the type in which `Colour` holds them
and its operators compute. -/
def to_float (M : FloatOps F) (a : Colour F) : Colour F :=
  ⟨M.to_float a.r, M.to_float a.g, M.to_float a.b⟩
/-- `Colour::Black` -/
def Black : Colour F := ⟨0, 0, 0⟩
/-- `Colour::White` -/
def White : Colour F := ⟨1, 1, 1⟩

end Colour

/-! ## `ray/section.hpp`, `ray/intersection.hpp` -/

/-- Class `Ray::Section`. -/
@[ext]
structure Section (F : Type) where
  origin : Double3 F
  direction : Double3 F

namespace Section
variable {F : Type} [LinearOrderedField F]

/-- `Section( origin, direction )` -/
def ctor (origin direction : Double3 F) : Section F := ⟨origin, direction⟩

/-- `Section( origin, direction, epsilon )`: the origin is advanced along the direction. -/
def ctor_eps (origin direction : Double3 F) (epsilon : F) : Section F :=
  ⟨origin.add (direction.mul epsilon), direction⟩

end Section

/-- Struct `Ray::Intersection`. -/
structure Intersection (F : Type) where
  point : Double3 F
  from_direction : Double3 F
  normal_shading : Double3 F
  normal_geometry : Double3 F
  orthogonal : Orthogonal F
  material_id : Nat

/-- A default-constructed `Ray::Intersection` (`material_id` is not initialised by the
program; the model reads it as `0`). -/
def Intersection.default {F : Type} [LinearOrderedField F] : Intersection F :=
  ⟨Double3.Zero, Double3.Zero, Double3.Zero, Double3.Zero, Orthogonal.default, 0⟩

/-! ## `sample/hemisphere.hpp`, `sample/triangle.hpp` -/

namespace Sample
variable {F : Type} [LinearOrderedField F]

/-- `Sample::HemiSphere` -/
def HemiSphere (M : FloatOps F) (prng : Mersenne) : Double3 F × Mersenne :=
  let r1 : F × Mersenne := prng.get_float
  let theta := M.two_pi * r1.1
  let r2 : F × Mersenne := r1.2.get_float
  let z := r2.1
  let radius := M.sqrt (1 - z)
  (⟨M.cos theta * radius, M.sin theta * radius, M.sqrt z⟩, r2.2)

/-- `Sample::Triangle`.  All its variables are `std::float_t`: the square root, the
difference `1.f - e2` and the two products are `float` operations. -/
def Triangle (M : FloatOps F) (prng : Mersenne) : (F × F) × Mersenne :=
  let r1 : F × Mersenne := prng.get_float
  let e1 := M.to_float (M.sqrt r1.1)
  let r2 : F × Mersenne := r1.2.get_float
  let e2 := r2.1
  ((M.to_float (e1 * e2), M.to_float (e1 * M.to_float (1 - e2))), r2.2)

end Sample

/-! ## `bxdf/*.hpp` -/

/-- `BxDF::TraceMode` -/
inductive TraceMode where
  | Importance
  | Radiance
deriving DecidableEq, Repr

/-- `BxDF::Event` -/
inductive Event where
  | None
  | Diffuse
  | Emission
  | Reflect
  | Transmit
deriving DecidableEq, Repr

/-- `UINT32_MAX` -/
def UINT32_MAX : Nat := 4294967295

/-- The classes derived from `BxDF::Polymorphic`. -/
inductive BxDF (F : Type) where
  | Lambert (albedo : Colour F)
  | Mirror (reflectance : Colour F)
  | Emission (id : Nat)

namespace BxDF
variable {F : Type} [LinearOrderedField F]

/-- `Lambert::sample()` after the call of `Sample::HemiSphere`: what it returns for the
local-space direction `sample_direction` the sampler gave. -/
def lambert_sample (M : FloatOps F) (albedo : Colour F) (idata : Intersection F)
    (sample_direction : Double3 F) : Colour F × Double3 F × Event × F × F :=
  let evaluate_direction := idata.orthogonal.to_world sample_direction
  (albedo.smul M.inv_pi, evaluate_direction, Event.Diffuse,
    sample_direction.z * M.inv_pi, sample_direction.z)

/-- `sample()` of the three variants: factor, direction, event, pdf_W, cos_theta. -/
def sample (M : FloatOps F) (m : BxDF F) (idata : Intersection F) (_trace_mode : TraceMode)
    (prng : Mersenne) : (Colour F × Double3 F × Event × F × F) × Mersenne :=
  match m with
  | Lambert albedo =>
    let cos_theta := idata.from_direction.dot idata.normal_shading
    if cos_theta < EPSILON_COS_THETA F then
      ((Colour.Black, Double3.Zero, Event.None, 0, 0), prng)
    else
      let hs := Sample.HemiSphere M prng
      (lambert_sample M albedo idata hs.1, hs.2)
  | Mirror reflectance =>
    let cos_theta := idata.from_direction.dot idata.normal_shading
    if cos_theta < EPSILON_COS_THETA F then
      ((Colour.Black, Double3.Zero, Event.None, 0, 0), prng)
    else
      let evaluate_direction :=
        idata.from_direction.neg.add (idata.normal_shading.mul (2 * cos_theta))
      ((reflectance, evaluate_direction, Event.Reflect, 1,
        evaluate_direction.dot idata.normal_shading), prng)
  | Emission _ =>
    let cos_theta := idata.from_direction.dot idata.normal_shading
    if cos_theta < EPSILON_COS_THETA F then
      ((Colour.Black, Double3.Zero, Event.None, 0, 0), prng)
    else
      ((Colour.Black, Double3.Zero, Event.Emission, 0, 0), prng)

/-- `evaluate()`: factor, pdf_W, cos_theta. -/
def evaluate (M : FloatOps F) (m : BxDF F) (evaluate_direction from_direction : Double3 F)
    (idata : Intersection F) (_trace_mode : TraceMode) : Colour F × F × F :=
  match m with
  | Lambert albedo =>
    let cos_theta := evaluate_direction.dot idata.orthogonal.normal
    let from_cos_theta := from_direction.dot idata.orthogonal.normal
    if cos_theta < EPSILON_COS_THETA F ∨ from_cos_theta < EPSILON_COS_THETA F then
      (Colour.Black, 0, 0)
    else
      (albedo.smul M.inv_pi, cos_theta * M.inv_pi, cos_theta)
  | Mirror _ => (Colour.Black, 0, 0)
  | Emission _ => (Colour.Black, 0, 0)

/-- `factor()` -/
def factor (M : FloatOps F) (m : BxDF F) (evaluate_direction from_direction : Double3 F)
    (idata : Intersection F) (_trace_mode : TraceMode) : Colour F :=
  match m with
  | Lambert albedo =>
    let cos_theta := evaluate_direction.dot idata.orthogonal.normal
    let from_cos_theta := from_direction.dot idata.orthogonal.normal
    if cos_theta < EPSILON_COS_THETA F ∨ from_cos_theta < EPSILON_COS_THETA F then
      Colour.Black
    else
      albedo.smul M.inv_pi
  | Mirror _ => Colour.Black
  | Emission _ => Colour.Black

/-- `pdf()` -/
def pdf (M : FloatOps F) (m : BxDF F) (evaluate_direction from_direction : Double3 F)
    (idata : Intersection F) : F :=
  match m with
  | Lambert _ =>
    let eval_cos_theta := evaluate_direction.dot idata.orthogonal.normal
    let ray_cos_theta := from_direction.dot idata.orthogonal.normal
    if eval_cos_theta < EPSILON_COS_THETA F ∨ ray_cos_theta < EPSILON_COS_THETA F then
      0
    else
      eval_cos_theta * M.inv_pi
  | Mirror _ => 0
  | Emission _ => 0

/-- `emitter_id()` -/
def emitter_id (m : BxDF F) : Nat :=
  match m with
  | Lambert _ => UINT32_MAX
  | Mirror _ => UINT32_MAX
  | Emission id => id

end BxDF

/-- `BxDF::ShadingCorrection` (`bxdf/shading_correction.hpp`). -/
def ShadingCorrection {F : Type} [LinearOrderedField F] (evaluate_direction from_direction : Double3 F)
    (idata : Intersection F) (trace_mode : TraceMode) : F :=
  if trace_mode = TraceMode.Importance then
    let numerator := |evaluate_direction.dot idata.normal_shading
      * from_direction.dot idata.normal_geometry|
    let denominator := |evaluate_direction.dot idata.normal_geometry
      * from_direction.dot idata.normal_shading|
    if denominator < EPSILON_BLACK F then 0 else numerator / denominator
  else 1

/-! ## Faults -/

/-- Ways in which a call can fail to produce a result. -/
inductive Fault where
  /-- A `std::overflow_error` thrown by a scene lookup. -/
  | overflow_error
  /-- A `std::invalid_argument` thrown by a constructor. -/
  | invalid_argument
  /-- A `std::vector` element access outside the vector. -/
  | out_of_range
  /-- A dereferenced `nullptr`. -/
  | null_pointer
  /-- A read of a node that was never assigned. -/
  | unassigned
  /-- The loop did not finish within the fuel given to the model. -/
  | out_of_fuel
deriving DecidableEq, Repr

/-- Element access `v[i]` of a `std::vector`. -/
def vec_at {α : Type} (v : List α) (i : Nat) : Except Fault α :=
  match v[i]? with
  | some a => Except.ok a
  | none => Except.error Fault.out_of_range

/-- Dereference of a pointer member. -/
def deref {α : Type} (p : Option α) : Except Fault α :=
  match p with
  | some a => Except.ok a
  | none => Except.error Fault.null_pointer

/-! ## `emitter/triangle.hpp` -/

namespace Emitter

/-- Class `Emitter::Triangle` (the only class derived from `Emitter::Polymorphic`). -/
structure Triangle (F : Type) where
  position : Double3 F
  edge1 : Double3 F
  edge2 : Double3 F
  normal : Double3 F
  local_space : Orthogonal F
  energy : Colour F
  pdf_area : F

namespace Triangle
variable {F : Type} [LinearOrderedField F]

/-- Constructor `Triangle( a, b, c, energy )`. -/
def ctor (M : FloatOps F) (a b c : Double3 F) (energy : Colour F) : Triangle F :=
  let edge1 := b.sub a
  let edge2 := c.sub a
  let cross_product := edge1.cross edge2
  let normal := cross_product.normalise M
  { position := a, edge1 := edge1, edge2 := edge2, normal := normal,
    local_space := Orthogonal.ctor M normal, energy := energy,
    pdf_area := 1 / ((1 / 2) * cross_product.magnitude M) }

/-- `emit()` after the two sampler calls: what it returns for the edge scalars `(u, v)`
and the local-space direction `local_sample` the samplers gave. -/
def emit_sample (M : FloatOps F) (e : Triangle F) (u v : F) (local_sample : Double3 F) :
    Colour F × Double3 F × Double3 F × Double3 F × F × F × F :=
  let point := (e.position.add (e.edge1.mul u)).add (e.edge2.mul v)
  let direction := e.local_space.to_world local_sample
  (e.energy, point, direction, e.normal, local_sample.z * M.inv_pi, e.pdf_area, local_sample.z)

/-- `emit()`: energy, point, direction, normal, pdf_W, pdf_A, cos_theta. -/
def emit (M : FloatOps F) (e : Triangle F) (prng : Mersenne) :
    (Colour F × Double3 F × Double3 F × Double3 F × F × F × F) × Mersenne :=
  let uv := Sample.Triangle M prng
  let hs := Sample.HemiSphere M uv.2
  (e.emit_sample M uv.1.1 uv.1.2 hs.1, hs.2)

/-- `radiance()` -/
def radiance (e : Triangle F) (_eval_point eval_direction : Double3 F) : Colour F :=
  let cos_theta := e.normal.dot eval_direction
  if cos_theta > 0 then e.energy else Colour.Black

/-- `pdf_Le()`: pdf_W, pdf_A, cos_theta. -/
def pdf_Le (M : FloatOps F) (e : Triangle F) (_eval_point eval_direction : Double3 F) :
    F × F × F :=
  let cos_theta := e.normal.dot eval_direction
  if cos_theta < EPSILON_COS_THETA F then (0, 0, 0)
  else (M.inv_2pi, e.pdf_area, cos_theta)

/-- `pdf_W()` -/
def pdf_W (M : FloatOps F) (e : Triangle F) (_eval_point eval_direction : Double3 F) : F :=
  let cos_theta := e.normal.dot eval_direction
  if cos_theta < EPSILON_COS_THETA F then 0 else cos_theta * M.inv_pi

/-- `pdf_A()` -/
def pdf_A (e : Triangle F) (_eval_point _eval_direction : Double3 F) : F := e.pdf_area

/-- `is_dirac()` -/
def is_dirac (_e : Triangle F) : Bool := false

end Triangle
end Emitter

/-! ## `geometry/triangle.hpp` -/

namespace Geometry

/-- Class `Geometry::Triangle` (the only class derived from `Geometry::Polymorphic`). -/
structure Triangle (F : Type) where
  position : Double3 F
  edge1 : Double3 F
  edge2 : Double3 F
  normal : Double3 F
  orthogonal : Orthogonal F
  material_id : Nat

namespace Triangle
variable {F : Type} [LinearOrderedField F]

/-- Constructor `Triangle( a, b, c, material_id )`. -/
def ctor (M : FloatOps F) (a b c : Double3 F) (material_id : Nat) : Triangle F :=
  let edge1 := b.sub a
  let edge2 := c.sub a
  let normal := (edge1.cross edge2).normalise M
  { position := a, edge1 := edge1, edge2 := edge2, normal := normal,
    orthogonal := Orthogonal.ctor M normal, material_id := material_id }

/-- `intersect()`: Moeller-Trumbore; a negative code when the ray misses. -/
def intersect (g : Triangle F) (ray : Section F) : F :=
  let p := ray.direction.cross g.edge2
  let d := g.edge1.dot p
  if |d| < 1 / 1000000 then -1
  else
    let inv_d := 1 / d
    let diff := ray.origin.sub g.position
    let u := diff.dot p * inv_d
    if u < 0 ∨ u > 1 then -2
    else
      let q := diff.cross g.edge1
      let v := ray.direction.dot q * inv_d
      if v < 0 ∨ u + v > 1 then -3
      else
        let t := q.dot g.edge2 * inv_d
        if t < 1 / 1000000 then -4 else t

/-- `post_intersect()` -/
def post_intersect (g : Triangle F) (ray : Section F) (distance : F) : Intersection F :=
  { point := ray.origin.add (ray.direction.mul distance),
    orthogonal := g.orthogonal,
    material_id := g.material_id,
    from_direction := ray.direction.neg,
    normal_shading := g.normal,
    normal_geometry := g.normal }

end Triangle
end Geometry

/-! ## `render/config.hpp` -/

/-- Struct `Render::Config`. -/
structure Config where
  image_width : Nat
  image_height : Nat
  max_samples : Nat
  max_path_length : Nat
deriving DecidableEq, Repr

namespace Config

/-- `Config() = default`: the member initialisers. -/
def default : Config := ⟨32, 32, 1, 5⟩

/-- Constructor `Config( image_width, image_height, max_samples, max_path_length )`. -/
def ctor (image_width image_height max_samples max_path_length : Nat) : Config :=
  { image_width := image_width, image_height := image_height,
    max_samples := max 1 max_samples,
    max_path_length := (max 3 max_path_length) % 256 }

end Config

/-! ## `render/scene.hpp` -/

/-- Class `Render::Scene`: the three lists; the counters `n_geometry`, `n_emitter`,
`n_bxdf` are the list sizes. -/
structure Scene (F : Type) where
  geometry : List (Geometry.Triangle F)
  emitter_list : List (Emitter.Triangle F)
  bxdf : List (BxDF F)

namespace Scene
variable {F : Type} [LinearOrderedField F]

/-- Member `n_geometry`. -/
def n_geometry (sc : Scene F) : Nat := sc.geometry.length
/-- Member `n_emitter`. -/
def n_emitter (sc : Scene F) : Nat := sc.emitter_list.length
/-- Member `n_bxdf`. -/
def n_bxdf (sc : Scene F) : Nat := sc.bxdf.length

/-- One iteration of the loop of `intersect()`: state `(distance, object_id, f_hit)`. -/
def intersect_step (ray : Section F) (st : F × Nat × Bool) (ig : Nat × Geometry.Triangle F) :
    F × Nat × Bool :=
  let d := ig.2.intersect ray
  if d > 0 ∧ d < st.1 then (d, ig.1, true) else st

/-- `intersect()`: closest hit. -/
def intersect (sc : Scene F) (ray : Section F) : Bool × F × Intersection F :=
  let st := sc.geometry.enum.foldl (intersect_step ray) ((10 : F) ^ 42, UINT32_MAX, false)
  if !st.2.2 then (false, 0, Intersection.default)
  else
    match sc.geometry[st.2.1]? with
    | some g => (true, st.1, g.post_intersect ray st.1)
    | none => (false, 0, Intersection.default)

/-- `occluded()`: any hit within `]0; distance[`. -/
def occluded (sc : Scene F) (ray : Section F) (distance : F) : Bool :=
  sc.geometry.any (fun g => decide (g.intersect ray > 0 ∧ g.intersect ray < distance))

/-- `material()` -/
def material (sc : Scene F) (id : Nat) : Except Fault (BxDF F) :=
  if id ≥ sc.n_bxdf then Except.error Fault.overflow_error else vec_at sc.bxdf id

/-- `emitter_select_probability()` -/
def emitter_select_probability (sc : Scene F) (id : Nat) : Except Fault F :=
  if id ≥ sc.n_emitter then Except.error Fault.overflow_error
  else Except.ok (1 / (sc.n_emitter : F))

/-- `emitter()` -/
def emitter (sc : Scene F) (id : Nat) : Except Fault (Emitter.Triangle F × F) :=
  if id ≥ sc.n_emitter then Except.error Fault.overflow_error
  else do
    let e ← vec_at sc.emitter_list id
    let p ← sc.emitter_select_probability id
    pure (e, p)

/-- `random_emitter()` -/
def random_emitter (sc : Scene F) (prng : Mersenne) : Nat × Mersenne :=
  (prng.get_integer.1 % sc.n_emitter, prng.get_integer.2)

/-- `is_valid()` -/
def is_valid (sc : Scene F) : Bool :=
  decide (sc.n_geometry > 0) && decide (sc.n_emitter > 0) && decide (sc.n_bxdf > 0)

end Scene

/-! ## `render/camera.hpp` -/

/-- Class `Render::Camera` (pinhole). -/
structure Camera (F : Type) where
  sensor_width : F
  sensor_height : F
  aspect_ratio : F
  image_width : Nat
  image_height : Nat
  position : Double3 F
  forward : Double3 F
  right : Double3 F
  up : Double3 F
  sensor_area : F
  focal_length : F
  lens_area : F
  scalar : F
  dx : F
  dy : F

namespace Camera
variable {F : Type} [LinearOrderedField F]

/-- Constructor `Camera( position, look_at, focal_length, config )`. -/
def ctor (M : FloatOps F) (position look_at : Double3 F) (focal_length : F) (config : Config) :
    Except Fault (Camera F) :=
  let sensor_width : F := 36
  let aspect_ratio : F := (config.image_width : F) / (config.image_height : F)
  let scalar := sensor_width / focal_length
  let sensor_area := scalar * scalar / aspect_ratio
  let delta := look_at.sub position
  if delta.magnitude M < EPSILON_RAY F then Except.error Fault.invalid_argument
  else
    let forward := delta.normalise M
    let world_up : Double3 F := if |forward.dot Double3.Z| < 99 / 100 then Double3.Z else Double3.X
    let right := (forward.cross world_up).normalise M
    let up := ((right.cross forward).normalise M).neg
    Except.ok
      { sensor_width := sensor_width, sensor_height := 24, aspect_ratio := aspect_ratio,
        image_width := config.image_width, image_height := config.image_height,
        position := position, forward := forward, right := right, up := up,
        sensor_area := sensor_area, focal_length := focal_length, lens_area := 1,
        scalar := scalar,
        dx := 1 / (((config.image_width : Int) - 1 : Int) : F),
        dy := 1 / (((config.image_height : Int) - 1 : Int) : F) }

/-- The direction `generate_ray()` builds for pixel `(x, y)` from the two numbers
`get_float()` returned. -/
def ray_direction (c : Camera F) (x y : Nat) (u1 u2 : F) : Double3 F :=
  let rnd_x := u1 - 1 / 2
  let rnd_y := u2 - 1 / 2
  (c.forward.add ((c.right.mul c.scalar).mul (((x : F) + rnd_x) * c.dx - 1 / 2))).add
    (((c.up.mul c.scalar).div c.aspect_ratio).mul (((y : F) + rnd_y) * c.dy - 1 / 2))

/-- `generate_ray()` -/
def generate_ray (M : FloatOps F) (c : Camera F) (x y : Nat) (prng : Mersenne) :
    Section F × Mersenne :=
  let r1 : F × Mersenne := prng.get_float
  let r2 : F × Mersenne := r1.2.get_float
  let dir := c.ray_direction x y r1.1 r2.1
  (Section.ctor c.position (dir.normalise M), r2.2)

/-- `We()`: importance emitted by the camera.  The sensor coordinates `x` and `y` are
`std::float_t` variables, compared with `.5f` after the conversion, and the value
returned is a `std::float_t`. -/
def We (M : FloatOps F) (c : Camera F) (_evaluate_point evaluate_direction : Double3 F) : F :=
  let cos_theta := c.forward.dot evaluate_direction
  if cos_theta ≤ 0 then 0
  else
    let x := M.to_float (evaluate_direction.dot c.right / (cos_theta * c.scalar))
    let y := M.to_float (evaluate_direction.dot c.up / (cos_theta * c.scalar / c.aspect_ratio))
    if |x| > 1 / 2 ∨ |y| > 1 / 2 then 0
    else
      M.to_float
        (1 / (c.sensor_area * c.lens_area * cos_theta * cos_theta * cos_theta * cos_theta))

/-- The test `std::abs( x ) > .5f` on the `std::float_t` variable `x = a / b` where the
divisor may be zero, as in `evaluate()` (which lets `cos_theta = 0` pass its first
test): the floating point quotient of a non-zero `a` by zero is an infinity, which
exceeds `.5f`, and `0 / 0` is a NaN, for which the comparison fails. -/
def quotient_exceeds_half (M : FloatOps F) (a b : F) : Bool :=
  if b = 0 then decide (a ≠ 0) else decide (|M.to_float (a / b)| > 1 / 2)

/-- `evaluate()`: pdf_W(sensor), pdf_A(lens), cos_theta, a tuple of `std::float_t`. -/
def evaluate (M : FloatOps F) (c : Camera F) (lens_point evaluate_direction : Double3 F) :
    F × F × F :=
  if (lens_point.sub c.position).magnitude M > EPSILON_RAY F then (0, 0, 0)
  else
    let cos_theta := c.forward.dot evaluate_direction
    if cos_theta < 0 then (0, 0, 0)
    else
      let x_off := quotient_exceeds_half M (evaluate_direction.dot c.right)
        (cos_theta * c.scalar)
      let y_off := quotient_exceeds_half M (evaluate_direction.dot c.up)
        (cos_theta * c.scalar / c.aspect_ratio)
      if x_off ∨ y_off then (0, 0, 0)
      else (M.to_float (1 / (c.sensor_area * cos_theta * cos_theta * cos_theta)),
        M.to_float (1 / c.lens_area), M.to_float cos_theta)

/-- `sample_lens()` -/
def sample_lens (c : Camera F) (_prng : Mersenne) : Double3 F := c.position

/-- `lens_normal()` -/
def lens_normal (M : FloatOps F) (c : Camera F) (lens_point : Double3 F) : Double3 F :=
  if (lens_point.sub c.position).magnitude M > EPSILON_RAY F then Double3.Zero else c.forward

/-- `sensor()`: pixel coordinates of a world point, and whether it is on the sensor.
The sensor coordinates `x` and `y` and the pixel coordinates computed from them are
`std::float_t`. -/
def sensor (M : FloatOps F) (c : Camera F) (world_point _lens_point : Double3 F) :
    F × F × Bool :=
  let evaluate_direction := (world_point.sub c.position).normalise M
  let cos_theta := evaluate_direction.dot c.forward
  if cos_theta ≤ 0 then (0, 0, false)
  else
    let x := M.to_float (evaluate_direction.dot c.right / (cos_theta * c.scalar))
    let y := M.to_float (evaluate_direction.dot c.up / (cos_theta * c.scalar / c.aspect_ratio))
    if |x| > 1 / 2 ∨ |y| > 1 / 2 then (0, 0, false)
    else (M.to_float (M.to_float (x + 1 / 2) * (c.image_width : F)),
      M.to_float (M.to_float (y + 1 / 2) * (c.image_height : F)), true)

/-- `is_dirac()` -/
def is_dirac (_c : Camera F) : Bool := true

end Camera

/-! ## `render/sensor.hpp` -/

/-- Class `Render::Sensor`: the two buffers are indexed by `px + py * image_width`. -/
structure Sensor (F : Type) where
  p_pixel : Nat → Colour F
  p_splash : Nat → Colour F
  image_width : Nat
  image_height : Nat
  scalar : F

namespace Sensor
variable {F : Type} [LinearOrderedField F]

/-- Constructor `Sensor( config )`. -/
def ctor (config : Config) : Except Fault (Sensor F) :=
  if config.max_samples < 1 then Except.error Fault.invalid_argument
  else Except.ok
    { p_pixel := fun _ => Colour.Black, p_splash := fun _ => Colour.Black,
      image_width := config.image_width, image_height := config.image_height,
      scalar := 1 / ((max 1 config.max_samples : Nat) : F) }

/-- `pixel()` -/
def pixel (s : Sensor F) (px py : Nat) (colour : Colour F) : Sensor F :=
  if px ≥ s.image_width ∨ py ≥ s.image_height then s
  else
    let index := px + py * s.image_width
    { s with p_pixel := Function.update s.p_pixel index colour }

/-- `splash()` -/
def splash (s : Sensor F) (px py : Nat) (colour : Colour F) : Sensor F :=
  if px ≥ s.image_width ∨ py ≥ s.image_height then s
  else
    let index := px + py * s.image_width
    { s with p_splash := Function.update s.p_splash index ((s.p_splash index).add colour) }

/-- `get_colour()` -/
def get_colour (s : Sensor F) (px py : Nat) : Colour F :=
  if px ≥ s.image_width ∨ py ≥ s.image_height then Colour.Black
  else ((s.p_pixel (px + py * s.image_width)).add (s.p_splash (px + py * s.image_width))).smul
    s.scalar

end Sensor

/-! ## `integrator/vertex.hpp` -/

/-- Struct `Integrator::Vertex`. -/
structure Vertex (F : Type) where
  idata : Intersection F
  throughput : Colour F
  pdf_forward : F
  pdf_reverse : F
  G : F
  f_dirac : Bool
  f_emitter : Bool
  f_camera : Bool
  ptr_light : Option (Emitter.Triangle F)
  emitter_id : Nat
  ptr_material : Option (BxDF F)

namespace Vertex
variable {F : Type} [LinearOrderedField F]

/-- Constructor `Vertex( idata, throughput, pdf_forward, pdf_reverse, f_dirac, f_emitter )`
(with `f_camera = false`); the other members take their initialisers. -/
def ctor (idata : Intersection F) (throughput : Colour F) (pdf_forward pdf_reverse : F)
    (f_dirac f_emitter : Bool) : Vertex F :=
  { idata := idata, throughput := throughput, pdf_forward := pdf_forward,
    pdf_reverse := pdf_reverse, G := 1, f_dirac := f_dirac, f_emitter := f_emitter,
    f_camera := false, ptr_light := none, emitter_id := UINT32_MAX, ptr_material := none }

/-- `get_normal()` -/
def get_normal (v : Vertex F) : Double3 F := v.idata.orthogonal.normal

/-- `get_point()` -/
def get_point (v : Vertex F) : Double3 F := v.idata.point

end Vertex

/-! ## `integrator/bdpt.hpp` -/

/-- Class `Integrator::BDPT`: the constant members (the generator `prng` and the sensor
reference are passed as state). -/
structure BDPT (F : Type) where
  max_path_length : Nat
  max_samples : Nat
  camera : Camera F
  scene : Scene F

/-- Struct `BDPT::Node`. -/
structure Node (F : Type) where
  p_forward : F
  p_reverse : F
  f_dirac : Bool

/-- The storage `std::vector<Node> node`: an entry is `none` until it is assigned. -/
abbrev NodeArray (F : Type) := Nat → Option (Node F)

/-- One division `p_k *= a / b` executed by a march loop of `Weight`: which loop, the
loop counter `i`, the divisor `b`, and whether the dirac test that follows the division
in that iteration fired (`continue`: the term is not added to `sum_path`). -/
structure Division (F : Type) where
  right_march : Bool
  i : Nat
  divisor : F
  skipped : Bool
deriving DecidableEq

/-- Local variables of the march loops of `Weight`, with the divisions executed so far. -/
structure MarchState (F : Type) where
  p_k : F
  sum_path : F
  divisions : List (Division F)

/-- Index arithmetic `a - b` of a subscript: a negative subscript is outside the vector. -/
def idx_sub (a b : Nat) : Except Fault Nat :=
  if b ≤ a then Except.ok (a - b) else Except.error Fault.out_of_range

/-- Read of `node[i]`. -/
def node_get {F : Type} (node : NodeArray F) (i : Nat) : Except Fault (Node F) :=
  match node i with
  | some n => Except.ok n
  | none => Except.error Fault.unassigned

namespace BDPT
variable {F : Type} [LinearOrderedField F]

/-- Constructor `BDPT( camera, sensor, scene, config )`. -/
def ctor (camera : Camera F) (scene : Scene F) (config : Config) : BDPT F :=
  { max_path_length := config.max_path_length % 256, max_samples := config.max_samples % 65536,
    camera := camera, scene := scene }

/-- `MIS()`: balance heuristic. -/
def MIS (value : F) : F := value

/-- `Gprime()` -/
def Gprime (M : FloatOps F) (vertex_a vertex_b : Vertex F) : F :=
  let delta := vertex_b.get_point.sub vertex_a.get_point
  let evaluate_direction := delta.normalise M
  max 0 (evaluate_direction.dot vertex_a.get_normal)
    * max 0 (-(evaluate_direction.dot vertex_b.get_normal))
    / delta.dot delta

/-- `Weight()`, "Evaluate connection vertices", general case, light side:
`(pdf_s_forward, pdf_s_reverse)`. -/
def connection_pdfs_s (M : FloatOps F) (s : Nat) (emission_path : List (Vertex F))
    (s_vertex t_vertex : Vertex F) : Except Fault (F × F) :=
  let s_vertex_point := s_vertex.get_point
  let t_vertex_point := t_vertex.get_point
  let evaluate_direction := (t_vertex_point.sub s_vertex_point).normalise M
  if s = 1 then do
    let vertex_normal := s_vertex.get_normal
    let light ← deref s_vertex.ptr_light
    let pdfW := light.pdf_W M s_vertex_point evaluate_direction
    let pdf_s_forward :=
      if light.is_dirac then pdfW else pdfW / vertex_normal.dot evaluate_direction
    pure (pdf_s_forward, s_vertex.pdf_reverse)
  else do
    let vertex_normal := s_vertex.get_normal
    let previous ← vec_at emission_path (← idx_sub s 2)
    let previous_direction := (previous.get_point.sub s_vertex_point).normalise M
    let material ← deref s_vertex.ptr_material
    pure (material.pdf M evaluate_direction previous_direction s_vertex.idata
            / vertex_normal.dot evaluate_direction,
          material.pdf M previous_direction evaluate_direction s_vertex.idata
            / vertex_normal.dot previous_direction)

/-- `Weight()`, "Evaluate connection vertices", general case, camera side:
`(pdf_t_forward, pdf_t_reverse)`. -/
def connection_pdfs_t (M : FloatOps F) (b : BDPT F) (t : Nat) (camera_path : List (Vertex F))
    (s_vertex t_vertex : Vertex F) : Except Fault (F × F) :=
  let s_vertex_point := s_vertex.get_point
  let t_vertex_point := t_vertex.get_point
  let evaluate_direction := (s_vertex_point.sub t_vertex_point).normalise M
  if t = 1 then do
    let vertex_normal := t_vertex.get_normal
    let ev := b.camera.evaluate M t_vertex_point evaluate_direction
    pure (ev.1 / vertex_normal.dot evaluate_direction, t_vertex.pdf_reverse)
  else do
    let vertex_normal := t_vertex.get_normal
    let previous ← vec_at camera_path (← idx_sub t 2)
    let previous_direction := (previous.get_point.sub t_vertex_point).normalise M
    let material ← deref t_vertex.ptr_material
    pure (material.pdf M evaluate_direction previous_direction t_vertex.idata
            / vertex_normal.dot evaluate_direction,
          material.pdf M previous_direction evaluate_direction t_vertex.idata
            / vertex_normal.dot previous_direction)

/-- `Weight()`, first part ("Evaluate connection vertices"): the four densities
`(pdf_s_forward, pdf_s_reverse, pdf_t_forward, pdf_t_reverse)` before the NaN/negative
guard. -/
def connection_pdfs (M : FloatOps F) (b : BDPT F) (s t : Nat)
    (emission_path camera_path : List (Vertex F)) : Except Fault (F × F × F × F) :=
  if s = 0 then do
    let t_vertex ← vec_at camera_path (← idx_sub t 1)
    if t_vertex.f_emitter then do
      let previous ← vec_at camera_path (← idx_sub t 2)
      let evaluate_direction := (previous.get_point.sub t_vertex.get_point).normalise M
      let light ← deref t_vertex.ptr_light
      let le := light.pdf_Le M t_vertex.get_point evaluate_direction
      let material ← deref t_vertex.ptr_material
      let select ← b.scene.emitter_select_probability material.emitter_id
      pure (0, 0, le.2.1 * select, le.1 / le.2.2)
    else pure (0, 0, 0, 0)
  else if t = 0 then do
    let s_vertex ← vec_at emission_path (← idx_sub s 1)
    let point := s_vertex.get_point
    let previous ← vec_at emission_path (← idx_sub s 2)
    let evaluate_direction := (previous.get_point.sub point).normalise M
    let ev := b.camera.evaluate M point evaluate_direction
    pure (ev.2.1, ev.1 / ev.2.2, 0, 0)
  else do
    let s_vertex ← vec_at emission_path (← idx_sub s 1)
    let t_vertex ← vec_at camera_path (← idx_sub t 1)
    let ps ← connection_pdfs_s M s emission_path s_vertex t_vertex
    let pt ← connection_pdfs_t M b t camera_path s_vertex t_vertex
    pure (ps.1, ps.2, pt.1, pt.2)

/-- The guard `if ( std::isnan( pdf ) || ( pdf < 0. ) ) pdf = 0.` (no NaN in the model). -/
def catch_negative (pdf : F) : F := if pdf < 0 then 0 else pdf

/-- Body of the loop `for ( i = 0; i < s - 1; ++i )` that fills the light side. -/
def fill_emission_step (emission_path : List (Vertex F)) (node : NodeArray F) (i : Nat) :
    Except Fault (NodeArray F) := do
  let v ← vec_at emission_path i
  let v1 ← vec_at emission_path (i + 1)
  let p_reverse ←
    (if i = 0 then (vec_at emission_path 0).map (fun v0 => v0.pdf_reverse)
     else pure (v.pdf_reverse * v.G))
  pure (Function.update node i (some ⟨v.pdf_forward * v1.G, p_reverse, v.f_dirac⟩))

/-- Body of the loop `for ( i = 0; i < t - 1; ++i )` that fills the camera side. -/
def fill_camera_step (camera_path : List (Vertex F)) (k : Nat) (node : NodeArray F) (i : Nat) :
    Except Fault (NodeArray F) := do
  let v ← vec_at camera_path i
  let v1 ← vec_at camera_path (i + 1)
  let p_forward ←
    (if i = 0 then (vec_at camera_path 0).map (fun v0 => v0.pdf_reverse)
     else pure (v.pdf_reverse * v.G))
  let j ← idx_sub k i
  pure (Function.update node j (some ⟨p_forward, v.pdf_forward * v1.G, v.f_dirac⟩))

/-- `Weight()`, "Fill in nodes": the assignment of `node[s - 1]` (`if ( s > 0 )`). -/
def fill_emission_last (M : FloatOps F) (s t k : Nat)
    (emission_path camera_path : List (Vertex F)) (pdf_s_forward pdf_s_reverse : F)
    (node : NodeArray F) : Except Fault (NodeArray F) :=
  if s > 0 then do
    let s_vertex ← vec_at emission_path (s - 1)
    let p_forward ←
      (if s - 1 = k then pure pdf_s_forward
       else (do
         let t_vertex ← vec_at camera_path (← idx_sub t 1)
         pure (pdf_s_forward * Gprime M s_vertex t_vertex)))
    let p_reverse := if s = 1 then pdf_s_reverse else pdf_s_reverse * s_vertex.G
    pure (Function.update node (s - 1) (some ⟨p_forward, p_reverse, s_vertex.f_dirac⟩))
  else pure node

/-- `Weight()`, "Fill in nodes": the assignment of `node[k - ( t - 1 )]` (`if ( t > 0 )`). -/
def fill_camera_last (M : FloatOps F) (s t k : Nat)
    (emission_path camera_path : List (Vertex F)) (pdf_t_forward pdf_t_reverse : F)
    (node : NodeArray F) : Except Fault (NodeArray F) :=
  if t > 0 then do
    let t_vertex ← vec_at camera_path (t - 1)
    let p_forward := if t = 1 then pdf_t_reverse else pdf_t_reverse * t_vertex.G
    let p_reverse ←
      (if t - 1 = k then pure pdf_t_forward
       else (do
         let s_vertex ← vec_at emission_path (← idx_sub s 1)
         pure (pdf_t_forward * Gprime M s_vertex t_vertex)))
    let j ← idx_sub k (t - 1)
    pure (Function.update node j (some ⟨p_forward, p_reverse, t_vertex.f_dirac⟩))
  else pure node

/-- `Weight()`, second part ("Fill in nodes"). -/
def fill_nodes (M : FloatOps F) (s t k : Nat) (emission_path camera_path : List (Vertex F))
    (pdf_s_forward pdf_s_reverse pdf_t_forward pdf_t_reverse : F) :
    Except Fault (NodeArray F) := do
  let node : NodeArray F := fun _ => none
  let node ← (List.range (s - 1)).foldlM (fill_emission_step emission_path) node
  let node ← fill_emission_last M s t k emission_path camera_path pdf_s_forward pdf_s_reverse
    node
  let node ← (List.range (t - 1)).foldlM (fill_camera_step camera_path k) node
  fill_camera_last M s t k emission_path camera_path pdf_t_forward pdf_t_reverse node

/-- The first march loop of `Weight()` (`for ( i = s; i <= k; ++i )`), run over the
remaining values of `i`. -/
def right_march (b : BDPT F) (node : NodeArray F) (k : Nat) :
    List Nat → MarchState F → Except Fault (MarchState F)
  | [], st => pure st
  | i :: rest, st =>
    if i = 0 then do
      let n0 ← node_get node 0
      let n1 ← node_get node 1
      let st1 : MarchState F :=
        { st with p_k := st.p_k * (n0.p_reverse / n1.p_reverse),
                  divisions := ⟨true, i, n1.p_reverse, n1.f_dirac⟩ :: st.divisions }
      if n1.f_dirac then right_march b node k rest st1
      else right_march b node k rest { st1 with sum_path := st1.sum_path + MIS st1.p_k }
    else if i = k then
      if b.camera.is_dirac then pure st
      else do
        let nk1 ← node_get node (← idx_sub k 1)
        let nk ← node_get node k
        let st1 : MarchState F :=
          { st with p_k := st.p_k * (nk1.p_forward / nk.p_forward),
                    divisions := ⟨true, i, nk.p_forward, false⟩ :: st.divisions }
        right_march b node k rest { st1 with sum_path := st1.sum_path + MIS st1.p_k }
    else do
      let na ← node_get node (← idx_sub i 1)
      let nb ← node_get node (i + 1)
      let ni ← node_get node i
      let st1 : MarchState F :=
        { st with p_k := st.p_k * (na.p_forward / nb.p_reverse),
                  divisions := ⟨true, i, nb.p_reverse, ni.f_dirac || nb.f_dirac⟩ :: st.divisions }
      if ni.f_dirac || nb.f_dirac then right_march b node k rest st1
      else right_march b node k rest { st1 with sum_path := st1.sum_path + MIS st1.p_k }

/-- The second march loop of `Weight()` (`for ( i = s; i > 0; --i )`), run over the
remaining values of `i`. -/
def left_march (emission_path : List (Vertex F)) (node : NodeArray F) (k : Nat) :
    List Nat → MarchState F → Except Fault (MarchState F)
  | [], st => pure st
  | i :: rest, st =>
    if i = k + 1 then do
      let nk ← node_get node k
      let nk1 ← node_get node (← idx_sub k 1)
      let st1 : MarchState F :=
        { st with p_k := st.p_k * (nk.p_forward / nk1.p_forward),
                  divisions := ⟨false, i, nk1.p_forward, nk1.f_dirac⟩ :: st.divisions }
      if nk1.f_dirac then left_march emission_path node k rest st1
      else left_march emission_path node k rest { st1 with sum_path := st1.sum_path + MIS st1.p_k }
    else if i = 1 then do
      let y0 ← vec_at emission_path 0
      let light ← deref y0.ptr_light
      if light.is_dirac then pure st
      else do
        let n1 ← node_get node 1
        let n0 ← node_get node 0
        let st1 : MarchState F :=
          { st with p_k := st.p_k * (n1.p_reverse / n0.p_reverse),
                    divisions := ⟨false, i, n0.p_reverse, false⟩ :: st.divisions }
        left_march emission_path node k rest { st1 with sum_path := st1.sum_path + MIS st1.p_k }
    else do
      let ni ← node_get node i
      let nb ← node_get node (← idx_sub i 2)
      let na ← node_get node (← idx_sub i 1)
      let st1 : MarchState F :=
        { st with p_k := st.p_k * (ni.p_reverse / nb.p_forward),
                  divisions := ⟨false, i, nb.p_forward, na.f_dirac || nb.f_dirac⟩ :: st.divisions }
      if na.f_dirac || nb.f_dirac then left_march emission_path node k rest st1
      else left_march emission_path node k rest { st1 with sum_path := st1.sum_path + MIS st1.p_k }

/-- `Weight()` up to the final division: the state after both march loops. -/
def Weight_run (M : FloatOps F) (b : BDPT F) (s t : Nat)
    (emission_path camera_path : List (Vertex F)) : Except Fault (MarchState F) := do
  let k := (s + t - 1) % 256
  let pdfs ← connection_pdfs M b s t emission_path camera_path
  let pdf_s_forward := catch_negative pdfs.1
  let pdf_s_reverse := catch_negative pdfs.2.1
  let pdf_t_forward := catch_negative pdfs.2.2.1
  let pdf_t_reverse := catch_negative pdfs.2.2.2
  let node ← fill_nodes M s t k emission_path camera_path
    pdf_s_forward pdf_s_reverse pdf_t_forward pdf_t_reverse
  let st ← right_march b node k (List.range' s (k + 1 - s)) ⟨1, 1, []⟩
  left_march emission_path node k (List.range' 1 s).reverse { st with p_k := 1 }

/-- `Weight()`: the MIS weight `1 / sum_path`. -/
def Weight (M : FloatOps F) (b : BDPT F) (s t : Nat)
    (emission_path camera_path : List (Vertex F)) : Except Fault F := do
  let st ← Weight_run M b s t emission_path camera_path
  pure (1 / st.sum_path)

end BDPT

namespace BDPT
variable {F : Type} [LinearOrderedField F]

/-- `vertices.back()` -/
def back (vertices : List (Vertex F)) : Except Fault (Vertex F) :=
  match vertices.getLast? with
  | some v => Except.ok v
  | none => Except.error Fault.out_of_range

/-- Outcome of one iteration of a trace loop: the walk returns `vertices`, or goes on
with the updated local variables. -/
inductive Step (F : Type) where
  | done (vertices : List (Vertex F))
  | next (vertices : List (Vertex F)) (ray : Section F) (depth : Nat) (throughput : Colour F)

/-- `trace_emission_path()` up to the trace loop, for the values `emit()` returned:
the path `[y0]`, the first ray and the throughput. -/
def emission_start (M : FloatOps F) (emitter_id : Nat) (p_emitter : Emitter.Triangle F)
    (emitter_select_probability : F)
    (e : Colour F × Double3 F × Double3 F × Double3 F × F × F × F) :
    List (Vertex F) × Section F × Colour F :=
  let emitter_factor := e.1
  let emitter_point := e.2.1
  let emitter_direction := e.2.2.1
  let emitter_normal := e.2.2.2.1
  let emitter_pdf_W := e.2.2.2.2.1
  let emitter_pdf_A := e.2.2.2.2.2.1
  let emitter_cos_theta := e.2.2.2.2.2.2
  let throughput := (emitter_factor.smul emitter_cos_theta).sdiv
    (emitter_select_probability * emitter_pdf_W * emitter_pdf_A)
  let idata : Intersection F := { Intersection.default with point := emitter_point }
  let idata : Intersection F :=
    if !p_emitter.is_dirac then { idata with orthogonal := Orthogonal.ctor M emitter_normal }
    else idata
  let pdf_reverse := emitter_select_probability * emitter_pdf_A
  let pdf_forward := if p_emitter.is_dirac then emitter_pdf_W else emitter_pdf_W / emitter_cos_theta
  let y0 := Vertex.ctor idata throughput pdf_forward pdf_reverse p_emitter.is_dirac true
  let y0 := { y0 with ptr_light := some p_emitter, emitter_id := emitter_id }
  ([y0], Section.ctor_eps emitter_point emitter_direction (EPSILON_RAY F), throughput)

/-- Body of the trace loop of `trace_emission_path()` after the hit `idata`, the material
`p_material` and the sample `smp` it returned (switch on the event, depth test, next ray).
The factor, `pdf_W` and `cos_theta` of the sample, the values `evaluate()` and
`ShadingCorrection()` return, `pdf_forward`, `pdf_reverse` and the channels of the
throughput are `std::float_t`: each of them is converted where it is bound, and every
quotient and product of them is a `float` operation. -/
def emission_bounce (M : FloatOps F) (b : BDPT F) (p_emitter : Emitter.Triangle F)
    (vertices : List (Vertex F)) (ray : Section F) (depth : Nat) (throughput : Colour F)
    (idata : Intersection F) (p_material : BxDF F)
    (smp : Colour F × Double3 F × Event × F × F) : Except Fault (Step F) :=
  let bxdf_colour := smp.1.to_float M
  let bxdf_direction := smp.2.1
  let bxdf_event := smp.2.2.1
  let bxdf_pdf_W := M.to_float smp.2.2.2.1
  let bxdf_cos_theta := M.to_float smp.2.2.2.2
  let pdf_forward := M.to_float (bxdf_pdf_W / bxdf_cos_theta)
  match bxdf_event with
  | Event.Diffuse => do
    let pdf_reverse :=
      if depth = 1 ∧ p_emitter.is_dirac = true then 0
      else
        let ev := p_material.evaluate M ray.direction.neg bxdf_direction idata
          TraceMode.Importance
        M.to_float (M.to_float ev.2.1 / M.to_float ev.2.2)
    let vertex := Vertex.ctor idata throughput pdf_forward pdf_reverse false false
    let vertex := { vertex with ptr_material := some p_material }
    let vertex := { vertex with G := Gprime M vertex (← back vertices) }
    let vertices := vertices ++ [vertex]
    let throughput := (throughput.mul ((((bxdf_colour.sdiv pdf_forward).to_float M).smul
      (M.to_float (ShadingCorrection bxdf_direction idata.from_direction idata
        TraceMode.Importance))).to_float M)).to_float M
    let depth := (depth + 1) % 256
    if depth > b.max_path_length then pure (Step.done vertices)
    else pure (Step.next vertices
      (Section.ctor_eps idata.point bxdf_direction (EPSILON_RAY F)) depth throughput)
  | Event.Reflect => do
    let pdf_reverse :=
      if depth = 1 ∧ p_emitter.is_dirac = true then 0 else pdf_forward
    let vertex := Vertex.ctor idata throughput pdf_forward pdf_reverse true false
    let vertex := { vertex with ptr_material := some p_material }
    let vertex := { vertex with G := Gprime M vertex (← back vertices) }
    let vertices := vertices ++ [vertex]
    let throughput := (throughput.mul ((bxdf_colour.smul
      (M.to_float (ShadingCorrection bxdf_direction idata.from_direction idata
        TraceMode.Importance))).to_float M)).to_float M
    let depth := (depth + 1) % 256
    if depth > b.max_path_length then pure (Step.done vertices)
    else pure (Step.next vertices
      (Section.ctor_eps idata.point bxdf_direction (EPSILON_RAY F)) depth throughput)
  | _ => pure (Step.done vertices)

/-- The trace loop (`while ( 1 )`) of `trace_emission_path()`; `fuel` bounds the number
of iterations the model follows. -/
def emission_loop (M : FloatOps F) (b : BDPT F) (p_emitter : Emitter.Triangle F) :
    Nat → List (Vertex F) → Section F → Nat → Colour F → Mersenne →
    Except Fault (List (Vertex F) × Mersenne)
  | 0, _, _, _, _, _ => Except.error Fault.out_of_fuel
  | fuel + 1, vertices, ray, depth, throughput, prng =>
    let hit := b.scene.intersect ray
    if !hit.1 then pure (vertices, prng)
    else do
      let idata := hit.2.2
      let p_material ← b.scene.material idata.material_id
      let smp := p_material.sample M idata TraceMode.Importance prng
      match ← emission_bounce M b p_emitter vertices ray depth throughput idata p_material
          smp.1 with
      | Step.done vertices => pure (vertices, smp.2)
      | Step.next vertices ray depth throughput =>
        emission_loop M b p_emitter fuel vertices ray depth throughput smp.2

/-- `trace_emission_path()` -/
def trace_emission_path (M : FloatOps F) (fuel : Nat) (b : BDPT F) (prng : Mersenne) :
    Except Fault (List (Vertex F) × Mersenne) := do
  let re := b.scene.random_emitter prng
  let emitter_id := re.1
  let em ← b.scene.emitter emitter_id
  let e := em.1.emit M re.2
  let st := emission_start M emitter_id em.1 em.2 e.1
  emission_loop M b em.1 fuel st.1 st.2.1 1 st.2.2 e.2

/-- `trace_camera_path()` up to the trace loop, for the primary ray `generate_ray()`
returned: the path `[z0]` and the throughput.  `pdf_forward` is a `std::float_t` and the
two operators of `Colour::White * We / pdf_forward` compute in `float`. -/
def camera_start (M : FloatOps F) (b : BDPT F) (ray : Section F) : List (Vertex F) × Colour F :=
  let ev := b.camera.evaluate M ray.origin ray.direction
  let pdf_W := ev.1
  let pdf_A := ev.2.1
  let cos_theta := ev.2.2
  let pdf_forward := M.to_float (pdf_W / cos_theta)
  let pdf_reverse := pdf_A
  let idata : Intersection F :=
    { Intersection.default with
      point := ray.origin,
      orthogonal := Orthogonal.ctor M (b.camera.lens_normal M ray.origin) }
  let z0 := Vertex.ctor idata Colour.White pdf_forward pdf_reverse b.camera.is_dirac false
  let throughput := (((Colour.White.smul (b.camera.We M ray.origin ray.direction)).to_float
    M).sdiv pdf_forward).to_float M
  ([z0], throughput)

/-- Body of the trace loop of `trace_camera_path()` after the hit `idata`, the material
`p_material` and the sample `smp` it returned; the `std::float_t` values are converted
as in `emission_bounce`. -/
def camera_bounce (M : FloatOps F) (b : BDPT F)
    (vertices : List (Vertex F)) (ray : Section F) (depth : Nat) (throughput : Colour F)
    (idata : Intersection F) (p_material : BxDF F)
    (smp : Colour F × Double3 F × Event × F × F) : Except Fault (Step F) :=
  let bxdf_colour := smp.1.to_float M
  let bxdf_direction := smp.2.1
  let bxdf_event := smp.2.2.1
  let bxdf_pdf_W := M.to_float smp.2.2.2.1
  let bxdf_cos_theta := M.to_float smp.2.2.2.2
  let pdf_forward := M.to_float (bxdf_pdf_W / bxdf_cos_theta)
  match bxdf_event with
  | Event.Emission => do
    let em ← b.scene.emitter p_material.emitter_id
    let vertex := Vertex.ctor idata throughput 1 1 false true
    let vertex := { vertex with ptr_material := some p_material, ptr_light := some em.1 }
    let vertex := { vertex with G := Gprime M vertex (← back vertices) }
    pure (Step.done (vertices ++ [vertex]))
  | Event.Diffuse => do
    let pdf_reverse :=
      if depth = 1 ∧ b.camera.is_dirac = true then 0
      else
        let ev := p_material.evaluate M ray.direction.neg bxdf_direction idata
          TraceMode.Radiance
        M.to_float (M.to_float ev.2.1 / M.to_float ev.2.2)
    let vertex := Vertex.ctor idata throughput pdf_forward pdf_reverse false false
    let vertex := { vertex with ptr_material := some p_material }
    let vertex := { vertex with G := Gprime M vertex (← back vertices) }
    let vertices := vertices ++ [vertex]
    let throughput := (throughput.mul ((bxdf_colour.sdiv pdf_forward).to_float M)).to_float M
    let depth := (depth + 1) % 256
    if depth > b.max_path_length then pure (Step.done vertices)
    else pure (Step.next vertices
      (Section.ctor_eps idata.point bxdf_direction (EPSILON_RAY F)) depth throughput)
  | Event.Reflect => do
    let pdf_reverse :=
      if depth = 1 ∧ b.camera.is_dirac = true then 0 else pdf_forward
    let vertex := Vertex.ctor idata throughput pdf_forward pdf_reverse true false
    let vertex := { vertex with ptr_material := some p_material }
    let vertex := { vertex with G := Gprime M vertex (← back vertices) }
    let vertices := vertices ++ [vertex]
    let throughput := (throughput.mul bxdf_colour).to_float M
    let depth := (depth + 1) % 256
    if depth > b.max_path_length then pure (Step.done vertices)
    else pure (Step.next vertices
      (Section.ctor_eps idata.point bxdf_direction (EPSILON_RAY F)) depth throughput)
  | _ => pure (Step.done vertices)

/-- The trace loop (`while ( 1 )`) of `trace_camera_path()`. -/
def camera_loop (M : FloatOps F) (b : BDPT F) :
    Nat → List (Vertex F) → Section F → Nat → Colour F → Mersenne →
    Except Fault (List (Vertex F) × Mersenne)
  | 0, _, _, _, _, _ => Except.error Fault.out_of_fuel
  | fuel + 1, vertices, ray, depth, throughput, prng =>
    let hit := b.scene.intersect ray
    if !hit.1 then pure (vertices, prng)
    else do
      let idata := hit.2.2
      let p_material ← b.scene.material idata.material_id
      let smp := p_material.sample M idata TraceMode.Radiance prng
      match ← camera_bounce M b vertices ray depth throughput idata p_material smp.1 with
      | Step.done vertices => pure (vertices, smp.2)
      | Step.next vertices ray depth throughput =>
        camera_loop M b fuel vertices ray depth throughput smp.2

/-- `trace_camera_path()` -/
def trace_camera_path (M : FloatOps F) (fuel : Nat) (b : BDPT F) (x y : Nat) (prng : Mersenne) :
    Except Fault (List (Vertex F) × Mersenne) :=
  let gr := b.camera.generate_ray M x y prng
  let st := camera_start M b gr.1
  camera_loop M b fuel st.1 gr.1 1 st.2 gr.2

/-- The three types of connection `process()` evaluates (Type 2 in its two directions). -/
inductive ConnectionType where
  | Type1
  | Type2a
  | Type2b
  | Type3
deriving DecidableEq, Repr

/-- One term `process()` adds: the vertices it joins (subscripts into `emission_path`
and `camera_path`), the arguments it passes to `Weight`, its value, and the pixel it is
splashed to (`none`: added to `accumulate`). -/
structure Contribution (F : Type) where
  kind : ConnectionType
  light_vertex : Option Nat
  camera_vertex : Option Nat
  weight_s : Nat
  weight_t : Nat
  value : Colour F
  splash : Option (Nat × Nat)

end BDPT

namespace BDPT
variable {F : Type} [LinearOrderedField F] [FloorRing F]

/-- Conversion of a non-negative `float` to `std::uint16_t` (at the call of
`sensor.splash`). -/
def to_uint16 (v : F) : Nat := ⌊v⌋₊ % 65536

/-- Runs a loop body over the values of its counter and concatenates what each
iteration contributes. -/
def collect {α : Type} (f : Nat → Except Fault (List α)) : List Nat → Except Fault (List α)
  | [] => pure []
  | i :: rest => do
    let a ← f i
    let r ← collect f rest
    pure (a ++ r)

/-- `process()`, "Type 1) Direct hit on an emitter". -/
def connect_type1 (M : FloatOps F) (b : BDPT F) (emission_path camera_path : List (Vertex F))
    (n_camera_path : Nat) (f_hit_emitter : Bool) : Except Fault (List (Contribution F)) :=
  if n_camera_path > 0 ∧ f_hit_emitter = true then do
    let t := (n_camera_path + 1) % 256
    let vertex ← vec_at camera_path (← idx_sub t 1)
    if !vertex.f_dirac then do
      let previous_vertex ← vec_at camera_path (← idx_sub t 2)
      let evaluate_direction :=
        (previous_vertex.get_point.sub vertex.get_point).normalise M
      let evaluate_point := vertex.get_point
      let light ← deref vertex.ptr_light
      let w ← Weight M b 0 t emission_path camera_path
      pure [{ kind := ConnectionType.Type1, light_vertex := none, camera_vertex := some (t - 1),
              weight_s := 0, weight_t := t,
              value := (vertex.throughput.mul
                (light.radiance evaluate_point evaluate_direction)).smul w,
              splash := none }]
    else pure []
  else pure []

/-- `process()`, "Type 2) Connecting camera path to an emitter": body of the loop over `t`. -/
def connect_type2a_step (M : FloatOps F) (b : BDPT F)
    (emission_path camera_path : List (Vertex F)) (vertex_emitter : Vertex F)
    (emitter_select_prb : F) (t : Nat) : Except Fault (List (Contribution F)) := do
  let emitter_point := vertex_emitter.get_point
  let vertex ← vec_at camera_path t
  if vertex.f_dirac then pure []
  else do
    let surface_point := vertex.get_point
    let delta := emitter_point.sub surface_point
    let evaluate_direction := delta.normalise M
    let evaluate_distance := delta.magnitude M
    let ray := Section.ctor_eps surface_point evaluate_direction (EPSILON_RAY F)
    if !b.scene.occluded ray (evaluate_distance - 2 * EPSILON_RAY F) then do
      let previous ← vec_at camera_path (← idx_sub t 1)
      let previous_direction := (previous.get_point.sub surface_point).normalise M
      let light ← deref vertex_emitter.ptr_light
      let material ← deref vertex.ptr_material
      let w ← Weight M b 1 t emission_path camera_path
      pure [{ kind := ConnectionType.Type2a, light_vertex := some 0, camera_vertex := some t,
              weight_s := 1, weight_t := t,
              value := ((((vertex.throughput.mul
                  (light.radiance emitter_point evaluate_direction.neg)).mul
                  (material.factor M evaluate_direction previous_direction vertex.idata
                    TraceMode.Radiance)).smul
                  (Gprime M vertex vertex_emitter)).smul w).sdiv
                  (light.pdf_A emitter_point evaluate_direction.neg * emitter_select_prb),
              splash := none }]
    else pure []

/-- `process()`, "Type 2) Connecting camera path to an emitter". -/
def connect_type2a (M : FloatOps F) (b : BDPT F) (emission_path camera_path : List (Vertex F))
    (n_camera_path : Nat) : Except Fault (List (Contribution F)) :=
  if n_camera_path > 0 then do
    let vertex_emitter ← vec_at emission_path 0
    let emitter_select_prb ← b.scene.emitter_select_probability vertex_emitter.emitter_id
    collect (connect_type2a_step M b emission_path camera_path vertex_emitter emitter_select_prb)
      (List.range' 1 (n_camera_path - 1))
  else pure []

/-- `process()`, "Type 2) Connecting emitter path to a camera lens": body of the loop
over `s`. -/
def connect_type2b_step (M : FloatOps F) (b : BDPT F)
    (emission_path camera_path : List (Vertex F)) (vertex_camera : Vertex F)
    (lens_point : Double3 F) (s : Nat) : Except Fault (List (Contribution F)) := do
  let vertex ← vec_at emission_path s
  if vertex.f_dirac then pure []
  else do
    let sn := b.camera.sensor M vertex.get_point lens_point
    if sn.2.2 then do
      let delta := vertex.get_point.sub lens_point
      let evaluate_direction := delta.normalise M
      let evaluate_distance := delta.magnitude M
      let ray := Section.ctor_eps lens_point evaluate_direction (EPSILON_RAY F)
      if !b.scene.occluded ray (evaluate_distance - 2 * EPSILON_RAY F) then do
        let previous ← vec_at emission_path (← idx_sub s 1)
        let previous_direction := (previous.get_point.sub vertex.get_point).normalise M
        let material ← deref vertex.ptr_material
        let w ← Weight M b s 1 emission_path camera_path
        pure [{ kind := ConnectionType.Type2b, light_vertex := some s, camera_vertex := some 0,
                weight_s := s, weight_t := 1,
                value := ((((vertex.throughput.smul
                    (ShadingCorrection evaluate_direction vertex.idata.from_direction
                      vertex.idata TraceMode.Importance)).mul
                    (material.factor M evaluate_direction.neg previous_direction vertex.idata
                      TraceMode.Importance)).smul
                    (Gprime M vertex vertex_camera)).smul w).sdiv
                    (b.camera.We M lens_point evaluate_direction),
                splash := some (to_uint16 sn.1, to_uint16 sn.2.1) }]
      else pure []
    else pure []

/-- `process()`, "Type 2) Connecting emitter path to a camera lens". -/
def connect_type2b (M : FloatOps F) (b : BDPT F) (emission_path camera_path : List (Vertex F))
    (n_emission_path : Nat) (prng : Mersenne) : Except Fault (List (Contribution F)) :=
  if n_emission_path > 0 then do
    let vertex_camera ← vec_at camera_path 0
    let lens_point := b.camera.sample_lens prng
    collect (connect_type2b_step M b emission_path camera_path vertex_camera lens_point)
      (List.range' 1 (n_emission_path - 1))
  else pure []

/-- `process()`, Type 3: body of the inner loop over `t`. -/
def connect_type3_step (M : FloatOps F) (b : BDPT F)
    (emission_path camera_path : List (Vertex F)) (s : Nat) (s_vertex : Vertex F) (t : Nat) :
    Except Fault (List (Contribution F)) := do
  let t_vertex ← vec_at camera_path (← idx_sub t 1)
  if t_vertex.f_dirac then pure []
  else do
    let delta := t_vertex.get_point.sub s_vertex.get_point
    let evaluate_direction := delta.normalise M
    let evaluate_distance := delta.magnitude M
    let f_occluded := b.scene.occluded
      (Section.ctor_eps s_vertex.get_point evaluate_direction (EPSILON_RAY F))
      (evaluate_distance - 2 * EPSILON_RAY F)
    if !f_occluded then do
      let previous_s ← vec_at emission_path (← idx_sub s 2)
      let previous_t ← vec_at camera_path (← idx_sub t 2)
      let previous_direction_emission :=
        (previous_s.get_point.sub s_vertex.get_point).normalise M
      let previous_direction_camera :=
        (previous_t.get_point.sub t_vertex.get_point).normalise M
      let s_material ← deref s_vertex.ptr_material
      let t_material ← deref t_vertex.ptr_material
      let w ← Weight M b s t emission_path camera_path
      pure [{ kind := ConnectionType.Type3, light_vertex := some (s - 1),
              camera_vertex := some (t - 1), weight_s := s, weight_t := t,
              value := ((((((s_vertex.throughput.smul
                  (ShadingCorrection evaluate_direction s_vertex.idata.from_direction
                    s_vertex.idata TraceMode.Importance)).mul
                  (s_material.factor M evaluate_direction previous_direction_emission
                    s_vertex.idata TraceMode.Importance)).mul
                  t_vertex.throughput).mul
                  (t_material.factor M evaluate_direction.neg previous_direction_camera
                    t_vertex.idata TraceMode.Radiance)).smul
                  (Gprime M s_vertex t_vertex)).smul w),
              splash := none }]
    else pure []

/-- `process()`, Type 3: body of the outer loop over `s`.  The counter `t` is a
`std::uint8_t`: with `n_camera_path = 255` the inner loop does not end. -/
def connect_type3_outer (M : FloatOps F) (b : BDPT F)
    (emission_path camera_path : List (Vertex F)) (n_camera_path : Nat) (s : Nat) :
    Except Fault (List (Contribution F)) := do
  let s_vertex ← vec_at emission_path (← idx_sub s 1)
  if s_vertex.f_dirac then pure []
  else if n_camera_path = 255 then Except.error Fault.out_of_fuel
  else
    collect (connect_type3_step M b emission_path camera_path s s_vertex)
      (List.range' 2 (n_camera_path - 1))

/-- `process()`, "Type 3) Connect all (non dirac) material vertices from one path to the
other".  The counter `s` is a `std::uint8_t`: with `n_emission_path = 255` the outer loop
does not end. -/
def connect_type3 (M : FloatOps F) (b : BDPT F) (emission_path camera_path : List (Vertex F))
    (n_emission_path n_camera_path : Nat) : Except Fault (List (Contribution F)) :=
  if n_emission_path < 2 ∧ n_camera_path < 2 then pure []
  else if n_emission_path = 255 then Except.error Fault.out_of_fuel
  else
    collect (connect_type3_outer M b emission_path camera_path n_camera_path)
      (List.range' 2 (n_emission_path - 1))

/-- `process()`: everything one sample contributes for the two given subpaths, in the
order of evaluation. -/
def connect (M : FloatOps F) (b : BDPT F) (emission_path camera_path : List (Vertex F))
    (prng : Mersenne) : Except Fault (List (Contribution F)) := do
  let f_hit_camera := (← back emission_path).f_camera
  let f_hit_emitter := (← back camera_path).f_emitter
  let n_emission_path := (emission_path.length - (if f_hit_camera then 1 else 0)) % 256
  let n_camera_path := (camera_path.length - (if f_hit_emitter then 1 else 0)) % 256
  let c1 ← connect_type1 M b emission_path camera_path n_camera_path f_hit_emitter
  let c2a ← connect_type2a M b emission_path camera_path n_camera_path
  let c2b ← connect_type2b M b emission_path camera_path n_emission_path prng
  let c3 ← connect_type3 M b emission_path camera_path n_emission_path n_camera_path
  pure (c1 ++ c2a ++ c2b ++ c3)

/-- Effect of one contribution on `accumulate` and on the sensor. -/
def apply_contribution (st : Colour F × Sensor F) (c : Contribution F) : Colour F × Sensor F :=
  match c.splash with
  | none => (st.1.add c.value, st.2)
  | some pxy => (st.1, st.2.splash pxy.1 pxy.2 c.value)

/-- `process()`, body of the sample loop: the two walks and the terms of their
connections, with the generator after the walks. -/
def sample_paths (M : FloatOps F) (fuel : Nat) (b : BDPT F) (x y : Nat) (prng : Mersenne) :
    Except Fault (Mersenne × List (Contribution F)) := do
  let ep ← trace_emission_path M fuel b prng
  let cp ← trace_camera_path M fuel b x y ep.2
  let cs ← connect M b ep.1 cp.1 cp.2
  pure (cp.2, cs)

/-- `process()`: body of the sample loop; state `(prng, accumulate, sensor)`. -/
def sample_step (M : FloatOps F) (fuel : Nat) (b : BDPT F) (x y : Nat)
    (st : Mersenne × Colour F × Sensor F) (_sample : Nat) :
    Except Fault (Mersenne × Colour F × Sensor F) := do
  let r ← sample_paths M fuel b x y st.1
  let a := r.2.foldl apply_contribution (st.2.1, st.2.2)
  pure (r.1, a.1, a.2)

/-- The seed `process()` gives the generator: `( x + 1 ) * 0x1337 + ( y + 1 ) * 0xbeef`,
converted to `std::uint32_t`. -/
def process_seed (x y : Nat) : Nat := ((x + 1) * 0x1337 + (y + 1) * 0xbeef) % 2 ^ 32

/-- `process()`: the state is the integrator's generator and the sensor it refers to. -/
def process (M : FloatOps F) (fuel : Nat) (b : BDPT F) (st : Mersenne × Sensor F) (x y : Nat) :
    Except Fault (Mersenne × Sensor F) := do
  let prng := Mersenne.ctor (process_seed x y)
  let accumulate : Colour F := Colour.Black
  let r ← (List.range b.max_samples).foldlM (sample_step M fuel b x y)
    (prng, accumulate, st.2)
  pure (r.1, r.2.2.pixel x y r.2.1)

end BDPT

/-! ## Specification wording of the generator (for the refinement statement) -/

/-- The state after one step as the specification words it:
`(1812433253 * (seed XOR (seed >> 30)) + 1) mod 2^32`. -/
def Mersenne_state_spec (seed : Nat) : Nat :=
  (1812433253 * (seed ^^^ (seed >>> 30)) + 1) % 2 ^ 32

/-- The tempering chain as the specification words it: `x ^= x >> 11;
x ^= (x << 7) & 0x9D2C5680; x ^= (x << 15) & 0xEFC60000; x ^= x >> 18`. -/
def Mersenne_temper_spec (x : Nat) : Nat :=
  let x := x ^^^ (x >>> 11)
  let x := x ^^^ ((x <<< 7) &&& 0x9D2C5680)
  let x := x ^^^ ((x <<< 15) &&& 0xEFC60000)
  x ^^^ (x >>> 18)

/-! ## The model over the reals -/

/-- The exact reading of the library functions on the real numbers (the conversion to
`float` is the identity). -/
noncomputable def realOps : FloatOps ℝ :=
  ⟨Real.sqrt, Real.cos, Real.sin, 1 / Real.pi, 1 / (2 * Real.pi), 2 * Real.pi, fun x => x⟩

/-- The library on the real numbers with the conversion to `float` the program performs:
exact square root, rounding to binary32. -/
noncomputable def realBinary32Ops : FloatOps ℝ :=
  { realOps with to_float := round_binary32 }

/-! ## The model over the rationals (for evaluating concrete inputs) -/

/-- Newton iteration for the integer square root. -/
def isqrt_iter (n : Nat) : Nat → Nat → Nat
  | 0, x => x
  | fuel + 1, x =>
    let y := (x + n / x) / 2
    if y < x then isqrt_iter n fuel y else x

/-- Integer square root (floor). -/
def isqrt (n : Nat) : Nat := if n = 0 then 0 else isqrt_iter n n n

/-- Square root on the rationals: exact on squares of rationals (numerator and
denominator of a fraction in lowest terms are then both squares). -/
def rsqrt (q : ℚ) : ℚ := (isqrt q.num.toNat : ℚ) / (isqrt q.den : ℚ)

/-- The reading of the library on the rationals used to evaluate concrete inputs in exact
arithmetic: the square root is `rsqrt`, the three constants are the exact values of the
`float` constants of `mathematics/constant.hpp`; `cos` and `sin` are Taylor polynomials
(they are only called by `Sample::HemiSphere`); the conversion to `float` is the
identity. -/
def rationalOps : FloatOps ℚ :=
  { sqrt := rsqrt,
    cos := fun x => 1 - x ^ 2 / 2 + x ^ 4 / 24 - x ^ 6 / 720,
    sin := fun x => x - x ^ 3 / 6 + x ^ 5 / 120 - x ^ 7 / 5040,
    inv_pi := 10680707 / 33554432,
    inv_2pi := 10680707 / 67108864,
    two_pi := 13176795 / 2097152,
    to_float := fun x => x }

/-- The reading of the library on the rationals with the conversion to `float` the
program performs (rounding to binary32); the other fields are those of `rationalOps`. -/
def binary32Ops : FloatOps ℚ :=
  { rationalOps with to_float := round_binary32 }

/-! ## Auxiliary quantities of `Geometry::Triangle::intersect` -/

namespace Geometry.Triangle
variable {F : Type} [LinearOrderedField F]

/-- The determinant `d` computed by `intersect()`. -/
def mt_d (g : Triangle F) (ray : Section F) : F := g.edge1.dot (ray.direction.cross g.edge2)

/-- The parameter `u` computed by `intersect()`. -/
def mt_u (g : Triangle F) (ray : Section F) : F :=
  (ray.origin.sub g.position).dot (ray.direction.cross g.edge2) * (1 / g.mt_d ray)

/-- The parameter `v` computed by `intersect()`. -/
def mt_v (g : Triangle F) (ray : Section F) : F :=
  ray.direction.dot ((ray.origin.sub g.position).cross g.edge1) * (1 / g.mt_d ray)

/-- The distance `t` computed by `intersect()`. -/
def mt_t (g : Triangle F) (ray : Section F) : F :=
  ((ray.origin.sub g.position).cross g.edge1).dot g.edge2 * (1 / g.mt_d ray)

end Geometry.Triangle

/-! ## The visibility query of a connection -/

namespace BDPT
variable {F : Type} [LinearOrderedField F]

/-- The ray `process()` tests for a connection from point `a` towards point `b`:
`Ray::Section( a, delta.normalise(), EPSILON_RAY )` with `delta = b - a`. -/
def segment_ray (M : FloatOps F) (a b : Double3 F) : Section F :=
  Section.ctor_eps a ((b.sub a).normalise M) (EPSILON_RAY F)

/-- The limit `process()` passes with that ray: `delta.magnitude() - 2. * EPSILON_RAY`. -/
def segment_limit (M : FloatOps F) (a b : Double3 F) : F :=
  (b.sub a).magnitude M - 2 * EPSILON_RAY F

/-- The visibility query of `process()` for a connection from `a` towards `b`. -/
def segment_occluded (M : FloatOps F) (sc : Scene F) (a b : Double3 F) : Bool :=
  sc.occluded (segment_ray M a b) (segment_limit M a b)

end BDPT

/-! ## Concrete inputs -/

/-- A scene with one triangle in the plane `z = 21/2000000`, which the segment from
`(0,0,0)` to `(0,0,1)` crosses `5e-7` behind the start of the forward ray. -/
def scene_near_end : Scene ℚ :=
  { geometry := [Geometry.Triangle.ctor rationalOps ⟨-1, -1, 21 / 2000000⟩
      ⟨2, -1, 21 / 2000000⟩ ⟨-1, 2, 21 / 2000000⟩ 0],
    emitter_list := [], bxdf := [BxDF.Lambert ⟨4 / 5, 4 / 5, 4 / 5⟩] }

/-- The three axes of the camera are unit vectors orthogonal to each other. -/
def Camera.Orthonormal {F : Type} [LinearOrderedField F] (c : Camera F) : Prop :=
  c.forward.dot c.forward = 1 ∧ c.right.dot c.right = 1 ∧ c.up.dot c.up = 1 ∧
  c.forward.dot c.right = 0 ∧ c.forward.dot c.up = 0 ∧ c.right.dot c.up = 0

/-- The configuration of `main.cpp`: 400 x 400 pixels, 25 samples, path length 5. -/
def config_main : Config := Config.ctor 400 400 25 5

/-- A small scene: a diffuse wall in the plane `y = 1` facing the origin (material 0) and
a triangle light in the plane `x = -3/4` facing `+x` (material 1, emitter 0). -/
def scene_wall_light : Scene ℚ :=
  { geometry :=
      [Geometry.Triangle.ctor rationalOps ⟨-1, 1, -1⟩ ⟨2, 1, -1⟩ ⟨-1, 1, 2⟩ 0,
       Geometry.Triangle.ctor rationalOps ⟨-3 / 4, 0, 0⟩ ⟨-3 / 4, 1, 0⟩ ⟨-3 / 4, 0, 1⟩ 1],
    emitter_list :=
      [Emitter.Triangle.ctor rationalOps ⟨-3 / 4, 0, 0⟩ ⟨-3 / 4, 1, 0⟩ ⟨-3 / 4, 0, 1⟩ ⟨1, 1, 1⟩],
    bxdf := [BxDF.Lambert ⟨4 / 5, 4 / 5, 4 / 5⟩, BxDF.Emission 0] }

/-- The integrator for `scene_wall_light` and a camera at the origin looking along `+y`
(focal length 50, configuration of `main.cpp`). -/
def bdpt_wall_light : Except Fault (BDPT ℚ) := do
  let camera ← Camera.ctor rationalOps ⟨0, 0, 0⟩ ⟨0, 1, 0⟩ 50 config_main
  pure (BDPT.ctor camera scene_wall_light config_main)

/-- One iteration of a trace loop of the integrator with the sampler's output supplied:
the hit of `ray`, its material, and the sample the material returns when
`Sample::HemiSphere` gives the local direction of the world direction `towards`. -/
def bounce_input (b : BDPT ℚ) (ray : Section ℚ) (mode : TraceMode) (towards : Double3 ℚ) :
    Except Fault (Intersection ℚ × BxDF ℚ × (Colour ℚ × Double3 ℚ × Event × ℚ × ℚ)) := do
  let hit := b.scene.intersect ray
  if !hit.1 then Except.error Fault.out_of_range
  else do
    let idata := hit.2.2
    let p_material ← b.scene.material idata.material_id
    let smp :=
      match p_material with
      | BxDF.Lambert albedo =>
        if idata.from_direction.dot idata.normal_shading < EPSILON_COS_THETA ℚ then
          (p_material.sample rationalOps idata mode Mersenne.default).1
        else BxDF.lambert_sample rationalOps albedo idata (idata.orthogonal.to_local towards)
      | _ => (p_material.sample rationalOps idata mode Mersenne.default).1
    pure (idata, p_material, smp)

/-- The emission walk in `scene_wall_light` that leaves the light at `(-3/4, 1/4, 3/8)`
in the unit direction `first` and, where it hits a diffuse surface, is scattered in the
unit direction `second`, after which it has to leave the scene (the next ray hits
nothing, so that the trace loop returns): `[y0, y1]`. -/
def emission_walk (b : BDPT ℚ) (first second : Double3 ℚ) :
    Except Fault (List (Vertex ℚ)) := do
  let em ← b.scene.emitter 0
  let e := em.1.emit_sample rationalOps (1 / 4) (3 / 8) (em.1.local_space.to_local first)
  let st := BDPT.emission_start rationalOps 0 em.1 em.2 e
  let inp ← bounce_input b st.2.1 TraceMode.Importance second
  match ← BDPT.emission_bounce rationalOps b em.1 st.1 st.2.1 1 st.2.2 inp.1 inp.2.1 inp.2.2 with
  | BDPT.Step.done vertices => pure vertices
  | BDPT.Step.next vertices ray _ _ =>
    if (b.scene.intersect ray).1 then Except.error Fault.out_of_fuel else pure vertices

/-- The camera walk in `scene_wall_light` along the view axis: it hits the wall at
`(0, 1, 0)`, is scattered towards the light point `(-3/4, 1/4, 3/8)` and ends there on
the emitter: `[z0, z1, z2]`. -/
def camera_walk (b : BDPT ℚ) : Except Fault (List (Vertex ℚ)) := do
  let ray := Section.ctor b.camera.position ⟨0, 1, 0⟩
  let st := BDPT.camera_start rationalOps b ray
  let inp ← bounce_input b ray TraceMode.Radiance ⟨-2 / 3, -2 / 3, 1 / 3⟩
  match ← BDPT.camera_bounce rationalOps b st.1 ray 1 st.2 inp.1 inp.2.1 inp.2.2 with
  | BDPT.Step.done vertices => pure vertices
  | BDPT.Step.next vertices ray2 depth throughput => do
    let inp2 ← bounce_input b ray2 TraceMode.Radiance ⟨0, 0, 0⟩
    match ← BDPT.camera_bounce rationalOps b vertices ray2 depth throughput
        inp2.1 inp2.2.1 inp2.2.2 with
    | BDPT.Step.done vertices => pure vertices
    | BDPT.Step.next vertices _ _ _ => pure vertices

/-- The MIS weights `W_0`, `W_1`, `W_2` of the full path light point `(-3/4, 1/4, 3/8)`,
wall point `(0, 1, 0)`, camera, in `scene_wall_light`: `W_s` is `Weight(s, 3 - s)` on
the first `s` vertices of the emission walk through these points and the first `3 - s`
vertices of the camera walk through them. -/
def weights_wall_light : Except Fault (ℚ × ℚ × ℚ) := do
  let b ← bdpt_wall_light
  let ep ← emission_walk b ⟨2 / 3, 2 / 3, -1 / 3⟩ ⟨0, -1, 0⟩
  let cp ← camera_walk b
  let w0 ← BDPT.Weight rationalOps b 0 3 (ep.take 0) (cp.take 3)
  let w1 ← BDPT.Weight rationalOps b 1 2 (ep.take 1) (cp.take 2)
  let w2 ← BDPT.Weight rationalOps b 2 1 (ep.take 2) (cp.take 1)
  pure (w0, w1, w2)

/-- The terms `process()` evaluates in `scene_wall_light` for the emission walk
light point, wall point `(1/3, 1, -1/4)` (then leaving the scene) and the camera walk
`camera_walk`: for each term its type, the subscripts of the vertices it joins and the
arguments it passes to `Weight`. -/
def connections_wall_light :
    Except Fault (List (BDPT.ConnectionType × Option Nat × Option Nat × Nat × Nat)) := do
  let b ← bdpt_wall_light
  let ep ← emission_walk b ⟨26 / 35, 18 / 35, -3 / 7⟩ ⟨0, -1, 0⟩
  let cp ← camera_walk b
  let cs ← BDPT.connect rationalOps b ep cp Mersenne.default
  pure (cs.map (fun c => (c.kind, c.light_vertex, c.camera_vertex, c.weight_s, c.weight_t)))

/-- A scene with a mirror: the wall of `scene_wall_light` with a mirror material, and a
triangle light in the plane `x = 1/2` facing `-x`. -/
def scene_mirror : Scene ℚ :=
  { geometry :=
      [Geometry.Triangle.ctor rationalOps ⟨-1, 1, -1⟩ ⟨2, 1, -1⟩ ⟨-1, 1, 2⟩ 0,
       Geometry.Triangle.ctor rationalOps ⟨1 / 2, 0, -1 / 2⟩ ⟨1 / 2, 0, 1 / 2⟩
         ⟨1 / 2, 1, -1 / 2⟩ 1],
    emitter_list :=
      [Emitter.Triangle.ctor rationalOps ⟨1 / 2, 0, -1 / 2⟩ ⟨1 / 2, 0, 1 / 2⟩
         ⟨1 / 2, 1, -1 / 2⟩ ⟨1, 1, 1⟩],
    bxdf := [BxDF.Mirror ⟨1, 1, 1⟩, BxDF.Emission 0] }

/-- The integrator of `camera_walk_mirror`, with the camera written out. -/
def mirror_bdpt : BDPT ℚ :=
  BDPT.ctor (Camera.mk 36 24 1 400 400 ⟨0, 0, 0⟩ ⟨0, 1, 0⟩ ⟨1, 0, 0⟩ ⟨0, 0, -1⟩
    (324 / 625) 50 1 (18 / 25) (1 / 399) (1 / 399)) scene_mirror config_main

/-- Two outcomes of the sample loop agree on everything but the content of the sensor:
the same fault, or the same generator and `accumulate`, with sensors of size `w` x `h`. -/
def SameRun {F : Type} (w h : Nat) (r1 r2 : Except Fault (Mersenne × Colour F × Sensor F)) :
    Prop :=
  match r1, r2 with
  | Except.ok a, Except.ok b =>
    a.1 = b.1 ∧ a.2.1 = b.2.1 ∧ a.2.2.image_width = w ∧ a.2.2.image_height = h ∧
      b.2.2.image_width = w ∧ b.2.2.image_height = h
  | Except.error e1, Except.error e2 => e1 = e2
  | _, _ => False

/-! ## Auxiliary definitions for the materials and the emitter -/

/-- The cosine and sine of the model lie on the unit circle (as `Real.cos` and
`Real.sin` do). -/
def FloatOps.ExactTrig {F : Type} [LinearOrderedField F] (M : FloatOps F) : Prop :=
  ∀ a : F, M.cos a * M.cos a + M.sin a * M.sin a = 1

/-- The three axes of a frame are unit vectors and pairwise orthogonal. -/
def Orthogonal.Orthonormal {F : Type} [LinearOrderedField F] (o : Orthogonal F) : Prop :=
  o.x_axis.dot o.x_axis = 1 ∧ o.y_axis.dot o.y_axis = 1 ∧ o.z_axis.dot o.z_axis = 1 ∧
  o.x_axis.dot o.y_axis = 0 ∧ o.y_axis.dot o.z_axis = 0 ∧ o.x_axis.dot o.z_axis = 0

/-- The emitter of `scene_wall_light`: the triangle `(-3/4,0,0), (-3/4,1,0), (-3/4,0,1)`
of area `1/2` with normal `(1, 0, 0)`. -/
def emitter_wall_light : Emitter.Triangle ℚ :=
  Emitter.Triangle.ctor rationalOps ⟨-3 / 4, 0, 0⟩ ⟨-3 / 4, 1, 0⟩ ⟨-3 / 4, 0, 1⟩ ⟨1, 1, 1⟩

/-! ## Auxiliary definitions for the camera and the scene -/

/-- Invariant of the loop of `Scene::intersect` after the geometries `pre` have been
visited, for the loop state `st = (distance, object_id, f_hit)`: without a hit the
distance is still `1e42` and no visited geometry returned a distance in `(0, 1e42)`;
with a hit, `object_id` is the first visited geometry that returned the least positive
distance, and `distance` is that distance. -/
def Scene.ClosestInv {F : Type} [LinearOrderedField F] (ray : Section F)
    (pre : List (Geometry.Triangle F)) (st : F × Nat × Bool) : Prop :=
  (st.2.2 = false → st.1 = (10 : F) ^ 42 ∧
    ∀ g ∈ pre, ¬(0 < g.intersect ray ∧ g.intersect ray < (10 : F) ^ 42)) ∧
  (st.2.2 = true → ∃ g, pre[st.2.1]? = some g ∧ g.intersect ray = st.1 ∧ 0 < st.1 ∧
    st.1 < (10 : F) ^ 42 ∧
    (∀ g' ∈ pre, 0 < g'.intersect ray → st.1 ≤ g'.intersect ray) ∧
    (∀ (j : Nat) (g' : Geometry.Triangle F), j < st.2.1 → pre[j]? = some g' →
      g'.intersect ray ≠ st.1))

/-- The specification's reading of `occluded`: some geometry is hit within
`(0, distance)`. -/
def Scene.occluded_spec {F : Type} [LinearOrderedField F] (sc : Scene F) (ray : Section F)
    (distance : F) : Prop :=
  ∃ g ∈ sc.geometry, 0 < g.intersect ray ∧ g.intersect ray < distance

/-! ## Auxiliary definitions for the random walks -/

/-- The geometry term of the specification for a vertex at `a` with frame normal `n_a`
whose predecessor is at `b` with frame normal `n_b`:
`max(0, w . n_a) * max(0, -(w . n_b)) / |b - a|^2` with `w` the unit vector from `a` to
`b` (the squared distance written as a dot product). -/
def BDPT.G_spec {F : Type} [LinearOrderedField F] (M : FloatOps F) (a b n_a n_b : Double3 F) :
    F :=
  max 0 (((b.sub a).normalise M).dot n_a) * max 0 (-(((b.sub a).normalise M).dot n_b))
    / (b.sub a).dot (b.sub a)

/-- The stored geometry terms of a path: vertex 0 stores `G = 1`, and every later vertex
stores the (non-negative) geometry term of the specification towards its predecessor. -/
def BDPT.PathG {F : Type} [LinearOrderedField F] (M : FloatOps F) (vs : List (Vertex F)) :
    Prop :=
  (∃ v0, vs[0]? = some v0 ∧ v0.G = 1) ∧
  ∀ (i : Nat) (a p : Vertex F), vs[i + 1]? = some a → vs[i]? = some p →
    a.G = BDPT.G_spec M a.get_point p.get_point a.get_normal p.get_normal ∧ 0 ≤ a.G

/-- Origin and direction of a ray as one tuple. -/
def Section.coords {F : Type} (r : Section F) : F × F × F × F × F × F :=
  (r.origin.x, r.origin.y, r.origin.z, r.direction.x, r.direction.y, r.direction.z)

/-- The ray with which a trace loop goes on after `ray`, when `ray` hits a mirror from
the front: from the hit point (offset by `EPSILON_RAY`) in the reflected direction. -/
def BDPT.mirror_next {F : Type} [LinearOrderedField F] (b : BDPT F) (ray : Section F) :
    Option (Section F) :=
  let hit := b.scene.intersect ray
  if hit.1 = true then
    match b.scene.material hit.2.2.material_id with
    | Except.ok (BxDF.Mirror _) =>
      if hit.2.2.from_direction.dot hit.2.2.normal_shading < EPSILON_COS_THETA F then none
      else some (Section.ctor_eps hit.2.2.point
        (hit.2.2.from_direction.neg.add (hit.2.2.normal_shading.mul
          (2 * hit.2.2.from_direction.dot hit.2.2.normal_shading))) (EPSILON_RAY F))
    | _ => none
  else none

/-- Two large mirrors facing each other in the planes `y = 1` and `y = -1`, and between
them a triangle light in the plane `y = 0` that emits towards `+y` (the light is not
part of the geometry). -/
def scene_two_mirrors : Scene ℚ :=
  { geometry :=
      [Geometry.Triangle.ctor rationalOps ⟨-10, 1, -10⟩ ⟨30, 1, -10⟩ ⟨-10, 1, 30⟩ 0,
       Geometry.Triangle.ctor rationalOps ⟨-10, -1, -10⟩ ⟨-10, -1, 30⟩ ⟨30, -1, -10⟩ 0],
    emitter_list := [Emitter.Triangle.ctor rationalOps ⟨0, 0, 0⟩ ⟨0, 0, 1⟩ ⟨1, 0, 0⟩ ⟨1, 1, 1⟩],
    bxdf := [BxDF.Mirror ⟨1, 1, 1⟩] }

/-- The integrator for `scene_two_mirrors` with `max_path_length = 255` (the camera is
that of `mirror_bdpt`; the emission walk does not use it). -/
def bdpt_two_mirrors : BDPT ℚ :=
  BDPT.ctor (Camera.mk 36 24 1 400 400 ⟨0, 0, 0⟩ ⟨0, 1, 0⟩ ⟨1, 0, 0⟩ ⟨0, 0, -1⟩
    (324 / 625) 50 1 (18 / 25) (1 / 399) (1 / 399)) scene_two_mirrors
    (Config.ctor 400 400 25 255)

/-- A generator state whose fifth output is `0xFFFFFFFF`: the second number
`Sample::HemiSphere` draws in `emit` is then `1`, and the emitted direction is the
normal of the light. -/
def prng_two_mirrors : Mersenne := ⟨1204282464⟩

/-- The emitter of `scene_two_mirrors`. -/
def emitter_two_mirrors : Emitter.Triangle ℚ :=
  Emitter.Triangle.ctor rationalOps ⟨0, 0, 0⟩ ⟨0, 0, 1⟩ ⟨1, 0, 0⟩ ⟨1, 1, 1⟩

/-- The first ray of the emission walk in `scene_two_mirrors` from `prng_two_mirrors`. -/
def orbit_start : Section ℚ :=
  (BDPT.emission_start rationalOps 0 emitter_two_mirrors (1 / ((1 : Nat) : ℚ))
    (emitter_two_mirrors.emit rationalOps
      (scene_two_mirrors.random_emitter prng_two_mirrors).2).1).2.1

/-- The ray from the upper mirror straight down, below the point where the walk starts. -/
def orbit_down : Section ℚ :=
  ⟨⟨orbit_start.origin.x, 1 - 1 / 100000, orbit_start.origin.z⟩, ⟨0, -1, 0⟩⟩

/-- The ray from the lower mirror straight up. -/
def orbit_up : Section ℚ :=
  ⟨⟨orbit_start.origin.x, -1 + 1 / 100000, orbit_start.origin.z⟩, ⟨0, 1, 0⟩⟩

/-- The integrator for `scene_wall_light`, with the camera of `bdpt_wall_light` written
out. -/
def wall_light_bdpt : BDPT ℚ :=
  BDPT.ctor (Camera.mk 36 24 1 400 400 ⟨0, 0, 0⟩ ⟨0, 1, 0⟩ ⟨1, 0, 0⟩ ⟨0, 0, -1⟩
    (324 / 625) 50 1 (18 / 25) (1 / 399) (1 / 399)) scene_wall_light config_main

/-- The emission walk in `scene_wall_light` from the generator state `10` (two
vertices). -/
def emission_run : Except Fault (List (Vertex ℚ) × Mersenne) :=
  BDPT.trace_emission_path rationalOps 5 wall_light_bdpt ⟨10⟩

/-- The camera walk in `scene_wall_light` for pixel `(200, 200)` from the generator state
`10` (two vertices). -/
def camera_run : Except Fault (List (Vertex ℚ) × Mersenne) :=
  BDPT.trace_camera_path rationalOps 5 wall_light_bdpt 200 200 ⟨10⟩

/-! ## `render/save_image.hpp` -/

/-- `std::clamp( v, lo, hi )` -/
def clamp {F : Type} [LinearOrderedField F] (v lo hi : F) : F :=
  if v < lo then lo else if hi < v then hi else v

/-- Conversion `static_cast<std::uint8_t>( v )` of a non-negative `float`: the fraction
is discarded. -/
def to_uint8 {F : Type} [LinearOrderedField F] [FloorRing F] (v : F) : Nat := ⌊v⌋₊ % 256

/-- The byte `SaveImage` computes for a channel value:
`static_cast<std::uint8_t>( std::pow( std::clamp( c, 0.f, 1.f ), 1.f / 2.2f ) * 255 )`;
`pow` is the reading of `std::pow`. -/
def SaveImage_channel {F : Type} [LinearOrderedField F] [FloorRing F] (pow : F → F → F)
    (c : F) : Nat :=
  to_uint8 (pow (clamp c 0 1) (1 / (22 / 10)) * 255)

/-- `SaveImage()`, "Set header": the assignments to `p_data[0]` ... `p_data[18]`. -/
def SaveImage_header (config : Config) (f_libgdk : Bool) (p_data : Nat → Nat) : Nat → Nat :=
  let p_data := Function.update p_data 0 (if f_libgdk then 1 else 0)
  let p_data := Function.update p_data 1 0
  let p_data := Function.update p_data 2 2
  let p_data := Function.update p_data 3 0
  let p_data := Function.update p_data 4 0
  let p_data := Function.update p_data 5 0
  let p_data := Function.update p_data 6 0
  let p_data := Function.update p_data 7 0
  let p_data := Function.update p_data 8 0
  let p_data := Function.update p_data 9 0
  let p_data := Function.update p_data 10 0
  let p_data := Function.update p_data 11 0
  let p_data := Function.update p_data 12 ((config.image_width % 256) % 256)
  let p_data := Function.update p_data 13 ((config.image_width / 256) % 256)
  let p_data := Function.update p_data 14 ((config.image_height % 256) % 256)
  let p_data := Function.update p_data 15 ((config.image_height / 256) % 256)
  let p_data := Function.update p_data 16 24
  let p_data := Function.update p_data 17 32
  if f_libgdk then Function.update p_data 18 0 else p_data

/-- Body of the inner loop of `SaveImage()`: the three bytes of pixel `(x, y)`, in the
order blue, green, red. -/
def SaveImage_pixel {F : Type} [LinearOrderedField F] [FloorRing F] (pow : F → F → F)
    (sensor : Sensor F) (config : Config) (tga_header_size : Nat) (p_data : Nat → Nat)
    (x y : Nat) : Nat → Nat :=
  let colour := sensor.get_colour x y
  let index := ((x + y * config.image_width) * 3) % 2 ^ 32
  let p_data := Function.update p_data ((index + tga_header_size) % 2 ^ 32)
    (SaveImage_channel pow colour.b)
  let p_data := Function.update p_data ((index + 1 + tga_header_size) % 2 ^ 32)
    (SaveImage_channel pow colour.g)
  Function.update p_data ((index + 2 + tga_header_size) % 2 ^ 32)
    (SaveImage_channel pow colour.r)

/-- `SaveImage()`: the array `p_data` after the header and the two loops over the
pixels. -/
def SaveImage_data {F : Type} [LinearOrderedField F] [FloorRing F] (pow : F → F → F)
    (sensor : Sensor F) (config : Config) (f_libgdk : Bool) : Nat → Nat :=
  let tga_header_size := 18 + (if f_libgdk then 1 else 0)
  let p_data := SaveImage_header config f_libgdk (fun _ => 0)
  (List.range config.image_height).foldl
    (fun p_data y =>
      (List.range config.image_width).foldl
        (fun p_data x => SaveImage_pixel pow sensor config tga_header_size p_data x y) p_data)
    p_data

/-- `SaveImage()`: the bytes written to the file, or `none` (return value `false`) when
the file cannot be opened. -/
def SaveImage {F : Type} [LinearOrderedField F] [FloorRing F] (pow : F → F → F)
    (is_open : Bool) (sensor : Sensor F) (config : Config) (f_libgdk : Bool) :
    Option (List Nat) :=
  if !is_open then none
  else
    let tga_header_size := 18 + (if f_libgdk then 1 else 0)
    let n_pixel := (config.image_width * config.image_height) % 2 ^ 32
    let tga_data_size := (tga_header_size + n_pixel * 3) % 2 ^ 32
    some ((List.range tga_data_size).map (SaveImage_data pow sensor config f_libgdk))

/-- The sensor of a one-pixel image whose pixel holds the value `1/2048` in each
channel (one sample per pixel). -/
noncomputable def sensor_dark_pixel : Sensor ℝ :=
  (Sensor.mk (fun _ => Colour.Black) (fun _ => Colour.Black) 1 1 1).pixel 0 0
    ⟨1 / 2048, 1 / 2048, 1 / 2048⟩

/-! ## Auxiliary definitions for the march loops of `Weight` -/

namespace BDPT

/-- The quotient by which step `i` of the first march loop multiplies `p_k`, for `i`
other than `k` (`node[0].p_reverse / node[1].p_reverse` when `i == 0`, otherwise
`node[i - 1].p_forward / node[i + 1].p_reverse`), read off the nodes `nd`. -/
def right_factor {F : Type} [LinearOrderedField F] (nd : Nat → Node F) (i : Nat) : F :=
  if i = 0 then (nd 0).p_reverse / (nd 1).p_reverse
  else (nd (i - 1)).p_forward / (nd (i + 1)).p_reverse

/-- The dirac test that follows the division in step `i` of the first march loop, for `i`
other than `k`: whether the step takes `continue`. -/
def right_skip {F : Type} (nd : Nat → Node F) (i : Nat) : Bool :=
  if i = 0 then (nd 1).f_dirac else ((nd i).f_dirac || (nd (i + 1)).f_dirac)

/-- One step of the first march loop for `i` other than `k`, on the nodes `nd`. -/
def right_step {F : Type} [LinearOrderedField F] (nd : Nat → Node F) (st : MarchState F)
    (i : Nat) : MarchState F :=
  { p_k := st.p_k * right_factor nd i,
    sum_path :=
      if right_skip nd i then st.sum_path else st.sum_path + MIS (st.p_k * right_factor nd i),
    divisions :=
      ⟨true, i, if i = 0 then (nd 1).p_reverse else (nd (i + 1)).p_reverse, right_skip nd i⟩
        :: st.divisions }

/-- The quotient by which step `i` of the second march loop multiplies `p_k`, for `i`
other than `k + 1` (`node[1].p_reverse / node[0].p_reverse` when `i == 1`, otherwise
`node[i].p_reverse / node[i - 2].p_forward`), read off the nodes `nd`. -/
def left_factor {F : Type} [LinearOrderedField F] (nd : Nat → Node F) (i : Nat) : F :=
  if i = 1 then (nd 1).p_reverse / (nd 0).p_reverse
  else (nd i).p_reverse / (nd (i - 2)).p_forward

/-- The dirac test that follows the division in step `i` of the second march loop, for
`i` other than `k + 1` (there is none when `i == 1`). -/
def left_skip {F : Type} (nd : Nat → Node F) (i : Nat) : Bool :=
  if i = 1 then false else ((nd (i - 1)).f_dirac || (nd (i - 2)).f_dirac)

/-- One step of the second march loop for `i` other than `k + 1`, on the nodes `nd`
(the emitter is not dirac). -/
def left_step {F : Type} [LinearOrderedField F] (nd : Nat → Node F) (st : MarchState F)
    (i : Nat) : MarchState F :=
  { p_k := st.p_k * left_factor nd i,
    sum_path :=
      if left_skip nd i then st.sum_path else st.sum_path + MIS (st.p_k * left_factor nd i),
    divisions :=
      ⟨false, i, if i = 1 then (nd 0).p_reverse else (nd (i - 2)).p_forward, left_skip nd i⟩
        :: st.divisions }

end BDPT

/-- What `Weight( s, t, emission_path, camera_path )` needs of its arguments to run:
at least two vertices in all (`k >= 1`), `k = s + t - 1` representable in the 8-bit
counter, subpaths of at least `s` and `t` vertices, and the pointers it dereferences set:
the light of `y0`, the material of the two connection vertices when they are surface
vertices and, for `s = 0`, the light and the emissive material of a last camera vertex
that lies on an emitter. -/
def BDPT.WeightPre {F : Type} [LinearOrderedField F] (b : BDPT F) (s t : Nat)
    (emission_path camera_path : List (Vertex F)) : Prop :=
  1 ≤ t ∧ 2 ≤ s + t ∧ s + t ≤ 256 ∧ s ≤ emission_path.length ∧ t ≤ camera_path.length ∧
  (1 ≤ s → ∃ y0 light, emission_path[0]? = some y0 ∧ y0.ptr_light = some light) ∧
  (2 ≤ s → ∃ v m, emission_path[s - 1]? = some v ∧ v.ptr_material = some m) ∧
  (1 ≤ s → 2 ≤ t → ∃ v m, camera_path[t - 1]? = some v ∧ v.ptr_material = some m) ∧
  (s = 0 → ∀ v, camera_path[t - 1]? = some v → v.f_emitter = true →
    ∃ light m, v.ptr_light = some light ∧ v.ptr_material = some m ∧
      m.emitter_id < b.scene.n_emitter)

/-- The stored densities and geometry terms `Weight( s, t, ... )` reads are not
negative. -/
def BDPT.StoredNonneg {F : Type} [LinearOrderedField F] (s t : Nat)
    (emission_path camera_path : List (Vertex F)) : Prop :=
  (∀ v ∈ emission_path.take s, 0 ≤ v.pdf_forward ∧ 0 ≤ v.pdf_reverse ∧ 0 ≤ v.G) ∧
  (∀ v ∈ camera_path.take t, 0 ≤ v.pdf_forward ∧ 0 ≤ v.pdf_reverse ∧ 0 ≤ v.G)

/-- The relative densities a march loop accumulates, in the words of the specification:
for every step of the iteration sequence `l` that is not skipped, the product of the
quotients of the steps up to and including it (a skipped step contributes `0`). -/
def BDPT.march_terms {F : Type} [LinearOrderedField F] (factor : Nat → F) (skip : Nat → Bool)
    (l : List Nat) : List F :=
  (List.range l.length).map
    (fun j => if skip (l.getD j 0) then 0 else ((l.take (j + 1)).map factor).prod)

/-! ## Concrete inputs for `Weight` -/

/-- A light vertex on the light of `scene_wall_light`, at `(-3/4, 1/4, 3/8)`, with the
pointer to its light set as `trace_emission_path` sets it. -/
def weight_light_vertex : Vertex ℚ :=
  Vertex.mk ⟨⟨-3 / 4, 1 / 4, 3 / 8⟩, ⟨0, 0, 0⟩, ⟨0, 0, 0⟩, ⟨0, 0, 0⟩,
      ⟨⟨0, 0, -1⟩, ⟨0, 1, 0⟩, ⟨1, 0, 0⟩⟩, 0⟩
    ⟨1, 1, 1⟩ 1 2 1 false true false (some emitter_wall_light) 0 none

/-- The camera vertex `z0` that `trace_camera_path` builds in `wall_light_bdpt` for the
primary ray along the view axis. -/
def weight_camera_path : List (Vertex ℚ) :=
  (BDPT.camera_start rationalOps wall_light_bdpt ⟨⟨0, 0, 0⟩, ⟨0, 1, 0⟩⟩).1

/-- A diffuse surface vertex on one of two facing plates `y = 1` (even `i`) and `y = -1`
(odd `i`), with densities and geometry term `1`. -/
def plate_vertex (i : Nat) : Vertex ℚ :=
  if i % 2 = 0 then
    Vertex.mk ⟨⟨0, 1, 0⟩, ⟨0, -1, 0⟩, ⟨0, -1, 0⟩, ⟨0, -1, 0⟩,
        ⟨⟨1, 0, 0⟩, ⟨0, 0, 1⟩, ⟨0, -1, 0⟩⟩, 0⟩
      ⟨1, 1, 1⟩ 1 1 1 false false false none UINT32_MAX (some (BxDF.Lambert ⟨4 / 5, 4 / 5, 4 / 5⟩))
  else
    Vertex.mk ⟨⟨0, -1, 0⟩, ⟨0, 1, 0⟩, ⟨0, 1, 0⟩, ⟨0, 1, 0⟩,
        ⟨⟨1, 0, 0⟩, ⟨0, 0, -1⟩, ⟨0, 1, 0⟩⟩, 0⟩
      ⟨1, 1, 1⟩ 1 1 1 false false false none UINT32_MAX (some (BxDF.Lambert ⟨4 / 5, 4 / 5, 4 / 5⟩))

/-- A camera subpath of 255 vertices: the camera vertex followed by 254 diffuse
vertices that alternate between the two plates. -/
def long_camera_path : List (Vertex ℚ) :=
  weight_camera_path ++ (List.range 254).map plate_vertex

/-- A node array with the entries `0..3` assigned, all densities positive. -/
def march_nodes : NodeArray ℚ :=
  fun j => if j ≤ 3 then some ⟨(j + 1 : ℚ), (j + 2 : ℚ) / 3, false⟩ else none

/-! ## Concrete inputs and auxiliary definitions for the `float` arithmetic -/

/-- `RelErr a b x y`: the positive number `y` computed with `a` roundings in the
numerator and `b` in the denominator is `x`; every rounding to binary32 multiplies by a
factor between `1 - 2^-24` and `1 + 2^-24`. -/
def RelErr {F : Type} [LinearOrderedField F] (a b : Nat) (x y : F) : Prop :=
  0 < y ∧ y * ((1 - 1 / 2 ^ 24) ^ a / (1 + 1 / 2 ^ 24) ^ b) ≤ x ∧
    x ≤ y * ((1 + 1 / 2 ^ 24) ^ a / (1 - 1 / 2 ^ 24) ^ b)

/-- The camera at the origin looking along `+y` with a `2 x 2` image and the focal length
`21994071 / 2^20`, for which the primary ray of pixel `(0, 0)` from the generator state
`78858736` has the direction `(0, 4/5, 3/5)`. -/
def camera_narrow : Camera ℚ :=
  Camera.mk 36 24 1 2 2 ⟨0, 0, 0⟩ ⟨0, 1, 0⟩ ⟨1, 0, 0⟩ ⟨0, 0, -1⟩
    (158329674399744 / 53748795461449) (21994071 / 1048576) 1 (12582912 / 7331357) 1 1

/-- The integrator for `scene_mirror` and `camera_narrow`. -/
def narrow_bdpt : BDPT ℚ := BDPT.ctor camera_narrow scene_mirror (Config.ctor 2 2 1 3)

/-- The camera walk of `narrow_bdpt` for pixel `(0, 0)` from the generator state
`78858736`, in binary32 arithmetic (two vertices: the lens and a point of the mirror). -/
def narrow_run : Except Fault (List (Vertex ℚ) × Mersenne) :=
  BDPT.trace_camera_path binary32Ops 5 narrow_bdpt 0 0 ⟨78858736⟩

/-- One channel of the quotient `bxdf_colour / pdf_forward` the two walks compute at a
diffuse bounce, for the albedo channel `a` and the cosine `z` of the sample: the factor
`a * inv_pi` of `Lambert::sample` is a `float` product, `pdf_W = z * inv_pi` and
`cos_theta = z` are narrowed to `float`, and `pdf_forward = pdf_W / cos_theta` and the
quotient are `float` divisions. -/
def lambert_ratio {F : Type} [LinearOrderedField F] (M : FloatOps F) (a z : F) : F :=
  M.to_float (M.to_float (a * M.inv_pi)
    / M.to_float (M.to_float (z * M.inv_pi) / M.to_float z))

/-- The intersection record used to evaluate a diffuse bounce: a surface through the
origin facing `+z`, reached from above. -/
def idata_floor : Intersection ℚ :=
  ⟨⟨0, 0, 0⟩, ⟨0, 0, 1⟩, ⟨0, 0, 1⟩, ⟨0, 0, 1⟩, Orthogonal.default, 0⟩

/-- The throughput with which a walk step goes on. -/
def BDPT.Step.throughput {F : Type} : Except Fault (BDPT.Step F) → Option (Colour F)
  | Except.ok (BDPT.Step.next _ _ _ throughput) => some throughput
  | _ => none

section OrthogonalFacts
variable {F : Type} [LinearOrderedField F]

theorem sqrt_one_of_exact (M : FloatOps F) (hM : M.ExactSqrt) : M.sqrt 1 = 1 := by
  have h1 := hM.1 1 zero_le_one
  have h2 := hM.2 1
  nlinarith [h1, h2]

theorem sqrt_pos_of_exact (M : FloatOps F) (hM : M.ExactSqrt) {a : F} (ha : 0 < a) :
    0 < M.sqrt a := by
  have h1 := hM.1 a ha.le
  have h2 := hM.2 a
  rcases h2.lt_or_eq with h | h
  · exact h
  · rw [← h] at h1; simp at h1; linarith

theorem dot_self_nonneg (a : Double3 F) : 0 ≤ a.x * a.x + a.y * a.y + a.z * a.z := by
  nlinarith [mul_self_nonneg a.x, mul_self_nonneg a.y, mul_self_nonneg a.z]

/-- A vector of magnitude one has squared length one. -/
theorem dot_self_of_magnitude_one (M : FloatOps F) (hM : M.ExactSqrt) (n : Double3 F)
    (hn : n.magnitude M = 1) : n.x * n.x + n.y * n.y + n.z * n.z = 1 := by
  have h := hM.1 _ (dot_self_nonneg n)
  unfold Double3.magnitude at hn
  rw [hn] at h
  linarith

/-- Normalising a unit vector returns it unchanged. -/
theorem normalise_of_magnitude_one (M : FloatOps F) (n : Double3 F)
    (hn : n.magnitude M = 1) : n.normalise M = n := by
  unfold Double3.magnitude at hn
  simp [Double3.normalise, Double3.div, hn]

/-- The helper axis is never parallel to a unit normal: the cross product has positive
squared length. -/
theorem helper_cross_pos (n : Double3 F) (hn : n.x * n.x + n.y * n.y + n.z * n.z = 1) :
    let c := n.cross (if |n.x| > 8346665 / 8388608 then Double3.Y else Double3.X)
    0 < c.x * c.x + c.y * c.y + c.z * c.z := by
  intro c
  by_cases h : |n.x| > 8346665 / 8388608
  · have hx : 0 < n.x * n.x := by
      have : n.x ≠ 0 := by
        intro h0
        rw [h0] at h
        simp at h
        linarith
      exact mul_self_pos.mpr this
    simp only [c, h, if_true, Double3.cross, Double3.Y]
    nlinarith [mul_self_nonneg n.z]
  · have hx : |n.x| ≤ 8346665 / 8388608 := not_lt.mp h
    have hx2 : n.x * n.x ≤ (8346665 / 8388608) * (8346665 / 8388608) := by
      have := abs_le.mp hx
      nlinarith [this.1, this.2]
    simp only [c, h, if_false, Double3.cross, Double3.X]
    nlinarith [mul_self_nonneg n.z, mul_self_nonneg n.y]

/-- Components of the frame built from a unit normal, in terms of the normalising
factor `m` of the helper cross product. -/
theorem ctor_unit (M : FloatOps F) (hM : M.ExactSqrt) (n : Double3 F)
    (hn : n.magnitude M = 1) :
    ∃ (c : Double3 F) (m : F), 0 < m ∧ m * m = c.x * c.x + c.y * c.y + c.z * c.z ∧
      n.x * c.x + n.y * c.y + n.z * c.z = 0 ∧
      Orthogonal.ctor M n = ⟨(c.div m).cross n, c.div m, n⟩ := by
  have hz := normalise_of_magnitude_one M n hn
  have h1 := dot_self_of_magnitude_one M hM n hn
  have hpos := helper_cross_pos n h1
  refine ⟨n.cross (if |n.x| > 8346665 / 8388608 then Double3.Y else Double3.X),
    M.sqrt _, sqrt_pos_of_exact M hM hpos, hM.1 _ hpos.le, ?_, ?_⟩
  · simp only [Double3.cross]; ring
  · simp only [Orthogonal.ctor, hz]
    rfl

/-- Algebraic core of the frame facts: for a unit `n` and a unit `y` orthogonal to it,
`x = y × n` completes a right-handed orthonormal frame. -/
theorem frame_core (n y : Double3 F)
    (hn : n.x * n.x + n.y * n.y + n.z * n.z = 1)
    (hy : y.x * y.x + y.y * y.y + y.z * y.z = 1)
    (hyn : n.x * y.x + n.y * y.y + n.z * y.z = 0) :
    let x := y.cross n
    x.x * x.x + x.y * x.y + x.z * x.z = 1 ∧ x.dot y = 0 ∧ y.dot n = 0 ∧ x.dot n = 0 ∧
      x.cross y = n := by
  refine ⟨?_, ?_, ?_, ?_, ?_⟩
  · simp only [Double3.cross]
    linear_combination (n.x * n.x + n.y * n.y + n.z * n.z) * hy + hn
      - (n.x * y.x + n.y * y.y + n.z * y.z) * hyn
  · simp only [Double3.cross, Double3.dot]; ring
  · simp only [Double3.dot]; linear_combination hyn
  · simp only [Double3.cross, Double3.dot]; ring
  · ext
    · simp only [Double3.cross]; linear_combination n.x * hy - y.x * hyn
    · simp only [Double3.cross]; linear_combination n.y * hy - y.y * hyn
    · simp only [Double3.cross]; linear_combination n.z * hy - y.z * hyn

/-- The normalised helper cross product is a unit vector orthogonal to `n`. -/
theorem div_unit (n c : Double3 F) (m : F) (hm : 0 < m)
    (hmm : m * m = c.x * c.x + c.y * c.y + c.z * c.z)
    (hnc : n.x * c.x + n.y * c.y + n.z * c.z = 0) :
    (c.div m).x * (c.div m).x + (c.div m).y * (c.div m).y + (c.div m).z * (c.div m).z = 1 ∧
      n.x * (c.div m).x + n.y * (c.div m).y + n.z * (c.div m).z = 0 := by
  have hm0 : m ≠ 0 := hm.ne'
  constructor
  · simp only [Double3.div]
    field_simp
    linear_combination -hmm
  · simp only [Double3.div]
    field_simp
    linear_combination hnc

/-- **C4.** For every unit vector `n`, `Orthogonal(n)` yields `z = n`, three axes of
magnitude one, pairwise orthogonal, with `x × y = z` (a right-handed orthonormal frame). -/
theorem C4_orthogonal_frame (M : FloatOps F) (hM : M.ExactSqrt) (n : Double3 F)
    (hn : n.magnitude M = 1) :
    (Orthogonal.ctor M n).normal = n ∧
    (Orthogonal.ctor M n).tangent.magnitude M = 1 ∧
    (Orthogonal.ctor M n).bitangent.magnitude M = 1 ∧
    (Orthogonal.ctor M n).normal.magnitude M = 1 ∧
    (Orthogonal.ctor M n).tangent.dot (Orthogonal.ctor M n).bitangent = 0 ∧
    (Orthogonal.ctor M n).bitangent.dot (Orthogonal.ctor M n).normal = 0 ∧
    (Orthogonal.ctor M n).tangent.dot (Orthogonal.ctor M n).normal = 0 ∧
    (Orthogonal.ctor M n).tangent.cross (Orthogonal.ctor M n).bitangent
      = (Orthogonal.ctor M n).normal := by
  obtain ⟨c, m, hm, hmm, hnc, hctor⟩ := ctor_unit M hM n hn
  have hn1 := dot_self_of_magnitude_one M hM n hn
  obtain ⟨hy1, hyn⟩ := div_unit n c m hm hmm hnc
  obtain ⟨hx1, hxy, hyz, hxz, hcr⟩ := frame_core n (c.div m) hn1 hy1 hyn
  rw [hctor]
  simp only [Orthogonal.normal, Orthogonal.tangent, Orthogonal.bitangent]
  refine ⟨trivial, ?_, ?_, hn, hxy, hyz, hxz, hcr⟩
  · unfold Double3.magnitude
    rw [hx1]
    exact sqrt_one_of_exact M hM
  · unfold Double3.magnitude
    rw [hy1]
    exact sqrt_one_of_exact M hM

/-- The square root of the real model is exact. -/
theorem realOps_exact : realOps.ExactSqrt :=
  ⟨fun _ ha => Real.mul_self_sqrt ha, fun a => Real.sqrt_nonneg a⟩

/-- Witness for C4: the frame built over the reals from the unit vector `(0, 0, 1)`. -/
theorem C4_orthogonal_frame_witness :
    (Double3.mk (0 : ℝ) 0 1).magnitude realOps = 1 ∧
    (Orthogonal.ctor realOps (Double3.mk (0 : ℝ) 0 1)).tangent.cross
      (Orthogonal.ctor realOps (Double3.mk (0 : ℝ) 0 1)).bitangent
      = (Orthogonal.ctor realOps (Double3.mk (0 : ℝ) 0 1)).normal :=
  have hn : (Double3.mk (0 : ℝ) 0 1).magnitude realOps = 1 := by
    simp [Double3.magnitude, realOps]
  ⟨hn, (C4_orthogonal_frame realOps realOps_exact _ hn).2.2.2.2.2.2.2⟩

/-- **C5.** For every unit vector `n` and every vector `v`, the frame built by
`Orthogonal(n)` satisfies `to_local(to_world(v)) = v`. -/
theorem C5_to_local_to_world (M : FloatOps F) (hM : M.ExactSqrt) (n : Double3 F)
    (hn : n.magnitude M = 1) (v : Double3 F) :
    (Orthogonal.ctor M n).to_local ((Orthogonal.ctor M n).to_world v) = v := by
  obtain ⟨c, m, hm, hmm, hnc, hctor⟩ := ctor_unit M hM n hn
  have hn1 := dot_self_of_magnitude_one M hM n hn
  obtain ⟨hy1, hyn⟩ := div_unit n c m hm hmm hnc
  obtain ⟨hx1, hxy, hyz, hxz, -⟩ := frame_core n (c.div m) hn1 hy1 hyn
  rw [hctor]
  generalize c.div m = y at *
  simp only [Double3.dot] at hxy hyz hxz
  generalize hx : y.cross n = x at *
  ext
  · simp only [Orthogonal.to_local, Orthogonal.to_world, Double3.dot, Double3.add, Double3.mul]
    linear_combination v.x * hx1 + v.y * hxy + v.z * hxz
  · simp only [Orthogonal.to_local, Orthogonal.to_world, Double3.dot, Double3.add, Double3.mul]
    linear_combination v.x * hxy + v.y * hy1 + v.z * hyz
  · simp only [Orthogonal.to_local, Orthogonal.to_world, Double3.dot, Double3.add, Double3.mul]
    linear_combination v.x * hxz + v.y * hyz + v.z * hn1

/-- Witness for C5: the round trip of `(1, 2, 3)` through the frame of the unit vector
`(0, 1, 0)`, over the reals. -/
theorem C5_to_local_to_world_witness :
    (Double3.mk (0 : ℝ) 1 0).magnitude realOps = 1 ∧
    (Orthogonal.ctor realOps (Double3.mk (0 : ℝ) 1 0)).to_local
      ((Orthogonal.ctor realOps (Double3.mk (0 : ℝ) 1 0)).to_world (Double3.mk 1 2 3))
      = Double3.mk 1 2 3 :=
  have hn : (Double3.mk (0 : ℝ) 1 0).magnitude realOps = 1 := by
    simp [Double3.magnitude, realOps]
  ⟨hn, C5_to_local_to_world realOps realOps_exact _ hn _⟩

end OrthogonalFacts

/-! ## The pseudo random number generator -/

/-- Masking with a 32-bit constant makes a preceding reduction modulo `2^32` immaterial. -/
theorem mod_and_of_lt (a m : Nat) (hm : m < 2 ^ 32) : (a % 2 ^ 32) &&& m = a &&& m := by
  apply Nat.eq_of_testBit_eq
  intro i
  simp only [Nat.testBit_and, Nat.testBit_mod_two_pow]
  by_cases hi : i < 32
  · simp [hi]
  · have hmi : m.testBit i = false := by
      apply Nat.testBit_lt_two_pow
      exact lt_of_lt_of_le hm (Nat.pow_le_pow_right (by norm_num) (not_lt.mp hi))
    simp [hmi]

theorem xor_lt_two_pow32 {a b : Nat} (ha : a < 2 ^ 32) (hb : b < 2 ^ 32) :
    a ^^^ b < 2 ^ 32 := Nat.xor_lt_two_pow ha hb

theorem shiftRight_lt_two_pow32 {a : Nat} (ha : a < 2 ^ 32) (n : Nat) : a >>> n < 2 ^ 32 := by
  rw [Nat.shiftRight_eq_div_pow]
  exact lt_of_le_of_lt (Nat.div_le_self a (2 ^ n)) ha

theorem and_lt_two_pow32 (a : Nat) {m : Nat} (hm : m < 2 ^ 32) : a &&& m < 2 ^ 32 :=
  lt_of_le_of_lt Nat.and_le_right hm

/-- **C10.** `Mersenne::next` sets the state to
`(1812433253 * (seed XOR (seed >> 30)) + 1) mod 2^32` and returns that value tempered by
the four xor-shift steps; every intermediate value fits 32 bits, and `get_integer`
returns exactly this output. -/
theorem C10_mersenne_next (g : Mersenne) :
    g.next.2.seed = Mersenne_state_spec g.seed ∧
    g.next.1 = Mersenne_temper_spec (Mersenne_state_spec g.seed) ∧
    g.next.1 < 2 ^ 32 ∧
    g.get_integer = g.next := by
  have hstate : (((1812433253 * (g.seed ^^^ (g.seed >>> 30))) % 2 ^ 32 + 1) % 2 ^ 32)
      &&& 0xFFFFFFFF = Mersenne_state_spec g.seed := by
    unfold Mersenne_state_spec
    rw [Nat.mod_add_mod]
    have h := Nat.and_pow_two_sub_one_eq_mod ((1812433253 * (g.seed ^^^ (g.seed >>> 30)) + 1) % 2 ^ 32) 32
    have h2 : (2 : Nat) ^ 32 - 1 = 0xFFFFFFFF := by norm_num
    rw [h2] at h
    rw [h, Nat.mod_mod]
  have hlt : Mersenne_state_spec g.seed < 2 ^ 32 := Nat.mod_lt _ (by norm_num)
  refine ⟨hstate, ?_, ?_, rfl⟩
  · simp only [Mersenne.next, hstate, Mersenne_temper_spec]
    rw [mod_and_of_lt _ _ (by norm_num), mod_and_of_lt _ _ (by norm_num)]
  · simp only [Mersenne.next, hstate]
    generalize Mersenne_state_spec g.seed = x at hlt
    have h1 : x ^^^ (x >>> 11) < 2 ^ 32 := xor_lt_two_pow32 hlt (shiftRight_lt_two_pow32 hlt _)
    generalize x ^^^ (x >>> 11) = x1 at h1
    have h2 : x1 ^^^ (((x1 <<< 7) % 2 ^ 32) &&& 0x9D2C5680) < 2 ^ 32 :=
      xor_lt_two_pow32 h1 (and_lt_two_pow32 _ (by norm_num))
    generalize x1 ^^^ (((x1 <<< 7) % 2 ^ 32) &&& 0x9D2C5680) = x2 at h2
    have h3 : x2 ^^^ (((x2 <<< 15) % 2 ^ 32) &&& 0xEFC60000) < 2 ^ 32 :=
      xor_lt_two_pow32 h2 (and_lt_two_pow32 _ (by norm_num))
    generalize x2 ^^^ (((x2 <<< 15) % 2 ^ 32) &&& 0xEFC60000) = x3 at h3
    exact xor_lt_two_pow32 h3 (shiftRight_lt_two_pow32 h3 _)

/-! ## The seed of `process` -/

/-- Counterexample to C9 as stated: at pixel `(0, 0)` the state `process` gives the
generator is `0xD226`, not `0x1337 XOR 0xBEEF = 0xADD8`. -/
theorem C9_seed_not_xor :
    (Mersenne.ctor (BDPT.process_seed 0 0)).seed = 0xD226 ∧
    (((0 + 1) * 0x1337) ^^^ ((0 + 1) * 0xBEEF)) % 2 ^ 32 = 0xADD8 ∧
    (Mersenne.ctor (BDPT.process_seed 0 0)).seed
      ≠ (((0 + 1) * 0x1337) ^^^ ((0 + 1) * 0xBEEF)) % 2 ^ 32 := by
  decide

/-- **C9 (amended).** For 16-bit `x` and `y`, `process(x, y)` sets the generator state to
the sum `(x+1)*0x1337 + (y+1)*0xBEEF`, which fits 32 bits (no wrap-around). -/
theorem C9_seed_is_sum (x y : Nat) (hx : x < 2 ^ 16) (hy : y < 2 ^ 16) :
    (Mersenne.ctor (BDPT.process_seed x y)).seed = (x + 1) * 0x1337 + (y + 1) * 0xBEEF ∧
    (x + 1) * 0x1337 + (y + 1) * 0xBEEF < 2 ^ 32 := by
  have h : (x + 1) * 0x1337 + (y + 1) * 0xBEEF < 2 ^ 32 := by
    norm_num at hx hy ⊢
    omega
  refine ⟨?_, h⟩
  simp only [Mersenne.ctor, BDPT.process_seed]
  rw [Nat.mod_mod, Nat.mod_eq_of_lt h]

/-- Witness for C9 (amended): pixel `(399, 399)`. -/
theorem C9_seed_is_sum_witness :
    (Mersenne.ctor (BDPT.process_seed 399 399)).seed = (399 + 1) * 0x1337 + (399 + 1) * 0xBEEF ∧
    (399 + 1) * 0x1337 + (399 + 1) * 0xBEEF < 2 ^ 32 :=
  C9_seed_is_sum 399 399 (by norm_num) (by norm_num)

/-! ## Occlusion of a segment from its two ends -/

section Occlusion
variable {F : Type} [LinearOrderedField F]

/-- `intersect()` in terms of its four auxiliary quantities. -/
theorem intersect_eq_mt (g : Geometry.Triangle F) (ray : Section F) :
    g.intersect ray =
      if |g.mt_d ray| < 1 / 1000000 then -1
      else if g.mt_u ray < 0 ∨ g.mt_u ray > 1 then -2
      else if g.mt_v ray < 0 ∨ g.mt_u ray + g.mt_v ray > 1 then -3
      else if g.mt_t ray < 1 / 1000000 then -4 else g.mt_t ray := rfl

/-- The ray that starts `L` further along a line and runs backwards sees every triangle
with the same barycentric parameters, at the complementary distance. -/
theorem mt_reverse (g : Geometry.Triangle F) (o w : Double3 F) (L : F)
    (hd : g.mt_d ⟨o, w⟩ ≠ 0) :
    g.mt_d ⟨o.add (w.mul L), w.neg⟩ = -g.mt_d ⟨o, w⟩ ∧
    g.mt_u ⟨o.add (w.mul L), w.neg⟩ = g.mt_u ⟨o, w⟩ ∧
    g.mt_v ⟨o.add (w.mul L), w.neg⟩ = g.mt_v ⟨o, w⟩ ∧
    g.mt_t ⟨o.add (w.mul L), w.neg⟩ = L - g.mt_t ⟨o, w⟩ := by
  have h1 : g.mt_d ⟨o.add (w.mul L), w.neg⟩ = -g.mt_d ⟨o, w⟩ := by
    simp only [Geometry.Triangle.mt_d, Double3.dot, Double3.cross, Double3.neg]
    ring
  have hu : ((o.add (w.mul L)).sub g.position).dot (w.neg.cross g.edge2)
      = -((o.sub g.position).dot (w.cross g.edge2)) := by
    simp only [Double3.dot, Double3.cross, Double3.neg, Double3.add, Double3.sub, Double3.mul]
    ring
  have hv : w.neg.dot (((o.add (w.mul L)).sub g.position).cross g.edge1)
      = -(w.dot ((o.sub g.position).cross g.edge1)) := by
    simp only [Double3.dot, Double3.cross, Double3.neg, Double3.add, Double3.sub, Double3.mul]
    ring
  have ht : (((o.add (w.mul L)).sub g.position).cross g.edge1).dot g.edge2
      = ((o.sub g.position).cross g.edge1).dot g.edge2 - L * g.mt_d ⟨o, w⟩ := by
    simp only [Geometry.Triangle.mt_d, Double3.dot, Double3.cross, Double3.add, Double3.sub,
      Double3.mul]
    ring
  refine ⟨h1, ?_, ?_, ?_⟩
  · simp only [Geometry.Triangle.mt_u]
    rw [h1, hu]
    generalize g.mt_d ⟨o, w⟩ = d at hd
    field_simp
  · simp only [Geometry.Triangle.mt_v]
    rw [h1, hv]
    generalize g.mt_d ⟨o, w⟩ = d at hd
    field_simp
  · simp only [Geometry.Triangle.mt_t]
    rw [h1, ht]
    generalize g.mt_d ⟨o, w⟩ = d at hd
    have hneg : 1 / -d = -(1 / d) := by rw [div_neg]
    have hdd : d * (1 / d) = 1 := by field_simp
    rw [hneg]
    linear_combination L * hdd

/-- A triangle blocks the forward ray within `]0; L[` exactly when it blocks the
reversed ray, unless one of the two distances falls in the last `1e-6` before `L`. -/
theorem hit_reverse (g : Geometry.Triangle F) (o w : Double3 F) (L : F)
    (hf : ¬(L - 1 / 1000000 < g.intersect ⟨o, w⟩ ∧ g.intersect ⟨o, w⟩ < L))
    (hr : ¬(L - 1 / 1000000 < g.intersect ⟨o.add (w.mul L), w.neg⟩ ∧
            g.intersect ⟨o.add (w.mul L), w.neg⟩ < L)) :
    (g.intersect ⟨o, w⟩ > 0 ∧ g.intersect ⟨o, w⟩ < L) ↔
    (g.intersect ⟨o.add (w.mul L), w.neg⟩ > 0 ∧ g.intersect ⟨o.add (w.mul L), w.neg⟩ < L) := by
  rw [intersect_eq_mt] at hf ⊢
  rw [intersect_eq_mt g ⟨o.add (w.mul L), w.neg⟩] at hr ⊢
  by_cases hd : |g.mt_d ⟨o, w⟩| < 1 / 1000000
  · have hd' : |g.mt_d ⟨o.add (w.mul L), w.neg⟩| < 1 / 1000000 := by
      have : g.mt_d ⟨o.add (w.mul L), w.neg⟩ = -g.mt_d ⟨o, w⟩ := by
        simp only [Geometry.Triangle.mt_d, Double3.dot, Double3.cross, Double3.neg]
        ring
      rw [this, abs_neg]; exact hd
    rw [if_pos hd, if_pos hd']
  · have hd0 : g.mt_d ⟨o, w⟩ ≠ 0 := by
      intro h0
      apply hd
      rw [h0, abs_zero]
      norm_num
    obtain ⟨e1, e2, e3, e4⟩ := mt_reverse g o w L hd0
    have hd' : ¬ |g.mt_d ⟨o.add (w.mul L), w.neg⟩| < 1 / 1000000 := by
      rw [e1, abs_neg]; exact hd
    rw [if_neg hd] at hf ⊢
    rw [if_neg hd'] at hr ⊢
    rw [e2, e3, e4] at hr ⊢
    by_cases hu : g.mt_u ⟨o, w⟩ < 0 ∨ g.mt_u ⟨o, w⟩ > 1
    · rw [if_pos hu, if_pos hu]
    · rw [if_neg hu] at hf hr ⊢
      rw [if_neg hu]
      by_cases hv : g.mt_v ⟨o, w⟩ < 0 ∨ g.mt_u ⟨o, w⟩ + g.mt_v ⟨o, w⟩ > 1
      · rw [if_pos hv, if_pos hv]
      · rw [if_neg hv] at hf hr ⊢
        rw [if_neg hv]
        generalize g.mt_t ⟨o, w⟩ = t at hf hr ⊢
        by_cases ht : t < 1 / 1000000
        · rw [if_pos ht] at hf ⊢
          by_cases ht' : L - t < 1 / 1000000
          · rw [if_pos ht'] at hr ⊢
          · rw [if_neg ht'] at hr ⊢
            constructor
            · intro h; linarith [h.1]
            · intro h
              exfalso
              apply hr
              exact ⟨by linarith, h.2⟩
        · rw [if_neg ht] at hf ⊢
          by_cases ht' : L - t < 1 / 1000000
          · rw [if_pos ht'] at hr ⊢
            constructor
            · intro h
              exfalso
              apply hf
              exact ⟨by linarith, h.2⟩
            · intro h; linarith [h.1]
          · rw [if_neg ht'] at hr ⊢
            constructor
            · intro h
              exact ⟨by linarith, by linarith [h.1]⟩
            · intro h
              exact ⟨by linarith [h.2], by linarith [h.1]⟩

end Occlusion

section OcclusionSymmetry
variable {F : Type} [LinearOrderedField F]

theorem magnitude_sub_comm (M : FloatOps F) (a b : Double3 F) :
    (a.sub b).magnitude M = (b.sub a).magnitude M := by
  unfold Double3.magnitude
  congr 1
  simp only [Double3.sub]
  ring

theorem magnitude_sub_pos (M : FloatOps F) (hM : M.ExactSqrt) (a b : Double3 F) (hab : a ≠ b) :
    0 < (b.sub a).magnitude M := by
  apply sqrt_pos_of_exact M hM
  have h0 := dot_self_nonneg (b.sub a)
  rcases h0.lt_or_eq with h | h
  · exact h
  · exfalso
    apply hab
    simp only [Double3.sub] at h
    have hx : b.x - a.x = 0 := by
      nlinarith [mul_self_nonneg (b.x - a.x), mul_self_nonneg (b.y - a.y),
        mul_self_nonneg (b.z - a.z)]
    have hy : b.y - a.y = 0 := by
      nlinarith [mul_self_nonneg (b.x - a.x), mul_self_nonneg (b.y - a.y),
        mul_self_nonneg (b.z - a.z)]
    have hz : b.z - a.z = 0 := by
      nlinarith [mul_self_nonneg (b.x - a.x), mul_self_nonneg (b.y - a.y),
        mul_self_nonneg (b.z - a.z)]
    ext <;> linarith

/-- The query ray from `b` towards `a` is the query ray from `a` towards `b` run
backwards from the far end of the tested stretch. -/
theorem segment_ray_reverse (M : FloatOps F) (hM : M.ExactSqrt) (a b : Double3 F)
    (hab : a ≠ b) :
    BDPT.segment_ray M b a =
      ⟨(BDPT.segment_ray M a b).origin.add
          ((BDPT.segment_ray M a b).direction.mul (BDPT.segment_limit M a b)),
        (BDPT.segment_ray M a b).direction.neg⟩ := by
  have hD := magnitude_sub_pos M hM a b hab
  have hc := magnitude_sub_comm M a b
  unfold Double3.magnitude at hD hc
  simp only [BDPT.segment_ray, BDPT.segment_limit, Section.ctor_eps, Double3.normalise,
    Double3.magnitude, Double3.div, Double3.add, Double3.mul, Double3.neg]
  rw [hc]
  generalize M.sqrt ((b.sub a).x * (b.sub a).x + (b.sub a).y * (b.sub a).y
    + (b.sub a).z * (b.sub a).z) = D at hD
  have hD0 : D ≠ 0 := hD.ne'
  simp only [Double3.sub]
  congr 1
  · congr 1 <;> (field_simp; ring)
  · congr 1 <;> (field_simp)

theorem any_congr_mem {α : Type} (l : List α) (p q : α → Bool)
    (h : ∀ x ∈ l, p x = q x) : l.any p = l.any q := by
  induction l with
  | nil => rfl
  | cons x xs ih =>
    simp only [List.any_cons]
    rw [h x (List.mem_cons_self _ _), ih (fun y hy => h y (List.mem_cons_of_mem _ hy))]

/-- Counterexample to C7 as stated: a triangle crossing the segment from `(0,0,0)` to
`(0,0,1)` at `z = 21/2000000` is missed by the query from the near end (its distance
`5e-7` is below the cut-off `1e-6` of `intersect`) and found by the query from the far
end. -/
theorem C7_occlusion_not_symmetric :
    BDPT.segment_occluded rationalOps scene_near_end ⟨0, 0, 0⟩ ⟨0, 0, 1⟩ = false ∧
    BDPT.segment_occluded rationalOps scene_near_end ⟨0, 0, 1⟩ ⟨0, 0, 0⟩ = true := by
  decide!

/-- **C7 (amended).** For every list of triangles and every two distinct points `a`, `b`,
the two visibility queries (from `a` towards `b` and from `b` towards `a`, both with
limit `|b-a| - 2*EPSILON_RAY`) return the same boolean, provided neither query ray meets
a triangle at a distance within the last `1e-6` before the limit. -/
theorem C7_occlusion_symmetric (M : FloatOps F) (hM : M.ExactSqrt) (sc : Scene F)
    (a b : Double3 F) (hab : a ≠ b)
    (hf : ∀ g ∈ sc.geometry,
      ¬(BDPT.segment_limit M a b - 1 / 1000000 < g.intersect (BDPT.segment_ray M a b) ∧
        g.intersect (BDPT.segment_ray M a b) < BDPT.segment_limit M a b))
    (hr : ∀ g ∈ sc.geometry,
      ¬(BDPT.segment_limit M b a - 1 / 1000000 < g.intersect (BDPT.segment_ray M b a) ∧
        g.intersect (BDPT.segment_ray M b a) < BDPT.segment_limit M b a)) :
    BDPT.segment_occluded M sc a b = BDPT.segment_occluded M sc b a := by
  have hL : BDPT.segment_limit M b a = BDPT.segment_limit M a b := by
    unfold BDPT.segment_limit
    rw [magnitude_sub_comm]
  have hray := segment_ray_reverse M hM a b hab
  unfold BDPT.segment_occluded Scene.occluded
  rw [hL] at hr ⊢
  rw [hray] at hr ⊢
  apply any_congr_mem
  intro g hg
  have h := hit_reverse g (BDPT.segment_ray M a b).origin (BDPT.segment_ray M a b).direction
    (BDPT.segment_limit M a b) (hf g hg) (hr g hg)
  exact decide_eq_decide.mpr h

end OcclusionSymmetry

/-- Witness for C7 (amended): over the reals, a triangle crossing the segment from
`(0,0,0)` to `(0,0,1)` half-way is seen from both ends. -/
theorem C7_occlusion_symmetric_witness :
    BDPT.segment_occluded realOps
        ⟨[⟨⟨-1, -1, 1 / 2⟩, ⟨3, 0, 0⟩, ⟨0, 3, 0⟩, ⟨0, 0, 1⟩, Orthogonal.default, 0⟩], [], []⟩
        ⟨0, 0, 0⟩ ⟨0, 0, 1⟩ =
      BDPT.segment_occluded realOps
        ⟨[⟨⟨-1, -1, 1 / 2⟩, ⟨3, 0, 0⟩, ⟨0, 3, 0⟩, ⟨0, 0, 1⟩, Orthogonal.default, 0⟩], [], []⟩
        ⟨0, 0, 1⟩ ⟨0, 0, 0⟩ := by
  apply C7_occlusion_symmetric realOps realOps_exact
  · intro h
    have := congrArg Double3.z h
    norm_num at this
  · intro g hg
    simp only [List.mem_singleton] at hg
    subst hg
    simp only [BDPT.segment_limit, BDPT.segment_ray, Section.ctor_eps, Double3.normalise,
      Double3.magnitude, Double3.sub, Double3.div, Double3.mul, Double3.add, realOps,
      EPSILON_RAY, Geometry.Triangle.intersect, Double3.cross, Double3.dot]
    norm_num
  · intro g hg
    simp only [List.mem_singleton] at hg
    subst hg
    simp only [BDPT.segment_limit, BDPT.segment_ray, Section.ctor_eps, Double3.normalise,
      Double3.magnitude, Double3.sub, Double3.div, Double3.mul, Double3.add, realOps,
      EPSILON_RAY, Geometry.Triangle.intersect, Double3.cross, Double3.dot]
    norm_num

/-! ## Projection of a primary ray back onto the sensor -/

section SensorRoundTrip
variable {F : Type} [LinearOrderedField F]

theorem sqrt_mul_self_of_exact (M : FloatOps F) (hM : M.ExactSqrt) {d : F} (hd : 0 ≤ d) :
    M.sqrt (d * d) = d := by
  have h1 := hM.1 (d * d) (mul_self_nonneg d)
  have h2 := hM.2 (d * d)
  nlinarith [h1, h2, hd]

/-- What `sensor()` returns in exact arithmetic for a point on the primary ray of pixel
`(x, y)`: the sensor coordinates are those `generate_ray()` used,
`a = (x + rnd_x) * dx - 0.5` and `b = (y + rnd_y) * dy - 0.5`. -/
theorem sensor_of_primary_ray (M : FloatOps F) (hM : M.ExactSqrt) (hE : M.ExactFloat)
    (c : Camera F) (hc : c.Orthonormal) (hs : c.scalar ≠ 0) (ha : c.aspect_ratio ≠ 0)
    (x y : Nat) (u1 u2 d : F) (hd : 0 < d) :
    c.sensor M (c.position.add (((c.ray_direction x y u1 u2).normalise M).mul d)) c.position =
      if |((x : F) + (u1 - 1 / 2)) * c.dx - 1 / 2| > 1 / 2 ∨
          |((y : F) + (u2 - 1 / 2)) * c.dy - 1 / 2| > 1 / 2 then (0, 0, false)
      else ((((x : F) + (u1 - 1 / 2)) * c.dx - 1 / 2 + 1 / 2) * (c.image_width : F),
            (((y : F) + (u2 - 1 / 2)) * c.dy - 1 / 2 + 1 / 2) * (c.image_height : F), true) := by
  obtain ⟨hff, hrr, huu, hfr, hfu, hru⟩ := hc
  simp only [Double3.dot] at hff hrr huu hfr hfu hru
  set a := ((x : F) + (u1 - 1 / 2)) * c.dx - 1 / 2 with ha_def
  set b := ((y : F) + (u2 - 1 / 2)) * c.dy - 1 / 2 with hb_def
  set dir := c.ray_direction x y u1 u2 with hdir
  have hdx : dir.x = c.forward.x + c.right.x * c.scalar * a
      + c.up.x * c.scalar / c.aspect_ratio * b := rfl
  have hdy : dir.y = c.forward.y + c.right.y * c.scalar * a
      + c.up.y * c.scalar / c.aspect_ratio * b := rfl
  have hdz : dir.z = c.forward.z + c.right.z * c.scalar * a
      + c.up.z * c.scalar / c.aspect_ratio * b := rfl
  clear_value a b
  have hdf : dir.x * c.forward.x + dir.y * c.forward.y + dir.z * c.forward.z = 1 := by
    rw [hdx, hdy, hdz]
    linear_combination hff + c.scalar * a * hfr + c.scalar / c.aspect_ratio * b * hfu
  have hdr : dir.x * c.right.x + dir.y * c.right.y + dir.z * c.right.z = c.scalar * a := by
    rw [hdx, hdy, hdz]
    linear_combination hfr + c.scalar * a * hrr + c.scalar / c.aspect_ratio * b * hru
  have hdu : dir.x * c.up.x + dir.y * c.up.y + dir.z * c.up.z
      = c.scalar / c.aspect_ratio * b := by
    rw [hdx, hdy, hdz]
    linear_combination hfu + c.scalar * a * hru + c.scalar / c.aspect_ratio * b * huu
  have hdd : dir.x * dir.x + dir.y * dir.y + dir.z * dir.z
      = 1 + (c.scalar * a) ^ 2 + (c.scalar / c.aspect_ratio * b) ^ 2 := by
    have e1 : dir.x * dir.x + dir.y * dir.y + dir.z * dir.z
        = (dir.x * c.forward.x + dir.y * c.forward.y + dir.z * c.forward.z)
          + c.scalar * a * (dir.x * c.right.x + dir.y * c.right.y + dir.z * c.right.z)
          + c.scalar / c.aspect_ratio * b
            * (dir.x * c.up.x + dir.y * c.up.y + dir.z * c.up.z) := by
      nth_rewrite 2 [hdx]
      nth_rewrite 2 [hdy]
      nth_rewrite 2 [hdz]
      ring
    rw [e1, hdf, hdr, hdu]
    ring
  have hpos : 0 < dir.x * dir.x + dir.y * dir.y + dir.z * dir.z := by
    rw [hdd]; positivity
  set m := M.sqrt (dir.x * dir.x + dir.y * dir.y + dir.z * dir.z) with hm_def
  have hm : 0 < m := sqrt_pos_of_exact M hM hpos
  have hmm : m * m = dir.x * dir.x + dir.y * dir.y + dir.z * dir.z := hM.1 _ hpos.le
  have hm0 : m ≠ 0 := hm.ne'
  have hd0 : d ≠ 0 := hd.ne'
  have hw : ((c.position.add ((dir.normalise M).mul d)).sub c.position)
      = ⟨dir.x / m * d, dir.y / m * d, dir.z / m * d⟩ := by
    simp only [Double3.add, Double3.sub, Double3.mul, Double3.normalise, Double3.div]
    ext <;> simp [hm_def]
  have hed : ((c.position.add ((dir.normalise M).mul d)).sub c.position).normalise M
      = dir.div m := by
    rw [hw]
    have hsq : dir.x / m * d * (dir.x / m * d) + dir.y / m * d * (dir.y / m * d)
        + dir.z / m * d * (dir.z / m * d) = d * d := by
      field_simp
      linear_combination (-(d ^ 2)) * hmm
    simp only [Double3.normalise, Double3.div]
    rw [hsq, sqrt_mul_self_of_exact M hM hd.le]
    ext <;> (simp only []; field_simp; ring)
  have hcos : (dir.div m).dot c.forward = 1 / m := by
    simp only [Double3.div, Double3.dot]
    field_simp
    linear_combination hdf
  have hx : (dir.div m).dot c.right / ((dir.div m).dot c.forward * c.scalar) = a := by
    rw [hcos]
    simp only [Double3.div, Double3.dot]
    field_simp
    linear_combination hdr
  have hdu2 : (dir.x * c.up.x + dir.y * c.up.y + dir.z * c.up.z) * c.aspect_ratio
      = c.scalar * b := by
    rw [hdu]; field_simp
  have hy : (dir.div m).dot c.up
      / ((dir.div m).dot c.forward * c.scalar / c.aspect_ratio) = b := by
    rw [hcos]
    simp only [Double3.div, Double3.dot]
    field_simp
    linear_combination m * hdu2
  have hcpos : ¬ (dir.div m).dot c.forward ≤ 0 := by
    rw [hcos]
    exact not_le.mpr (by positivity)
  simp only [Camera.sensor]
  rw [hed, if_neg hcpos, hx, hy]
  simp only [hE _]

end SensorRoundTrip

theorem sqrt_640000 : Real.sqrt 640000 = 800 := by
  rw [show (640000 : ℝ) = 800 * 800 by norm_num]
  exact Real.sqrt_mul_self (by norm_num)

/-- **C6 (failing input).** For the camera of `main.cpp` (400 x 400 pixels, focal length
50), over the reals: a point at depth 1 on the primary ray of pixel `(0, 0)` with jitter
`(1/4, 1/4)` is rejected by `sensor()` (`valid = false`), and a point on the primary ray
through the centre of pixel `(399, 399)` is mapped to pixel coordinates `(400, 400)`. -/
theorem C6_round_trip_fails :
    ∃ c : Camera ℝ,
      Camera.ctor realOps ⟨-278, -800, 273⟩ ⟨-278, 0, 273⟩ 50 (Config.ctor 400 400 25 5)
        = Except.ok c ∧
      c.sensor realOps
        (c.position.add (((c.ray_direction 0 0 (1 / 4) (1 / 4)).normalise realOps).mul 1))
        c.position = (0, 0, false) ∧
      c.sensor realOps
        (c.position.add (((c.ray_direction 399 399 (1 / 2) (1 / 2)).normalise realOps).mul 1))
        c.position = (400, 400, true) := by
  refine ⟨Camera.mk 36 24 1 400 400 ⟨-278, -800, 273⟩ ⟨0, 1, 0⟩ ⟨1, 0, 0⟩ ⟨0, 0, -1⟩
    (324 / 625) 50 1 (18 / 25) (1 / 399) (1 / 399), ?_, ?_, ?_⟩
  · simp only [Camera.ctor, Config.ctor, Double3.sub, Double3.magnitude, Double3.normalise,
      Double3.div, Double3.cross, Double3.dot, Double3.neg, Double3.Z, Double3.X, realOps,
      EPSILON_RAY]
    norm_num [sqrt_640000]
  · rw [sensor_of_primary_ray realOps realOps_exact (fun _ => rfl) _
      (by norm_num [Camera.Orthonormal, Double3.dot]) (by norm_num) (by norm_num) 0 0 _ _ 1
      (by norm_num)]
    norm_num [abs_of_neg]
  · rw [sensor_of_primary_ray realOps realOps_exact (fun _ => rfl) _
      (by norm_num [Camera.Orthonormal, Double3.dot]) (by norm_num) (by norm_num) 399 399 _ _ 1
      (by norm_num)]
    have h : |(1 / 2 : ℝ)| = 1 / 2 := abs_of_pos (by norm_num)
    norm_num [h]

/-! ## Evaluations on concrete paths -/

/-- **C1 (failing input).** For the full path light point, wall point, camera in
`scene_wall_light` the three weights are `W_0 = 10680707/201783683`,
`W_1 = 191102976/201783683` and `W_2 = 6921098136/133035900011`: `W_0 + W_1` is already
`1`, and the sum of all three exceeds `1` by `W_2`. -/
theorem C1_weights_do_not_sum_to_one :
    weights_wall_light.toOption
      = some (10680707 / 201783683, 191102976 / 201783683, 6921098136 / 133035900011) ∧
    (10680707 / 201783683 + 191102976 / 201783683 + 6921098136 / 133035900011 : ℚ)
      = 1 + 6921098136 / 133035900011 ∧
    (10680707 / 201783683 + 191102976 / 201783683 + 6921098136 / 133035900011 : ℚ) ≠ 1 := by
  refine ⟨by decide!, by norm_num, by norm_num⟩

/-- **C2 (failing input).** For the two walks of `connections_wall_light`, `process()`
evaluates four terms.  Type 1 joins `camera_path[2]` with `Weight(0, 3)` and Type 3 joins
`emission_path[1]` and `camera_path[1]` with `Weight(2, 2)`; but Type 2a joins
`camera_path[1]` to `y0` with `Weight(1, 1)` (whose camera endpoint is `camera_path[0]`),
and Type 2b joins `emission_path[1]` to the lens with `Weight(1, 1)` (whose light endpoint
is `emission_path[0]`). -/
theorem C2_weight_arguments_off_by_one :
    connections_wall_light.toOption
      = some [(BDPT.ConnectionType.Type1, none, some 2, 0, 3),
              (BDPT.ConnectionType.Type2a, some 0, some 1, 1, 1),
              (BDPT.ConnectionType.Type2b, some 1, some 0, 1, 1),
              (BDPT.ConnectionType.Type3, some 1, some 1, 2, 2)] := by
  decide!

/-! ## Per-pixel determinism of `process` -/

section Determinism
variable {F : Type} [LinearOrderedField F]

theorem splash_dims (s : Sensor F) (px py : Nat) (c : Colour F) :
    (s.splash px py c).image_width = s.image_width ∧
    (s.splash px py c).image_height = s.image_height := by
  unfold Sensor.splash
  split_ifs <;> exact ⟨rfl, rfl⟩

theorem foldl_apply_fst (cs : List (BDPT.Contribution F)) (acc : Colour F) (s s' : Sensor F) :
    (cs.foldl BDPT.apply_contribution (acc, s)).1
      = (cs.foldl BDPT.apply_contribution (acc, s')).1 := by
  induction cs generalizing acc s s' with
  | nil => rfl
  | cons c cs ih =>
    simp only [List.foldl_cons, BDPT.apply_contribution]
    cases c.splash with
    | none => exact ih _ _ _
    | some pxy => exact ih _ _ _

theorem foldl_apply_dims (cs : List (BDPT.Contribution F)) (acc : Colour F) (s : Sensor F) :
    (cs.foldl BDPT.apply_contribution (acc, s)).2.image_width = s.image_width ∧
    (cs.foldl BDPT.apply_contribution (acc, s)).2.image_height = s.image_height := by
  induction cs generalizing acc s with
  | nil => exact ⟨rfl, rfl⟩
  | cons c cs ih =>
    simp only [List.foldl_cons, BDPT.apply_contribution]
    cases c.splash with
    | none => exact ih _ _
    | some pxy =>
      obtain ⟨h1, h2⟩ := ih acc (s.splash pxy.1 pxy.2 c.value)
      obtain ⟨h3, h4⟩ := splash_dims s pxy.1 pxy.2 c.value
      exact ⟨h1.trans h3, h2.trans h4⟩

omit [LinearOrderedField F] in
theorem pixel_written (s : Sensor F) (x y : Nat) (c : Colour F)
    (hx : x < s.image_width) (hy : y < s.image_height) :
    (s.pixel x y c).p_pixel (x + y * s.image_width) = c := by
  unfold Sensor.pixel
  rw [if_neg (by omega)]
  simp

variable [FloorRing F]

theorem sample_step_same (M : FloatOps F) (fuel : Nat) (b : BDPT F) (x y w h : Nat)
    (p : Mersenne) (acc : Colour F) (s1 s2 : Sensor F) (i : Nat)
    (hw1 : s1.image_width = w) (hh1 : s1.image_height = h)
    (hw2 : s2.image_width = w) (hh2 : s2.image_height = h) :
    SameRun w h (BDPT.sample_step M fuel b x y (p, acc, s1) i)
      (BDPT.sample_step M fuel b x y (p, acc, s2) i) := by
  unfold BDPT.sample_step
  cases hr : BDPT.sample_paths M fuel b x y p with
  | error e => simp [SameRun, bind, Except.bind]
  | ok r =>
    simp only [bind, Except.bind, pure, Except.pure, SameRun]
    refine ⟨trivial, foldl_apply_fst _ _ _ _, ?_, ?_, ?_, ?_⟩
    · exact (foldl_apply_dims r.2 acc s1).1.trans hw1
    · exact (foldl_apply_dims r.2 acc s1).2.trans hh1
    · exact (foldl_apply_dims r.2 acc s2).1.trans hw2
    · exact (foldl_apply_dims r.2 acc s2).2.trans hh2

theorem sample_loop_same (M : FloatOps F) (fuel : Nat) (b : BDPT F) (x y w h : Nat)
    (l : List Nat) (p : Mersenne) (acc : Colour F) (s1 s2 : Sensor F)
    (hw1 : s1.image_width = w) (hh1 : s1.image_height = h)
    (hw2 : s2.image_width = w) (hh2 : s2.image_height = h) :
    SameRun w h (l.foldlM (BDPT.sample_step M fuel b x y) (p, acc, s1))
      (l.foldlM (BDPT.sample_step M fuel b x y) (p, acc, s2)) := by
  induction l generalizing p acc s1 s2 with
  | nil => exact ⟨rfl, rfl, hw1, hh1, hw2, hh2⟩
  | cons i l ih =>
    simp only [List.foldlM_cons]
    have hs := sample_step_same M fuel b x y w h p acc s1 s2 i hw1 hh1 hw2 hh2
    cases h1 : BDPT.sample_step M fuel b x y (p, acc, s1) i with
    | error e1 =>
      cases h2 : BDPT.sample_step M fuel b x y (p, acc, s2) i with
      | error e2 =>
        rw [h1, h2] at hs
        simpa [SameRun, bind, Except.bind] using hs
      | ok r2 => rw [h1, h2] at hs; exact hs.elim
    | ok r1 =>
      cases h2 : BDPT.sample_step M fuel b x y (p, acc, s2) i with
      | error e2 => rw [h1, h2] at hs; exact hs.elim
      | ok r2 =>
        rw [h1, h2] at hs
        obtain ⟨e1, e2, a1, a2, a3, a4⟩ := hs
        obtain ⟨p1, acc1, t1⟩ := r1
        obtain ⟨p2, acc2, t2⟩ := r2
        simp only at e1 e2 a1 a2 a3 a4
        subst e1 e2
        simp only [bind, Except.bind]
        exact ih p1 acc1 t1 t2 a1 a2 a3 a4

/-- **C8.** The colour `process(x, y)` writes into pixel cell `(x, y)`, and the generator
state it leaves, are the same in any two runs: they depend neither on the generator state
before the call nor on the content of the pixel and splat buffers (on which pixels were
processed before).  Both runs also fail alike. -/
theorem C8_process_deterministic (M : FloatOps F) (fuel : Nat) (b : BDPT F)
    (st1 st2 : Mersenne × Sensor F) (x y : Nat)
    (hw : st1.2.image_width = st2.2.image_width)
    (hh : st1.2.image_height = st2.2.image_height)
    (hx : x < st1.2.image_width) (hy : y < st1.2.image_height) :
    (BDPT.process M fuel b st1 x y).map
        (fun r => (r.1, r.2.p_pixel (x + y * st1.2.image_width)))
      = (BDPT.process M fuel b st2 x y).map
        (fun r => (r.1, r.2.p_pixel (x + y * st1.2.image_width))) := by
  have hs := sample_loop_same M fuel b x y st1.2.image_width st1.2.image_height
    (List.range b.max_samples) (Mersenne.ctor (BDPT.process_seed x y)) Colour.Black
    st1.2 st2.2 rfl rfl hw.symm hh.symm
  simp only [BDPT.process]
  cases h1 : (List.range b.max_samples).foldlM (BDPT.sample_step M fuel b x y)
      (Mersenne.ctor (BDPT.process_seed x y), Colour.Black, st1.2) with
  | error e1 =>
    cases h2 : (List.range b.max_samples).foldlM (BDPT.sample_step M fuel b x y)
        (Mersenne.ctor (BDPT.process_seed x y), Colour.Black, st2.2) with
    | error e2 =>
      rw [h1, h2] at hs
      simp only [SameRun] at hs
      subst hs
      rfl
    | ok r2 => rw [h1, h2] at hs; exact hs.elim
  | ok r1 =>
    cases h2 : (List.range b.max_samples).foldlM (BDPT.sample_step M fuel b x y)
        (Mersenne.ctor (BDPT.process_seed x y), Colour.Black, st2.2) with
    | error e2 => rw [h1, h2] at hs; exact hs.elim
    | ok r2 =>
      rw [h1, h2] at hs
      obtain ⟨e1, e2, a1, a2, a3, a4⟩ := hs
      simp only [bind, Except.bind, pure, Except.pure, Except.map]
      have p1 := pixel_written r1.2.2 x y r1.2.1 (by rw [a1]; exact hx) (by rw [a2]; exact hy)
      have p2 := pixel_written r2.2.2 x y r2.2.1 (by rw [a3]; exact hx) (by rw [a4]; exact hy)
      rw [a1] at p1
      rw [a3] at p2
      rw [p1, p2, e1, e2]

end Determinism

/-- Witness for C8: pixel `(200, 200)` of `scene_wall_light`, one sample, started once
from a fresh generator and a black sensor and once from another generator state and a
sensor whose two buffers are white: both runs return, with the same pixel colour. -/
theorem C8_process_deterministic_witness :
    (BDPT.process rationalOps 10
        (BDPT.ctor (Camera.mk 36 24 1 400 400 ⟨0, 0, 0⟩ ⟨0, 1, 0⟩ ⟨1, 0, 0⟩ ⟨0, 0, -1⟩
          (324 / 625) 50 1 (18 / 25) (1 / 399) (1 / 399)) scene_wall_light
          (Config.ctor 400 400 1 5))
        (Mersenne.default, Sensor.mk (fun _ => Colour.Black) (fun _ => Colour.Black) 400 400 1)
        200 200).toOption.isSome = true ∧
    (BDPT.process rationalOps 10
        (BDPT.ctor (Camera.mk 36 24 1 400 400 ⟨0, 0, 0⟩ ⟨0, 1, 0⟩ ⟨1, 0, 0⟩ ⟨0, 0, -1⟩
          (324 / 625) 50 1 (18 / 25) (1 / 399) (1 / 399)) scene_wall_light
          (Config.ctor 400 400 1 5))
        (Mersenne.default, Sensor.mk (fun _ => Colour.Black) (fun _ => Colour.Black) 400 400 1)
        200 200).map (fun r => (r.1, r.2.p_pixel (200 + 200 * 400)))
      = (BDPT.process rationalOps 10
        (BDPT.ctor (Camera.mk 36 24 1 400 400 ⟨0, 0, 0⟩ ⟨0, 1, 0⟩ ⟨1, 0, 0⟩ ⟨0, 0, -1⟩
          (324 / 625) 50 1 (18 / 25) (1 / 399) (1 / 399)) scene_wall_light
          (Config.ctor 400 400 1 5))
        (Mersenne.ctor 7, Sensor.mk (fun _ => Colour.White) (fun _ => Colour.White) 400 400 1)
        200 200).map (fun r => (r.1, r.2.p_pixel (200 + 200 * 400))) :=
  ⟨by decide!, C8_process_deterministic rationalOps 10 _ _ _ 200 200 rfl rfl
    (by decide) (by decide)⟩

/-! ## The divisions of the march loops of `Weight` -/

section WeightDivisions
variable {F : Type} [LinearOrderedField F]

theorem bind_eq_ok {α β : Type} {x : Except Fault α} {f : α → Except Fault β} {b : β}
    (h : (x >>= f) = Except.ok b) : ∃ a, x = Except.ok a ∧ f a = Except.ok b := by
  cases x with
  | error e => exact Except.noConfusion h
  | ok a => exact ⟨a, rfl, h⟩

theorem foldlM_inv {α σ : Type} (f : σ → α → Except Fault σ) (P : σ → Prop) (l : List α)
    (h : ∀ a st st', a ∈ l → P st → f st a = Except.ok st' → P st') :
    ∀ st st', P st → l.foldlM f st = Except.ok st' → P st' := by
  induction l with
  | nil =>
    intro st st' hP hr
    simp only [List.foldlM_nil, pure, Except.pure] at hr
    cases hr
    exact hP
  | cons a l ih =>
    intro st st' hP hr
    simp only [List.foldlM_cons] at hr
    obtain ⟨st1, h1, h2⟩ := bind_eq_ok hr
    exact ih (fun a' s1 s2 ha' => h a' s1 s2 (List.mem_cons_of_mem _ ha')) st1 st'
      (h a st st1 (List.mem_cons_self _ _) hP h1) h2

theorem vec_at_ok {α : Type} {v : List α} {i : Nat} {a : α} (h : vec_at v i = Except.ok a) :
    v[i]? = some a := by
  unfold vec_at at h
  cases hv : v[i]? with
  | none => rw [hv] at h; exact Except.noConfusion h
  | some x => rw [hv] at h; cases h; rfl

theorem vec_at_mem_take {α : Type} {v : List α} {i n : Nat} {a : α}
    (h : vec_at v i = Except.ok a) (hi : i < n) : a ∈ v.take n := by
  have h1 := vec_at_ok h
  rw [List.mem_iff_getElem?]
  exact ⟨i, by rw [List.getElem?_take_of_lt hi]; exact h1⟩

omit [LinearOrderedField F] in
theorem node_get_ok {node : NodeArray F} {i : Nat} {n : Node F}
    (h : node_get node i = Except.ok n) : node i = some n := by
  unfold node_get at h
  cases hv : node i with
  | none => rw [hv] at h; exact Except.noConfusion h
  | some x => rw [hv] at h; cases h; rfl

end WeightDivisions

section WeightDivisions2
variable {F : Type} [LinearOrderedField F]

theorem map_eq_ok {α β : Type} {x : Except Fault α} {f : α → β} {b : β}
    (h : x.map f = Except.ok b) : ∃ a, x = Except.ok a ∧ f a = b := by
  cases x with
  | error e => exact Except.noConfusion h
  | ok a => exact ⟨a, rfl, by cases h; rfl⟩

end WeightDivisions2

section WeightDivisions4
variable {F : Type} [LinearOrderedField F]

end WeightDivisions4

/-! ## The range of `get_float` -/

/-- The output of `next()` fits 32 bits, whatever the state. -/
theorem next_lt_two_pow32 (g : Mersenne) : g.next.1 < 2 ^ 32 := by
  simp only [Mersenne.next]
  have hlt : ((1812433253 * (g.seed ^^^ (g.seed >>> 30))) % 2 ^ 32 + 1) % 2 ^ 32
      &&& 0xFFFFFFFF < 2 ^ 32 := and_lt_two_pow32 _ (by norm_num)
  generalize ((1812433253 * (g.seed ^^^ (g.seed >>> 30))) % 2 ^ 32 + 1) % 2 ^ 32
      &&& 0xFFFFFFFF = x at hlt
  have h1 : x ^^^ (x >>> 11) < 2 ^ 32 := xor_lt_two_pow32 hlt (shiftRight_lt_two_pow32 hlt _)
  generalize x ^^^ (x >>> 11) = x1 at h1
  have h2 : x1 ^^^ (((x1 <<< 7) % 2 ^ 32) &&& 0x9D2C5680) < 2 ^ 32 :=
    xor_lt_two_pow32 h1 (and_lt_two_pow32 _ (by norm_num))
  generalize x1 ^^^ (((x1 <<< 7) % 2 ^ 32) &&& 0x9D2C5680) = x2 at h2
  have h3 : x2 ^^^ (((x2 <<< 15) % 2 ^ 32) &&& 0xEFC60000) < 2 ^ 32 :=
    xor_lt_two_pow32 h2 (and_lt_two_pow32 _ (by norm_num))
  generalize x2 ^^^ (((x2 <<< 15) % 2 ^ 32) &&& 0xEFC60000) = x3 at h3
  exact xor_lt_two_pow32 h3 (shiftRight_lt_two_pow32 h3 _)

theorem round_step_le (n k : Nat) (h : n < 2 ^ (24 + k)) :
    (if 2 * (n % 2 ^ k) > 2 ^ k ∨ (2 * (n % 2 ^ k) = 2 ^ k ∧ n / 2 ^ k % 2 = 1)
      then n / 2 ^ k + 1 else n / 2 ^ k) * 2 ^ k ≤ 2 ^ (24 + k) := by
  have hq : n / 2 ^ k < 2 ^ 24 := by
    rw [Nat.div_lt_iff_lt_mul (by positivity)]
    rw [← pow_add]
    exact h
  have hle : (if 2 * (n % 2 ^ k) > 2 ^ k ∨ (2 * (n % 2 ^ k) = 2 ^ k ∧ n / 2 ^ k % 2 = 1)
      then n / 2 ^ k + 1 else n / 2 ^ k) ≤ 2 ^ 24 := by
    split_ifs <;> omega
  calc _ ≤ 2 ^ 24 * 2 ^ k := Nat.mul_le_mul_right _ hle
    _ = 2 ^ (24 + k) := (pow_add 2 24 k).symm

/-- Rounding a 32-bit integer to a `float` gives at most `2^32`. -/
theorem uint32_to_float_le (n : Nat) (h : n < 2 ^ 32) :
    Mersenne.uint32_to_float n ≤ 2 ^ 32 := by
  unfold Mersenne.uint32_to_float
  by_cases h0 : n < 2 ^ 24
  · simp only [if_pos h0]
    exact le_trans (round_step_le n 0 h0) (Nat.pow_le_pow_right (by norm_num) (by norm_num))
  by_cases h1 : n < 2 ^ 25
  · simp only [if_neg h0, if_pos h1]
    exact le_trans (round_step_le n 1 h1) (Nat.pow_le_pow_right (by norm_num) (by norm_num))
  by_cases h2 : n < 2 ^ 26
  · simp only [if_neg h0, if_neg h1, if_pos h2]
    exact le_trans (round_step_le n 2 h2) (Nat.pow_le_pow_right (by norm_num) (by norm_num))
  by_cases h3 : n < 2 ^ 27
  · simp only [if_neg h0, if_neg h1, if_neg h2, if_pos h3]
    exact le_trans (round_step_le n 3 h3) (Nat.pow_le_pow_right (by norm_num) (by norm_num))
  by_cases h4 : n < 2 ^ 28
  · simp only [if_neg h0, if_neg h1, if_neg h2, if_neg h3, if_pos h4]
    exact le_trans (round_step_le n 4 h4) (Nat.pow_le_pow_right (by norm_num) (by norm_num))
  by_cases h5 : n < 2 ^ 29
  · simp only [if_neg h0, if_neg h1, if_neg h2, if_neg h3, if_neg h4, if_pos h5]
    exact le_trans (round_step_le n 5 h5) (Nat.pow_le_pow_right (by norm_num) (by norm_num))
  by_cases h6 : n < 2 ^ 30
  · simp only [if_neg h0, if_neg h1, if_neg h2, if_neg h3, if_neg h4, if_neg h5, if_pos h6]
    exact le_trans (round_step_le n 6 h6) (Nat.pow_le_pow_right (by norm_num) (by norm_num))
  by_cases h7 : n < 2 ^ 31
  · simp only [if_neg h0, if_neg h1, if_neg h2, if_neg h3, if_neg h4, if_neg h5, if_neg h6,
      if_pos h7]
    exact le_trans (round_step_le n 7 h7) (Nat.pow_le_pow_right (by norm_num) (by norm_num))
  · simp only [if_neg h0, if_neg h1, if_neg h2, if_neg h3, if_neg h4, if_neg h5, if_neg h6,
      if_neg h7]
    exact round_step_le n 8 h

/-- The largest outputs of `next()` are rounded up to `2^32`, so that `get_float()` can
return exactly `1`. -/
theorem uint32_to_float_max : Mersenne.uint32_to_float 4294967295 = 4294967296 := by
  decide

/-- The rounded output of `next()`, as an element of the field, is at most `2^32`. -/
theorem uint32_to_float_cast_le {F : Type} [LinearOrderedField F] (g : Mersenne) :
    ((Mersenne.uint32_to_float g.next.1 : Nat) : F) ≤ 4294967296 := by
  have h := uint32_to_float_le g.next.1 (next_lt_two_pow32 g)
  have h2 : ((Mersenne.uint32_to_float g.next.1 : Nat) : F) ≤ ((4294967296 : Nat) : F) :=
    Nat.cast_le.mpr h
  rw [Nat.cast_ofNat] at h2
  exact h2

/-- **C11.** For every generator state, `get_float()` returns a value in the closed
interval `[0, 1]`. -/
theorem C11_get_float_range {F : Type} [LinearOrderedField F] (g : Mersenne) :
    0 ≤ (g.get_float : F × Mersenne).1 ∧ (g.get_float : F × Mersenne).1 ≤ 1 := by
  have hc := @uint32_to_float_cast_le F _ g
  simp only [Mersenne.get_float]
  constructor
  · positivity
  · rw [div_le_one (by norm_num)]
    exact hc

/-- The cosine and sine of the real model lie on the unit circle. -/
theorem realOps_trig : realOps.ExactTrig := by
  intro a
  simp only [realOps]
  have h := Real.cos_sq_add_sin_sq a
  linear_combination h

/-! ## The materials -/

section Materials
variable {F : Type} [LinearOrderedField F]

/-- **C12.** For each of the three materials, every trace mode and every intersection
record whose incoming cosine `from_direction . normal_shading` is below
`EPSILON_COS_THETA`, `sample` returns `(Black, zero vector, None, 0, 0)`; the generator
is not advanced. -/
theorem C12_sample_below_threshold (M : FloatOps F) (m : BxDF F) (idata : Intersection F)
    (trace_mode : TraceMode) (prng : Mersenne)
    (h : idata.from_direction.dot idata.normal_shading < EPSILON_COS_THETA F) :
    (m.sample M idata trace_mode prng).1 = (Colour.Black, Double3.Zero, Event.None, 0, 0) ∧
    (m.sample M idata trace_mode prng).2 = prng := by
  cases m <;> simp only [BxDF.sample, if_pos h, and_self]

/-- Witness for C12: a mirror hit from behind (incoming cosine `-1`). -/
theorem C12_sample_below_threshold_witness :
    (Double3.mk (0 : ℚ) 0 (-1)).dot ⟨0, 0, 1⟩ < EPSILON_COS_THETA ℚ ∧
    ((BxDF.Mirror ⟨1, 1, 1⟩).sample rationalOps
        ⟨⟨0, 0, 0⟩, ⟨0, 0, -1⟩, ⟨0, 0, 1⟩, ⟨0, 0, 1⟩, Orthogonal.default, 0⟩
        TraceMode.Radiance Mersenne.default).1
      = (Colour.Black, Double3.Zero, Event.None, 0, 0) :=
  have h : (Double3.mk (0 : ℚ) 0 (-1)).dot ⟨0, 0, 1⟩ < EPSILON_COS_THETA ℚ := by
    norm_num [Double3.dot, EPSILON_COS_THETA]
  ⟨h, (C12_sample_below_threshold rationalOps (BxDF.Mirror ⟨1, 1, 1⟩)
    ⟨⟨0, 0, 0⟩, ⟨0, 0, -1⟩, ⟨0, 0, 1⟩, ⟨0, 0, 1⟩, Orthogonal.default, 0⟩
    TraceMode.Radiance Mersenne.default h).1⟩

/-- The value of `get_float()` lies between `0` and `1`. -/
theorem get_float_mem (g : Mersenne) :
    0 ≤ (g.get_float : F × Mersenne).1 ∧ (g.get_float : F × Mersenne).1 ≤ 1 := by
  have hc := @uint32_to_float_cast_le F _ g
  simp only [Mersenne.get_float]
  exact ⟨by positivity, (div_le_one (by norm_num)).mpr hc⟩

/-- The local direction `Sample::HemiSphere` returns is a unit vector with a
non-negative `z`. -/
theorem hemisphere_unit (M : FloatOps F) (hM : M.ExactSqrt) (hT : M.ExactTrig)
    (prng : Mersenne) :
    (Sample.HemiSphere M prng).1.dot (Sample.HemiSphere M prng).1 = 1 ∧
    0 ≤ (Sample.HemiSphere M prng).1.z := by
  obtain ⟨h0, h1⟩ := @get_float_mem F _ (prng.get_float : F × Mersenne).2
  simp only [Sample.HemiSphere, Double3.dot]
  generalize ((prng.get_float : F × Mersenne).2.get_float : F × Mersenne).1 = z at h0 h1
  generalize M.two_pi * (prng.get_float : F × Mersenne).1 = theta
  have hz := hM.1 z h0
  have hr := hM.1 (1 - z) (by linarith)
  refine ⟨?_, hM.2 z⟩
  linear_combination (M.sqrt (1 - z) * M.sqrt (1 - z)) * hT theta + hr + hz

/-- A frame with orthonormal axes maps local to world coordinates isometrically, and the
world direction's cosine with the frame's normal is the local `z`. -/
theorem to_world_orthonormal (o : Orthogonal F) (ho : o.Orthonormal) (v : Double3 F) :
    (o.to_world v).dot (o.to_world v) = v.dot v ∧ (o.to_world v).dot o.z_axis = v.z := by
  obtain ⟨hx, hy, hz, hxy, hyz, hxz⟩ := ho
  simp only [Double3.dot] at hx hy hz hxy hyz hxz
  constructor
  · simp only [Orthogonal.to_world, Double3.dot, Double3.add, Double3.mul]
    linear_combination (v.x * v.x) * hx + (v.y * v.y) * hy + (v.z * v.z) * hz
      + (2 * v.x * v.y) * hxy + (2 * v.y * v.z) * hyz + (2 * v.x * v.z) * hxz
  · simp only [Orthogonal.to_world, Double3.dot, Double3.add, Double3.mul]
    linear_combination v.x * hxz + v.y * hyz + v.z * hz

/-- **C13.** For every intersection record with incoming cosine at least
`EPSILON_COS_THETA` whose frame is orthonormal with its normal equal to the shading
normal, and every generator state, `Lambert::sample` returns the factor
`albedo * inv_pi`, the event `Diffuse`, an outgoing direction of magnitude one, as
`cos_theta` the dot product of that direction with the shading normal (which is not
negative), and `pdf_W = cos_theta * inv_pi`. -/
theorem C13_lambert_sample (M : FloatOps F) (hM : M.ExactSqrt) (hT : M.ExactTrig)
    (albedo : Colour F) (idata : Intersection F) (trace_mode : TraceMode) (prng : Mersenne)
    (hcos : EPSILON_COS_THETA F ≤ idata.from_direction.dot idata.normal_shading)
    (ho : idata.orthogonal.Orthonormal)
    (hn : idata.orthogonal.normal = idata.normal_shading) :
    ((BxDF.Lambert albedo).sample M idata trace_mode prng).1.1 = albedo.smul M.inv_pi ∧
    ((BxDF.Lambert albedo).sample M idata trace_mode prng).1.2.2.1 = Event.Diffuse ∧
    ((BxDF.Lambert albedo).sample M idata trace_mode prng).1.2.1.magnitude M = 1 ∧
    ((BxDF.Lambert albedo).sample M idata trace_mode prng).1.2.2.2.2
      = ((BxDF.Lambert albedo).sample M idata trace_mode prng).1.2.1.dot idata.normal_shading ∧
    0 ≤ ((BxDF.Lambert albedo).sample M idata trace_mode prng).1.2.2.2.2 ∧
    ((BxDF.Lambert albedo).sample M idata trace_mode prng).1.2.2.2.1
      = ((BxDF.Lambert albedo).sample M idata trace_mode prng).1.2.2.2.2 * M.inv_pi := by
  obtain ⟨hu, hz⟩ := hemisphere_unit M hM hT prng
  obtain ⟨hw, hwz⟩ := to_world_orthonormal idata.orthogonal ho (Sample.HemiSphere M prng).1
  simp only [BxDF.sample, if_neg (not_lt.mpr hcos), BxDF.lambert_sample]
  rw [← hn]
  refine ⟨trivial, trivial, ?_, hwz.symm, hz, trivial⟩
  unfold Double3.magnitude
  have hw2 := hw
  simp only [Double3.dot] at hw2 hu
  rw [hw2, hu]
  exact sqrt_one_of_exact M hM

/-- The square root of zero is zero. -/
theorem sqrt_zero_of_exact (M : FloatOps F) (hM : M.ExactSqrt) : M.sqrt 0 = 0 := by
  have h1 := hM.1 0 le_rfl
  exact mul_self_eq_zero.mp h1

/-- Normalising a vector of positive magnitude gives a vector of squared length one. -/
theorem normalise_dot_self (M : FloatOps F) (hM : M.ExactSqrt) (v : Double3 F)
    (hv : 0 < v.magnitude M) : (v.normalise M).dot (v.normalise M) = 1 := by
  have h0 := dot_self_nonneg v
  have hm := hM.1 _ h0
  unfold Double3.magnitude at hv
  simp only [Double3.normalise, Double3.div, Double3.dot]
  generalize M.sqrt (v.x * v.x + v.y * v.y + v.z * v.z) = m at hv hm
  have hm0 : m ≠ 0 := hv.ne'
  field_simp
  linear_combination -hm

/-- Normalising a vector of positive magnitude gives a vector of magnitude one. -/
theorem normalise_magnitude (M : FloatOps F) (hM : M.ExactSqrt) (v : Double3 F)
    (hv : 0 < v.magnitude M) : (v.normalise M).magnitude M = 1 := by
  have h := normalise_dot_self M hM v hv
  simp only [Double3.dot] at h
  unfold Double3.magnitude
  rw [h]
  exact sqrt_one_of_exact M hM

/-- **C14 (amended).** For all directions and every intersection record, with the
cosines taken against the normal of the record's frame (`idata.orthogonal.normal()`):
`Lambert::evaluate` returns `(Black, 0, 0)` when one of the two cosines is below
`EPSILON_COS_THETA`, and `(albedo * inv_pi, cos_theta * inv_pi, cos_theta)` when both
are at least `EPSILON_COS_THETA`.  In every record that `post_intersect` of a triangle
of positive area returns, the frame's normal is the shading normal. -/
theorem C14_lambert_evaluate (M : FloatOps F) (hM : M.ExactSqrt) (albedo : Colour F)
    (evaluate_direction from_direction : Double3 F) (idata : Intersection F)
    (trace_mode : TraceMode) :
    ((evaluate_direction.dot idata.orthogonal.normal < EPSILON_COS_THETA F ∨
        from_direction.dot idata.orthogonal.normal < EPSILON_COS_THETA F) →
      (BxDF.Lambert albedo).evaluate M evaluate_direction from_direction idata trace_mode
        = (Colour.Black, 0, 0)) ∧
    (EPSILON_COS_THETA F ≤ evaluate_direction.dot idata.orthogonal.normal →
      EPSILON_COS_THETA F ≤ from_direction.dot idata.orthogonal.normal →
      (BxDF.Lambert albedo).evaluate M evaluate_direction from_direction idata trace_mode
        = (albedo.smul M.inv_pi, evaluate_direction.dot idata.orthogonal.normal * M.inv_pi,
            evaluate_direction.dot idata.orthogonal.normal)) ∧
    (∀ (a b c : Double3 F) (material_id : Nat) (ray : Section F) (distance : F),
      0 < ((b.sub a).cross (c.sub a)).magnitude M →
      ((Geometry.Triangle.ctor M a b c material_id).post_intersect ray distance).orthogonal.normal
        = ((Geometry.Triangle.ctor M a b c material_id).post_intersect ray
            distance).normal_shading) := by
  refine ⟨?_, ?_, ?_⟩
  · intro h
    simp only [BxDF.evaluate, if_pos h]
  · intro h1 h2
    have h : ¬(evaluate_direction.dot idata.orthogonal.normal < EPSILON_COS_THETA F ∨
        from_direction.dot idata.orthogonal.normal < EPSILON_COS_THETA F) := by
      rintro (h | h)
      · exact absurd h (not_lt.mpr h1)
      · exact absurd h (not_lt.mpr h2)
    simp only [BxDF.evaluate, if_neg h]
  · intro a b c material_id ray distance hv
    simp only [Geometry.Triangle.post_intersect, Geometry.Triangle.ctor, Orthogonal.ctor,
      Orthogonal.normal]
    exact normalise_of_magnitude_one M _ (normalise_magnitude M hM _ hv)

/-- **C15.** For every intersection record with `from_direction` and `normal_shading`
of magnitude one and incoming cosine `c >= EPSILON_COS_THETA`, `Mirror::sample` returns
the factor `reflectance`, the direction `w_out = -from_direction + 2 c normal_shading`,
the event `Reflect`, `pdf_W = 1` and `cos_theta = c`; `w_out` has magnitude one,
`w_out . normal_shading = c`, and `w_out + from_direction = 2 c normal_shading` is
parallel to the normal.  `Mirror::evaluate` returns `(Black, 0, 0)` and `Mirror::pdf`
returns `0` for all arguments. -/
theorem C15_mirror (M : FloatOps F) (hM : M.ExactSqrt) (reflectance : Colour F)
    (idata : Intersection F) (trace_mode : TraceMode) (prng : Mersenne)
    (hf : idata.from_direction.magnitude M = 1)
    (hn : idata.normal_shading.magnitude M = 1)
    (hc : EPSILON_COS_THETA F ≤ idata.from_direction.dot idata.normal_shading) :
    (BxDF.Mirror reflectance).sample M idata trace_mode prng
      = ((reflectance,
          idata.from_direction.neg.add (idata.normal_shading.mul
            (2 * idata.from_direction.dot idata.normal_shading)),
          Event.Reflect, 1, idata.from_direction.dot idata.normal_shading), prng) ∧
    (idata.from_direction.neg.add (idata.normal_shading.mul
      (2 * idata.from_direction.dot idata.normal_shading))).magnitude M = 1 ∧
    (idata.from_direction.neg.add (idata.normal_shading.mul
      (2 * idata.from_direction.dot idata.normal_shading))).dot idata.normal_shading
      = idata.from_direction.dot idata.normal_shading ∧
    (idata.from_direction.neg.add (idata.normal_shading.mul
      (2 * idata.from_direction.dot idata.normal_shading))).add idata.from_direction
      = idata.normal_shading.mul (2 * idata.from_direction.dot idata.normal_shading) ∧
    (∀ (evaluate_direction from_direction : Double3 F) (id2 : Intersection F) (tm : TraceMode),
      (BxDF.Mirror reflectance).evaluate M evaluate_direction from_direction id2 tm
        = (Colour.Black, 0, 0)) ∧
    (∀ (evaluate_direction from_direction : Double3 F) (id2 : Intersection F),
      (BxDF.Mirror reflectance).pdf M evaluate_direction from_direction id2 = 0) := by
  have hf1 := dot_self_of_magnitude_one M hM _ hf
  have hn1 := dot_self_of_magnitude_one M hM _ hn
  have hdot : (idata.from_direction.neg.add (idata.normal_shading.mul
      (2 * idata.from_direction.dot idata.normal_shading))).dot idata.normal_shading
      = idata.from_direction.dot idata.normal_shading := by
    simp only [Double3.dot, Double3.add, Double3.neg, Double3.mul]
    linear_combination (2 * (idata.from_direction.x * idata.normal_shading.x
      + idata.from_direction.y * idata.normal_shading.y
      + idata.from_direction.z * idata.normal_shading.z)) * hn1
  refine ⟨?_, ?_, hdot, ?_, ?_, ?_⟩
  · simp only [BxDF.sample, if_neg (not_lt.mpr hc)]
    rw [hdot]
  · unfold Double3.magnitude
    have h1 : (idata.from_direction.neg.add (idata.normal_shading.mul
        (2 * idata.from_direction.dot idata.normal_shading))).x
        * (idata.from_direction.neg.add (idata.normal_shading.mul
        (2 * idata.from_direction.dot idata.normal_shading))).x
        + (idata.from_direction.neg.add (idata.normal_shading.mul
        (2 * idata.from_direction.dot idata.normal_shading))).y
        * (idata.from_direction.neg.add (idata.normal_shading.mul
        (2 * idata.from_direction.dot idata.normal_shading))).y
        + (idata.from_direction.neg.add (idata.normal_shading.mul
        (2 * idata.from_direction.dot idata.normal_shading))).z
        * (idata.from_direction.neg.add (idata.normal_shading.mul
        (2 * idata.from_direction.dot idata.normal_shading))).z = 1 := by
      simp only [Double3.dot, Double3.add, Double3.neg, Double3.mul]
      linear_combination hf1 + (4 * (idata.from_direction.x * idata.normal_shading.x
        + idata.from_direction.y * idata.normal_shading.y
        + idata.from_direction.z * idata.normal_shading.z) ^ 2) * hn1
    rw [h1]
    exact sqrt_one_of_exact M hM
  · ext <;> simp only [Double3.add, Double3.neg, Double3.mul] <;> ring
  · intro _ _ _ _
    rfl
  · intro _ _ _
    rfl

end Materials

/-- Witness for C13: over the reals, a diffuse surface in the world frame hit along its
normal `(0, 0, 1)`, with the generator in its initial state. -/
theorem C13_lambert_sample_witness :
    EPSILON_COS_THETA ℝ ≤ (Double3.mk (0 : ℝ) 0 1).dot ⟨0, 0, 1⟩ ∧
    ((BxDF.Lambert (⟨1, 1, 1⟩ : Colour ℝ)).sample realOps
        ⟨⟨0, 0, 0⟩, ⟨0, 0, 1⟩, ⟨0, 0, 1⟩, ⟨0, 0, 1⟩, Orthogonal.default, 0⟩
        TraceMode.Radiance Mersenne.default).1.2.1.magnitude realOps = 1 :=
  have h : EPSILON_COS_THETA ℝ ≤ (Double3.mk (0 : ℝ) 0 1).dot ⟨0, 0, 1⟩ := by
    norm_num [Double3.dot, EPSILON_COS_THETA]
  ⟨h, (C13_lambert_sample realOps realOps_exact realOps_trig ⟨1, 1, 1⟩
    ⟨⟨0, 0, 0⟩, ⟨0, 0, 1⟩, ⟨0, 0, 1⟩, ⟨0, 0, 1⟩, Orthogonal.default, 0⟩
    TraceMode.Radiance Mersenne.default h
    (by simp [Orthogonal.Orthonormal, Orthogonal.default, Double3.dot, Double3.X, Double3.Y,
      Double3.Z])
    rfl).2.2.1⟩

/-- Counterexample to C14 as stated.  First, over the reals, a record as
`post_intersect` builds it (world frame, shading normal `(0, 0, 1)`) and a unit outgoing
direction whose cosine is exactly `EPSILON_COS_THETA`, which does not exceed the
threshold: `evaluate` does not return `(Black, 0, 0)` but the `cos_theta` `1/100000`.
Second, a record whose frame normal `(1, 0, 0)` is not its shading normal `(0, 0, 1)`:
both cosines against the shading normal are `1`, and `evaluate` returns
`(Black, 0, 0)`. -/
theorem C14_evaluate_threshold_and_normal :
    (Double3.mk (Real.sqrt (1 - 1 / 100000 * (1 / 100000))) 0 (1 / 100000)).dot
        ⟨Real.sqrt (1 - 1 / 100000 * (1 / 100000)), 0, 1 / 100000⟩ = 1 ∧
    ¬(EPSILON_COS_THETA ℝ <
      (Double3.mk (Real.sqrt (1 - 1 / 100000 * (1 / 100000))) 0 (1 / 100000)).dot ⟨0, 0, 1⟩) ∧
    ((BxDF.Lambert (⟨1, 1, 1⟩ : Colour ℝ)).evaluate realOps
        ⟨Real.sqrt (1 - 1 / 100000 * (1 / 100000)), 0, 1 / 100000⟩ ⟨0, 0, 1⟩
        ⟨⟨0, 0, 0⟩, ⟨0, 0, 1⟩, ⟨0, 0, 1⟩, ⟨0, 0, 1⟩, Orthogonal.default, 0⟩
        TraceMode.Radiance).2.2 = 1 / 100000 ∧
    (Double3.mk (0 : ℚ) 0 1).dot ⟨0, 0, 1⟩ = 1 ∧
    (BxDF.Lambert (⟨1, 1, 1⟩ : Colour ℚ)).evaluate rationalOps ⟨0, 0, 1⟩ ⟨0, 0, 1⟩
        ⟨⟨0, 0, 0⟩, ⟨0, 0, 1⟩, ⟨0, 0, 1⟩, ⟨0, 0, 1⟩, ⟨Double3.Y, Double3.Z, Double3.X⟩, 0⟩
        TraceMode.Radiance
      = (Colour.Black, 0, 0) := by
  refine ⟨?_, ?_, ?_, ?_, ?_⟩
  · have h := Real.mul_self_sqrt (show (0 : ℝ) ≤ 1 - 1 / 100000 * (1 / 100000) by norm_num)
    simp only [Double3.dot]
    linear_combination h
  · simp only [Double3.dot, EPSILON_COS_THETA]
    norm_num
  · simp only [BxDF.evaluate, Orthogonal.normal, Orthogonal.default, Double3.dot, Double3.Z,
      EPSILON_COS_THETA]
    norm_num
  · simp only [Double3.dot]
    norm_num
  · simp only [BxDF.evaluate, Orthogonal.normal, Double3.dot, Double3.X, EPSILON_COS_THETA]
    norm_num

/-- Witness for C14 (amended): over the reals, the record of a hit on the triangle
`(0,0,0), (1,0,0), (0,1,0)`, whose normal is `(0, 0, 1)`. -/
theorem C14_lambert_evaluate_witness :
    ((Geometry.Triangle.ctor realOps ⟨0, 0, 0⟩ ⟨1, 0, 0⟩ ⟨0, 1, 0⟩ 0).post_intersect
        ⟨⟨0, 0, 1⟩, ⟨0, 0, -1⟩⟩ 1).orthogonal.normal
      = ((Geometry.Triangle.ctor realOps ⟨0, 0, 0⟩ ⟨1, 0, 0⟩ ⟨0, 1, 0⟩ 0).post_intersect
        ⟨⟨0, 0, 1⟩, ⟨0, 0, -1⟩⟩ 1).normal_shading :=
  (C14_lambert_evaluate realOps realOps_exact ⟨1, 1, 1⟩ ⟨0, 0, 1⟩ ⟨0, 0, 1⟩
    Intersection.default TraceMode.Radiance).2.2 ⟨0, 0, 0⟩ ⟨1, 0, 0⟩ ⟨0, 1, 0⟩ 0
    ⟨⟨0, 0, 1⟩, ⟨0, 0, -1⟩⟩ 1
    (by simp [Double3.magnitude, Double3.cross, Double3.sub, realOps])

/-- Witness for C15: over the reals, a mirror with normal `(0, 0, 1)` hit along the
normal. -/
theorem C15_mirror_witness :
    (BxDF.Mirror (⟨1, 1, 1⟩ : Colour ℝ)).sample realOps
        ⟨⟨0, 0, 0⟩, ⟨0, 0, 1⟩, ⟨0, 0, 1⟩, ⟨0, 0, 1⟩, Orthogonal.default, 0⟩
        TraceMode.Radiance Mersenne.default
      = ((⟨1, 1, 1⟩,
          (Double3.mk (0 : ℝ) 0 1).neg.add ((Double3.mk (0 : ℝ) 0 1).mul
            (2 * (Double3.mk (0 : ℝ) 0 1).dot ⟨0, 0, 1⟩)),
          Event.Reflect, 1, (Double3.mk (0 : ℝ) 0 1).dot ⟨0, 0, 1⟩), Mersenne.default) :=
  (C15_mirror realOps realOps_exact ⟨1, 1, 1⟩
    ⟨⟨0, 0, 0⟩, ⟨0, 0, 1⟩, ⟨0, 0, 1⟩, ⟨0, 0, 1⟩, Orthogonal.default, 0⟩
    TraceMode.Radiance Mersenne.default
    (by simp [Double3.magnitude, realOps]) (by simp [Double3.magnitude, realOps])
    (by norm_num [Double3.dot, EPSILON_COS_THETA])).1

/-! ## The triangle emitter -/

/-- **C16 (failing input).** For the emitter of `scene_wall_light` (normal `(1, 0, 0)`,
area `1/2`) and the direction along the normal (`cos_theta = 1`), `pdf_W` returns
`inv_pi`, while the `pdf_W` component of `pdf_Le` is the constant `inv_2pi`; for the
unit direction `(3/5, 4/5, 0)` (`cos_theta = 3/5`), `pdf_W` returns `3/5 * inv_pi` and
`pdf_Le` again `inv_2pi`.  The `pdf_A` of both is `2 = 1 / area`, and `emit` reports
`cos_theta * inv_pi` for the direction it sampled. -/
theorem C16_pdf_Le_solid_angle_density :
    (emitter_wall_light.normal.x, emitter_wall_light.normal.y, emitter_wall_light.normal.z)
      = (1, 0, 0) ∧
    emitter_wall_light.pdf_W rationalOps ⟨-3 / 4, 1 / 4, 1 / 4⟩ ⟨1, 0, 0⟩
      = 10680707 / 33554432 ∧
    emitter_wall_light.pdf_Le rationalOps ⟨-3 / 4, 1 / 4, 1 / 4⟩ ⟨1, 0, 0⟩
      = (10680707 / 67108864, 2, 1) ∧
    emitter_wall_light.pdf_W rationalOps ⟨-3 / 4, 1 / 4, 1 / 4⟩ ⟨3 / 5, 4 / 5, 0⟩
      = 3 / 5 * (10680707 / 33554432) ∧
    emitter_wall_light.pdf_Le rationalOps ⟨-3 / 4, 1 / 4, 1 / 4⟩ ⟨3 / 5, 4 / 5, 0⟩
      = (10680707 / 67108864, 2, 3 / 5) ∧
    emitter_wall_light.pdf_A ⟨-3 / 4, 1 / 4, 1 / 4⟩ ⟨1, 0, 0⟩ = 2 ∧
    emitter_wall_light.normal.dot
        (emitter_wall_light.emit_sample rationalOps (1 / 4) (1 / 4) ⟨4 / 5, 0, 3 / 5⟩).2.2.1
      = 3 / 5 ∧
    (emitter_wall_light.emit_sample rationalOps (1 / 4) (1 / 4) ⟨4 / 5, 0, 3 / 5⟩).2.2.2.2.1
      = 3 / 5 * (10680707 / 33554432) := by
  decide!

/-! ## The camera -/

section CameraFacts
variable {F : Type} [LinearOrderedField F]

/-- A vector whose magnitude is positive has a positive squared length. -/
theorem dot_self_pos_of_magnitude_pos (M : FloatOps F) (hM : M.ExactSqrt) (v : Double3 F)
    (hv : 0 < v.magnitude M) : 0 < v.x * v.x + v.y * v.y + v.z * v.z := by
  rcases (dot_self_nonneg v).lt_or_eq with h | h
  · exact h
  · exfalso
    unfold Double3.magnitude at hv
    rw [← h, sqrt_zero_of_exact M hM] at hv
    exact lt_irrefl _ hv

end CameraFacts

section SceneFacts
variable {F : Type} [LinearOrderedField F]

/-- One iteration of the loop of `intersect()` preserves the invariant. -/
theorem closestInv_step (ray : Section F) (pre : List (Geometry.Triangle F))
    (st : F × Nat × Bool) (a : Geometry.Triangle F) (h : Scene.ClosestInv ray pre st) :
    Scene.ClosestInv ray (pre ++ [a]) (Scene.intersect_step ray st (pre.length, a)) := by
  obtain ⟨d, n, hit⟩ := st
  obtain ⟨hmiss, hhit⟩ := h
  simp only at hmiss hhit
  unfold Scene.intersect_step
  simp only []
  by_cases hd : a.intersect ray > 0 ∧ a.intersect ray < d
  · rw [if_pos hd]
    obtain ⟨hd0, hdlt⟩ := hd
    refine ⟨fun hf => (by cases hf), fun _ => ⟨a, ?_, rfl, hd0, ?_, ?_, ?_⟩⟩
    · simp
    · cases hit with
      | false => obtain ⟨h1, -⟩ := hmiss rfl; rw [h1] at hdlt; exact hdlt
      | true =>
        obtain ⟨g, -, -, -, h4, -, -⟩ := hhit rfl
        exact lt_trans hdlt h4
    · intro g' hg' hpos
      rcases List.mem_append.mp hg' with hin | hin
      · cases hit with
        | false =>
          obtain ⟨h1, h2⟩ := hmiss rfl
          have h3 := h2 g' hin
          rw [h1] at hdlt
          have h4 : (10 : F) ^ 42 ≤ g'.intersect ray := by
            by_contra hcon
            exact h3 ⟨hpos, not_le.mp hcon⟩
          exact le_trans hdlt.le h4
        | true =>
          obtain ⟨g, -, -, -, -, h5, -⟩ := hhit rfl
          exact le_trans hdlt.le (h5 g' hin hpos)
      · rw [List.mem_singleton.mp hin]
    · intro j g' hj hg'
      simp only at hj
      rw [List.getElem?_append_left hj] at hg'
      have hin : g' ∈ pre := List.getElem?_mem hg'
      intro heq
      cases hit with
      | false =>
        obtain ⟨h1, h2⟩ := hmiss rfl
        apply h2 g' hin
        rw [heq]
        rw [h1] at hdlt
        exact ⟨hd0, hdlt⟩
      | true =>
        obtain ⟨g, -, -, -, -, h5, -⟩ := hhit rfl
        have h6 := h5 g' hin (by rw [heq]; exact hd0)
        rw [heq] at h6
        exact absurd hdlt (not_lt.mpr h6)
  · rw [if_neg hd]
    refine ⟨fun hf => ?_, fun ht => ?_⟩
    · simp only at hf
      obtain ⟨h1, h2⟩ := hmiss hf
      refine ⟨h1, ?_⟩
      intro g' hg'
      rcases List.mem_append.mp hg' with hin | hin
      · exact h2 g' hin
      · rw [List.mem_singleton.mp hin]
        rw [h1] at hd
        exact hd
    · simp only at ht
      obtain ⟨g, h1, h2, h3, h4, h5, h6⟩ := hhit ht
      have hn : n < pre.length := by
        by_contra hcon
        rw [List.getElem?_eq_none (not_lt.mp hcon)] at h1
        cases h1
      refine ⟨g, ?_, h2, h3, h4, ?_, ?_⟩
      · simp only
        rw [List.getElem?_append_left hn]
        exact h1
      · intro g' hg' hpos
        rcases List.mem_append.mp hg' with hin | hin
        · exact h5 g' hin hpos
        · rw [List.mem_singleton.mp hin] at hpos ⊢
          by_contra hcon
          exact hd ⟨hpos, not_le.mp hcon⟩
      · intro j g' hj hg'
        simp only at hj
        rw [List.getElem?_append_left (lt_trans hj hn)] at hg'
        exact h6 j g' hj hg'

/-- The loop of `intersect()` over the geometries `l` that follow `pre`. -/
theorem closestInv_fold (ray : Section F) (l pre : List (Geometry.Triangle F))
    (st : F × Nat × Bool) (h : Scene.ClosestInv ray pre st) :
    Scene.ClosestInv ray (pre ++ l)
      ((l.enumFrom pre.length).foldl (Scene.intersect_step ray) st) := by
  induction l generalizing pre st with
  | nil => simpa using h
  | cons a l ih =>
    simp only [List.enumFrom_cons, List.foldl_cons]
    have h2 := ih (pre ++ [a]) _ (closestInv_step ray pre st a h)
    simp only [List.length_append, List.length_singleton, List.append_assoc,
      List.singleton_append] at h2
    exact h2

/-- The state in which the loop of `intersect()` ends satisfies the invariant for the
whole geometry list. -/
theorem closestInv_final (sc : Scene F) (ray : Section F) :
    Scene.ClosestInv ray sc.geometry
      (sc.geometry.enum.foldl (Scene.intersect_step ray) ((10 : F) ^ 42, UINT32_MAX, false)) := by
  have h0 : Scene.ClosestInv ray [] ((10 : F) ^ 42, UINT32_MAX, false) := by
    refine ⟨fun _ => ⟨rfl, ?_⟩, fun hf => (by cases hf)⟩
    intro g hg
    cases hg
  have h := closestInv_fold ray sc.geometry [] _ h0
  simpa [List.enum] using h

/-- What `intersect()` returns, in terms of the state in which its loop ends. -/
theorem intersect_of_state (sc : Scene F) (ray : Section F) :
    (((sc.geometry.enum.foldl (Scene.intersect_step ray)
        ((10 : F) ^ 42, UINT32_MAX, false)).2.2 = false) ∧ (sc.intersect ray).1 = false) ∨
    (∃ g, (sc.geometry.enum.foldl (Scene.intersect_step ray)
        ((10 : F) ^ 42, UINT32_MAX, false)).2.2 = true ∧
      sc.geometry[(sc.geometry.enum.foldl (Scene.intersect_step ray)
        ((10 : F) ^ 42, UINT32_MAX, false)).2.1]? = some g ∧
      g.intersect ray = (sc.geometry.enum.foldl (Scene.intersect_step ray)
        ((10 : F) ^ 42, UINT32_MAX, false)).1 ∧
      sc.intersect ray = (true, g.intersect ray, g.post_intersect ray (g.intersect ray))) := by
  have hinv := closestInv_final sc ray
  unfold Scene.intersect
  simp only []
  generalize sc.geometry.enum.foldl (Scene.intersect_step ray)
    ((10 : F) ^ 42, UINT32_MAX, false) = st at hinv
  obtain ⟨d, n, hit⟩ := st
  cases hit with
  | false =>
    left
    exact ⟨rfl, rfl⟩
  | true =>
    right
    obtain ⟨g, h1, h2, -⟩ := hinv.2 rfl
    simp only at h1 h2
    refine ⟨g, rfl, h1, h2, ?_⟩
    simp only [Bool.not_true, Bool.false_eq_true, if_false, h1, h2]

/-- **C19.** For every ray and geometry list, `Scene::intersect` reports a hit iff some
geometry returns a distance `d` with `0 < d < 1e42`; when it reports a hit, there is an
index `i` such that geometry `i` returns the least of all such distances, no geometry
before `i` returns that distance, the returned distance is that least distance and the
returned record is `post_intersect` of geometry `i` at that distance. -/
theorem C19_intersect_closest (sc : Scene F) (ray : Section F) :
    ((sc.intersect ray).1 = true ↔
      ∃ g ∈ sc.geometry, 0 < g.intersect ray ∧ g.intersect ray < (10 : F) ^ 42) ∧
    ((sc.intersect ray).1 = true →
      ∃ (i : Nat) (g : Geometry.Triangle F), sc.geometry[i]? = some g ∧
        0 < g.intersect ray ∧ g.intersect ray < (10 : F) ^ 42 ∧
        (∀ g' ∈ sc.geometry, 0 < g'.intersect ray → g'.intersect ray < (10 : F) ^ 42 →
          g.intersect ray ≤ g'.intersect ray) ∧
        (∀ (j : Nat) (g' : Geometry.Triangle F), j < i → sc.geometry[j]? = some g' →
          g'.intersect ray ≠ g.intersect ray) ∧
        (sc.intersect ray).2.1 = g.intersect ray ∧
        (sc.intersect ray).2.2 = g.post_intersect ray (g.intersect ray)) := by
  have hinv := closestInv_final sc ray
  rcases intersect_of_state sc ray with ⟨hst, hres⟩ | ⟨g, hst, hg, hd, hres⟩
  · obtain ⟨-, hnone⟩ := hinv.1 hst
    constructor
    · constructor
      · intro h
        rw [hres] at h
        cases h
      · rintro ⟨g, hg, h⟩
        exact absurd h (hnone g hg)
    · intro h
      rw [hres] at h
      cases h
  · obtain ⟨g2, hg2, hd2, hpos, hlt, hmin, hfirst⟩ := hinv.2 hst
    rw [hg] at hg2
    cases hg2
    rw [← hd] at hpos hlt hmin hfirst
    constructor
    · constructor
      · intro _
        exact ⟨g, List.getElem?_mem hg, hpos, hlt⟩
      · intro _
        rw [hres]
    · intro _
      refine ⟨_, g, hg, hpos, hlt, fun g' hg' h0 _ => hmin g' hg' h0, hfirst, ?_, ?_⟩
      · rw [hres]
      · rw [hres]

/-- **C20.** For every ray and limit `distance`, `Scene::occluded` returns true iff
some geometry returns a distance `d` with `0 < d < distance`; for `distance <= 1e42`
this is the case iff `Scene::intersect` on the same ray reports a hit whose distance is
less than `distance`. -/
theorem C20_occluded_any_hit (sc : Scene F) (ray : Section F) (distance : F) :
    (sc.occluded ray distance = true ↔ sc.occluded_spec ray distance) ∧
    (distance ≤ (10 : F) ^ 42 →
      (sc.occluded ray distance = true ↔
        ((sc.intersect ray).1 = true ∧ (sc.intersect ray).2.1 < distance))) := by
  have hocc : sc.occluded ray distance = true ↔ sc.occluded_spec ray distance := by
    unfold Scene.occluded Scene.occluded_spec
    rw [List.any_eq_true]
    constructor
    · rintro ⟨g, hg, h⟩
      exact ⟨g, hg, of_decide_eq_true h⟩
    · rintro ⟨g, hg, h⟩
      exact ⟨g, hg, decide_eq_true h⟩
  refine ⟨hocc, ?_⟩
  intro hle
  rw [hocc]
  have hinv := closestInv_final sc ray
  rcases intersect_of_state sc ray with ⟨hst, hres⟩ | ⟨g, hst, hg, hd, hres⟩
  · obtain ⟨-, hnone⟩ := hinv.1 hst
    constructor
    · rintro ⟨g, hg, h0, h1⟩
      exact absurd ⟨h0, lt_of_lt_of_le h1 hle⟩ (hnone g hg)
    · rintro ⟨h, -⟩
      rw [hres] at h
      cases h
  · obtain ⟨g2, hg2, hd2, hpos, hlt, hmin, -⟩ := hinv.2 hst
    rw [← hd] at hpos hmin
    constructor
    · rintro ⟨g', hg', h0, h1⟩
      rw [hres]
      exact ⟨rfl, lt_of_le_of_lt (hmin g' hg' h0) h1⟩
    · rintro ⟨-, h⟩
      rw [hres] at h
      exact ⟨g, List.getElem?_mem hg, hpos, h⟩

end SceneFacts

/-- Witness for C19: in `scene_wall_light` the ray from the origin along `+y` hits the
wall. -/
theorem C19_intersect_closest_witness :
    (scene_wall_light.intersect ⟨⟨0, 0, 0⟩, ⟨0, 1, 0⟩⟩).1 = true ∧
    ∃ (i : Nat) (g : Geometry.Triangle ℚ), scene_wall_light.geometry[i]? = some g ∧
      0 < g.intersect ⟨⟨0, 0, 0⟩, ⟨0, 1, 0⟩⟩ ∧
      g.intersect ⟨⟨0, 0, 0⟩, ⟨0, 1, 0⟩⟩ < (10 : ℚ) ^ 42 ∧
      (∀ g' ∈ scene_wall_light.geometry, 0 < g'.intersect ⟨⟨0, 0, 0⟩, ⟨0, 1, 0⟩⟩ →
        g'.intersect ⟨⟨0, 0, 0⟩, ⟨0, 1, 0⟩⟩ < (10 : ℚ) ^ 42 →
        g.intersect ⟨⟨0, 0, 0⟩, ⟨0, 1, 0⟩⟩ ≤ g'.intersect ⟨⟨0, 0, 0⟩, ⟨0, 1, 0⟩⟩) ∧
      (∀ (j : Nat) (g' : Geometry.Triangle ℚ), j < i →
        scene_wall_light.geometry[j]? = some g' →
        g'.intersect ⟨⟨0, 0, 0⟩, ⟨0, 1, 0⟩⟩ ≠ g.intersect ⟨⟨0, 0, 0⟩, ⟨0, 1, 0⟩⟩) ∧
      (scene_wall_light.intersect ⟨⟨0, 0, 0⟩, ⟨0, 1, 0⟩⟩).2.1
        = g.intersect ⟨⟨0, 0, 0⟩, ⟨0, 1, 0⟩⟩ ∧
      (scene_wall_light.intersect ⟨⟨0, 0, 0⟩, ⟨0, 1, 0⟩⟩).2.2
        = g.post_intersect ⟨⟨0, 0, 0⟩, ⟨0, 1, 0⟩⟩ (g.intersect ⟨⟨0, 0, 0⟩, ⟨0, 1, 0⟩⟩) :=
  have h : (scene_wall_light.intersect ⟨⟨0, 0, 0⟩, ⟨0, 1, 0⟩⟩).1 = true := by decide!
  ⟨h, (C19_intersect_closest scene_wall_light ⟨⟨0, 0, 0⟩, ⟨0, 1, 0⟩⟩).2 h⟩

/-- Witness for C20: in `scene_wall_light`, the ray from the origin along `+y` and the
limit `2`. -/
theorem C20_occluded_any_hit_witness :
    (2 : ℚ) ≤ (10 : ℚ) ^ 42 ∧
    (scene_wall_light.occluded ⟨⟨0, 0, 0⟩, ⟨0, 1, 0⟩⟩ 2 = true ↔
      ((scene_wall_light.intersect ⟨⟨0, 0, 0⟩, ⟨0, 1, 0⟩⟩).1 = true ∧
        (scene_wall_light.intersect ⟨⟨0, 0, 0⟩, ⟨0, 1, 0⟩⟩).2.1 < 2)) :=
  have h : (2 : ℚ) ≤ (10 : ℚ) ^ 42 := by norm_num
  ⟨h, (C20_occluded_any_hit scene_wall_light ⟨⟨0, 0, 0⟩, ⟨0, 1, 0⟩⟩ 2).2 h⟩

/-! ## Lookups, sensor and configuration -/

section Lookups
variable {F : Type} [LinearOrderedField F]

/-- Element access within the bounds of a vector succeeds. -/
theorem vec_at_of_lt {α : Type} (v : List α) (i : Nat) (h : i < v.length) :
    ∃ a, v[i]? = some a ∧ vec_at v i = Except.ok a := by
  refine ⟨v[i], List.getElem?_eq_getElem h, ?_⟩
  unfold vec_at
  rw [List.getElem?_eq_getElem h]

/-- The emitter lookup for an id in range. -/
theorem emitter_of_lt (sc : Scene F) (id : Nat) (h : id < sc.n_emitter) :
    ∃ e, sc.emitter_list[id]? = some e ∧
      sc.emitter id = Except.ok (e, 1 / (sc.n_emitter : F)) := by
  obtain ⟨e, he, hv⟩ := vec_at_of_lt sc.emitter_list id h
  refine ⟨e, he, ?_⟩
  unfold Scene.emitter Scene.emitter_select_probability
  rw [if_neg (not_le.mpr h), if_neg (not_le.mpr h), hv]
  rfl

/-- **C21.** `Scene::material(id)` throws `std::overflow_error` ("out of bounds") when
`id >= n_bxdf` and returns `bxdf[id]` otherwise; `Scene::emitter(id)` and
`Scene::emitter_select_probability(id)` throw it when `id >= n_emitter`, and otherwise
`emitter` returns `emitter_list[id]` together with the probability that
`emitter_select_probability` returns. -/
theorem C21_scene_lookups (sc : Scene F) (id : Nat) :
    (sc.n_bxdf ≤ id → sc.material id = Except.error Fault.overflow_error) ∧
    (id < sc.n_bxdf → ∃ m, sc.bxdf[id]? = some m ∧ sc.material id = Except.ok m) ∧
    (sc.n_emitter ≤ id → sc.emitter id = Except.error Fault.overflow_error ∧
      sc.emitter_select_probability id = Except.error Fault.overflow_error) ∧
    (id < sc.n_emitter → ∃ e p, sc.emitter_list[id]? = some e ∧
      sc.emitter_select_probability id = Except.ok p ∧ sc.emitter id = Except.ok (e, p)) := by
  refine ⟨?_, ?_, ?_, ?_⟩
  · intro h
    unfold Scene.material
    rw [if_pos h]
  · intro h
    obtain ⟨m, hm, hv⟩ := vec_at_of_lt sc.bxdf id h
    refine ⟨m, hm, ?_⟩
    unfold Scene.material
    rw [if_neg (not_le.mpr h), hv]
  · intro h
    constructor
    · unfold Scene.emitter
      rw [if_pos h]
    · unfold Scene.emitter_select_probability
      rw [if_pos h]
  · intro h
    obtain ⟨e, he, hem⟩ := emitter_of_lt sc id h
    refine ⟨e, 1 / (sc.n_emitter : F), he, ?_, hem⟩
    unfold Scene.emitter_select_probability
    rw [if_neg (not_le.mpr h)]

/-- **C22.** For every scene with `n_emitter > 0` and every generator state,
`random_emitter` returns `get_integer() mod n_emitter`, which is below `n_emitter`; for
every id below `n_emitter` the probability returned by `emitter_select_probability(id)`
and by `emitter(id)` is `1 / n_emitter`; and the emitter lookup with which
`trace_emission_path` begins succeeds. -/
theorem C22_random_emitter (M : FloatOps F) (b : BDPT F) (fuel : Nat) (prng : Mersenne)
    (h : 0 < b.scene.n_emitter) :
    (b.scene.random_emitter prng).1 = prng.get_integer.1 % b.scene.n_emitter ∧
    (b.scene.random_emitter prng).1 < b.scene.n_emitter ∧
    (∀ id, id < b.scene.n_emitter →
      b.scene.emitter_select_probability id = Except.ok (1 / (b.scene.n_emitter : F)) ∧
      ∃ e, b.scene.emitter_list[id]? = some e ∧
        b.scene.emitter id = Except.ok (e, 1 / (b.scene.n_emitter : F))) ∧
    (∃ e, b.scene.emitter (b.scene.random_emitter prng).1
        = Except.ok (e, 1 / (b.scene.n_emitter : F)) ∧
      BDPT.trace_emission_path M fuel b prng
        = BDPT.emission_loop M b e fuel
            (BDPT.emission_start M (b.scene.random_emitter prng).1 e
              (1 / (b.scene.n_emitter : F)) (e.emit M (b.scene.random_emitter prng).2).1).1
            (BDPT.emission_start M (b.scene.random_emitter prng).1 e
              (1 / (b.scene.n_emitter : F)) (e.emit M (b.scene.random_emitter prng).2).1).2.1
            1
            (BDPT.emission_start M (b.scene.random_emitter prng).1 e
              (1 / (b.scene.n_emitter : F)) (e.emit M (b.scene.random_emitter prng).2).1).2.2
            (e.emit M (b.scene.random_emitter prng).2).2) := by
  have hlt : (b.scene.random_emitter prng).1 < b.scene.n_emitter := Nat.mod_lt _ h
  refine ⟨rfl, hlt, ?_, ?_⟩
  · intro id hid
    constructor
    · unfold Scene.emitter_select_probability
      rw [if_neg (not_le.mpr hid)]
    · exact emitter_of_lt b.scene id hid
  · obtain ⟨e, -, he⟩ := emitter_of_lt b.scene _ hlt
    refine ⟨e, he, ?_⟩
    unfold BDPT.trace_emission_path
    simp only [he]
    rfl

/-- **C23.** For a sensor built by `Sensor( config )` (in any state of its buffers, with
fewer than `2^31` cells, so that the index `px + py * image_width` is within `int`) and
every pixel in range, `get_colour` returns `(pixel + splat) / max_samples`
component-wise, with `max_samples` the configured sample count (which is at least one);
for coordinates out of range it returns `Black`. -/
theorem C23_get_colour (config : Config) (s0 s : Sensor F)
    (hc : Sensor.ctor config = Except.ok s0) (hs : s.scalar = s0.scalar)
    (_hsize : s.image_width * s.image_height < 2 ^ 31) (px py : Nat) :
    1 ≤ config.max_samples ∧
    (px < s.image_width → py < s.image_height →
      s.get_colour px py
        = ((s.p_pixel (px + py * s.image_width)).add
            (s.p_splash (px + py * s.image_width))).sdiv (config.max_samples : F)) ∧
    (s.image_width ≤ px ∨ s.image_height ≤ py → s.get_colour px py = Colour.Black) := by
  unfold Sensor.ctor at hc
  by_cases hm : config.max_samples < 1
  · rw [if_pos hm] at hc
    cases hc
  rw [if_neg hm] at hc
  have h1 : 1 ≤ config.max_samples := not_lt.mp hm
  have hsc : s.scalar = 1 / (config.max_samples : F) := by
    rw [hs]
    injection hc with hc
    rw [← hc]
    simp only [max_eq_right h1]
  refine ⟨h1, ?_, ?_⟩
  · intro hx hy
    have hn : ¬(px ≥ s.image_width ∨ py ≥ s.image_height) := by
      rintro (h | h)
      · exact absurd hx (not_lt.mpr h)
      · exact absurd hy (not_lt.mpr h)
    unfold Sensor.get_colour
    rw [if_neg hn, hsc]
    simp only [Colour.smul, Colour.sdiv, Colour.add]
    ext <;> simp only [] <;> ring
  · intro h
    unfold Sensor.get_colour
    rw [if_pos h]

/-- Two pixels in range with different coordinates have different buffer indices. -/
theorem index_injective (w px py qx qy : Nat) (hp : px < w) (hq : qx < w)
    (h : px + py * w = qx + qy * w) : px = qx ∧ py = qy := by
  have h1 : (px + py * w) % w = (qx + qy * w) % w := by rw [h]
  rw [Nat.add_mul_mod_self_right, Nat.add_mul_mod_self_right, Nat.mod_eq_of_lt hp,
    Nat.mod_eq_of_lt hq] at h1
  subst h1
  have hw : 0 < w := lt_of_le_of_lt (Nat.zero_le _) hp
  have h2 : py * w = qy * w := Nat.add_left_cancel h
  exact ⟨rfl, Nat.eq_of_mul_eq_mul_right hw h2⟩

/-- **C24.** For a sensor of fewer than `2^31` cells (so that the index
`px + py * image_width` is within `int`): `Sensor::pixel(px, py, c)` with coordinates in range overwrites pixel cell
`(px, py)` with `c` and leaves every other pixel cell in range, the splat buffer and the
dimensions as they were; `Sensor::splash(px, py, c)` adds `c` to splat cell `(px, py)`
and leaves every other splat cell in range, the pixel buffer and the dimensions as they
were; with `px >= image_width` or `py >= image_height` both leave the sensor as it
was. -/
theorem C24_sensor_buffers (s : Sensor F) (px py : Nat) (c : Colour F)
    (_hsize : s.image_width * s.image_height < 2 ^ 31) :
    (px < s.image_width → py < s.image_height →
      (s.pixel px py c).p_pixel (px + py * s.image_width) = c ∧
      (∀ qx qy, qx < s.image_width → qy < s.image_height → (qx, qy) ≠ (px, py) →
        (s.pixel px py c).p_pixel (qx + qy * s.image_width)
          = s.p_pixel (qx + qy * s.image_width)) ∧
      (s.pixel px py c).p_splash = s.p_splash ∧
      (s.pixel px py c).image_width = s.image_width ∧
      (s.pixel px py c).image_height = s.image_height ∧
      (s.pixel px py c).scalar = s.scalar) ∧
    (px < s.image_width → py < s.image_height →
      (s.splash px py c).p_splash (px + py * s.image_width)
        = (s.p_splash (px + py * s.image_width)).add c ∧
      (∀ qx qy, qx < s.image_width → qy < s.image_height → (qx, qy) ≠ (px, py) →
        (s.splash px py c).p_splash (qx + qy * s.image_width)
          = s.p_splash (qx + qy * s.image_width)) ∧
      (s.splash px py c).p_pixel = s.p_pixel ∧
      (s.splash px py c).image_width = s.image_width ∧
      (s.splash px py c).image_height = s.image_height ∧
      (s.splash px py c).scalar = s.scalar) ∧
    (s.image_width ≤ px ∨ s.image_height ≤ py →
      s.pixel px py c = s ∧ s.splash px py c = s) := by
  refine ⟨?_, ?_, ?_⟩
  · intro hx hy
    have hn : ¬(px ≥ s.image_width ∨ py ≥ s.image_height) := by
      rintro (h | h)
      · exact absurd hx (not_lt.mpr h)
      · exact absurd hy (not_lt.mpr h)
    unfold Sensor.pixel
    rw [if_neg hn]
    refine ⟨?_, ?_, rfl, rfl, rfl, rfl⟩
    · simp only [Function.update_same]
    · intro qx qy hqx _ hne
      have hidx : qx + qy * s.image_width ≠ px + py * s.image_width := by
        intro heq
        obtain ⟨h1, h2⟩ := index_injective s.image_width qx qy px py hqx hx heq
        exact hne (by rw [h1, h2])
      simp only [Function.update_noteq hidx]
  · intro hx hy
    have hn : ¬(px ≥ s.image_width ∨ py ≥ s.image_height) := by
      rintro (h | h)
      · exact absurd hx (not_lt.mpr h)
      · exact absurd hy (not_lt.mpr h)
    unfold Sensor.splash
    rw [if_neg hn]
    refine ⟨?_, ?_, rfl, rfl, rfl, rfl⟩
    · simp only [Function.update_same]
    · intro qx qy hqx _ hne
      have hidx : qx + qy * s.image_width ≠ px + py * s.image_width := by
        intro heq
        obtain ⟨h1, h2⟩ := index_injective s.image_width qx qy px py hqx hx heq
        exact hne (by rw [h1, h2])
      simp only [Function.update_noteq hidx]
  · intro h
    unfold Sensor.pixel Sensor.splash
    rw [if_pos h, if_pos h]
    exact ⟨rfl, rfl⟩

end Lookups

/-- Witness for C21: material `1` of `scene_wall_light`, which has two materials. -/
theorem C21_scene_lookups_witness :
    ∃ m, scene_wall_light.bxdf[1]? = some m ∧ scene_wall_light.material 1 = Except.ok m :=
  (C21_scene_lookups scene_wall_light 1).2.1 (by decide)

/-- Witness for C22: `scene_mirror` has one emitter, and the generator is in its initial
state. -/
theorem C22_random_emitter_witness :
    0 < mirror_bdpt.scene.n_emitter ∧
    (mirror_bdpt.scene.random_emitter Mersenne.default).1 < mirror_bdpt.scene.n_emitter :=
  have h : 0 < mirror_bdpt.scene.n_emitter := by decide
  ⟨h, (C22_random_emitter rationalOps mirror_bdpt 5 Mersenne.default h).2.1⟩

/-- Witness for C23: the sensor of the configuration of `main.cpp` (25 samples), as
constructed. -/
theorem C23_get_colour_witness :
    (Sensor.mk (fun _ => Colour.Black) (fun _ => Colour.Black) 400 400
        (1 / ((max 1 25 : Nat) : ℚ))).get_colour 3 7
      = ((Colour.Black : Colour ℚ).add Colour.Black).sdiv ((config_main.max_samples : Nat) : ℚ) :=
  (C23_get_colour config_main
    (Sensor.mk (fun _ => Colour.Black) (fun _ => Colour.Black) 400 400
      (1 / ((max 1 25 : Nat) : ℚ)))
    (Sensor.mk (fun _ => Colour.Black) (fun _ => Colour.Black) 400 400
      (1 / ((max 1 25 : Nat) : ℚ)))
    rfl rfl (by norm_num) 3 7).2.1 (by norm_num) (by norm_num)

/-- Witness for C24: writing pixel `(3, 7)` of a black 400 x 400 sensor. -/
theorem C24_sensor_buffers_witness :
    ((Sensor.mk (fun _ => Colour.Black) (fun _ => Colour.Black) 400 400 (1 : ℚ)).pixel 3 7
        Colour.White).p_pixel (3 + 7 * 400) = Colour.White :=
  ((C24_sensor_buffers
    (Sensor.mk (fun _ => Colour.Black) (fun _ => Colour.Black) 400 400 (1 : ℚ)) 3 7
    Colour.White (by norm_num)).1 (by norm_num) (by norm_num)).1

/-- **C25.** For all constructor arguments (`max_path_length` being a `std::uint8_t`),
`Render::Config` stores `max_samples = max(1, max_samples)` and
`max_path_length = max(3, max_path_length)`, and stores `image_width` and
`image_height` as given. -/
theorem C25_config_ctor (image_width image_height max_samples max_path_length : Nat)
    (hp : max_path_length < 256) :
    (Config.ctor image_width image_height max_samples max_path_length).max_samples
      = max 1 max_samples ∧
    (Config.ctor image_width image_height max_samples max_path_length).max_path_length
      = max 3 max_path_length ∧
    (Config.ctor image_width image_height max_samples max_path_length).image_width
      = image_width ∧
    (Config.ctor image_width image_height max_samples max_path_length).image_height
      = image_height := by
  refine ⟨rfl, ?_, rfl, rfl⟩
  simp only [Config.ctor]
  apply Nat.mod_eq_of_lt
  rcases le_total 3 max_path_length with h | h
  · rw [max_eq_right h]
    exact hp
  · rw [max_eq_left h]
    norm_num

/-- Witness for C25: the configuration of `main.cpp`, and one with arguments below the
two bounds. -/
theorem C25_config_ctor_witness :
    (Config.ctor 400 400 0 2).max_samples = max 1 0 ∧
    (Config.ctor 400 400 0 2).max_path_length = max 3 2 ∧
    (Config.ctor 400 400 0 2).image_width = 400 ∧
    (Config.ctor 400 400 0 2).image_height = 400 :=
  C25_config_ctor 400 400 0 2 (by norm_num)

section Shading
variable {F : Type} [LinearOrderedField F]

/-- **C27.** For all directions and intersection records, `ShadingCorrection` in
Radiance mode returns `1`; in Importance mode it returns `0` when
`|(w_out . n_geometry)(w_in . n_shading)| < EPSILON_BLACK` and otherwise
`|(w_out . n_shading)(w_in . n_geometry)| / |(w_out . n_geometry)(w_in . n_shading)|`.
When the two normals of the record are equal, as in every record `post_intersect` of a
triangle returns, the Importance-mode result is `0` or `1`. -/
theorem C27_shading_correction (evaluate_direction from_direction : Double3 F)
    (idata : Intersection F) :
    ShadingCorrection evaluate_direction from_direction idata TraceMode.Radiance = 1 ∧
    (|evaluate_direction.dot idata.normal_geometry * from_direction.dot idata.normal_shading|
        < EPSILON_BLACK F →
      ShadingCorrection evaluate_direction from_direction idata TraceMode.Importance = 0) ∧
    (EPSILON_BLACK F
        ≤ |evaluate_direction.dot idata.normal_geometry
            * from_direction.dot idata.normal_shading| →
      ShadingCorrection evaluate_direction from_direction idata TraceMode.Importance
        = |evaluate_direction.dot idata.normal_shading
            * from_direction.dot idata.normal_geometry|
          / |evaluate_direction.dot idata.normal_geometry
            * from_direction.dot idata.normal_shading|) ∧
    (idata.normal_shading = idata.normal_geometry →
      ShadingCorrection evaluate_direction from_direction idata TraceMode.Importance = 0 ∨
      ShadingCorrection evaluate_direction from_direction idata TraceMode.Importance = 1) ∧
    (∀ (g : Geometry.Triangle F) (ray : Section F) (distance : F),
      (g.post_intersect ray distance).normal_shading
        = (g.post_intersect ray distance).normal_geometry) := by
  refine ⟨?_, ?_, ?_, ?_, ?_⟩
  · unfold ShadingCorrection
    rw [if_neg (by decide)]
  · intro h
    unfold ShadingCorrection
    rw [if_pos rfl]
    simp only []
    rw [if_pos h]
  · intro h
    unfold ShadingCorrection
    rw [if_pos rfl]
    simp only []
    rw [if_neg (not_lt.mpr h)]
  · intro hn
    unfold ShadingCorrection
    rw [if_pos rfl]
    simp only []
    rw [hn]
    by_cases h : |evaluate_direction.dot idata.normal_geometry
        * from_direction.dot idata.normal_geometry| < EPSILON_BLACK F
    · left
      rw [if_pos h]
    · right
      rw [if_neg h]
      have hpos : 0 < |evaluate_direction.dot idata.normal_geometry
          * from_direction.dot idata.normal_geometry| :=
        lt_of_lt_of_le (by norm_num [EPSILON_BLACK]) (not_lt.mp h)
      exact div_self hpos.ne'
  · intro g ray distance
    rfl

end Shading

/-- Witness for C27: the record of a hit on a triangle, whose two normals are equal; the
Importance-mode correction is `1`. -/
theorem C27_shading_correction_witness :
    ShadingCorrection (⟨0, 0, 1⟩ : Double3 ℚ) ⟨0, 0, 1⟩
        ⟨⟨0, 0, 0⟩, ⟨0, 0, 1⟩, ⟨0, 0, 1⟩, ⟨0, 0, 1⟩, Orthogonal.default, 0⟩
        TraceMode.Importance = 0 ∨
    ShadingCorrection (⟨0, 0, 1⟩ : Double3 ℚ) ⟨0, 0, 1⟩
        ⟨⟨0, 0, 0⟩, ⟨0, 0, 1⟩, ⟨0, 0, 1⟩, ⟨0, 0, 1⟩, Orthogonal.default, 0⟩
        TraceMode.Importance = 1 :=
  (C27_shading_correction (⟨0, 0, 1⟩ : Double3 ℚ) ⟨0, 0, 1⟩
    ⟨⟨0, 0, 0⟩, ⟨0, 0, 1⟩, ⟨0, 0, 1⟩, ⟨0, 0, 1⟩, Orthogonal.default, 0⟩).2.2.2.1 rfl

/-! ## The two random walks -/

/-- `vertices.back()` of a non-empty vector. -/
theorem back_of_ne_nil {F : Type} (vs : List (Vertex F)) (h : vs ≠ []) :
    ∃ l, vs.getLast? = some l ∧ BDPT.back vs = Except.ok l := by
  cases hl : vs.getLast? with
  | none => exact absurd (List.getLast?_eq_none_iff.mp hl) h
  | some l =>
    refine ⟨l, rfl, ?_⟩
    unfold BDPT.back
    rw [hl]

section Walks
variable {F : Type} [LinearOrderedField F]

/-- What one iteration of the camera trace loop does to the path: nothing, or it appends
one vertex that carries the walking throughput, the hit record and `G` towards the
previous vertex; only a vertex on an emitter ends the walk with `f_emitter` set, and the
walk goes on only with the depth counter incremented (modulo 256) and not above
`max_path_length`. -/
theorem camera_bounce_cases (M : FloatOps F) (b : BDPT F) (vs : List (Vertex F))
    (ray : Section F) (depth : Nat) (tp : Colour F) (idata : Intersection F)
    (pm : BxDF F) (smp : Colour F × Double3 F × Event × F × F) (step : BDPT.Step F)
    (hne : vs ≠ [])
    (h : BDPT.camera_bounce M b vs ray depth tp idata pm smp = Except.ok step) :
    step = BDPT.Step.done vs ∨
    ∃ l v, vs.getLast? = some l ∧ v.G = BDPT.Gprime M v l ∧ v.throughput = tp ∧
      v.idata = idata ∧
      ((v.f_emitter = true ∧ step = BDPT.Step.done (vs ++ [v])) ∨
       (v.f_emitter = false ∧ b.max_path_length < (depth + 1) % 256 ∧
          step = BDPT.Step.done (vs ++ [v])) ∨
       (v.f_emitter = false ∧ (depth + 1) % 256 ≤ b.max_path_length ∧
          ∃ ray2 tp2, step = BDPT.Step.next (vs ++ [v]) ray2 ((depth + 1) % 256) tp2)) := by
  obtain ⟨l, hl, hb⟩ := back_of_ne_nil vs hne
  unfold BDPT.camera_bounce at h
  simp only [] at h
  cases hev : smp.2.2.1 with
  | None =>
    rw [hev] at h
    simp only [pure, Except.pure] at h
    cases h
    exact Or.inl rfl
  | Transmit =>
    rw [hev] at h
    simp only [pure, Except.pure] at h
    cases h
    exact Or.inl rfl
  | Emission =>
    rw [hev] at h
    simp only [] at h
    obtain ⟨em, hem, h2⟩ := bind_eq_ok h
    rw [hb] at h2
    simp only [bind, Except.bind, pure, Except.pure] at h2
    cases h2
    right
    exact ⟨l, _, hl, rfl, rfl, rfl, Or.inl ⟨rfl, rfl⟩⟩
  | Diffuse =>
    rw [hev] at h
    simp only [] at h
    rw [hb] at h
    simp only [bind, Except.bind, pure, Except.pure] at h
    right
    by_cases hd : (depth + 1) % 256 > b.max_path_length
    · rw [if_pos hd] at h
      cases h
      exact ⟨l, _, hl, rfl, rfl, rfl, Or.inr (Or.inl ⟨rfl, hd, rfl⟩)⟩
    · rw [if_neg hd] at h
      cases h
      exact ⟨l, _, hl, rfl, rfl, rfl, Or.inr (Or.inr ⟨rfl, not_lt.mp hd, _, _, rfl⟩)⟩
  | Reflect =>
    rw [hev] at h
    simp only [] at h
    rw [hb] at h
    simp only [bind, Except.bind, pure, Except.pure] at h
    right
    by_cases hd : (depth + 1) % 256 > b.max_path_length
    · rw [if_pos hd] at h
      cases h
      exact ⟨l, _, hl, rfl, rfl, rfl, Or.inr (Or.inl ⟨rfl, hd, rfl⟩)⟩
    · rw [if_neg hd] at h
      cases h
      exact ⟨l, _, hl, rfl, rfl, rfl, Or.inr (Or.inr ⟨rfl, not_lt.mp hd, _, _, rfl⟩)⟩

/-- What one iteration of the emission trace loop does to the path: nothing, or it
appends one vertex (never flagged as emitter) that carries the walking throughput, the
hit record and `G` towards the previous vertex. -/
theorem emission_bounce_cases (M : FloatOps F) (b : BDPT F) (e : Emitter.Triangle F)
    (vs : List (Vertex F))
    (ray : Section F) (depth : Nat) (tp : Colour F) (idata : Intersection F)
    (pm : BxDF F) (smp : Colour F × Double3 F × Event × F × F) (step : BDPT.Step F)
    (hne : vs ≠ [])
    (h : BDPT.emission_bounce M b e vs ray depth tp idata pm smp = Except.ok step) :
    step = BDPT.Step.done vs ∨
    ∃ l v, vs.getLast? = some l ∧ v.G = BDPT.Gprime M v l ∧ v.throughput = tp ∧
      v.idata = idata ∧ v.f_emitter = false ∧
      ((b.max_path_length < (depth + 1) % 256 ∧ step = BDPT.Step.done (vs ++ [v])) ∨
       ((depth + 1) % 256 ≤ b.max_path_length ∧
          ∃ ray2 tp2, step = BDPT.Step.next (vs ++ [v]) ray2 ((depth + 1) % 256) tp2)) := by
  obtain ⟨l, hl, hb⟩ := back_of_ne_nil vs hne
  unfold BDPT.emission_bounce at h
  simp only [] at h
  cases hev : smp.2.2.1 with
  | None =>
    rw [hev] at h
    simp only [pure, Except.pure] at h
    cases h
    exact Or.inl rfl
  | Transmit =>
    rw [hev] at h
    simp only [pure, Except.pure] at h
    cases h
    exact Or.inl rfl
  | Emission =>
    rw [hev] at h
    simp only [pure, Except.pure] at h
    cases h
    exact Or.inl rfl
  | Diffuse =>
    rw [hev] at h
    simp only [] at h
    rw [hb] at h
    simp only [bind, Except.bind, pure, Except.pure] at h
    right
    by_cases hd : (depth + 1) % 256 > b.max_path_length
    · rw [if_pos hd] at h
      cases h
      exact ⟨l, _, hl, rfl, rfl, rfl, rfl, Or.inl ⟨hd, rfl⟩⟩
    · rw [if_neg hd] at h
      cases h
      exact ⟨l, _, hl, rfl, rfl, rfl, rfl, Or.inr ⟨not_lt.mp hd, _, _, rfl⟩⟩
  | Reflect =>
    rw [hev] at h
    simp only [] at h
    rw [hb] at h
    simp only [bind, Except.bind, pure, Except.pure] at h
    right
    by_cases hd : (depth + 1) % 256 > b.max_path_length
    · rw [if_pos hd] at h
      cases h
      exact ⟨l, _, hl, rfl, rfl, rfl, rfl, Or.inl ⟨hd, rfl⟩⟩
    · rw [if_neg hd] at h
      cases h
      exact ⟨l, _, hl, rfl, rfl, rfl, rfl, Or.inr ⟨not_lt.mp hd, _, _, rfl⟩⟩

/-- An iteration of either trace loop fails only through a failing lookup: on a
non-empty path `emission_bounce` always returns. -/
theorem emission_bounce_ok (M : FloatOps F) (b : BDPT F) (e : Emitter.Triangle F)
    (vs : List (Vertex F)) (ray : Section F) (depth : Nat) (tp : Colour F)
    (idata : Intersection F) (pm : BxDF F) (smp : Colour F × Double3 F × Event × F × F)
    (hne : vs ≠ []) :
    ∃ step, BDPT.emission_bounce M b e vs ray depth tp idata pm smp = Except.ok step := by
  obtain ⟨l, -, hb⟩ := back_of_ne_nil vs hne
  unfold BDPT.emission_bounce
  simp only []
  cases hev : smp.2.2.1 with
  | None => exact ⟨_, rfl⟩
  | Transmit => exact ⟨_, rfl⟩
  | Emission => exact ⟨_, rfl⟩
  | Diffuse =>
    simp only []
    rw [hb]
    simp only [bind, Except.bind, pure, Except.pure]
    by_cases hd : (depth + 1) % 256 > b.max_path_length
    · rw [if_pos hd]
      exact ⟨_, rfl⟩
    · rw [if_neg hd]
      exact ⟨_, rfl⟩
  | Reflect =>
    simp only []
    rw [hb]
    simp only [bind, Except.bind, pure, Except.pure]
    by_cases hd : (depth + 1) % 256 > b.max_path_length
    · rw [if_pos hd]
      exact ⟨_, rfl⟩
    · rw [if_neg hd]
      exact ⟨_, rfl⟩

/-- Invariant rule for the camera trace loop: a property of the loop state that every
iteration preserves holds of the path the loop returns. -/
theorem camera_loop_inv (M : FloatOps F) (b : BDPT F)
    (I : List (Vertex F) → Nat → Colour F → Prop) (Q : List (Vertex F) → Prop)
    (hmiss : ∀ vs d tp, I vs d tp → Q vs)
    (hdone : ∀ vs ray d tp idata pm smp vs2, I vs d tp →
      BDPT.camera_bounce M b vs ray d tp idata pm smp = Except.ok (BDPT.Step.done vs2) → Q vs2)
    (hnext : ∀ vs ray d tp idata pm smp vs2 ray2 d2 tp2, I vs d tp →
      BDPT.camera_bounce M b vs ray d tp idata pm smp
        = Except.ok (BDPT.Step.next vs2 ray2 d2 tp2) → I vs2 d2 tp2) :
    ∀ (fuel : Nat) (vs : List (Vertex F)) (ray : Section F) (d : Nat) (tp : Colour F)
      (prng : Mersenne) (r : List (Vertex F) × Mersenne),
      I vs d tp → BDPT.camera_loop M b fuel vs ray d tp prng = Except.ok r → Q r.1 := by
  intro fuel
  induction fuel with
  | zero =>
    intro vs ray d tp prng r _ h
    unfold BDPT.camera_loop at h
    cases h
  | succ fuel ih =>
    intro vs ray d tp prng r hI h
    unfold BDPT.camera_loop at h
    simp only [] at h
    by_cases hhit : (!(b.scene.intersect ray).1) = true
    · rw [if_pos hhit] at h
      simp only [pure, Except.pure] at h
      cases h
      exact hmiss vs d tp hI
    · rw [if_neg hhit] at h
      obtain ⟨pm, hpm, h2⟩ := bind_eq_ok h
      obtain ⟨step, hstep, h3⟩ := bind_eq_ok h2
      cases step with
      | done vs2 =>
        simp only [pure, Except.pure] at h3
        cases h3
        exact hdone _ _ _ _ _ _ _ _ hI hstep
      | next vs2 ray2 d2 tp2 =>
        simp only [] at h3
        exact ih _ _ _ _ _ _ (hnext _ _ _ _ _ _ _ _ _ _ _ hI hstep) h3

/-- Invariant rule for the emission trace loop. -/
theorem emission_loop_inv (M : FloatOps F) (b : BDPT F) (e : Emitter.Triangle F)
    (I : List (Vertex F) → Nat → Colour F → Prop) (Q : List (Vertex F) → Prop)
    (hmiss : ∀ vs d tp, I vs d tp → Q vs)
    (hdone : ∀ vs ray d tp idata pm smp vs2, I vs d tp →
      BDPT.emission_bounce M b e vs ray d tp idata pm smp = Except.ok (BDPT.Step.done vs2) →
      Q vs2)
    (hnext : ∀ vs ray d tp idata pm smp vs2 ray2 d2 tp2, I vs d tp →
      BDPT.emission_bounce M b e vs ray d tp idata pm smp
        = Except.ok (BDPT.Step.next vs2 ray2 d2 tp2) → I vs2 d2 tp2) :
    ∀ (fuel : Nat) (vs : List (Vertex F)) (ray : Section F) (d : Nat) (tp : Colour F)
      (prng : Mersenne) (r : List (Vertex F) × Mersenne),
      I vs d tp → BDPT.emission_loop M b e fuel vs ray d tp prng = Except.ok r → Q r.1 := by
  intro fuel
  induction fuel with
  | zero =>
    intro vs ray d tp prng r _ h
    unfold BDPT.emission_loop at h
    cases h
  | succ fuel ih =>
    intro vs ray d tp prng r hI h
    unfold BDPT.emission_loop at h
    simp only [] at h
    by_cases hhit : (!(b.scene.intersect ray).1) = true
    · rw [if_pos hhit] at h
      simp only [pure, Except.pure] at h
      cases h
      exact hmiss vs d tp hI
    · rw [if_neg hhit] at h
      obtain ⟨pm, hpm, h2⟩ := bind_eq_ok h
      obtain ⟨step, hstep, h3⟩ := bind_eq_ok h2
      cases step with
      | done vs2 =>
        simp only [pure, Except.pure] at h3
        cases h3
        exact hdone _ _ _ _ _ _ _ _ hI hstep
      | next vs2 ray2 d2 tp2 =>
        simp only [] at h3
        exact ih _ _ _ _ _ _ (hnext _ _ _ _ _ _ _ _ _ _ _ hI hstep) h3

end Walks

section Walks2
variable {F : Type} [LinearOrderedField F]

/-- `Gprime()` is never negative. -/
theorem Gprime_nonneg (M : FloatOps F) (a p : Vertex F) : 0 ≤ BDPT.Gprime M a p := by
  unfold BDPT.Gprime
  simp only []
  apply div_nonneg
  · exact mul_nonneg (le_max_left _ _) (le_max_left _ _)
  · simp only [Double3.dot]
    exact dot_self_nonneg _

/-- A one-vertex path whose vertex stores `G = 1`. -/
theorem pathG_singleton (M : FloatOps F) (v : Vertex F) (h : v.G = 1) :
    BDPT.PathG M [v] := by
  refine ⟨⟨v, rfl, h⟩, ?_⟩
  intro i a p ha _
  simp at ha

/-- Appending a vertex whose `G` is `Gprime` towards the last vertex keeps the path
predicate. -/
theorem pathG_append (M : FloatOps F) (vs : List (Vertex F)) (l v : Vertex F)
    (h : BDPT.PathG M vs) (hl : vs.getLast? = some l) (hv : v.G = BDPT.Gprime M v l) :
    BDPT.PathG M (vs ++ [v]) := by
  obtain ⟨⟨v0, h0, hG0⟩, hstep⟩ := h
  have hlen : 0 < vs.length := by
    rcases List.getElem?_eq_some.mp h0 with ⟨h1, -⟩
    exact h1
  have hlast : vs[vs.length - 1]? = some l := by
    rw [← hl, List.getLast?_eq_getElem?]
  refine ⟨⟨v0, ?_, hG0⟩, ?_⟩
  · rw [List.getElem?_append_left hlen]
    exact h0
  · intro i a p ha hp
    by_cases hi : i + 1 < vs.length
    · rw [List.getElem?_append_left hi] at ha
      rw [List.getElem?_append_left (Nat.lt_of_succ_lt hi)] at hp
      exact hstep i a p ha hp
    · have hi2 : vs.length ≤ i + 1 := not_lt.mp hi
      rcases hi2.lt_or_eq with hgt | heq
      · rw [List.getElem?_eq_none (by simp; omega)] at ha
        cases ha
      · have hi3 : i = vs.length - 1 := by omega
        have hi4 : i < vs.length := by omega
        rw [List.getElem?_append_left hi4, hi3, hlast] at hp
        cases hp
        rw [List.getElem?_append_right (le_of_eq heq), ← heq] at ha
        simp at ha
        subst ha
        exact ⟨hv, by rw [hv]; exact Gprime_nonneg M _ _⟩

/-- **C26.** In the paths `trace_emission_path` and `trace_camera_path` return, vertex 0
stores `G = 1`, and every later vertex `i` stores
`G = max(0, w . n_a) * max(0, -(w . n_b)) / |b - a|^2`, where `a` is the point of vertex
`i`, `b` the point of vertex `i - 1`, `w` the unit vector from `a` to `b` and `n_a`,
`n_b` the normals of the two vertices' frames; this stored `G` is not negative. -/
theorem C26_stored_G (M : FloatOps F) (b : BDPT F) (fuel : Nat) (prng : Mersenne)
    (x y : Nat) :
    (∀ vs g, BDPT.trace_emission_path M fuel b prng = Except.ok (vs, g) → BDPT.PathG M vs) ∧
    (∀ vs g, BDPT.trace_camera_path M fuel b x y prng = Except.ok (vs, g) →
      BDPT.PathG M vs) := by
  constructor
  · intro vs g h
    unfold BDPT.trace_emission_path at h
    obtain ⟨em, -, h2⟩ := bind_eq_ok h
    simp only [] at h2
    refine emission_loop_inv M b em.1 (fun vs _ _ => BDPT.PathG M vs ∧ vs ≠ [])
      (BDPT.PathG M) ?_ ?_ ?_ fuel _ _ _ _ _ (vs, g) ?_ h2
    · intro vs d tp hI
      exact hI.1
    · intro vs ray d tp idata pm smp vs2 hI hb
      rcases emission_bounce_cases M b em.1 vs ray d tp idata pm smp _ hI.2 hb with
        hs | ⟨l, v, hl, hG, -, -, -, hs⟩
      · cases hs
        exact hI.1
      · rcases hs with ⟨-, hs⟩ | ⟨-, _, _, hs⟩
        · cases hs
          exact pathG_append M vs l v hI.1 hl hG
        · cases hs
    · intro vs ray d tp idata pm smp vs2 ray2 d2 tp2 hI hb
      rcases emission_bounce_cases M b em.1 vs ray d tp idata pm smp _ hI.2 hb with
        hs | ⟨l, v, hl, hG, -, -, -, hs⟩
      · cases hs
      · rcases hs with ⟨-, hs⟩ | ⟨-, _, _, hs⟩
        · cases hs
        · cases hs
          exact ⟨pathG_append M vs l v hI.1 hl hG, by simp⟩
    · exact ⟨pathG_singleton M _ rfl, by simp [BDPT.emission_start]⟩
  · intro vs g h
    unfold BDPT.trace_camera_path at h
    simp only [] at h
    refine camera_loop_inv M b (fun vs _ _ => BDPT.PathG M vs ∧ vs ≠ [])
      (BDPT.PathG M) ?_ ?_ ?_ fuel _ _ _ _ _ (vs, g) ?_ h
    · intro vs d tp hI
      exact hI.1
    · intro vs ray d tp idata pm smp vs2 hI hb
      rcases camera_bounce_cases M b vs ray d tp idata pm smp _ hI.2 hb with
        hs | ⟨l, v, hl, hG, -, -, hs⟩
      · cases hs
        exact hI.1
      · rcases hs with ⟨-, hs⟩ | ⟨-, -, hs⟩ | ⟨-, -, _, _, hs⟩
        · cases hs
          exact pathG_append M vs l v hI.1 hl hG
        · cases hs
          exact pathG_append M vs l v hI.1 hl hG
        · cases hs
    · intro vs ray d tp idata pm smp vs2 ray2 d2 tp2 hI hb
      rcases camera_bounce_cases M b vs ray d tp idata pm smp _ hI.2 hb with
        hs | ⟨l, v, hl, hG, -, -, hs⟩
      · cases hs
      · rcases hs with ⟨-, hs⟩ | ⟨-, -, hs⟩ | ⟨-, -, _, _, hs⟩
        · cases hs
        · cases hs
        · cases hs
          exact ⟨pathG_append M vs l v hI.1 hl hG, by simp⟩
    · exact ⟨pathG_singleton M _ rfl, by simp [BDPT.camera_start]⟩

end Walks2

section Walks3
variable {F : Type} [LinearOrderedField F]

/-- **C28.** For every scene and generator state, vertex 0 of the path
`trace_emission_path` returns is the sampled emitter point with `f_emitter = true`,
`f_dirac = emitter.is_dirac()`, `G = 1`, `emitter_id` the selected id,
`pdf_reverse = p_sel * pdf_A`, `pdf_forward = pdf_W / cos_theta` for a non-dirac emitter
(`pdf_W` for a dirac one) and `throughput = Le * cos_theta / (p_sel * pdf_W * pdf_A)`,
where `(Le, point, direction, normal, pdf_W, pdf_A, cos_theta)` is what `emit` returned
and `p_sel` the selection probability. -/
theorem C28_light_vertex (M : FloatOps F) (b : BDPT F) (fuel : Nat) (prng : Mersenne)
    (vs : List (Vertex F)) (g : Mersenne)
    (h : BDPT.trace_emission_path M fuel b prng = Except.ok (vs, g)) :
    ∃ (e : Emitter.Triangle F) (p_sel : F) (y0 : Vertex F),
      b.scene.emitter (b.scene.random_emitter prng).1 = Except.ok (e, p_sel) ∧
      vs[0]? = some y0 ∧
      y0.idata.point = (e.emit M (b.scene.random_emitter prng).2).1.2.1 ∧
      y0.f_emitter = true ∧ y0.f_dirac = e.is_dirac ∧ y0.G = 1 ∧
      y0.emitter_id = (b.scene.random_emitter prng).1 ∧
      y0.pdf_reverse = p_sel * (e.emit M (b.scene.random_emitter prng).2).1.2.2.2.2.2.1 ∧
      y0.pdf_forward
        = (if e.is_dirac = true then (e.emit M (b.scene.random_emitter prng).2).1.2.2.2.2.1
           else (e.emit M (b.scene.random_emitter prng).2).1.2.2.2.2.1
             / (e.emit M (b.scene.random_emitter prng).2).1.2.2.2.2.2.2) ∧
      y0.throughput
        = ((e.emit M (b.scene.random_emitter prng).2).1.1.smul
            (e.emit M (b.scene.random_emitter prng).2).1.2.2.2.2.2.2).sdiv
          (p_sel * (e.emit M (b.scene.random_emitter prng).2).1.2.2.2.2.1
            * (e.emit M (b.scene.random_emitter prng).2).1.2.2.2.2.2.1) := by
  unfold BDPT.trace_emission_path at h
  obtain ⟨em, hem, h2⟩ := bind_eq_ok h
  simp only [] at h2
  obtain ⟨e, p_sel⟩ := em
  simp only [] at h2
  have hinv := emission_loop_inv M b e
    (fun vs _ _ => vs[0]? = (BDPT.emission_start M (b.scene.random_emitter prng).1 e p_sel
      (e.emit M (b.scene.random_emitter prng).2).1).1[0]? ∧ vs ≠ [])
    (fun vs => vs[0]? = (BDPT.emission_start M (b.scene.random_emitter prng).1 e p_sel
      (e.emit M (b.scene.random_emitter prng).2).1).1[0]?)
    (fun vs d tp hI => hI.1)
    (by
      intro vs ray d tp idata pm smp vs2 hI hb
      rcases emission_bounce_cases M b e vs ray d tp idata pm smp _ hI.2 hb with
        hs | ⟨l, v, -, -, -, -, -, hs⟩
      · cases hs
        exact hI.1
      · rcases hs with ⟨-, hs⟩ | ⟨-, _, _, hs⟩
        · cases hs
          rw [List.getElem?_append_left (List.length_pos.mpr hI.2)]
          exact hI.1
        · cases hs)
    (by
      intro vs ray d tp idata pm smp vs2 ray2 d2 tp2 hI hb
      rcases emission_bounce_cases M b e vs ray d tp idata pm smp _ hI.2 hb with
        hs | ⟨l, v, -, -, -, -, -, hs⟩
      · cases hs
      · rcases hs with ⟨-, hs⟩ | ⟨-, _, _, hs⟩
        · cases hs
        · cases hs
          refine ⟨?_, by simp⟩
          rw [List.getElem?_append_left (List.length_pos.mpr hI.2)]
          exact hI.1)
    fuel _ _ _ _ _ (vs, g) ⟨rfl, by simp [BDPT.emission_start]⟩ h2
  simp only [BDPT.emission_start, List.getElem?_cons_zero] at hinv
  refine ⟨e, p_sel, _, hem, hinv, ?_⟩
  simp only [Vertex.ctor, Emitter.Triangle.is_dirac, Bool.not_false, if_true,
    Bool.false_eq_true, if_false]
  exact ⟨trivial, trivial, trivial, trivial, trivial, trivial, trivial, trivial⟩

end Walks3

section Walks4
variable {F : Type} [LinearOrderedField F]

end Walks4

/-- Inversion of a failing bind: the first action fails, or it returns and the second
fails. -/
theorem bind_eq_error {ε α β : Type} {x : Except ε α} {f : α → Except ε β} {e : ε}
    (h : (x >>= f) = Except.error e) :
    x = Except.error e ∨ ∃ a, x = Except.ok a ∧ f a = Except.error e := by
  cases x with
  | error e2 =>
    left
    simp only [bind, Except.bind] at h
    injection h with h
    rw [h]
  | ok a =>
    right
    exact ⟨a, rfl, h⟩

theorem vec_at_ne_out_of_fuel {α : Type} (v : List α) (i : Nat) :
    vec_at v i ≠ Except.error Fault.out_of_fuel := by
  unfold vec_at
  cases v[i]? with
  | none => simp
  | some a => simp

theorem material_ne_out_of_fuel {F : Type} [LinearOrderedField F] (sc : Scene F) (id : Nat) :
    sc.material id ≠ Except.error Fault.out_of_fuel := by
  unfold Scene.material
  by_cases h : id ≥ sc.n_bxdf
  · rw [if_pos h]
    simp
  · rw [if_neg h]
    exact vec_at_ne_out_of_fuel _ _

theorem emitter_ne_out_of_fuel {F : Type} [LinearOrderedField F] (sc : Scene F) (id : Nat) :
    sc.emitter id ≠ Except.error Fault.out_of_fuel := by
  unfold Scene.emitter
  by_cases h : id ≥ sc.n_emitter
  · rw [if_pos h]
    simp
  · rw [if_neg h]
    intro hcon
    rcases bind_eq_error hcon with h1 | ⟨a, -, h2⟩
    · exact vec_at_ne_out_of_fuel _ _ h1
    · unfold Scene.emitter_select_probability at h2
      rw [if_neg h] at h2
      cases h2

section Walks5
variable {F : Type} [LinearOrderedField F]

/-- An iteration of the camera trace loop does not fail for lack of fuel. -/
theorem camera_bounce_ne_out_of_fuel (M : FloatOps F) (b : BDPT F) (vs : List (Vertex F))
    (ray : Section F) (depth : Nat) (tp : Colour F) (idata : Intersection F)
    (pm : BxDF F) (smp : Colour F × Double3 F × Event × F × F) (hne : vs ≠ []) :
    BDPT.camera_bounce M b vs ray depth tp idata pm smp ≠ Except.error Fault.out_of_fuel := by
  obtain ⟨l, -, hb⟩ := back_of_ne_nil vs hne
  unfold BDPT.camera_bounce
  simp only []
  cases hev : smp.2.2.1 with
  | None => simp [pure, Except.pure]
  | Transmit => simp [pure, Except.pure]
  | Emission =>
    simp only []
    intro hcon
    rcases bind_eq_error hcon with h1 | ⟨a, -, h2⟩
    · exact emitter_ne_out_of_fuel _ _ h1
    · rw [hb] at h2
      simp only [bind, Except.bind, pure, Except.pure] at h2
      cases h2
  | Diffuse =>
    simp only []
    rw [hb]
    simp only [bind, Except.bind, pure, Except.pure]
    by_cases hd : (depth + 1) % 256 > b.max_path_length
    · rw [if_pos hd]
      simp
    · rw [if_neg hd]
      simp
  | Reflect =>
    simp only []
    rw [hb]
    simp only [bind, Except.bind, pure, Except.pure]
    by_cases hd : (depth + 1) % 256 > b.max_path_length
    · rw [if_pos hd]
      simp
    · rw [if_neg hd]
      simp

/-- With `max_path_length <= 254` the camera trace loop entered with depth counter `d`
ends within `max_path_length + 1 - d` iterations: with that much fuel the model does
not run out of it. -/
theorem camera_loop_fuel (M : FloatOps F) (b : BDPT F) (hmax : b.max_path_length ≤ 254) :
    ∀ (fuel : Nat) (vs : List (Vertex F)) (ray : Section F) (d : Nat) (tp : Colour F)
      (prng : Mersenne), vs ≠ [] → d ≤ b.max_path_length → b.max_path_length + 1 ≤ fuel + d →
      BDPT.camera_loop M b fuel vs ray d tp prng ≠ Except.error Fault.out_of_fuel := by
  intro fuel
  induction fuel with
  | zero =>
    intro vs ray d tp prng _ hd hf
    omega
  | succ fuel ih =>
    intro vs ray d tp prng hne hd hf hcon
    unfold BDPT.camera_loop at hcon
    simp only [] at hcon
    by_cases hhit : (!(b.scene.intersect ray).1) = true
    · rw [if_pos hhit] at hcon
      cases hcon
    · rw [if_neg hhit] at hcon
      rcases bind_eq_error hcon with h1 | ⟨pm, -, h2⟩
      · exact material_ne_out_of_fuel _ _ h1
      · rcases bind_eq_error h2 with h3 | ⟨step, hstep, h4⟩
        · exact camera_bounce_ne_out_of_fuel M b vs ray d tp _ pm _ hne h3
        · rcases camera_bounce_cases M b vs ray d tp _ pm _ step hne hstep with
            hs | ⟨l, v, -, -, -, -, hs⟩
          · rw [hs] at h4
            cases h4
          · rcases hs with ⟨-, hs⟩ | ⟨-, -, hs⟩ | ⟨-, hle, ray2, tp2, hs⟩
            · rw [hs] at h4
              cases h4
            · rw [hs] at h4
              cases h4
            · rw [hs] at h4
              simp only [] at h4
              have hmod : (d + 1) % 256 = d + 1 := Nat.mod_eq_of_lt (by omega)
              rw [hmod] at hle h4
              exact ih _ _ _ _ _ (by simp) hle (by omega) h4

/-- The same for the emission trace loop. -/
theorem emission_loop_fuel (M : FloatOps F) (b : BDPT F) (e : Emitter.Triangle F)
    (hmax : b.max_path_length ≤ 254) :
    ∀ (fuel : Nat) (vs : List (Vertex F)) (ray : Section F) (d : Nat) (tp : Colour F)
      (prng : Mersenne), vs ≠ [] → d ≤ b.max_path_length → b.max_path_length + 1 ≤ fuel + d →
      BDPT.emission_loop M b e fuel vs ray d tp prng ≠ Except.error Fault.out_of_fuel := by
  intro fuel
  induction fuel with
  | zero =>
    intro vs ray d tp prng _ hd hf
    omega
  | succ fuel ih =>
    intro vs ray d tp prng hne hd hf hcon
    unfold BDPT.emission_loop at hcon
    simp only [] at hcon
    by_cases hhit : (!(b.scene.intersect ray).1) = true
    · rw [if_pos hhit] at hcon
      cases hcon
    · rw [if_neg hhit] at hcon
      rcases bind_eq_error hcon with h1 | ⟨pm, -, h2⟩
      · exact material_ne_out_of_fuel _ _ h1
      · rcases bind_eq_error h2 with h3 | ⟨step, hstep, h4⟩
        · obtain ⟨st, hst⟩ := emission_bounce_ok M b e vs ray d tp
            (b.scene.intersect ray).2.2 pm
            (pm.sample M (b.scene.intersect ray).2.2 TraceMode.Importance prng).1 hne
          rw [hst] at h3
          cases h3
        · rcases emission_bounce_cases M b e vs ray d tp _ pm _ step hne hstep with
            hs | ⟨l, v, -, -, -, -, -, hs⟩
          · rw [hs] at h4
            cases h4
          · rcases hs with ⟨-, hs⟩ | ⟨hle, ray2, tp2, hs⟩
            · rw [hs] at h4
              cases h4
            · rw [hs] at h4
              simp only [] at h4
              have hmod : (d + 1) % 256 = d + 1 := Nat.mod_eq_of_lt (by omega)
              rw [hmod] at hle h4
              exact ih _ _ _ _ _ (by simp) hle (by omega) h4

/-- For `1 <= max_path_length <= 254` both walks end within `max_path_length` iterations
of their trace loops (with that much fuel the model does not run out of it; a walk can
still throw on an id out of bounds), and a path they return is not empty and has at most
`max_path_length + 1` vertices; in the camera path only the last vertex can have
`f_emitter` set, and then the path has at least two vertices. -/
theorem walks_bounded (M : FloatOps F) (b : BDPT F) (fuel : Nat) (prng : Mersenne)
    (x y : Nat) (h1 : 1 ≤ b.max_path_length) (hmax : b.max_path_length ≤ 254) :
    (b.max_path_length ≤ fuel →
      BDPT.trace_emission_path M fuel b prng ≠ Except.error Fault.out_of_fuel ∧
      BDPT.trace_camera_path M fuel b x y prng ≠ Except.error Fault.out_of_fuel) ∧
    (∀ vs g, BDPT.trace_emission_path M fuel b prng = Except.ok (vs, g) →
      vs ≠ [] ∧ vs.length ≤ b.max_path_length + 1) ∧
    (∀ vs g, BDPT.trace_camera_path M fuel b x y prng = Except.ok (vs, g) →
      vs ≠ [] ∧ vs.length ≤ b.max_path_length + 1 ∧
      ∀ i v, vs[i]? = some v → v.f_emitter = true → i + 1 = vs.length ∧ 2 ≤ vs.length) := by
  refine ⟨?_, ?_, ?_⟩
  · intro hf
    constructor
    · intro hcon
      unfold BDPT.trace_emission_path at hcon
      rcases bind_eq_error hcon with h2 | ⟨em, -, h2⟩
      · exact emitter_ne_out_of_fuel _ _ h2
      · exact emission_loop_fuel M b em.1 hmax fuel _ _ 1 _ _ (by simp [BDPT.emission_start])
          h1 (by omega) h2
    · intro hcon
      unfold BDPT.trace_camera_path at hcon
      exact camera_loop_fuel M b hmax fuel _ _ 1 _ _ (by simp [BDPT.camera_start])
        h1 (by omega) hcon
  · intro vs g h
    unfold BDPT.trace_emission_path at h
    obtain ⟨em, -, h2⟩ := bind_eq_ok h
    simp only [] at h2
    refine emission_loop_inv M b em.1
      (fun vs d _ => vs.length = d ∧ 1 ≤ d ∧ d ≤ b.max_path_length)
      (fun vs => vs ≠ [] ∧ vs.length ≤ b.max_path_length + 1) ?_ ?_ ?_
      fuel _ _ _ _ _ (vs, g) ?_ h2
    · intro vs d tp hI
      exact ⟨List.ne_nil_of_length_pos (by omega), by omega⟩
    · intro vs ray d tp idata pm smp vs2 hI hb
      have hne : vs ≠ [] := List.ne_nil_of_length_pos (by omega)
      rcases emission_bounce_cases M b em.1 vs ray d tp idata pm smp _ hne hb with
        hs | ⟨l, v, -, -, -, -, -, hs⟩
      · cases hs
        exact ⟨hne, by omega⟩
      · rcases hs with ⟨-, hs⟩ | ⟨-, _, _, hs⟩
        · cases hs
          exact ⟨by simp, by simp; omega⟩
        · cases hs
    · intro vs ray d tp idata pm smp vs2 ray2 d2 tp2 hI hb
      have hne : vs ≠ [] := List.ne_nil_of_length_pos (by omega)
      rcases emission_bounce_cases M b em.1 vs ray d tp idata pm smp _ hne hb with
        hs | ⟨l, v, -, -, -, -, -, hs⟩
      · cases hs
      · rcases hs with ⟨-, hs⟩ | ⟨hle, _, _, hs⟩
        · cases hs
        · cases hs
          have hmod : (d + 1) % 256 = d + 1 := Nat.mod_eq_of_lt (by omega)
          rw [hmod] at hle ⊢
          exact ⟨by simp; omega, by omega, hle⟩
    · exact ⟨by simp [BDPT.emission_start], le_refl 1, h1⟩
  · intro vs g h
    unfold BDPT.trace_camera_path at h
    simp only [] at h
    refine camera_loop_inv M b
      (fun vs d _ => vs.length = d ∧ 1 ≤ d ∧ d ≤ b.max_path_length ∧
        ∀ v ∈ vs, v.f_emitter = false)
      (fun vs => vs ≠ [] ∧ vs.length ≤ b.max_path_length + 1 ∧
        ∀ i v, vs[i]? = some v → v.f_emitter = true → i + 1 = vs.length ∧ 2 ≤ vs.length)
      ?_ ?_ ?_ fuel _ _ _ _ _ (vs, g) ?_ h
    · intro vs d tp hI
      refine ⟨List.ne_nil_of_length_pos (by omega), by omega, ?_⟩
      intro i v hv hem
      have := hI.2.2.2 v (List.getElem?_mem hv)
      rw [this] at hem
      cases hem
    · intro vs ray d tp idata pm smp vs2 hI hb
      have hne : vs ≠ [] := List.ne_nil_of_length_pos (by omega)
      have hold : ∀ (i : Nat) (w : Vertex F), vs[i]? = some w → w.f_emitter = true → False := by
        intro i w hw hem
        have := hI.2.2.2 w (List.getElem?_mem hw)
        rw [this] at hem
        cases hem
      rcases camera_bounce_cases M b vs ray d tp idata pm smp _ hne hb with
        hs | ⟨l, v, -, -, -, -, hs⟩
      · cases hs
        refine ⟨hne, by omega, ?_⟩
        intro i w hw hem
        exact (hold i w hw hem).elim
      · have hvs2 : vs2 = vs ++ [v] := by
          rcases hs with ⟨-, hs⟩ | ⟨-, -, hs⟩ | ⟨-, -, _, _, hs⟩
          · cases hs; rfl
          · cases hs; rfl
          · cases hs
        rw [hvs2]
        refine ⟨by simp, by simp; omega, ?_⟩
        intro i w hw hem
        by_cases hi : i < vs.length
        · rw [List.getElem?_append_left hi] at hw
          exact (hold i w hw hem).elim
        · have hlen : i < (vs ++ [v]).length := by
            rcases List.getElem?_eq_some.mp hw with ⟨h2, -⟩
            exact h2
          simp at hlen
          simp
          omega
    · intro vs ray d tp idata pm smp vs2 ray2 d2 tp2 hI hb
      have hne : vs ≠ [] := List.ne_nil_of_length_pos (by omega)
      rcases camera_bounce_cases M b vs ray d tp idata pm smp _ hne hb with
        hs | ⟨l, v, -, -, -, -, hs⟩
      · cases hs
      · rcases hs with ⟨-, hs⟩ | ⟨-, -, hs⟩ | ⟨hfalse, hle, _, _, hs⟩
        · cases hs
        · cases hs
        · cases hs
          have hmod : (d + 1) % 256 = d + 1 := Nat.mod_eq_of_lt (by omega)
          rw [hmod] at hle ⊢
          refine ⟨by simp; omega, by omega, hle, ?_⟩
          intro w hw
          rcases List.mem_append.mp hw with hin | hin
          · exact hI.2.2.2 w hin
          · rw [List.mem_singleton.mp hin]
            exact hfalse
    · refine ⟨by simp [BDPT.camera_start], le_refl 1, h1, ?_⟩
      intro v hv
      simp only [BDPT.camera_start, List.mem_singleton] at hv
      rw [hv]
      rfl

end Walks5

section Orbit
variable {F : Type} [LinearOrderedField F]

/-- With `max_path_length = 255` an iteration of the emission trace loop on a ray that
hits a mirror from the front never ends the walk: the depth counter, a `std::uint8_t`,
cannot exceed 255. -/
theorem emission_loop_mirror_step (M : FloatOps F) (b : BDPT F) (e : Emitter.Triangle F)
    (hmax : b.max_path_length = 255) (fuel : Nat) (vs : List (Vertex F)) (ray ray2 : Section F)
    (depth : Nat) (tp : Colour F) (prng : Mersenne) (hne : vs ≠ [])
    (hnext : b.mirror_next ray = some ray2) :
    ∃ vs2 tp2, vs2 ≠ [] ∧
      BDPT.emission_loop M b e (fuel + 1) vs ray depth tp prng
        = BDPT.emission_loop M b e fuel vs2 ray2 ((depth + 1) % 256) tp2 prng := by
  obtain ⟨l, -, hb⟩ := back_of_ne_nil vs hne
  unfold BDPT.mirror_next at hnext
  simp only [] at hnext
  by_cases hhit : (b.scene.intersect ray).1 = true
  · rw [if_pos hhit] at hnext
    cases hm : b.scene.material (b.scene.intersect ray).2.2.material_id with
    | error err => rw [hm] at hnext; cases hnext
    | ok pm =>
      rw [hm] at hnext
      cases pm with
      | Lambert a => cases hnext
      | Emission id => cases hnext
      | Mirror refl =>
        simp only [] at hnext
        by_cases hcos : (b.scene.intersect ray).2.2.from_direction.dot
            (b.scene.intersect ray).2.2.normal_shading < EPSILON_COS_THETA F
        · rw [if_pos hcos] at hnext
          cases hnext
        · rw [if_neg hcos] at hnext
          injection hnext with hnext
          subst hnext
          have hdepth : ¬((depth + 1) % 256 > b.max_path_length) := by
            rw [hmax]
            have := Nat.mod_lt (depth + 1) (show 256 > 0 by norm_num)
            omega
          have hsmp : (BxDF.Mirror refl).sample M (b.scene.intersect ray).2.2
              TraceMode.Importance prng
              = ((refl,
                  (b.scene.intersect ray).2.2.from_direction.neg.add
                    ((b.scene.intersect ray).2.2.normal_shading.mul
                      (2 * (b.scene.intersect ray).2.2.from_direction.dot
                        (b.scene.intersect ray).2.2.normal_shading)),
                  Event.Reflect, 1,
                  ((b.scene.intersect ray).2.2.from_direction.neg.add
                    ((b.scene.intersect ray).2.2.normal_shading.mul
                      (2 * (b.scene.intersect ray).2.2.from_direction.dot
                        (b.scene.intersect ray).2.2.normal_shading))).dot
                    (b.scene.intersect ray).2.2.normal_shading), prng) := by
            simp only [BxDF.sample, if_neg hcos]
          have hstep : ∃ v tp2,
              BDPT.emission_bounce M b e vs ray depth tp (b.scene.intersect ray).2.2
                (BxDF.Mirror refl)
                ((BxDF.Mirror refl).sample M (b.scene.intersect ray).2.2
                  TraceMode.Importance prng).1
              = Except.ok (BDPT.Step.next (vs ++ [v])
                  (Section.ctor_eps (b.scene.intersect ray).2.2.point
                    ((b.scene.intersect ray).2.2.from_direction.neg.add
                      ((b.scene.intersect ray).2.2.normal_shading.mul
                        (2 * (b.scene.intersect ray).2.2.from_direction.dot
                          (b.scene.intersect ray).2.2.normal_shading))) (EPSILON_RAY F))
                  ((depth + 1) % 256) tp2) := by
            rw [hsmp]
            unfold BDPT.emission_bounce
            simp only []
            rw [hb]
            simp only [bind, Except.bind, pure, Except.pure]
            rw [if_neg hdepth]
            exact ⟨_, _, rfl⟩
          obtain ⟨v, tp2, hstep⟩ := hstep
          refine ⟨vs ++ [v], tp2, by simp, ?_⟩
          conv_lhs => unfold BDPT.emission_loop
          simp only [hhit, Bool.not_true, Bool.false_eq_true, if_false, hm, bind, Except.bind,
            hstep]
          rw [hsmp]
  · rw [if_neg hhit] at hnext
    cases hnext

/-- With `max_path_length = 255`, an emission walk whose ray has entered a set of rays
that hit a mirror from the front and are reflected into the set again does not return:
whatever fuel the model is given, it runs out of it. -/
theorem emission_loop_orbit (M : FloatOps F) (b : BDPT F) (e : Emitter.Triangle F)
    (hmax : b.max_path_length = 255) (R : Section F → Prop)
    (hR : ∀ ray, R ray → ∃ ray2, b.mirror_next ray = some ray2 ∧ R ray2) :
    ∀ (fuel : Nat) (vs : List (Vertex F)) (ray : Section F) (depth : Nat) (tp : Colour F)
      (prng : Mersenne), vs ≠ [] → R ray →
      BDPT.emission_loop M b e fuel vs ray depth tp prng = Except.error Fault.out_of_fuel := by
  intro fuel
  induction fuel with
  | zero =>
    intro vs ray depth tp prng _ _
    rfl
  | succ fuel ih =>
    intro vs ray depth tp prng hne hr
    obtain ⟨ray2, hnext, hr2⟩ := hR ray hr
    obtain ⟨vs2, tp2, hne2, hstep⟩ :=
      emission_loop_mirror_step M b e hmax fuel vs ray ray2 depth tp prng hne hnext
    rw [hstep]
    exact ih vs2 ray2 _ tp2 prng hne2 hr2

end Orbit

/-- A ray is determined by its coordinates. -/
theorem coords_injective {F : Type} (r1 r2 : Section F) (h : r1.coords = r2.coords) :
    r1 = r2 := by
  unfold Section.coords at h
  simp only [Prod.mk.injEq] at h
  obtain ⟨h1, h2, h3, h4, h5, h6⟩ := h
  ext <;> assumption

/-- From the coordinates of the next ray to the next ray. -/
theorem mirror_next_of_coords (b : BDPT ℚ) (r r2 : Section ℚ)
    (h : (b.mirror_next r).map Section.coords = some r2.coords) :
    b.mirror_next r = some r2 := by
  cases hn : b.mirror_next r with
  | none => rw [hn] at h; cases h
  | some r3 =>
    rw [hn] at h
    simp only [Option.map_some', Option.some.injEq] at h
    rw [coords_injective r3 r2 h]

/-- **C30 (failing input).** With `max_path_length = 255`, the emission walk in
`scene_two_mirrors` from the generator state `prng_two_mirrors` leaves the light along
its normal and is reflected between the two mirrors for ever: the depth counter wraps
from 255 to 0 and the test `++depth > max_path_length` never holds.  Whatever the number
of iterations the model follows, the walk has not returned. -/
theorem C30_walk_does_not_stop :
    bdpt_two_mirrors.max_path_length = 255 ∧
    ∀ fuel : Nat, BDPT.trace_emission_path rationalOps fuel bdpt_two_mirrors prng_two_mirrors
      = Except.error Fault.out_of_fuel := by
  refine ⟨rfl, ?_⟩
  intro fuel
  have hem : bdpt_two_mirrors.scene.emitter
      (bdpt_two_mirrors.scene.random_emitter prng_two_mirrors).1
      = Except.ok (emitter_two_mirrors, 1 / ((1 : Nat) : ℚ)) := by
    have h0 : (bdpt_two_mirrors.scene.random_emitter prng_two_mirrors).1 = 0 := Nat.mod_one _
    rw [h0]
    rfl
  have h1 : (bdpt_two_mirrors.mirror_next orbit_start).map Section.coords
      = some orbit_down.coords := by decide!
  have h2 : (bdpt_two_mirrors.mirror_next orbit_down).map Section.coords
      = some orbit_up.coords := by decide!
  have h3 : (bdpt_two_mirrors.mirror_next orbit_up).map Section.coords
      = some orbit_down.coords := by decide!
  have horbit := emission_loop_orbit rationalOps bdpt_two_mirrors emitter_two_mirrors rfl
    (fun ray => ray = orbit_start ∨ ray = orbit_down ∨ ray = orbit_up)
    (by
      rintro ray (hr | hr | hr)
      · rw [hr]
        exact ⟨orbit_down, mirror_next_of_coords _ _ _ h1, Or.inr (Or.inl rfl)⟩
      · rw [hr]
        exact ⟨orbit_up, mirror_next_of_coords _ _ _ h2, Or.inr (Or.inr rfl)⟩
      · rw [hr]
        exact ⟨orbit_down, mirror_next_of_coords _ _ _ h3, Or.inr (Or.inl rfl)⟩)
  unfold BDPT.trace_emission_path
  simp only [hem, bind, Except.bind]
  have h0 : (bdpt_two_mirrors.scene.random_emitter prng_two_mirrors).1 = 0 := Nat.mod_one _
  rw [h0]
  exact horbit fuel _ _ 1 _ _ (by simp [BDPT.emission_start]) (Or.inl rfl)

/-- A computation that returns, as the value it returns. -/
theorem ok_of_isSome {ε α : Type} (r : Except ε α) (d : α)
    (h : r.toOption.isSome = true) : r = Except.ok (r.toOption.getD d) := by
  cases r with
  | error e => cases h
  | ok a => rfl

theorem emission_run_ok :
    BDPT.trace_emission_path rationalOps 5 wall_light_bdpt ⟨10⟩
      = Except.ok ((emission_run.toOption.getD ([], ⟨0⟩)).1,
          (emission_run.toOption.getD ([], ⟨0⟩)).2) :=
  ok_of_isSome emission_run ([], ⟨0⟩) (by decide!)

theorem camera_run_ok :
    BDPT.trace_camera_path rationalOps 5 wall_light_bdpt 200 200 ⟨10⟩
      = Except.ok ((camera_run.toOption.getD ([], ⟨0⟩)).1,
          (camera_run.toOption.getD ([], ⟨0⟩)).2) :=
  ok_of_isSome camera_run ([], ⟨0⟩) (by decide!)

/-- Witness for C26: the two walks in `scene_wall_light` from the generator state `10`
(two vertices each). -/
theorem C26_stored_G_witness :
    ((emission_run.toOption.getD ([], ⟨0⟩)).1.length = 2 ∧
      (camera_run.toOption.getD ([], ⟨0⟩)).1.length = 2) ∧
    BDPT.PathG rationalOps (emission_run.toOption.getD ([], ⟨0⟩)).1 ∧
    BDPT.PathG rationalOps (camera_run.toOption.getD ([], ⟨0⟩)).1 :=
  ⟨by decide!,
   (C26_stored_G rationalOps wall_light_bdpt 5 ⟨10⟩ 200 200).1 _ _ emission_run_ok,
   (C26_stored_G rationalOps wall_light_bdpt 5 ⟨10⟩ 200 200).2 _ _ camera_run_ok⟩

/-- Witness for C28: the emission walk in `scene_wall_light` from the generator state
`10`; its first vertex is flagged as emitter and stores `G = 1`. -/
theorem C28_light_vertex_witness :
    ∃ y0 : Vertex ℚ, (emission_run.toOption.getD ([], ⟨0⟩)).1[0]? = some y0 ∧
      y0.f_emitter = true ∧ y0.G = 1 := by
  obtain ⟨e, p_sel, y0, -, h0, -, h1, -, h2, -⟩ :=
    C28_light_vertex rationalOps wall_light_bdpt 5 ⟨10⟩ _ _ emission_run_ok
  exact ⟨y0, h0, h1, h2⟩

/-! ## Relations between the operations of a material, samplers, frame helper -/

section Relations
variable {F : Type} [LinearOrderedField F]

/-- **C39.** For all directions, intersection records and trace modes, `Lambert::factor`
equals the colour component of `Lambert::evaluate` and `Lambert::pdf` equals its `pdf_W`
component on the same arguments; the three operations apply the same cosine cut-offs:
when either cosine is below `EPSILON_COS_THETA` they return black, zero and
`(black, 0, 0)`, and otherwise `albedo * inv_pi`, `cos_theta * inv_pi` and the triple of
these with `cos_theta`. -/
theorem C39_lambert_factor_pdf (M : FloatOps F) (albedo : Colour F)
    (evaluate_direction from_direction : Double3 F) (idata : Intersection F)
    (trace_mode : TraceMode) :
    (BxDF.Lambert albedo).factor M evaluate_direction from_direction idata trace_mode
      = ((BxDF.Lambert albedo).evaluate M evaluate_direction from_direction idata
          trace_mode).1 ∧
    (BxDF.Lambert albedo).pdf M evaluate_direction from_direction idata
      = ((BxDF.Lambert albedo).evaluate M evaluate_direction from_direction idata
          trace_mode).2.1 ∧
    ((evaluate_direction.dot idata.orthogonal.normal < EPSILON_COS_THETA F ∨
        from_direction.dot idata.orthogonal.normal < EPSILON_COS_THETA F) →
      (BxDF.Lambert albedo).factor M evaluate_direction from_direction idata trace_mode
        = Colour.Black ∧
      (BxDF.Lambert albedo).pdf M evaluate_direction from_direction idata = 0 ∧
      (BxDF.Lambert albedo).evaluate M evaluate_direction from_direction idata trace_mode
        = (Colour.Black, 0, 0)) ∧
    (¬ (evaluate_direction.dot idata.orthogonal.normal < EPSILON_COS_THETA F ∨
        from_direction.dot idata.orthogonal.normal < EPSILON_COS_THETA F) →
      (BxDF.Lambert albedo).factor M evaluate_direction from_direction idata trace_mode
        = albedo.smul M.inv_pi ∧
      (BxDF.Lambert albedo).pdf M evaluate_direction from_direction idata
        = evaluate_direction.dot idata.orthogonal.normal * M.inv_pi ∧
      (BxDF.Lambert albedo).evaluate M evaluate_direction from_direction idata trace_mode
        = (albedo.smul M.inv_pi, evaluate_direction.dot idata.orthogonal.normal * M.inv_pi,
            evaluate_direction.dot idata.orthogonal.normal)) := by
  by_cases h : evaluate_direction.dot idata.orthogonal.normal < EPSILON_COS_THETA F ∨
      from_direction.dot idata.orthogonal.normal < EPSILON_COS_THETA F
  · have hf : (BxDF.Lambert albedo).factor M evaluate_direction from_direction idata
        trace_mode = Colour.Black := by
      simp only [BxDF.factor, if_pos h]
    have hp : (BxDF.Lambert albedo).pdf M evaluate_direction from_direction idata = 0 := by
      simp only [BxDF.pdf, if_pos h]
    have he : (BxDF.Lambert albedo).evaluate M evaluate_direction from_direction idata
        trace_mode = (Colour.Black, 0, 0) := by
      simp only [BxDF.evaluate, if_pos h]
    refine ⟨?_, ?_, fun _ => ⟨hf, hp, he⟩, fun hn => absurd h hn⟩
    · rw [hf, he]
    · rw [hp, he]
  · have hf : (BxDF.Lambert albedo).factor M evaluate_direction from_direction idata
        trace_mode = albedo.smul M.inv_pi := by
      simp only [BxDF.factor, if_neg h]
    have hp : (BxDF.Lambert albedo).pdf M evaluate_direction from_direction idata
        = evaluate_direction.dot idata.orthogonal.normal * M.inv_pi := by
      simp only [BxDF.pdf, if_neg h]
    have he : (BxDF.Lambert albedo).evaluate M evaluate_direction from_direction idata
        trace_mode = (albedo.smul M.inv_pi,
          evaluate_direction.dot idata.orthogonal.normal * M.inv_pi,
          evaluate_direction.dot idata.orthogonal.normal) := by
      simp only [BxDF.evaluate, if_neg h]
    refine ⟨?_, ?_, fun hy => absurd hy h, fun _ => ⟨hf, hp, he⟩⟩
    · rw [hf, he]
    · rw [hp, he]

/-- Two distinct points are at a positive squared distance. -/
theorem dot_sub_self_pos (a b : Double3 F) (hab : a ≠ b) :
    0 < (b.sub a).dot (b.sub a) := by
  simp only [Double3.dot, Double3.sub]
  rcases (dot_self_nonneg (b.sub a)).lt_or_eq with h | h
  · simpa only [Double3.sub] using h
  · exfalso
    simp only [Double3.sub] at h
    have hx : b.x - a.x = 0 := by
      nlinarith [mul_self_nonneg (b.x - a.x), mul_self_nonneg (b.y - a.y),
        mul_self_nonneg (b.z - a.z)]
    have hy : b.y - a.y = 0 := by
      nlinarith [mul_self_nonneg (b.x - a.x), mul_self_nonneg (b.y - a.y),
        mul_self_nonneg (b.z - a.z)]
    have hz : b.z - a.z = 0 := by
      nlinarith [mul_self_nonneg (b.x - a.x), mul_self_nonneg (b.y - a.y),
        mul_self_nonneg (b.z - a.z)]
    exact hab (Double3.ext (by linarith) (by linarith) (by linarith))

/-- The direction from `b` to `a` is the negated direction from `a` to `b`. -/
theorem normalise_sub_neg (M : FloatOps F) (a b : Double3 F) :
    (a.sub b).normalise M = ((b.sub a).normalise M).neg := by
  have hq : (a.x - b.x) * (a.x - b.x) + (a.y - b.y) * (a.y - b.y) + (a.z - b.z) * (a.z - b.z)
      = (b.x - a.x) * (b.x - a.x) + (b.y - a.y) * (b.y - a.y) + (b.z - a.z) * (b.z - a.z) := by
    ring
  simp only [Double3.normalise, Double3.sub, Double3.div, Double3.neg, hq]
  refine Double3.ext ?_ ?_ ?_
  · show (a.x - b.x) / _ = -((b.x - a.x) / _)
    rw [← neg_div, neg_sub]
  · show (a.y - b.y) / _ = -((b.y - a.y) / _)
    rw [← neg_div, neg_sub]
  · show (a.z - b.z) / _ = -((b.z - a.z) / _)
    rw [← neg_div, neg_sub]

/-- **C38.** `Gprime` is symmetric: for every two vertices at distinct points (so that
the squared distance the function divides by is positive),
`Gprime(a, b) = Gprime(b, a)`. -/
theorem C38_Gprime_symmetric (M : FloatOps F) (a b : Vertex F)
    (hab : a.get_point ≠ b.get_point) :
    0 < (b.get_point.sub a.get_point).dot (b.get_point.sub a.get_point) ∧
    BDPT.Gprime M a b = BDPT.Gprime M b a := by
  refine ⟨dot_sub_self_pos _ _ hab, ?_⟩
  have hd : (a.get_point.sub b.get_point).dot (a.get_point.sub b.get_point)
      = (b.get_point.sub a.get_point).dot (b.get_point.sub a.get_point) := by
    simp only [Double3.dot, Double3.sub]
    ring
  have hn := normalise_sub_neg M a.get_point b.get_point
  unfold BDPT.Gprime
  simp only []
  rw [hn, hd]
  have h1 : ∀ n : Double3 F, (((b.get_point.sub a.get_point).normalise M).neg).dot n
      = -(((b.get_point.sub a.get_point).normalise M).dot n) := by
    intro n
    simp only [Double3.dot, Double3.neg]
    ring
  rw [h1, h1, neg_neg]
  rw [mul_comm (max 0 (-(((b.get_point.sub a.get_point).normalise M).dot b.get_normal)))]

end Relations

/-- Witness for C38: two vertices facing each other at distance one. -/
theorem C38_Gprime_symmetric_witness :
    BDPT.Gprime rationalOps
        (Vertex.ctor ⟨⟨0, 0, 0⟩, ⟨0, 0, 1⟩, ⟨0, 0, 1⟩, ⟨0, 0, 1⟩, Orthogonal.default, 0⟩
          Colour.White 1 1 false false)
        (Vertex.ctor ⟨⟨0, 0, 1⟩, ⟨0, 0, -1⟩, ⟨0, 0, -1⟩, ⟨0, 0, -1⟩,
            ⟨⟨-1, 0, 0⟩, ⟨0, 1, 0⟩, ⟨0, 0, -1⟩⟩, 0⟩ Colour.White 1 1 false false)
      = BDPT.Gprime rationalOps
        (Vertex.ctor ⟨⟨0, 0, 1⟩, ⟨0, 0, -1⟩, ⟨0, 0, -1⟩, ⟨0, 0, -1⟩,
            ⟨⟨-1, 0, 0⟩, ⟨0, 1, 0⟩, ⟨0, 0, -1⟩⟩, 0⟩ Colour.White 1 1 false false)
        (Vertex.ctor ⟨⟨0, 0, 0⟩, ⟨0, 0, 1⟩, ⟨0, 0, 1⟩, ⟨0, 0, 1⟩, Orthogonal.default, 0⟩
          Colour.White 1 1 false false) :=
  (C38_Gprime_symmetric rationalOps _ _
    (fun h => absurd (congrArg Double3.z h) (by decide!))).2

/-- Witness for C39: a diffuse surface facing `+z`, evaluated for two directions above
it. -/
theorem C39_lambert_factor_pdf_witness :
    (BxDF.Lambert (⟨4 / 5, 4 / 5, 4 / 5⟩ : Colour ℚ)).factor rationalOps ⟨0, 0, 1⟩ ⟨0, 0, 1⟩
        ⟨⟨0, 0, 0⟩, ⟨0, 0, 1⟩, ⟨0, 0, 1⟩, ⟨0, 0, 1⟩, Orthogonal.default, 0⟩ TraceMode.Radiance
      = (⟨4 / 5, 4 / 5, 4 / 5⟩ : Colour ℚ).smul rationalOps.inv_pi :=
  ((C39_lambert_factor_pdf rationalOps ⟨4 / 5, 4 / 5, 4 / 5⟩ ⟨0, 0, 1⟩ ⟨0, 0, 1⟩
    ⟨⟨0, 0, 0⟩, ⟨0, 0, 1⟩, ⟨0, 0, 1⟩, ⟨0, 0, 1⟩, Orthogonal.default, 0⟩
    TraceMode.Radiance).2.2.2 (by decide!)).1

section TriangleHit
variable {F : Type} [LinearOrderedField F]

/-- Cramer's rule behind `intersect()`: when the determinant is not zero, the point of
the ray at parameter `mt_t` is the point of the triangle's plane with the coordinates
`(mt_u, mt_v)`. -/
theorem mt_point (g : Geometry.Triangle F) (ray : Section F) (hd : g.mt_d ray ≠ 0) :
    ray.origin.add (ray.direction.mul (g.mt_t ray))
      = (g.position.add (g.edge1.mul (g.mt_u ray))).add (g.edge2.mul (g.mt_v ray)) := by
  have hd2 : g.edge1.x * (ray.direction.y * g.edge2.z - ray.direction.z * g.edge2.y)
      + g.edge1.y * (ray.direction.z * g.edge2.x - ray.direction.x * g.edge2.z)
      + g.edge1.z * (ray.direction.x * g.edge2.y - ray.direction.y * g.edge2.x) ≠ 0 := by
    simpa only [Geometry.Triangle.mt_d, Double3.dot, Double3.cross] using hd
  simp only [Geometry.Triangle.mt_t, Geometry.Triangle.mt_u, Geometry.Triangle.mt_v,
    Geometry.Triangle.mt_d, Double3.add, Double3.mul, Double3.sub, Double3.dot, Double3.cross]
  refine Double3.ext ?_ ?_ ?_
  · show _ = _
    field_simp
    ring
  · show _ = _
    field_simp
    ring
  · show _ = _
    field_simp
    ring

/-- **C33.** For every triangle and ray, `Geometry::Triangle::intersect` returns one of
the codes `-1`, `-2`, `-3`, `-4` or a distance `t >= 1e-6`; whenever the value returned
is positive, the point `origin + t * direction` equals
`position + edge1 * u + edge2 * v` for some `u >= 0`, `v >= 0` with `u + v <= 1`. -/
theorem C33_triangle_intersect (g : Geometry.Triangle F) (ray : Section F) :
    (g.intersect ray = -1 ∨ g.intersect ray = -2 ∨ g.intersect ray = -3 ∨
      g.intersect ray = -4 ∨ 1 / 1000000 ≤ g.intersect ray) ∧
    (0 < g.intersect ray →
      ∃ u v : F, 0 ≤ u ∧ 0 ≤ v ∧ u + v ≤ 1 ∧
        ray.origin.add (ray.direction.mul (g.intersect ray))
          = (g.position.add (g.edge1.mul u)).add (g.edge2.mul v)) := by
  rw [intersect_eq_mt]
  by_cases h1 : |g.mt_d ray| < 1 / 1000000
  · rw [if_pos h1]
    exact ⟨Or.inl rfl, fun h => absurd h (by norm_num)⟩
  rw [if_neg h1]
  by_cases h2 : g.mt_u ray < 0 ∨ g.mt_u ray > 1
  · rw [if_pos h2]
    exact ⟨Or.inr (Or.inl rfl), fun h => absurd h (by norm_num)⟩
  rw [if_neg h2]
  by_cases h3 : g.mt_v ray < 0 ∨ g.mt_u ray + g.mt_v ray > 1
  · rw [if_pos h3]
    exact ⟨Or.inr (Or.inr (Or.inl rfl)), fun h => absurd h (by norm_num)⟩
  rw [if_neg h3]
  by_cases h4 : g.mt_t ray < 1 / 1000000
  · rw [if_pos h4]
    exact ⟨Or.inr (Or.inr (Or.inr (Or.inl rfl))), fun h => absurd h (by norm_num)⟩
  rw [if_neg h4]
  refine ⟨Or.inr (Or.inr (Or.inr (Or.inr (not_lt.mp h4)))), fun _ => ?_⟩
  have hd : g.mt_d ray ≠ 0 := by
    intro h0
    rw [h0, abs_zero] at h1
    exact h1 (by norm_num)
  have hu : 0 ≤ g.mt_u ray := not_lt.mp (fun h => h2 (Or.inl h))
  have hv : 0 ≤ g.mt_v ray := not_lt.mp (fun h => h3 (Or.inl h))
  have huv : g.mt_u ray + g.mt_v ray ≤ 1 := not_lt.mp (fun h => h3 (Or.inr h))
  exact ⟨g.mt_u ray, g.mt_v ray, hu, hv, huv, mt_point g ray hd⟩

end TriangleHit

/-- Witness for C33: the ray from the origin along `+y` meets the wall of
`scene_wall_light` at distance one. -/
theorem C33_triangle_intersect_witness :
    ∃ u v : ℚ, 0 ≤ u ∧ 0 ≤ v ∧ u + v ≤ 1 ∧
      (Double3.mk (0 : ℚ) 0 0).add ((Double3.mk (0 : ℚ) 1 0).mul
          ((Geometry.Triangle.ctor rationalOps ⟨-10, 1, -10⟩ ⟨30, 1, -10⟩ ⟨-10, 1, 30⟩ 0).intersect
            ⟨⟨0, 0, 0⟩, ⟨0, 1, 0⟩⟩))
        = ((Geometry.Triangle.ctor rationalOps ⟨-10, 1, -10⟩ ⟨30, 1, -10⟩ ⟨-10, 1, 30⟩
              0).position.add
            ((Geometry.Triangle.ctor rationalOps ⟨-10, 1, -10⟩ ⟨30, 1, -10⟩ ⟨-10, 1, 30⟩
              0).edge1.mul u)).add
          ((Geometry.Triangle.ctor rationalOps ⟨-10, 1, -10⟩ ⟨30, 1, -10⟩ ⟨-10, 1, 30⟩
              0).edge2.mul v) :=
  (C33_triangle_intersect
    (Geometry.Triangle.ctor rationalOps ⟨-10, 1, -10⟩ ⟨30, 1, -10⟩ ⟨-10, 1, 30⟩ 0)
    ⟨⟨0, 0, 0⟩, ⟨0, 1, 0⟩⟩).2 (by decide!)

section DiffuseBounce
variable {F : Type} [LinearOrderedField F]

/-- A sample of `Lambert::sample` with the event `Diffuse` is the one built from the
hemisphere sample. -/
theorem lambert_sample_of_diffuse (M : FloatOps F) (albedo : Colour F) (idata : Intersection F)
    (trace_mode : TraceMode) (prng : Mersenne)
    (hev : ((BxDF.Lambert albedo).sample M idata trace_mode prng).1.2.2.1 = Event.Diffuse) :
    ((BxDF.Lambert albedo).sample M idata trace_mode prng).1
      = BxDF.lambert_sample M albedo idata (Sample.HemiSphere M prng).1 := by
  simp only [BxDF.sample] at hev ⊢
  by_cases hc : idata.from_direction.dot idata.normal_shading < EPSILON_COS_THETA F
  · rw [if_pos hc] at hev
    cases hev
  · rw [if_neg hc]

end DiffuseBounce

/-! ## The image file -/

theorem foldl_keep {α σ : Type} {P : σ → Prop} (f : σ → α → σ) (l : List α)
    (hkeep : ∀ s x, x ∈ l → P s → P (f s x)) : ∀ s, P s → P (l.foldl f s) := by
  induction l with
  | nil => intro s hs; exact hs
  | cons b l ih =>
    intro s hs
    rw [List.foldl_cons]
    exact ih (fun s x hx => hkeep s x (List.mem_cons_of_mem _ hx)) _
      (hkeep s b (List.mem_cons_self _ _) hs)

theorem foldl_establish {α σ : Type} {P : σ → Prop} (f : σ → α → σ) (l : List α) (a : α)
    (ha : a ∈ l) (hset : ∀ s, P (f s a)) (hkeep : ∀ s x, x ∈ l → P s → P (f s x)) :
    ∀ s, P (l.foldl f s) := by
  induction l with
  | nil => exact absurd ha (List.not_mem_nil a)
  | cons b l ih =>
    intro s
    rw [List.foldl_cons]
    have hkeep' : ∀ s x, x ∈ l → P s → P (f s x) :=
      fun s x hx => hkeep s x (List.mem_cons_of_mem _ hx)
    rcases List.mem_cons.mp ha with hab | hal
    · subst hab
      exact foldl_keep f l hkeep' _ (hset s)
    · exact ih hal hkeep' _

/-- The index of a pixel of the image is below the number of pixels. -/
theorem index_lt (w h x y : Nat) (hx : x < w) (hy : y < h) : x + y * w < w * h := by
  have h1 : (y + 1) * w ≤ h * w := Nat.mul_le_mul_right w hy
  have h2 : (y + 1) * w = y * w + w := by ring
  have h3 : h * w = w * h := Nat.mul_comm h w
  omega

section SaveImageBytes
variable {F : Type} [LinearOrderedField F] [FloorRing F]

/-- The three bytes `SaveImage_pixel` writes for pixel `(x, y)` are in place after it. -/
theorem SaveImage_pixel_set (pow : F → F → F) (sensor : Sensor F) (config : Config)
    (hdr : Nat) (p : Nat → Nat) (x y : Nat) (hdr19 : hdr ≤ 19)
    (hsize : 19 + config.image_width * config.image_height * 3 < 2 ^ 31)
    (hx : x < config.image_width) (hy : y < config.image_height) :
    SaveImage_pixel pow sensor config hdr p x y (hdr + 3 * (x + y * config.image_width))
      = SaveImage_channel pow (sensor.get_colour x y).b ∧
    SaveImage_pixel pow sensor config hdr p x y (hdr + 3 * (x + y * config.image_width) + 1)
      = SaveImage_channel pow (sensor.get_colour x y).g ∧
    SaveImage_pixel pow sensor config hdr p x y (hdr + 3 * (x + y * config.image_width) + 2)
      = SaveImage_channel pow (sensor.get_colour x y).r := by
  have hlt := index_lt config.image_width config.image_height x y hx hy
  simp only [SaveImage_pixel]
  generalize sensor.get_colour x y = colour
  generalize x + y * config.image_width = a at hlt ⊢
  generalize config.image_width * config.image_height = n at hlt hsize
  have h0 : (a * 3) % 2 ^ 32 = a * 3 := Nat.mod_eq_of_lt (by omega)
  have h1 : (a * 3 + hdr) % 2 ^ 32 = hdr + 3 * a := by
    rw [Nat.mod_eq_of_lt (by omega)]; omega
  have h2 : (a * 3 + 1 + hdr) % 2 ^ 32 = hdr + 3 * a + 1 := by
    rw [Nat.mod_eq_of_lt (by omega)]; omega
  have h3 : (a * 3 + 2 + hdr) % 2 ^ 32 = hdr + 3 * a + 2 := by
    rw [Nat.mod_eq_of_lt (by omega)]; omega
  rw [h0, h1, h2, h3]
  refine ⟨?_, ?_, ?_⟩
  · rw [Function.update_noteq (by omega), Function.update_noteq (by omega),
      Function.update_same]
  · rw [Function.update_noteq (by omega), Function.update_same]
  · rw [Function.update_same]

/-- The bytes of another pixel are left alone by `SaveImage_pixel`. -/
theorem SaveImage_pixel_keep (pow : F → F → F) (sensor : Sensor F) (config : Config)
    (hdr : Nat) (p : Nat → Nat) (x y x0 y0 : Nat) (hdr19 : hdr ≤ 19)
    (hsize : 19 + config.image_width * config.image_height * 3 < 2 ^ 31)
    (hx : x < config.image_width) (hy : y < config.image_height)
    (hx0 : x0 < config.image_width)
    (hne : ¬ (x = x0 ∧ y = y0)) (c : Nat) (hc : c < 3) :
    SaveImage_pixel pow sensor config hdr p x y
        (hdr + 3 * (x0 + y0 * config.image_width) + c)
      = p (hdr + 3 * (x0 + y0 * config.image_width) + c) := by
  have hlt := index_lt config.image_width config.image_height x y hx hy
  have hinj : x + y * config.image_width ≠ x0 + y0 * config.image_width :=
    fun h => hne (index_injective config.image_width x y x0 y0 hx hx0 h)
  simp only [SaveImage_pixel]
  generalize sensor.get_colour x y = colour
  generalize x + y * config.image_width = a at hlt hinj ⊢
  generalize x0 + y0 * config.image_width = a0 at hinj ⊢
  generalize config.image_width * config.image_height = n at hlt hsize
  have h0 : (a * 3) % 2 ^ 32 = a * 3 := Nat.mod_eq_of_lt (by omega)
  have h1 : (a * 3 + hdr) % 2 ^ 32 = hdr + 3 * a := by
    rw [Nat.mod_eq_of_lt (by omega)]; omega
  have h2 : (a * 3 + 1 + hdr) % 2 ^ 32 = hdr + 3 * a + 1 := by
    rw [Nat.mod_eq_of_lt (by omega)]; omega
  have h3 : (a * 3 + 2 + hdr) % 2 ^ 32 = hdr + 3 * a + 2 := by
    rw [Nat.mod_eq_of_lt (by omega)]; omega
  rw [h0, h1, h2, h3]
  rw [Function.update_noteq (by omega), Function.update_noteq (by omega),
    Function.update_noteq (by omega)]

/-- After the two loops of `SaveImage`, the three bytes of pixel `(x, y)` hold the
channel bytes of `get_colour( x, y )` in the order blue, green, red. -/
theorem SaveImage_data_pixel (pow : F → F → F) (sensor : Sensor F) (config : Config)
    (f_libgdk : Bool) (x y : Nat)
    (hsize : 19 + config.image_width * config.image_height * 3 < 2 ^ 31)
    (hx : x < config.image_width) (hy : y < config.image_height) :
    SaveImage_data pow sensor config f_libgdk
        (18 + (if f_libgdk then 1 else 0) + 3 * (x + y * config.image_width))
      = SaveImage_channel pow (sensor.get_colour x y).b ∧
    SaveImage_data pow sensor config f_libgdk
        (18 + (if f_libgdk then 1 else 0) + 3 * (x + y * config.image_width) + 1)
      = SaveImage_channel pow (sensor.get_colour x y).g ∧
    SaveImage_data pow sensor config f_libgdk
        (18 + (if f_libgdk then 1 else 0) + 3 * (x + y * config.image_width) + 2)
      = SaveImage_channel pow (sensor.get_colour x y).r := by
  have hdr19 : 18 + (if f_libgdk then 1 else 0) ≤ 19 := by
    cases f_libgdk <;> simp
  have hpix : ∀ (p : Nat → Nat) (x1 y1 : Nat), x1 < config.image_width →
      y1 < config.image_height →
      (p (18 + (if f_libgdk then 1 else 0) + 3 * (x + y * config.image_width))
          = SaveImage_channel pow (sensor.get_colour x y).b ∧
        p (18 + (if f_libgdk then 1 else 0) + 3 * (x + y * config.image_width) + 1)
          = SaveImage_channel pow (sensor.get_colour x y).g ∧
        p (18 + (if f_libgdk then 1 else 0) + 3 * (x + y * config.image_width) + 2)
          = SaveImage_channel pow (sensor.get_colour x y).r) →
      (SaveImage_pixel pow sensor config (18 + (if f_libgdk then 1 else 0)) p x1 y1
            (18 + (if f_libgdk then 1 else 0) + 3 * (x + y * config.image_width))
          = SaveImage_channel pow (sensor.get_colour x y).b ∧
        SaveImage_pixel pow sensor config (18 + (if f_libgdk then 1 else 0)) p x1 y1
            (18 + (if f_libgdk then 1 else 0) + 3 * (x + y * config.image_width) + 1)
          = SaveImage_channel pow (sensor.get_colour x y).g ∧
        SaveImage_pixel pow sensor config (18 + (if f_libgdk then 1 else 0)) p x1 y1
            (18 + (if f_libgdk then 1 else 0) + 3 * (x + y * config.image_width) + 2)
          = SaveImage_channel pow (sensor.get_colour x y).r) := by
    intro p x1 y1 hx1 hy1 hP
    by_cases hxy : x1 = x ∧ y1 = y
    · obtain ⟨h1, h2⟩ := hxy
      subst h1
      subst h2
      exact SaveImage_pixel_set pow sensor config _ p x1 y1 hdr19 hsize hx hy
    · have k0 := SaveImage_pixel_keep pow sensor config _ p x1 y1 x y hdr19 hsize hx1 hy1 hx
        hxy 0 (by norm_num)
      have k1 := SaveImage_pixel_keep pow sensor config _ p x1 y1 x y hdr19 hsize hx1 hy1 hx
        hxy 1 (by norm_num)
      have k2 := SaveImage_pixel_keep pow sensor config _ p x1 y1 x y hdr19 hsize hx1 hy1 hx
        hxy 2 (by norm_num)
      rw [Nat.add_zero] at k0
      rw [k0, k1, k2]
      exact hP
  unfold SaveImage_data
  refine foldl_establish
    (P := fun p : Nat → Nat =>
      p (18 + (if f_libgdk then 1 else 0) + 3 * (x + y * config.image_width))
          = SaveImage_channel pow (sensor.get_colour x y).b ∧
        p (18 + (if f_libgdk then 1 else 0) + 3 * (x + y * config.image_width) + 1)
          = SaveImage_channel pow (sensor.get_colour x y).g ∧
        p (18 + (if f_libgdk then 1 else 0) + 3 * (x + y * config.image_width) + 2)
          = SaveImage_channel pow (sensor.get_colour x y).r)
    _ (List.range config.image_height) y (List.mem_range.mpr hy) ?_ ?_ _
  · intro p
    exact foldl_establish
      (P := fun p : Nat → Nat =>
        p (18 + (if f_libgdk then 1 else 0) + 3 * (x + y * config.image_width))
            = SaveImage_channel pow (sensor.get_colour x y).b ∧
          p (18 + (if f_libgdk then 1 else 0) + 3 * (x + y * config.image_width) + 1)
            = SaveImage_channel pow (sensor.get_colour x y).g ∧
          p (18 + (if f_libgdk then 1 else 0) + 3 * (x + y * config.image_width) + 2)
            = SaveImage_channel pow (sensor.get_colour x y).r)
      _ (List.range config.image_width) x (List.mem_range.mpr hx)
      (fun p1 => SaveImage_pixel_set pow sensor config _ p1 x y hdr19 hsize hx hy)
      (fun p1 x1 hx1 hP => hpix p1 x1 y (List.mem_range.mp hx1) hy hP) p
  · intro p y1 hy1 hP
    exact foldl_keep
      (P := fun p : Nat → Nat =>
        p (18 + (if f_libgdk then 1 else 0) + 3 * (x + y * config.image_width))
            = SaveImage_channel pow (sensor.get_colour x y).b ∧
          p (18 + (if f_libgdk then 1 else 0) + 3 * (x + y * config.image_width) + 1)
            = SaveImage_channel pow (sensor.get_colour x y).g ∧
          p (18 + (if f_libgdk then 1 else 0) + 3 * (x + y * config.image_width) + 2)
            = SaveImage_channel pow (sensor.get_colour x y).r)
      _ (List.range config.image_width)
      (fun p1 x1 hx1 hP1 => hpix p1 x1 y1 (List.mem_range.mp hx1) (List.mem_range.mp hy1) hP1)
      p hP

end SaveImageBytes

section SaveImageClaim
variable {F : Type} [LinearOrderedField F] [FloorRing F]

/-- The file `SaveImage` writes has `header + 3 * width * height` bytes, and byte `i` is
`p_data[i]`. -/
theorem SaveImage_bytes (pow : F → F → F) (sensor : Sensor F) (config : Config)
    (f_libgdk : Bool) (hsize : 19 + config.image_width * config.image_height * 3 < 2 ^ 31) :
    ∃ bytes, SaveImage pow true sensor config f_libgdk = some bytes ∧
      bytes.length
        = 18 + (if f_libgdk then 1 else 0) + config.image_width * config.image_height * 3 ∧
      ∀ i, i < bytes.length → bytes[i]? = some (SaveImage_data pow sensor config f_libgdk i) := by
  have hdr19 : 18 + (if f_libgdk then 1 else 0) ≤ 19 := by
    cases f_libgdk <;> simp
  have h1 : (config.image_width * config.image_height) % 2 ^ 32
      = config.image_width * config.image_height := Nat.mod_eq_of_lt (by omega)
  have h2 : (18 + (if f_libgdk then 1 else 0) + config.image_width * config.image_height * 3)
      % 2 ^ 32
      = 18 + (if f_libgdk then 1 else 0) + config.image_width * config.image_height * 3 :=
    Nat.mod_eq_of_lt (by omega)
  refine ⟨(List.range (18 + (if f_libgdk then 1 else 0)
      + config.image_width * config.image_height * 3)).map
        (SaveImage_data pow sensor config f_libgdk), ?_, ?_, ?_⟩
  · unfold SaveImage
    simp only [Bool.not_true, Bool.false_eq_true, if_false, h1, h2]
  · rw [List.length_map, List.length_range]
  · intro i hi
    rw [List.length_map, List.length_range] at hi
    rw [List.getElem?_map, List.getElem?_range hi]
    rfl

/-- **C31 (amended).** For an image of fewer than `(2^31 - 19) / 3` pixels and a reading
of `std::pow` that maps `[0, 1]` into `[0, 1]`: `SaveImage` writes a file of
`header_size + 3 * width * height` bytes, and for every pixel `(x, y)` of the image and
the colour `c` the sensor returns for it, the bytes at the offsets
`header_size + 3 * (x + y * image_width)`, `+ 1` and `+ 2` are the blue, green and red
channel, each stored as `floor(255 * clamp(c, 0, 1)^(1/2.2))`: the fraction is
discarded, the value is not rounded to the nearest integer. -/
theorem C31_save_image (pow : F → F → F) (sensor : Sensor F) (config : Config)
    (f_libgdk : Bool) (x y : Nat)
    (hpow : ∀ v : F, 0 ≤ v → v ≤ 1 →
      0 ≤ pow v (1 / (22 / 10)) ∧ pow v (1 / (22 / 10)) ≤ 1)
    (hsize : 19 + config.image_width * config.image_height * 3 < 2 ^ 31)
    (hx : x < config.image_width) (hy : y < config.image_height) :
    ∃ bytes, SaveImage pow true sensor config f_libgdk = some bytes ∧
      bytes.length
        = 18 + (if f_libgdk then 1 else 0) + config.image_width * config.image_height * 3 ∧
      bytes[18 + (if f_libgdk then 1 else 0) + 3 * (x + y * config.image_width)]?
        = some ⌊pow (clamp (sensor.get_colour x y).b 0 1) (1 / (22 / 10)) * 255⌋₊ ∧
      bytes[18 + (if f_libgdk then 1 else 0) + 3 * (x + y * config.image_width) + 1]?
        = some ⌊pow (clamp (sensor.get_colour x y).g 0 1) (1 / (22 / 10)) * 255⌋₊ ∧
      bytes[18 + (if f_libgdk then 1 else 0) + 3 * (x + y * config.image_width) + 2]?
        = some ⌊pow (clamp (sensor.get_colour x y).r 0 1) (1 / (22 / 10)) * 255⌋₊ := by
  obtain ⟨bytes, hb, hlen, hget⟩ := SaveImage_bytes pow sensor config f_libgdk hsize
  obtain ⟨d0, d1, d2⟩ := SaveImage_data_pixel pow sensor config f_libgdk x y hsize hx hy
  have hlt := index_lt config.image_width config.image_height x y hx hy
  have hchan : ∀ c : F, SaveImage_channel pow c
      = ⌊pow (clamp c 0 1) (1 / (22 / 10)) * 255⌋₊ := by
    intro c
    have hc0 : (0 : F) ≤ clamp c 0 1 := by
      unfold clamp
      split_ifs with h1 h2
      · exact le_rfl
      · exact zero_le_one
      · exact not_lt.mp h1
    have hc1 : clamp c 0 1 ≤ (1 : F) := by
      unfold clamp
      split_ifs with h1 h2
      · exact zero_le_one
      · exact le_rfl
      · exact not_lt.mp h2
    obtain ⟨hp0, hp1⟩ := hpow _ hc0 hc1
    unfold SaveImage_channel to_uint8
    apply Nat.mod_eq_of_lt
    have hle : ⌊pow (clamp c 0 1) (1 / (22 / 10)) * 255⌋₊ ≤ 255 := by
      apply Nat.floor_le_of_le
      push_cast
      nlinarith
    omega
  refine ⟨bytes, hb, hlen, ?_, ?_, ?_⟩
  · rw [hget _ (by rw [hlen]; omega), d0, hchan]
  · rw [hget _ (by rw [hlen]; omega), d1, hchan]
  · rw [hget _ (by rw [hlen]; omega), d2, hchan]

end SaveImageClaim

/-- The value `std::pow( 1/2048, 1/2.2 )` in exact arithmetic: `2048 = 2^11` and
`1/2.2 = 5/11`. -/
theorem rpow_dark_pixel : (1 / 2048 : ℝ) ^ ((1 : ℝ) / (22 / 10)) = 1 / 32 := by
  have h1 : (1 / 2048 : ℝ) = (1 / 2 : ℝ) ^ ((11 : ℕ) : ℝ) := by
    rw [Real.rpow_natCast]
    norm_num
  have h2 : (1 / 32 : ℝ) = (1 / 2 : ℝ) ^ ((5 : ℕ) : ℝ) := by
    rw [Real.rpow_natCast]
    norm_num
  rw [h1, h2, ← Real.rpow_mul (by norm_num : (0 : ℝ) ≤ 1 / 2)]
  norm_num

/-- Counterexample to C31 as stated: a one-pixel image whose sensor value is `1/2048` in
each channel.  `255 * (1/2048)^(1/2.2) = 255/32 = 7.96875`, which rounds to `8`, but the
byte `SaveImage` stores for the blue channel (offset 18) is `7`. -/
theorem C31_bytes_are_truncated :
    (sensor_dark_pixel.get_colour 0 0).b = 1 / 2048 ∧
    round ((255 : ℝ) * (clamp (sensor_dark_pixel.get_colour 0 0).b 0 1) ^ ((1 : ℝ) / (22 / 10)))
      = 8 ∧
    ∃ bytes, SaveImage (fun a b : ℝ => a ^ b) true sensor_dark_pixel (Config.ctor 1 1 1 3) false
        = some bytes ∧ bytes[18]? = some 7 := by
  have hc : (sensor_dark_pixel.get_colour 0 0).b = 1 / 2048 := by
    simp [sensor_dark_pixel, Sensor.get_colour, Sensor.pixel, Colour.add, Colour.smul,
      Colour.Black]
  have hcl : clamp (1 / 2048 : ℝ) 0 1 = 1 / 2048 := by
    unfold clamp
    rw [if_neg (by norm_num), if_neg (by norm_num)]
  have hsize : 19 + (Config.ctor 1 1 1 3).image_width * (Config.ctor 1 1 1 3).image_height * 3
      < 2 ^ 31 := by
    norm_num [Config.ctor]
  refine ⟨hc, ?_, ?_⟩
  · rw [hc, hcl, rpow_dark_pixel, round_eq]
    rw [Int.floor_eq_iff]
    norm_num
  · obtain ⟨bytes, hb, hlen, hget⟩ :=
      SaveImage_bytes (fun a b : ℝ => a ^ b) sensor_dark_pixel (Config.ctor 1 1 1 3) false hsize
    obtain ⟨d0, -, -⟩ := SaveImage_data_pixel (fun a b : ℝ => a ^ b) sensor_dark_pixel
      (Config.ctor 1 1 1 3) false 0 0 hsize (by norm_num [Config.ctor])
      (by norm_num [Config.ctor])
    refine ⟨bytes, hb, ?_⟩
    have h18 : 18 + (if false = true then 1 else 0) + 3 * (0 + 0 * (Config.ctor 1 1 1 3).image_width)
        = 18 := by norm_num
    rw [h18] at d0
    rw [hget 18 (by rw [hlen]; norm_num [Config.ctor]), d0, hc]
    unfold SaveImage_channel to_uint8
    rw [hcl]
    show some (⌊(1 / 2048 : ℝ) ^ ((1 : ℝ) / (22 / 10)) * 255⌋₊ % 256) = some 7
    rw [rpow_dark_pixel]
    have hf : ⌊(1 / 32 : ℝ) * 255⌋₊ = 7 := by
      rw [Nat.floor_eq_iff (by norm_num)]
      norm_num
    rw [hf]

/-- Witness for C31 (amended): the one-pixel image of `sensor_dark_pixel`, with the
real power function as `std::pow`. -/
theorem C31_save_image_witness :
    ∃ bytes, SaveImage (fun a b : ℝ => a ^ b) true sensor_dark_pixel (Config.ctor 1 1 1 3) false
        = some bytes ∧
      bytes.length = 18 + (if false then 1 else 0)
        + (Config.ctor 1 1 1 3).image_width * (Config.ctor 1 1 1 3).image_height * 3 ∧
      bytes[18 + (if false then 1 else 0) + 3 * (0 + 0 * (Config.ctor 1 1 1 3).image_width)]?
        = some ⌊(clamp (sensor_dark_pixel.get_colour 0 0).b 0 1) ^ ((1 : ℝ) / (22 / 10)) * 255⌋₊ ∧
      bytes[18 + (if false then 1 else 0) + 3 * (0 + 0 * (Config.ctor 1 1 1 3).image_width) + 1]?
        = some ⌊(clamp (sensor_dark_pixel.get_colour 0 0).g 0 1) ^ ((1 : ℝ) / (22 / 10)) * 255⌋₊ ∧
      bytes[18 + (if false then 1 else 0) + 3 * (0 + 0 * (Config.ctor 1 1 1 3).image_width) + 2]?
        = some ⌊(clamp (sensor_dark_pixel.get_colour 0 0).r 0 1) ^ ((1 : ℝ) / (22 / 10)) * 255⌋₊ :=
  C31_save_image (fun a b : ℝ => a ^ b) sensor_dark_pixel (Config.ctor 1 1 1 3) false 0 0
    (fun v h0 h1 => ⟨Real.rpow_nonneg h0 _, Real.rpow_le_one h0 h1 (by norm_num)⟩)
    (by norm_num [Config.ctor]) (by norm_num [Config.ctor]) (by norm_num [Config.ctor])

/-! ## The march loops of `Weight` on an assigned node array -/

section Marches
variable {F : Type} [LinearOrderedField F]

omit [LinearOrderedField F] in
theorem node_get_of {node : NodeArray F} {i : Nat} {n : Node F} (h : node i = some n) :
    node_get node i = Except.ok n := by
  unfold node_get
  rw [h]

theorem idx_sub_of {a b : Nat} (h : b ≤ a) : idx_sub a b = Except.ok (a - b) := by
  unfold idx_sub
  rw [if_pos h]

/-- On a node array whose entries `0..k` are assigned, the first march loop run over
values of `i` below `k` is the iteration of `right_step`. -/
theorem right_march_eq (b : BDPT F) (node : NodeArray F) (nd : Nat → Node F) (k : Nat)
    (hnode : ∀ j, j ≤ k → node j = some (nd j)) (l rest : List Nat) :
    ∀ st : MarchState F, (∀ i ∈ l, i < k) →
      BDPT.right_march b node k (l ++ rest) st
        = BDPT.right_march b node k rest (l.foldl (BDPT.right_step nd) st) := by
  induction l with
  | nil => intro st _; rfl
  | cons i l ih =>
    intro st hl
    have hik : i < k := hl i (List.mem_cons_self _ _)
    have hl' : ∀ j ∈ l, j < k := fun j hj => hl j (List.mem_cons_of_mem _ hj)
    rw [List.cons_append, List.foldl_cons, ← ih _ hl']
    conv_lhs => unfold BDPT.right_march
    by_cases h0 : i = 0
    · subst h0
      rw [if_pos rfl, node_get_of (hnode 0 (Nat.zero_le _)), node_get_of (hnode 1 hik)]
      simp only [bind, Except.bind]
      by_cases hd : (nd 1).f_dirac = true
      · rw [if_pos hd]
        congr 1
        simp [BDPT.right_step, BDPT.right_skip, BDPT.right_factor, hd]
      · rw [if_neg hd]
        congr 1
        simp [BDPT.right_step, BDPT.right_skip, BDPT.right_factor, hd]
    · rw [if_neg h0, if_neg (Nat.ne_of_lt hik), idx_sub_of (Nat.one_le_iff_ne_zero.mpr h0)]
      simp only [bind, Except.bind]
      rw [node_get_of (hnode (i - 1) (by omega)), node_get_of (hnode (i + 1) hik),
        node_get_of (hnode i hik.le)]
      simp only []
      by_cases hd : ((nd i).f_dirac || (nd (i + 1)).f_dirac) = true
      · rw [if_pos hd]
        congr 1
        simp only [BDPT.right_step, BDPT.right_skip, BDPT.right_factor, if_neg h0, hd, if_true]
      · rw [if_neg hd]
        congr 1
        simp only [BDPT.right_step, BDPT.right_skip, BDPT.right_factor, if_neg h0, hd]
        simp

/-- On a node array whose entries `0..k` are assigned, the second march loop run over
values of `i` from `1` to `k` is the iteration of `left_step`; when it reaches `i = 1`
it dereferences the light of `y0`. -/
theorem left_march_eq (ep : List (Vertex F)) (node : NodeArray F) (nd : Nat → Node F)
    (k : Nat) (hnode : ∀ j, j ≤ k → node j = some (nd j)) (l rest : List Nat)
    (hy0 : 1 ∈ l → ∃ y0 light, vec_at ep 0 = Except.ok y0 ∧ y0.ptr_light = some light) :
    ∀ st : MarchState F, (∀ i ∈ l, 1 ≤ i ∧ i ≤ k) →
      BDPT.left_march ep node k (l ++ rest) st
        = BDPT.left_march ep node k rest (l.foldl (BDPT.left_step nd) st) := by
  induction l with
  | nil => intro st _; rfl
  | cons i l ih =>
    intro st hl
    obtain ⟨hi1, hik⟩ := hl i (List.mem_cons_self _ _)
    have hl' : ∀ j ∈ l, 1 ≤ j ∧ j ≤ k := fun j hj => hl j (List.mem_cons_of_mem _ hj)
    have hy0' : 1 ∈ l → ∃ y0 light, vec_at ep 0 = Except.ok y0 ∧ y0.ptr_light = some light :=
      fun h => hy0 (List.mem_cons_of_mem _ h)
    rw [List.cons_append, List.foldl_cons, ← ih hy0' _ hl']
    conv_lhs => unfold BDPT.left_march
    rw [if_neg (by omega)]
    by_cases h1 : i = 1
    · subst h1
      obtain ⟨y0, light, hv, hp⟩ := hy0 (List.mem_cons_self _ _)
      rw [if_pos rfl, hv]
      simp only [bind, Except.bind, deref, hp]
      rw [if_neg (by simp [Emitter.Triangle.is_dirac]), node_get_of (hnode 1 hik),
        node_get_of (hnode 0 (Nat.zero_le _))]
      simp only []
      rfl
    · rw [if_neg h1, node_get_of (hnode i hik)]
      simp only [bind, Except.bind]
      rw [idx_sub_of (by omega : 2 ≤ i)]
      simp only []
      rw [node_get_of (hnode (i - 2) (by omega))]
      simp only []
      rw [idx_sub_of (by omega : 1 ≤ i)]
      simp only []
      rw [node_get_of (hnode (i - 1) (by omega))]
      simp only []
      by_cases hd : ((nd (i - 1)).f_dirac || (nd (i - 2)).f_dirac) = true
      · rw [if_pos hd]
        congr 1
        simp only [BDPT.left_step, BDPT.left_skip, BDPT.left_factor, if_neg h1, hd, if_true]
      · rw [if_neg hd]
        congr 1
        simp only [BDPT.left_step, BDPT.left_skip, BDPT.left_factor, if_neg h1, hd]
        simp

end Marches

/-! ## The node array of `Weight` -/

/-- A loop over `0..n-1` whose body returns under an invariant indexed by the counter
returns, with the invariant at `n`. -/
theorem foldlM_range_total {σ : Type} {P : Nat → σ → Prop} (f : σ → Nat → Except Fault σ)
    (n : Nat) (st0 : σ) (h0 : P 0 st0)
    (hstep : ∀ i, i < n → ∀ st, P i st → ∃ st', f st i = Except.ok st' ∧ P (i + 1) st') :
    ∃ st', (List.range n).foldlM f st0 = Except.ok st' ∧ P n st' := by
  induction n with
  | zero => exact ⟨st0, rfl, h0⟩
  | succ n ih =>
    obtain ⟨st1, h1, hP1⟩ := ih (fun i hi => hstep i (Nat.lt_succ_of_lt hi))
    obtain ⟨st2, h2, hP2⟩ := hstep n (Nat.lt_succ_self n) st1 hP1
    refine ⟨st2, ?_, hP2⟩
    rw [List.range_succ, List.foldlM_append, h1]
    simp only [bind, Except.bind, List.foldlM_cons, List.foldlM_nil, h2]
    rfl

section NodeDomain
variable {F : Type} [LinearOrderedField F]

theorem vec_at_of_lt_ok {α : Type} (v : List α) (i : Nat) (h : i < v.length) :
    vec_at v i = Except.ok (v.get ⟨i, h⟩) := by
  unfold vec_at
  rw [List.getElem?_eq_getElem h]
  rfl

/-- The light side of "Fill in nodes" returns and assigns exactly the entries
`0..s-1`. -/
theorem fill_emission_domain (M : FloatOps F) (s t : Nat) (ep cp : List (Vertex F))
    (psf psr : F) (ht : 1 ≤ t) (hs : s ≤ ep.length) (hcl : t ≤ cp.length) :
    ∃ n2 : NodeArray F,
      ((List.range (s - 1)).foldlM (BDPT.fill_emission_step ep) (fun _ => none)
        >>= BDPT.fill_emission_last M s t (s + t - 1) ep cp psf psr) = Except.ok n2 ∧
      ∀ j, (n2 j).isSome = true ↔ j < s := by
  obtain ⟨n1, h1, hd1⟩ := foldlM_range_total
    (P := fun (i : Nat) (node : NodeArray F) => ∀ j, (node j).isSome = true ↔ j < i)
    (BDPT.fill_emission_step ep) (s - 1) (fun _ => none)
    (fun j => by simp)
    (fun i hi node hdom => by
      have hi1 : i < ep.length := by omega
      have hi2 : i + 1 < ep.length := by omega
      have h0 : 0 < ep.length := by omega
      unfold BDPT.fill_emission_step
      rw [vec_at_of_lt_ok ep i hi1, vec_at_of_lt_ok ep (i + 1) hi2]
      simp only [bind, Except.bind]
      by_cases hi0 : i = 0
      · rw [if_pos hi0, vec_at_of_lt_ok ep 0 h0]
        simp only [Except.map, pure, Except.pure]
        refine ⟨_, rfl, fun j => ?_⟩
        by_cases hj : j = i
        · subst hj; simp
        · rw [Function.update_noteq hj, hdom j]; omega
      · rw [if_neg hi0]
        simp only [pure, Except.pure]
        refine ⟨_, rfl, fun j => ?_⟩
        by_cases hj : j = i
        · subst hj; simp
        · rw [Function.update_noteq hj, hdom j]; omega)
  rw [h1]
  simp only [bind, Except.bind]
  unfold BDPT.fill_emission_last
  by_cases hs0 : s > 0
  · rw [if_pos hs0, vec_at_of_lt_ok ep (s - 1) (by omega)]
    simp only [bind, Except.bind]
    by_cases hk : s - 1 = s + t - 1
    · rw [if_pos hk]
      simp only [pure, Except.pure]
      refine ⟨_, rfl, fun j => ?_⟩
      by_cases hj : j = s - 1
      · subst hj; simp; omega
      · rw [Function.update_noteq hj, hd1 j]; omega
    · rw [if_neg hk, idx_sub_of ht]
      simp only [bind, Except.bind]
      rw [vec_at_of_lt_ok cp (t - 1) (by omega)]
      simp only [pure, Except.pure]
      refine ⟨_, rfl, fun j => ?_⟩
      by_cases hj : j = s - 1
      · subst hj; simp; omega
      · rw [Function.update_noteq hj, hd1 j]; omega
  · rw [if_neg hs0]
    simp only [pure, Except.pure]
    refine ⟨_, rfl, fun j => ?_⟩
    rw [hd1 j]; omega

/-- The camera side of "Fill in nodes", started on an array with the entries `0..s-1`
assigned, returns, leaves these entries as they are and assigns exactly the entries
`s..k` in addition. -/
theorem fill_camera_domain (M : FloatOps F) (s t : Nat) (ep cp : List (Vertex F))
    (ptf ptr : F) (ht : 1 ≤ t) (hs : s ≤ ep.length) (hcl : t ≤ cp.length)
    (n2 : NodeArray F) (hd2 : ∀ j, (n2 j).isSome = true ↔ j < s) :
    ∃ node : NodeArray F,
      ((List.range (t - 1)).foldlM (BDPT.fill_camera_step cp (s + t - 1)) n2
        >>= BDPT.fill_camera_last M s t (s + t - 1) ep cp ptf ptr) = Except.ok node ∧
      (∀ j, j < s → node j = n2 j) ∧
      ∀ j, (node j).isSome = true ↔ j ≤ s + t - 1 := by
  obtain ⟨n3, h3, hk3, hd3⟩ := foldlM_range_total
    (P := fun (i : Nat) (node : NodeArray F) => (∀ j, j < s → node j = n2 j) ∧
      ∀ j, (node j).isSome = true ↔ (j < s ∨ (s + t - 1 - i < j ∧ j ≤ s + t - 1)))
    (BDPT.fill_camera_step cp (s + t - 1)) (t - 1) n2
    ⟨fun _ _ => rfl, fun j => by rw [hd2 j]; omega⟩
    (fun i hi node hP => by
      obtain ⟨hkeep, hdom⟩ := hP
      have hi1 : i < cp.length := by omega
      have hi2 : i + 1 < cp.length := by omega
      have h0 : 0 < cp.length := by omega
      unfold BDPT.fill_camera_step
      rw [vec_at_of_lt_ok cp i hi1, vec_at_of_lt_ok cp (i + 1) hi2]
      simp only [bind, Except.bind]
      by_cases hi0 : i = 0
      · rw [if_pos hi0, vec_at_of_lt_ok cp 0 h0]
        simp only [Except.map, pure, Except.pure]
        rw [idx_sub_of (by omega : i ≤ s + t - 1)]
        simp only []
        refine ⟨_, rfl, fun j hj => ?_, fun j => ?_⟩
        · rw [Function.update_noteq (by omega)]; exact hkeep j hj
        · by_cases hj : j = s + t - 1 - i
          · subst hj; simp; omega
          · rw [Function.update_noteq hj, hdom j]; omega
      · rw [if_neg hi0]
        simp only [pure, Except.pure]
        rw [idx_sub_of (by omega : i ≤ s + t - 1)]
        simp only []
        refine ⟨_, rfl, fun j hj => ?_, fun j => ?_⟩
        · rw [Function.update_noteq (by omega)]; exact hkeep j hj
        · by_cases hj : j = s + t - 1 - i
          · subst hj; simp; omega
          · rw [Function.update_noteq hj, hdom j]; omega)
  rw [h3]
  simp only [bind, Except.bind]
  unfold BDPT.fill_camera_last
  rw [if_pos (by omega : t > 0), vec_at_of_lt_ok cp (t - 1) (by omega)]
  simp only [bind, Except.bind]
  by_cases hk : t - 1 = s + t - 1
  · rw [if_pos hk]
    simp only [pure, Except.pure]
    rw [idx_sub_of (by omega : t - 1 ≤ s + t - 1)]
    simp only []
    refine ⟨_, rfl, fun j hj => ?_, fun j => ?_⟩
    · rw [Function.update_noteq (by omega)]; exact hk3 j hj
    · by_cases hj : j = s + t - 1 - (t - 1)
      · subst hj; simp
      · rw [Function.update_noteq hj, hd3 j]; omega
  · rw [if_neg hk, idx_sub_of (by omega : 1 ≤ s)]
    simp only [bind, Except.bind]
    rw [vec_at_of_lt_ok ep (s - 1) (by omega)]
    simp only [pure, Except.pure]
    rw [idx_sub_of (by omega : t - 1 ≤ s + t - 1)]
    simp only []
    refine ⟨_, rfl, fun j hj => ?_, fun j => ?_⟩
    · rw [Function.update_noteq (by omega)]; exact hk3 j hj
    · by_cases hj : j = s + t - 1 - (t - 1)
      · subst hj; simp
      · rw [Function.update_noteq hj, hd3 j]; omega

end NodeDomain

/-! ## `Weight` returns -/

section WeightTotal
variable {F : Type} [LinearOrderedField F]

theorem vec_at_of_some {α : Type} {v : List α} {i : Nat} {a : α} (h : v[i]? = some a) :
    vec_at v i = Except.ok a := by
  unfold vec_at
  rw [h]

/-- "Evaluate connection vertices" returns on arguments that satisfy `WeightPre`. -/
theorem connection_pdfs_total (M : FloatOps F) (b : BDPT F) (s t : Nat)
    (ep cp : List (Vertex F)) (hpre : BDPT.WeightPre b s t ep cp) :
    ∃ pdfs, BDPT.connection_pdfs M b s t ep cp = Except.ok pdfs := by
  obtain ⟨ht, hk, -, hs, hcl, hlight, hsm, htm, hem⟩ := hpre
  obtain ⟨tv, htv, htv'⟩ := vec_at_of_lt cp (t - 1) (by omega)
  unfold BDPT.connection_pdfs
  by_cases hs0 : s = 0
  · rw [if_pos hs0, idx_sub_of ht]
    simp only [bind, Except.bind]
    rw [htv']
    simp only []
    by_cases hfe : tv.f_emitter = true
    · obtain ⟨light, m, hl, hm, hid⟩ := hem hs0 tv htv hfe
      obtain ⟨pv, -, hpv⟩ := vec_at_of_lt cp (t - 2) (by omega)
      rw [if_pos hfe, idx_sub_of (by omega : 2 ≤ t)]
      simp only []
      rw [hpv]
      simp only [deref, hl, hm]
      unfold Scene.emitter_select_probability
      rw [if_neg (not_le.mpr hid)]
      exact ⟨_, rfl⟩
    · rw [if_neg hfe]
      exact ⟨_, rfl⟩
  · have hs1 : 1 ≤ s := Nat.one_le_iff_ne_zero.mpr hs0
    obtain ⟨sv, hsv, hsv'⟩ := vec_at_of_lt ep (s - 1) (by omega)
    rw [if_neg hs0, if_neg (by omega : ¬ t = 0), idx_sub_of hs1]
    simp only [bind, Except.bind]
    rw [hsv']
    simp only []
    rw [idx_sub_of ht]
    simp only []
    rw [htv']
    simp only []
    have hS : ∃ ps, BDPT.connection_pdfs_s M s ep sv tv = Except.ok ps := by
      unfold BDPT.connection_pdfs_s
      simp only []
      by_cases h1 : s = 1
      · obtain ⟨y0, light, hy, hl⟩ := hlight hs1
        have hy' : sv = y0 := by
          rw [h1] at hsv
          rw [hy] at hsv
          exact (Option.some.inj hsv).symm
        rw [if_pos h1, hy']
        simp only [deref, hl, bind, Except.bind]
        exact ⟨_, rfl⟩
      · obtain ⟨v, m, hv, hm⟩ := hsm (by omega)
        obtain ⟨pv, -, hpv⟩ := vec_at_of_lt ep (s - 2) (by omega)
        have hv' : sv = v := by
          rw [hv] at hsv
          exact (Option.some.inj hsv).symm
        rw [if_neg h1, idx_sub_of (by omega : 2 ≤ s)]
        simp only [bind, Except.bind]
        rw [hpv, hv']
        simp only [deref, hm]
        exact ⟨_, rfl⟩
    have hT : ∃ pt, BDPT.connection_pdfs_t M b t cp sv tv = Except.ok pt := by
      unfold BDPT.connection_pdfs_t
      simp only []
      by_cases h1 : t = 1
      · rw [if_pos h1]
        exact ⟨_, rfl⟩
      · obtain ⟨v, m, hv, hm⟩ := htm hs1 (by omega)
        obtain ⟨pv, -, hpv⟩ := vec_at_of_lt cp (t - 2) (by omega)
        have hv' : tv = v := by
          rw [hv] at htv
          exact (Option.some.inj htv).symm
        rw [if_neg h1, idx_sub_of (by omega : 2 ≤ t)]
        simp only [bind, Except.bind]
        rw [hpv, hv']
        simp only [deref, hm]
        exact ⟨_, rfl⟩
    obtain ⟨ps, hps⟩ := hS
    obtain ⟨pt, hpt⟩ := hT
    rw [hps]
    simp only []
    rw [hpt]
    exact ⟨_, rfl⟩

end WeightTotal

section WeightRun
variable {F : Type} [LinearOrderedField F]

/-- "Fill in nodes" returns on subpaths of at least `s` and `t` vertices and assigns
exactly the entries `0..k`. -/
theorem fill_nodes_total (M : FloatOps F) (s t : Nat) (ep cp : List (Vertex F))
    (psf psr ptf ptr : F) (ht : 1 ≤ t) (hs : s ≤ ep.length) (hcl : t ≤ cp.length) :
    ∃ node : NodeArray F,
      BDPT.fill_nodes M s t (s + t - 1) ep cp psf psr ptf ptr = Except.ok node ∧
      ∀ j, (node j).isSome = true ↔ j ≤ s + t - 1 := by
  obtain ⟨n2, h2, hd2⟩ := fill_emission_domain M s t ep cp psf psr ht hs hcl
  obtain ⟨node, h3, -, hd⟩ := fill_camera_domain M s t ep cp ptf ptr ht hs hcl n2 hd2
  refine ⟨node, ?_, hd⟩
  obtain ⟨n1, h1, h2'⟩ := bind_eq_ok h2
  obtain ⟨n3, h3', h4⟩ := bind_eq_ok h3
  unfold BDPT.fill_nodes
  simp only []
  rw [h1]
  simp only [bind, Except.bind]
  rw [h2']
  simp only []
  rw [h3']
  simp only []
  exact h4

/-- An array with the entries `0..k` assigned, as values. -/
theorem nodes_of_domain (node : NodeArray F) (k : Nat)
    (hd : ∀ j, (node j).isSome = true ↔ j ≤ k) :
    ∀ j, j ≤ k → node j = some ((node j).getD ⟨0, 0, false⟩) := by
  intro j hj
  have h := (hd j).mpr hj
  cases hn : node j with
  | none => rw [hn] at h; cases h
  | some n => rfl

/-- The first march loop on an assigned node array: it runs through `s..k-1` and stops
at `i = k`, the camera being dirac. -/
theorem right_march_run (b : BDPT F) (node : NodeArray F) (nd : Nat → Node F) (s k : Nat)
    (hnode : ∀ j, j ≤ k → node j = some (nd j)) (hk : 1 ≤ k) (hsk : s ≤ k)
    (st : MarchState F) :
    BDPT.right_march b node k (List.range' s (k + 1 - s)) st
      = Except.ok ((List.range' s (k - s)).foldl (BDPT.right_step nd) st) := by
  have hl : List.range' s (k + 1 - s) = List.range' s (k - s) ++ [k] := by
    rw [show k + 1 - s = (k - s) + 1 by omega, List.range'_1_concat]
    congr 2
    omega
  rw [hl, right_march_eq b node nd k hnode _ [k] st
    (fun i hi => by have := List.mem_range'_1.mp hi; omega)]
  unfold BDPT.right_march
  rw [if_neg (by omega), if_pos rfl, if_pos (by rfl)]
  rfl

/-- The second march loop on an assigned node array: it runs through `s..1`. -/
theorem left_march_run (ep : List (Vertex F)) (node : NodeArray F) (nd : Nat → Node F)
    (s k : Nat) (hnode : ∀ j, j ≤ k → node j = some (nd j)) (hsk : s ≤ k)
    (hy0 : 1 ≤ s → ∃ y0 light, vec_at ep 0 = Except.ok y0 ∧ y0.ptr_light = some light)
    (st : MarchState F) :
    BDPT.left_march ep node k (List.range' 1 s).reverse st
      = Except.ok ((List.range' 1 s).reverse.foldl (BDPT.left_step nd) st) := by
  have h := left_march_eq ep node nd k hnode (List.range' 1 s).reverse []
    (fun h1 => hy0 (by
      have := List.mem_range'_1.mp (List.mem_reverse.mp h1)
      omega))
    st
    (fun i hi => by
      have := List.mem_range'_1.mp (List.mem_reverse.mp hi)
      omega)
  rw [List.append_nil] at h
  rw [h]
  rfl

/-- The running product of the first march loop. -/
theorem foldl_right_p_k (nd : Nat → Node F) (l : List Nat) :
    ∀ st : MarchState F, (l.foldl (BDPT.right_step nd) st).p_k
      = st.p_k * (l.map (BDPT.right_factor nd)).prod := by
  induction l with
  | nil => intro st; simp
  | cons i l ih =>
    intro st
    rw [List.foldl_cons, ih, List.map_cons, List.prod_cons]
    simp only [BDPT.right_step]
    ring

/-- The running product of the second march loop. -/
theorem foldl_left_p_k (nd : Nat → Node F) (l : List Nat) :
    ∀ st : MarchState F, (l.foldl (BDPT.left_step nd) st).p_k
      = st.p_k * (l.map (BDPT.left_factor nd)).prod := by
  induction l with
  | nil => intro st; simp
  | cons i l ih =>
    intro st
    rw [List.foldl_cons, ih, List.map_cons, List.prod_cons]
    simp only [BDPT.left_step]
    ring

theorem right_factor_nonneg (nd : Nat → Node F)
    (hnn : ∀ j, 0 ≤ (nd j).p_forward ∧ 0 ≤ (nd j).p_reverse) (i : Nat) :
    0 ≤ BDPT.right_factor nd i := by
  unfold BDPT.right_factor
  split_ifs
  · exact div_nonneg (hnn 0).2 (hnn 1).2
  · exact div_nonneg (hnn _).1 (hnn _).2

theorem left_factor_nonneg (nd : Nat → Node F)
    (hnn : ∀ j, 0 ≤ (nd j).p_forward ∧ 0 ≤ (nd j).p_reverse) (i : Nat) :
    0 ≤ BDPT.left_factor nd i := by
  unfold BDPT.left_factor
  split_ifs
  · exact div_nonneg (hnn 1).2 (hnn 0).2
  · exact div_nonneg (hnn _).2 (hnn _).1

/-- With non-negative node entries the first march loop only adds non-negative terms. -/
theorem foldl_right_sum_le (nd : Nat → Node F)
    (hnn : ∀ j, 0 ≤ (nd j).p_forward ∧ 0 ≤ (nd j).p_reverse) (l : List Nat) :
    ∀ st : MarchState F, 0 ≤ st.p_k →
      st.sum_path ≤ (l.foldl (BDPT.right_step nd) st).sum_path := by
  induction l with
  | nil => intro st _; exact le_rfl
  | cons i l ih =>
    intro st hp
    rw [List.foldl_cons]
    have hp' : 0 ≤ st.p_k * BDPT.right_factor nd i :=
      mul_nonneg hp (right_factor_nonneg nd hnn i)
    refine le_trans ?_ (ih _ hp')
    simp only [BDPT.right_step, BDPT.MIS]
    split_ifs
    · exact le_rfl
    · linarith

/-- With non-negative node entries the second march loop only adds non-negative terms. -/
theorem foldl_left_sum_le (nd : Nat → Node F)
    (hnn : ∀ j, 0 ≤ (nd j).p_forward ∧ 0 ≤ (nd j).p_reverse) (l : List Nat) :
    ∀ st : MarchState F, 0 ≤ st.p_k →
      st.sum_path ≤ (l.foldl (BDPT.left_step nd) st).sum_path := by
  induction l with
  | nil => intro st _; exact le_rfl
  | cons i l ih =>
    intro st hp
    rw [List.foldl_cons]
    have hp' : 0 ≤ st.p_k * BDPT.left_factor nd i :=
      mul_nonneg hp (left_factor_nonneg nd hnn i)
    refine le_trans ?_ (ih _ hp')
    simp only [BDPT.left_step, BDPT.MIS]
    split_ifs
    · exact le_rfl
    · linarith

end WeightRun

section NodeNonneg
variable {F : Type} [LinearOrderedField F]

theorem nonneg_update {node : NodeArray F}
    (hI : ∀ j n, node j = some n → 0 ≤ n.p_forward ∧ 0 ≤ n.p_reverse) (i : Nat) (n : Node F)
    (h1 : 0 ≤ n.p_forward) (h2 : 0 ≤ n.p_reverse) :
    ∀ j m, Function.update node i (some n) j = some m → 0 ≤ m.p_forward ∧ 0 ≤ m.p_reverse := by
  intro j m hj
  by_cases hji : j = i
  · subst hji
    rw [Function.update_same] at hj
    cases hj
    exact ⟨h1, h2⟩
  · rw [Function.update_noteq hji] at hj
    exact hI j m hj

theorem catch_negative_nonneg (x : F) : 0 ≤ BDPT.catch_negative x := by
  unfold BDPT.catch_negative
  split_ifs with h
  · exact le_rfl
  · exact not_lt.mp h

/-- After "Fill in nodes" on subpaths whose stored densities and geometry terms are not
negative, no entry of the node array is negative. -/
theorem fill_nodes_nonneg (M : FloatOps F) (s t k : Nat) (ep cp : List (Vertex F))
    (psf psr ptf ptr : F) (h1 : 0 ≤ psf) (h2 : 0 ≤ psr) (h3 : 0 ≤ ptf) (h4 : 0 ≤ ptr)
    (hnn : BDPT.StoredNonneg s t ep cp) (node : NodeArray F)
    (h : BDPT.fill_nodes M s t k ep cp psf psr ptf ptr = Except.ok node) :
    ∀ j n, node j = some n → 0 ≤ n.p_forward ∧ 0 ≤ n.p_reverse := by
  obtain ⟨hep, hcp⟩ := hnn
  unfold BDPT.fill_nodes at h
  obtain ⟨n1, e1, h⟩ := bind_eq_ok h
  obtain ⟨n2, e2, h⟩ := bind_eq_ok h
  obtain ⟨n3, e3, h⟩ := bind_eq_ok h
  have i0 : ∀ j n, (fun _ => none : NodeArray F) j = some n →
      0 ≤ n.p_forward ∧ 0 ≤ n.p_reverse := by
    intro j n hj
    exact Option.noConfusion hj
  have i1 : ∀ j n, n1 j = some n → 0 ≤ n.p_forward ∧ 0 ≤ n.p_reverse := by
    refine foldlM_inv _ (fun nd : NodeArray F =>
      ∀ j n, nd j = some n → 0 ≤ n.p_forward ∧ 0 ≤ n.p_reverse) _ ?_ _ _ i0 e1
    intro i nd nd' hi hI hstep
    rw [List.mem_range] at hi
    unfold BDPT.fill_emission_step at hstep
    obtain ⟨v, hv, hstep⟩ := bind_eq_ok hstep
    obtain ⟨v1, hv1, hstep⟩ := bind_eq_ok hstep
    obtain ⟨pr, hpr, hstep⟩ := bind_eq_ok hstep
    simp only [pure, Except.pure] at hstep
    cases hstep
    have mv := hep v (vec_at_mem_take hv (by omega))
    have mv1 := hep v1 (vec_at_mem_take hv1 (by omega))
    apply nonneg_update hI
    · exact mul_nonneg mv.1 mv1.2.2
    · by_cases hi0 : i = 0
      · rw [if_pos hi0] at hpr
        obtain ⟨v0, hv0, hpr⟩ := map_eq_ok hpr
        rw [← hpr]
        exact (hep v0 (vec_at_mem_take hv0 (by omega))).2.1
      · rw [if_neg hi0] at hpr
        simp only [pure, Except.pure] at hpr
        cases hpr
        exact mul_nonneg mv.2.1 mv.2.2
  have i2 : ∀ j n, n2 j = some n → 0 ≤ n.p_forward ∧ 0 ≤ n.p_reverse := by
    unfold BDPT.fill_emission_last at e2
    by_cases hs : s > 0
    · rw [if_pos hs] at e2
      obtain ⟨sv, hsv, e2⟩ := bind_eq_ok e2
      obtain ⟨pf, hpf, e2⟩ := bind_eq_ok e2
      simp only [pure, Except.pure] at e2
      cases e2
      have msv := hep sv (vec_at_mem_take hsv (by omega))
      apply nonneg_update i1
      · by_cases hk : s - 1 = k
        · rw [if_pos hk] at hpf
          simp only [pure, Except.pure] at hpf
          cases hpf
          exact h1
        · rw [if_neg hk] at hpf
          obtain ⟨j, -, hpf⟩ := bind_eq_ok hpf
          obtain ⟨tv, -, hpf⟩ := bind_eq_ok hpf
          simp only [pure, Except.pure] at hpf
          cases hpf
          exact mul_nonneg h1 (Gprime_nonneg M sv tv)
      · show 0 ≤ (if s = 1 then psr else psr * sv.G)
        split_ifs
        · exact h2
        · exact mul_nonneg h2 msv.2.2
    · rw [if_neg hs] at e2
      simp only [pure, Except.pure] at e2
      cases e2
      exact i1
  have i3 : ∀ j n, n3 j = some n → 0 ≤ n.p_forward ∧ 0 ≤ n.p_reverse := by
    refine foldlM_inv _ (fun nd : NodeArray F =>
      ∀ j n, nd j = some n → 0 ≤ n.p_forward ∧ 0 ≤ n.p_reverse) _ ?_ _ _ i2 e3
    intro i nd nd' hi hI hstep
    rw [List.mem_range] at hi
    unfold BDPT.fill_camera_step at hstep
    obtain ⟨v, hv, hstep⟩ := bind_eq_ok hstep
    obtain ⟨v1, hv1, hstep⟩ := bind_eq_ok hstep
    obtain ⟨pf, hpf, hstep⟩ := bind_eq_ok hstep
    obtain ⟨j, -, hstep⟩ := bind_eq_ok hstep
    simp only [pure, Except.pure] at hstep
    cases hstep
    have mv := hcp v (vec_at_mem_take hv (by omega))
    have mv1 := hcp v1 (vec_at_mem_take hv1 (by omega))
    apply nonneg_update hI
    · by_cases hi0 : i = 0
      · rw [if_pos hi0] at hpf
        obtain ⟨v0, hv0, hpf⟩ := map_eq_ok hpf
        rw [← hpf]
        exact (hcp v0 (vec_at_mem_take hv0 (by omega))).2.1
      · rw [if_neg hi0] at hpf
        simp only [pure, Except.pure] at hpf
        cases hpf
        exact mul_nonneg mv.2.1 mv.2.2
    · exact mul_nonneg mv.1 mv1.2.2
  unfold BDPT.fill_camera_last at h
  by_cases ht : t > 0
  · rw [if_pos ht] at h
    obtain ⟨tv, htv, h⟩ := bind_eq_ok h
    obtain ⟨pr, hpr, h⟩ := bind_eq_ok h
    obtain ⟨j, -, h⟩ := bind_eq_ok h
    simp only [pure, Except.pure] at h
    cases h
    have mtv := hcp tv (vec_at_mem_take htv (by omega))
    apply nonneg_update i3
    · show 0 ≤ (if t = 1 then ptr else ptr * tv.G)
      split_ifs
      · exact h4
      · exact mul_nonneg h4 mtv.2.2
    · by_cases hk : t - 1 = k
      · rw [if_pos hk] at hpr
        simp only [pure, Except.pure] at hpr
        cases hpr
        exact h3
      · rw [if_neg hk] at hpr
        obtain ⟨j, -, hpr⟩ := bind_eq_ok hpr
        obtain ⟨sv, -, hpr⟩ := bind_eq_ok hpr
        simp only [pure, Except.pure] at hpr
        cases hpr
        exact mul_nonneg h3 (Gprime_nonneg M sv tv)
  · rw [if_neg ht] at h
    simp only [pure, Except.pure] at h
    cases h
    exact i3

end NodeNonneg

section MarchTerms
variable {F : Type} [LinearOrderedField F]

/-- Shifting the iteration sequence by one step multiplies every later term by the
quotient of the first step. -/
theorem march_terms_cons (factor : Nat → F) (skip : Nat → Bool) (i : Nat) (l : List Nat) :
    (BDPT.march_terms factor skip (i :: l)).sum
      = (if skip i then 0 else factor i)
        + factor i * (BDPT.march_terms factor skip l).sum := by
  unfold BDPT.march_terms
  rw [List.length_cons, List.range_succ_eq_map, List.map_cons, List.sum_cons, List.map_map,
    ← List.sum_map_mul_left]
  congr 1
  · simp
  · congr 1
    apply List.map_congr_left
    intro j _
    simp only [Function.comp, List.getD_cons_succ, List.take_succ_cons, List.map_cons,
      List.prod_cons]
    split_ifs
    · simp
    · rfl

/-- A loop that multiplies a running product by a quotient in each step and adds the
product to a sum unless the step is skipped: the sum grows by the initial product times
the terms of `march_terms`. -/
theorem foldl_terms (factor : Nat → F) (skip : Nat → Bool)
    (step : MarchState F → Nat → MarchState F)
    (hp : ∀ st i, (step st i).p_k = st.p_k * factor i)
    (hsum : ∀ st i, (step st i).sum_path
      = if skip i then st.sum_path else st.sum_path + st.p_k * factor i)
    (l : List Nat) :
    ∀ st : MarchState F, (l.foldl step st).sum_path
      = st.sum_path + st.p_k * (BDPT.march_terms factor skip l).sum := by
  induction l with
  | nil => intro st; simp [BDPT.march_terms]
  | cons i l ih =>
    intro st
    rw [List.foldl_cons, ih, hp, hsum, march_terms_cons]
    split_ifs <;> ring

theorem foldl_right_terms (nd : Nat → Node F) (l : List Nat) (st : MarchState F) :
    (l.foldl (BDPT.right_step nd) st).sum_path
      = st.sum_path
        + st.p_k * (BDPT.march_terms (BDPT.right_factor nd) (BDPT.right_skip nd) l).sum :=
  foldl_terms (BDPT.right_factor nd) (BDPT.right_skip nd) (BDPT.right_step nd)
    (fun _ _ => rfl) (fun _ _ => rfl) l st

theorem foldl_left_terms (nd : Nat → Node F) (l : List Nat) (st : MarchState F) :
    (l.foldl (BDPT.left_step nd) st).sum_path
      = st.sum_path
        + st.p_k * (BDPT.march_terms (BDPT.left_factor nd) (BDPT.left_skip nd) l).sum :=
  foldl_terms (BDPT.left_factor nd) (BDPT.left_skip nd) (BDPT.left_step nd)
    (fun _ _ => rfl) (fun _ _ => rfl) l st

end MarchTerms

section Reciprocal
variable {F : Type} [LinearOrderedField F]

/-- The quotient of step `i` of the second march loop is the reciprocal of the quotient
of step `i - 1` of the first. -/
theorem right_left_factor (nd : Nat → Node F) (k : Nat)
    (hpos : ∀ j, j ≤ k → 0 < (nd j).p_forward ∧ 0 < (nd j).p_reverse)
    (i : Nat) (hi1 : 1 ≤ i) (hik : i ≤ k) :
    0 < BDPT.right_factor nd (i - 1) ∧
    BDPT.left_factor nd i = 1 / BDPT.right_factor nd (i - 1) := by
  unfold BDPT.right_factor BDPT.left_factor
  by_cases h1 : i = 1
  · subst h1
    have h0 := (hpos 0 (Nat.zero_le _)).2
    have h1 := (hpos 1 hik).2
    simp only [Nat.sub_self, if_true]
    exact ⟨div_pos h0 h1, by rw [one_div_div]⟩
  · have ha := (hpos (i - 2) (by omega)).1
    have hb := (hpos i hik).2
    rw [if_neg (by omega : ¬ i - 1 = 0), if_neg h1,
      show i - 1 - 1 = i - 2 by omega, show i - 1 + 1 = i by omega]
    exact ⟨div_pos ha hb, by rw [one_div_div]⟩

/-- The product of the quotients of the first march loop from `lo` up to `hi`, times
the product of the quotients of the second march loop from `hi` down to `lo`, is one. -/
theorem right_left_prod (nd : Nat → Node F) (k : Nat)
    (hpos : ∀ j, j ≤ k → 0 < (nd j).p_forward ∧ 0 < (nd j).p_reverse) (lo : Nat) :
    ∀ n, lo + n ≤ k →
      ((List.range' lo n).map (BDPT.right_factor nd)).prod
        * ((List.range' (lo + 1) n).reverse.map (BDPT.left_factor nd)).prod = 1 := by
  have haux : ∀ n, lo + n ≤ k →
      ((List.range' lo n).map (BDPT.right_factor nd)).prod
        * ((List.range' (lo + 1) n).map (BDPT.left_factor nd)).prod = 1 := by
    intro n
    induction n with
    | zero => intro _; simp
    | succ n ih =>
      intro hn
      obtain ⟨hr, hl⟩ := right_left_factor nd k hpos (lo + n + 1) (by omega) (by omega)
      rw [show lo + n + 1 - 1 = lo + n by omega] at hr hl
      rw [List.range'_1_concat, List.range'_1_concat, List.map_append, List.map_append,
        List.prod_append, List.prod_append]
      simp only [List.map_cons, List.map_nil, List.prod_cons, List.prod_nil, mul_one]
      rw [show lo + 1 + n = lo + n + 1 by omega, hl]
      have h := ih (by omega)
      have hne : BDPT.right_factor nd (lo + n) ≠ 0 := hr.ne'
      field_simp
      linear_combination (BDPT.right_factor nd (lo + n)) * h
  intro n hn
  rw [List.map_reverse, List.prod_reverse]
  exact haux n hn

end Reciprocal

section WeightClaims
variable {F : Type} [LinearOrderedField F]

/-- On arguments that satisfy `WeightPre`, `Weight` runs to the end of its two march
loops: the connection densities are computed, the node array is filled on `0..k`, and the
final state is the iteration of the two loops on that array. -/
theorem weight_run_ok (M : FloatOps F) (b : BDPT F) (s t : Nat) (ep cp : List (Vertex F))
    (hpre : BDPT.WeightPre b s t ep cp) :
    ∃ (pdfs : F × F × F × F) (node : NodeArray F) (nd : Nat → Node F),
      BDPT.connection_pdfs M b s t ep cp = Except.ok pdfs ∧
      BDPT.fill_nodes M s t (s + t - 1) ep cp (BDPT.catch_negative pdfs.1)
        (BDPT.catch_negative pdfs.2.1) (BDPT.catch_negative pdfs.2.2.1)
        (BDPT.catch_negative pdfs.2.2.2) = Except.ok node ∧
      (∀ j, j ≤ s + t - 1 → node j = some (nd j)) ∧
      (∀ j n, node j = some n → n = nd j) ∧
      (∀ j, node j = none → nd j = ⟨0, 0, false⟩) ∧
      BDPT.Weight_run M b s t ep cp
        = Except.ok ((List.range' 1 s).reverse.foldl (BDPT.left_step nd)
            { (List.range' s (s + t - 1 - s)).foldl (BDPT.right_step nd) ⟨1, 1, []⟩ with
              p_k := 1 }) := by
  obtain ⟨pdfs, hpdfs⟩ := connection_pdfs_total M b s t ep cp hpre
  obtain ⟨ht, hk, hst, hs, hcl, hlight, -, -, -⟩ := hpre
  obtain ⟨node, hnode, hdom⟩ := fill_nodes_total M s t ep cp (BDPT.catch_negative pdfs.1)
    (BDPT.catch_negative pdfs.2.1) (BDPT.catch_negative pdfs.2.2.1)
    (BDPT.catch_negative pdfs.2.2.2) ht hs hcl
  have hval := nodes_of_domain node (s + t - 1) hdom
  refine ⟨pdfs, node, fun j => (node j).getD ⟨0, 0, false⟩, hpdfs, hnode, hval, ?_, ?_, ?_⟩
  · intro j n hj
    show n = (node j).getD ⟨0, 0, false⟩
    rw [hj]
    rfl
  · intro j hj
    show (node j).getD ⟨0, 0, false⟩ = ⟨0, 0, false⟩
    rw [hj]
    rfl
  · have hkm : (s + t - 1) % 256 = s + t - 1 := Nat.mod_eq_of_lt (by omega)
    have hy0 : 1 ≤ s → ∃ y0 light, vec_at ep 0 = Except.ok y0 ∧ y0.ptr_light = some light := by
      intro h1
      obtain ⟨y0, light, h0, hl⟩ := hlight h1
      exact ⟨y0, light, vec_at_of_some h0, hl⟩
    unfold BDPT.Weight_run
    simp only [hkm]
    rw [hpdfs]
    simp only [bind, Except.bind]
    rw [hnode]
    simp only []
    rw [right_march_run b node _ s (s + t - 1) hval (by omega) (by omega)]
    simp only []
    rw [left_march_run ep node _ s (s + t - 1) hval (by omega) hy0]

/-- **C35 (amended).** For every `s >= 0` and `t >= 1` with `2 <= s + t <= 256` and all
subpaths of at least `s` and `t` vertices whose pointers are set (`WeightPre`),
`Weight` returns `1 / sum_path`, where `sum_path` is `1` plus the relative densities the
two march loops accumulate on the node array the function fills: for every step of the
first loop (`i = s .. k-1`) and of the second (`i = s .. 1`) that is not skipped, the
product of the quotients of that loop up to and including the step.  Whenever the stored
densities and geometry terms of the subpaths are not negative (and no divisor is zero),
the weight `w` returned satisfies `0 < w <= 1`. -/
theorem C35_weight_range (M : FloatOps F) (b : BDPT F) (s t : Nat) (ep cp : List (Vertex F))
    (hpre : BDPT.WeightPre b s t ep cp) :
    ∃ (pdfs : F × F × F × F) (node : NodeArray F) (nd : Nat → Node F) (st : MarchState F)
        (w : F),
      BDPT.connection_pdfs M b s t ep cp = Except.ok pdfs ∧
      BDPT.fill_nodes M s t (s + t - 1) ep cp (BDPT.catch_negative pdfs.1)
        (BDPT.catch_negative pdfs.2.1) (BDPT.catch_negative pdfs.2.2.1)
        (BDPT.catch_negative pdfs.2.2.2) = Except.ok node ∧
      (∀ j, j ≤ s + t - 1 → node j = some (nd j)) ∧
      BDPT.Weight_run M b s t ep cp = Except.ok st ∧
      BDPT.Weight M b s t ep cp = Except.ok w ∧
      w = 1 / st.sum_path ∧
      st.sum_path = 1
        + (BDPT.march_terms (BDPT.right_factor nd) (BDPT.right_skip nd)
            (List.range' s (s + t - 1 - s))).sum
        + (BDPT.march_terms (BDPT.left_factor nd) (BDPT.left_skip nd)
            (List.range' 1 s).reverse).sum ∧
      (BDPT.StoredNonneg s t ep cp → (∀ d ∈ st.divisions, d.divisor ≠ 0) →
        0 < w ∧ w ≤ 1) := by
  obtain ⟨pdfs, node, nd, hpdfs, hnode, hval, hnd1, hnd0, hrun⟩ :=
    weight_run_ok M b s t ep cp hpre
  have hsum := foldl_left_terms nd (List.range' 1 s).reverse
    { (List.range' s (s + t - 1 - s)).foldl (BDPT.right_step nd) ⟨1, 1, []⟩ with p_k := 1 }
  have hsumR := foldl_right_terms nd (List.range' s (s + t - 1 - s)) ⟨1, 1, []⟩
  simp only [one_mul] at hsum hsumR
  refine ⟨pdfs, node, nd, _, _, hpdfs, hnode, hval, hrun, ?_, rfl, ?_, ?_⟩
  · unfold BDPT.Weight
    rw [hrun]
    rfl
  · rw [hsum, hsumR]
  · intro hnn _
    have hnonneg : ∀ j, 0 ≤ (nd j).p_forward ∧ 0 ≤ (nd j).p_reverse := by
      intro j
      cases hj : node j with
      | none =>
        rw [hnd0 j hj]
        exact ⟨le_rfl, le_rfl⟩
      | some n =>
        rw [← hnd1 j n hj]
        exact fill_nodes_nonneg M s t (s + t - 1) ep cp _ _ _ _
          (catch_negative_nonneg _) (catch_negative_nonneg _) (catch_negative_nonneg _)
          (catch_negative_nonneg _) hnn node hnode j n hj
    have h1 : (1 : F) ≤ ((List.range' s (s + t - 1 - s)).foldl (BDPT.right_step nd)
        ⟨1, 1, []⟩).sum_path :=
      foldl_right_sum_le nd hnonneg _ ⟨1, 1, []⟩ zero_le_one
    have h2 := foldl_left_sum_le nd hnonneg (List.range' 1 s).reverse
      { (List.range' s (s + t - 1 - s)).foldl (BDPT.right_step nd) ⟨1, 1, []⟩ with p_k := 1 }
      zero_le_one
    have h3 : (1 : F) ≤ ((List.range' 1 s).reverse.foldl (BDPT.left_step nd)
        { (List.range' s (s + t - 1 - s)).foldl (BDPT.right_step nd) ⟨1, 1, []⟩ with
          p_k := 1 }).sum_path := le_trans h1 h2
    constructor
    · exact div_pos one_pos (lt_of_lt_of_le one_pos h3)
    · rw [div_le_one (lt_of_lt_of_le one_pos h3)]
      exact h3

/-- **C36.** In `Weight`, for a node array whose entries `0..k` are assigned with
strictly positive `p_forward` and `p_reverse` (and a light vertex `y0` whose light is
set): from any state, step `i - 1` of the first march loop multiplies `p_k` by a
positive quotient `r` and step `i` of the second march loop multiplies it by `1 / r`, for
every `1 <= i <= k` (boundary forms included); consequently, for all `lo <= hi <= k`,
the relative density obtained by marching from `lo` up to `hi` multiplied by the one
obtained by marching from `hi` down to `lo` is `1`. -/
theorem C36_march_reciprocal (b : BDPT F) (ep : List (Vertex F)) (node : NodeArray F)
    (nd : Nat → Node F) (k : Nat)
    (hnode : ∀ j, j ≤ k → node j = some (nd j))
    (hpos : ∀ j, j ≤ k → 0 < (nd j).p_forward ∧ 0 < (nd j).p_reverse)
    (hy0 : ∃ y0 light, vec_at ep 0 = Except.ok y0 ∧ y0.ptr_light = some light) :
    (∀ i, 1 ≤ i → i ≤ k → ∀ st : MarchState F, ∃ (stR stL : MarchState F) (r : F),
        BDPT.right_march b node k [i - 1] st = Except.ok stR ∧
        BDPT.left_march ep node k [i] st = Except.ok stL ∧
        0 < r ∧ stR.p_k = st.p_k * r ∧ stL.p_k = st.p_k * (1 / r)) ∧
    (∀ lo hi, lo ≤ hi → hi ≤ k → ∃ stR stL : MarchState F,
        BDPT.right_march b node k (List.range' lo (hi - lo)) ⟨1, 1, []⟩ = Except.ok stR ∧
        BDPT.left_march ep node k (List.range' (lo + 1) (hi - lo)).reverse ⟨1, 1, []⟩
          = Except.ok stL ∧
        stR.p_k * stL.p_k = 1) := by
  constructor
  · intro i hi1 hik st
    obtain ⟨hr, hl⟩ := right_left_factor nd k hpos i hi1 hik
    have hR := right_march_eq b node nd k hnode [i - 1] [] st
      (fun j hj => by rw [List.mem_singleton] at hj; omega)
    have hL := left_march_eq ep node nd k hnode [i] [] (fun _ => hy0) st
      (fun j hj => by rw [List.mem_singleton] at hj; omega)
    rw [List.append_nil] at hR hL
    refine ⟨_, _, BDPT.right_factor nd (i - 1), hR, hL, hr, rfl, ?_⟩
    rw [← hl]
    rfl
  · intro lo hi hlh hik
    have hR := right_march_eq b node nd k hnode (List.range' lo (hi - lo)) [] ⟨1, 1, []⟩
      (fun j hj => by have := List.mem_range'_1.mp hj; omega)
    have hL := left_march_eq ep node nd k hnode (List.range' (lo + 1) (hi - lo)).reverse []
      (fun _ => hy0) ⟨1, 1, []⟩
      (fun j hj => by have := List.mem_range'_1.mp (List.mem_reverse.mp hj); omega)
    rw [List.append_nil] at hR hL
    refine ⟨_, _, hR, hL, ?_⟩
    rw [foldl_right_p_k, foldl_left_p_k, one_mul, one_mul]
    exact right_left_prod nd k hpos lo (hi - lo) (by omega)

/-- For `s + t <= 256` (so that `k = s + t - 1` fits the 8-bit counter), `k >= 1` and
subpaths of at least `s` and `t` vertices: the light side of "Fill in nodes" assigns
exactly the entries `0..s-1`, the camera side leaves them and assigns exactly `s..k`,
and the two march loops read assigned entries of `0..k` only: they return, and they
return the same on every array that agrees on `0..k`. -/
theorem weight_node_indices (M : FloatOps F) (b : BDPT F) (s t : Nat)
    (ep cp : List (Vertex F)) (psf psr ptf ptr : F)
    (ht : 1 ≤ t) (hk : 2 ≤ s + t) (hst : s + t ≤ 256)
    (hs : s ≤ ep.length) (hcl : t ≤ cp.length)
    (hy0 : 1 ≤ s → ∃ y0 light, vec_at ep 0 = Except.ok y0 ∧ y0.ptr_light = some light) :
    (s + t - 1) % 256 = s + t - 1 ∧
    ∃ n2 node : NodeArray F,
      ((List.range (s - 1)).foldlM (BDPT.fill_emission_step ep) (fun _ => none)
        >>= BDPT.fill_emission_last M s t (s + t - 1) ep cp psf psr) = Except.ok n2 ∧
      (∀ j, (n2 j).isSome = true ↔ j < s) ∧
      ((List.range (t - 1)).foldlM (BDPT.fill_camera_step cp (s + t - 1)) n2
        >>= BDPT.fill_camera_last M s t (s + t - 1) ep cp ptf ptr) = Except.ok node ∧
      (∀ j, j < s → node j = n2 j) ∧
      (∀ j, (node j).isSome = true ↔ j ≤ s + t - 1) ∧
      BDPT.fill_nodes M s t (s + t - 1) ep cp psf psr ptf ptr = Except.ok node ∧
      ∀ (node2 : NodeArray F) (st : MarchState F), (∀ j, j ≤ s + t - 1 → node2 j = node j) →
        ∃ stR stL : MarchState F,
          BDPT.right_march b node2 (s + t - 1) (List.range' s (s + t - 1 + 1 - s)) st
            = Except.ok stR ∧
          BDPT.right_march b node (s + t - 1) (List.range' s (s + t - 1 + 1 - s)) st
            = Except.ok stR ∧
          BDPT.left_march ep node2 (s + t - 1) (List.range' 1 s).reverse st = Except.ok stL ∧
          BDPT.left_march ep node (s + t - 1) (List.range' 1 s).reverse st = Except.ok stL := by
  refine ⟨Nat.mod_eq_of_lt (by omega), ?_⟩
  obtain ⟨n2, h2, hd2⟩ := fill_emission_domain M s t ep cp psf psr ht hs hcl
  obtain ⟨node, h3, hkeep, hd⟩ := fill_camera_domain M s t ep cp ptf ptr ht hs hcl n2 hd2
  have hfill : BDPT.fill_nodes M s t (s + t - 1) ep cp psf psr ptf ptr = Except.ok node := by
    obtain ⟨n1, e1, e2⟩ := bind_eq_ok h2
    obtain ⟨n3, e3, e4⟩ := bind_eq_ok h3
    unfold BDPT.fill_nodes
    simp only []
    rw [e1]
    simp only [bind, Except.bind]
    rw [e2]
    simp only []
    rw [e3]
    simp only []
    exact e4
  have hval := nodes_of_domain node (s + t - 1) hd
  refine ⟨n2, node, h2, hd2, h3, hkeep, hd, hfill, ?_⟩
  intro node2 st hagree
  have hval2 : ∀ j, j ≤ s + t - 1 → node2 j = some ((node j).getD ⟨0, 0, false⟩) := by
    intro j hj
    rw [hagree j hj]
    exact hval j hj
  exact ⟨_, _,
    right_march_run b node2 _ s (s + t - 1) hval2 (by omega) (by omega) st,
    right_march_run b node _ s (s + t - 1) hval (by omega) (by omega) st,
    left_march_run ep node2 _ s (s + t - 1) hval2 (by omega) hy0 st,
    left_march_run ep node _ s (s + t - 1) hval (by omega) hy0 st⟩

end WeightClaims

/-- A computation that fails, from the evaluation of its fault. -/
theorem error_of_fault {α : Type} (r : Except Fault α) (e : Fault)
    (h : (match r with
      | Except.error e2 => decide (e2 = e)
      | Except.ok _ => false) = true) : r = Except.error e := by
  cases r with
  | error e2 =>
    simp only [decide_eq_true_eq] at h
    rw [h]
  | ok a => cases h

/-- Counterexample to C35 as stated: `s = 0`, `t = 1` and the one-vertex camera subpath
`[z0]`, whose stored densities and geometry term are not negative.  Here `k = 0`, the
first march loop runs its step `i = 0` and divides by `node[1].p_reverse`, an entry that
was never assigned: `Weight` does not return a weight. -/
theorem C35_weight_of_single_vertex :
    weight_camera_path.length = 1 ∧
    BDPT.StoredNonneg 0 1 [] weight_camera_path ∧
    BDPT.Weight rationalOps wall_light_bdpt 0 1 [] weight_camera_path
      = Except.error Fault.unassigned := by
  refine ⟨by decide!, ⟨fun v hv => absurd hv (List.not_mem_nil v), by decide!⟩,
    error_of_fault _ _ (by decide!)⟩

/-- Witness for C35 (amended): `Weight(2, 2)` for a light vertex on the light of
`scene_wall_light` followed by a diffuse vertex, and the camera vertex followed by a
diffuse vertex. -/
theorem C35_weight_range_witness :
    ∃ w : ℚ, BDPT.Weight rationalOps wall_light_bdpt 2 2 [weight_light_vertex, plate_vertex 1]
        (weight_camera_path ++ [plate_vertex 0]) = Except.ok w ∧ 0 < w ∧ w ≤ 1 := by
  have hpre : BDPT.WeightPre wall_light_bdpt 2 2 [weight_light_vertex, plate_vertex 1]
      (weight_camera_path ++ [plate_vertex 0]) :=
    ⟨by decide, by decide, by decide, by decide, by decide!,
      fun _ => ⟨weight_light_vertex, emitter_wall_light, rfl, rfl⟩,
      fun _ => ⟨plate_vertex 1, BxDF.Lambert ⟨4 / 5, 4 / 5, 4 / 5⟩, rfl, rfl⟩,
      fun _ _ => ⟨plate_vertex 0, BxDF.Lambert ⟨4 / 5, 4 / 5, 4 / 5⟩, rfl, rfl⟩,
      fun h => absurd h (by decide)⟩
  obtain ⟨pdfs, node, nd, st, w, -, -, -, hrun, hW, -, -, hrange⟩ :=
    C35_weight_range rationalOps wall_light_bdpt 2 2 [weight_light_vertex, plate_vertex 1]
      (weight_camera_path ++ [plate_vertex 0]) hpre
  have h0 := ok_of_isSome (BDPT.Weight_run rationalOps wall_light_bdpt 2 2
    [weight_light_vertex, plate_vertex 1] (weight_camera_path ++ [plate_vertex 0]))
    ⟨0, 0, []⟩ (by decide!)
  have hst : st = (BDPT.Weight_run rationalOps wall_light_bdpt 2 2
      [weight_light_vertex, plate_vertex 1]
      (weight_camera_path ++ [plate_vertex 0])).toOption.getD ⟨0, 0, []⟩ :=
    (Except.ok.inj (h0.symm.trans hrun)).symm
  have hnn : BDPT.StoredNonneg 2 2 [weight_light_vertex, plate_vertex 1]
      (weight_camera_path ++ [plate_vertex 0]) :=
    ⟨by decide!, by decide!⟩
  have hdiv : ∀ d ∈ st.divisions, d.divisor ≠ 0 := by
    rw [hst]
    decide!
  exact ⟨w, hW, hrange hnn hdiv⟩

/-- Witness for C36: the node array `march_nodes` (`k = 3`), marching from `0` up to `3`
and from `3` down to `0`. -/
theorem C36_march_reciprocal_witness :
    ∃ stR stL : MarchState ℚ,
      BDPT.right_march wall_light_bdpt march_nodes 3 (List.range' 0 (3 - 0)) ⟨1, 1, []⟩
        = Except.ok stR ∧
      BDPT.left_march [weight_light_vertex] march_nodes 3 (List.range' (0 + 1) (3 - 0)).reverse
        ⟨1, 1, []⟩ = Except.ok stL ∧
      stR.p_k * stL.p_k = 1 :=
  (C36_march_reciprocal wall_light_bdpt [weight_light_vertex] march_nodes
    (fun j => ⟨(j + 1 : ℚ), (j + 2 : ℚ) / 3, false⟩) 3
    (fun j hj => by simp [march_nodes, hj])
    (fun j _ => ⟨by positivity, by positivity⟩)
    ⟨weight_light_vertex, emitter_wall_light, rfl, rfl⟩).2 0 3 (by decide) (by decide)

/-- **C37 (failing input).** `s = 2`, `t = 255`, a light subpath of two vertices and a
camera subpath of 255 vertices: `s + t - 1 = 256`, but the counter `k` of `Weight` has
8 bits and holds `0`.  The camera side of "Fill in nodes" then computes the subscript
`k - i` with `i = 1`, which is negative, and `Weight` does not return; with `k = 256`
the same call of "Fill in nodes" returns. -/
theorem C37_node_counter_wraps :
    [weight_light_vertex, plate_vertex 1].length = 2 ∧ long_camera_path.length = 255 ∧
    (2 + 255 - 1) % 256 = 0 ∧
    (∀ node : NodeArray ℚ,
      BDPT.fill_camera_step long_camera_path ((2 + 255 - 1) % 256) node 1
        = Except.error Fault.out_of_range) ∧
    BDPT.Weight rationalOps wall_light_bdpt 2 255 [weight_light_vertex, plate_vertex 1]
      long_camera_path = Except.error Fault.out_of_range ∧
    (BDPT.fill_nodes rationalOps 2 255 (2 + 255 - 1) [weight_light_vertex, plate_vertex 1]
      long_camera_path 0 0 0 0).toOption.isSome = true := by
  refine ⟨by decide, by decide!, by decide, fun node => ?_, error_of_fault _ _ (by decide!),
    by decide!⟩
  obtain ⟨v1, -, h1⟩ := vec_at_of_lt long_camera_path 1 (by decide!)
  obtain ⟨v2, -, h2⟩ := vec_at_of_lt long_camera_path 2 (by decide!)
  unfold BDPT.fill_camera_step
  rw [h1, h2]
  rfl

/-! ## Rounding to binary32 and the claims that depend on it -/

/-! ## The conversion to `float` -/

section Rounding
variable {F : Type} [LinearOrderedField F] [FloorRing F]

theorem round_even_cases (q : F) :
    (q - ⌊q⌋ < 1 / 2 ∧ round_even q = ⌊q⌋) ∨
    (1 / 2 < q - ⌊q⌋ ∧ round_even q = ⌊q⌋ + 1) ∨
    (q - ⌊q⌋ = 1 / 2 ∧ ⌊q⌋ % 2 = 0 ∧ round_even q = ⌊q⌋) ∨
    (q - ⌊q⌋ = 1 / 2 ∧ ⌊q⌋ % 2 = 1 ∧ round_even q = ⌊q⌋ + 1) := by
  unfold round_even
  simp only []
  by_cases h1 : q - ⌊q⌋ < 1 / 2
  · left
    exact ⟨h1, if_pos h1⟩
  · rw [if_neg h1]
    by_cases h2 : 1 / 2 < q - ⌊q⌋
    · right; left
      exact ⟨h2, if_pos h2⟩
    · rw [if_neg h2]
      have he : q - ⌊q⌋ = 1 / 2 := le_antisymm (not_lt.mp h2) (not_lt.mp h1)
      by_cases h3 : ⌊q⌋ % 2 = 0
      · right; right; left
        exact ⟨he, h3, if_pos h3⟩
      · right; right; right
        exact ⟨he, by omega, if_neg h3⟩

/-- The rounded value is within one half of the argument. -/
theorem round_even_error (q : F) : |(round_even q : F) - q| ≤ 1 / 2 := by
  have hf := Int.floor_le q
  have hl := Int.lt_floor_add_one q
  rw [abs_le]
  rcases round_even_cases q with ⟨h, e⟩ | ⟨h, e⟩ | ⟨h, -, e⟩ | ⟨h, -, e⟩ <;> rw [e] <;>
    push_cast <;> constructor <;> linarith

/-- Rounding does not cross an integer. -/
theorem round_even_le_int (q : F) (m : Int) (h : q ≤ m) : round_even q ≤ m := by
  have hfl : ⌊q⌋ ≤ m := by
    have := Int.floor_le_floor h
    rwa [Int.floor_intCast] at this
  rcases round_even_cases q with ⟨-, e⟩ | ⟨hq, e⟩ | ⟨-, -, e⟩ | ⟨hq, -, e⟩ <;> rw [e]
  · exact hfl
  · rcases hfl.lt_or_eq with hlt | heq
    · omega
    · rw [← heq] at h
      linarith
  · exact hfl
  · rcases hfl.lt_or_eq with hlt | heq
    · omega
    · rw [← heq] at h
      linarith

theorem int_le_round_even (q : F) (m : Int) (h : (m : F) ≤ q) : m ≤ round_even q := by
  have hfl : m ≤ ⌊q⌋ := Int.le_floor.mpr h
  rcases round_even_cases q with ⟨-, e⟩ | ⟨-, e⟩ | ⟨-, -, e⟩ | ⟨-, -, e⟩ <;> rw [e] <;> omega

theorem round_even_neg (q : F) : round_even (-q) = -round_even q := by
  have hf := Int.floor_le q
  have hl := Int.lt_floor_add_one q
  have hf' := Int.floor_le (-q)
  have hl' := Int.lt_floor_add_one (-q)
  by_cases hi : (⌊q⌋ : F) = q
  · have hn : ⌊-q⌋ = -⌊q⌋ := by
      rw [← hi, ← Int.cast_neg, Int.floor_intCast, Int.floor_intCast]
    rcases round_even_cases q with ⟨-, e⟩ | ⟨h, e⟩ | ⟨h, -, e⟩ | ⟨h, -, e⟩
    · rcases round_even_cases (-q) with ⟨-, e'⟩ | ⟨h', e'⟩ | ⟨h', -, e'⟩ | ⟨h', -, e'⟩
      · rw [e, e', hn]
      · rw [hn] at h'; push_cast at h'; linarith
      · rw [hn] at h'; push_cast at h'; linarith
      · rw [hn] at h'; push_cast at h'; linarith
    · linarith
    · linarith
    · linarith
  · have hlt : (⌊q⌋ : F) < q := lt_of_le_of_ne hf hi
    have hn : ⌊-q⌋ = -⌊q⌋ - 1 := by
      rw [Int.floor_eq_iff]
      push_cast
      constructor <;> linarith
    rcases round_even_cases q with ⟨h, e⟩ | ⟨h, e⟩ | ⟨h, h2, e⟩ | ⟨h, h2, e⟩ <;>
      rcases round_even_cases (-q) with ⟨h', e'⟩ | ⟨h', e'⟩ | ⟨h', h2', e'⟩ | ⟨h', h2', e'⟩ <;>
      rw [hn] at h' <;> push_cast at h' <;>
      first
        | (rw [e, e', hn]; omega)
        | (exfalso; linarith)

theorem round_even_intCast (m : Int) : round_even (m : F) = m :=
  le_antisymm (round_even_le_int _ m le_rfl) (int_le_round_even _ m le_rfl)

omit [FloorRing F] in
/-- The search returns `top / 2^k` for some `k` up to `fuel`: it stops at the first
`k` with `top / 2^(k+1) <= a`. -/
theorem binade_top_spec (fuel : Nat) : ∀ (top a : F),
    ∃ k : Nat, k ≤ fuel ∧ binade_top fuel top a = top / 2 ^ k ∧
      (k < fuel → binade_top fuel top a / 2 ≤ a) ∧
      (a < top → a < binade_top fuel top a) ∧ (k ≠ 0 → a < top / 2) := by
  induction fuel with
  | zero =>
    intro top a
    exact ⟨0, le_rfl, by simp [binade_top], fun h => absurd h (lt_irrefl 0), fun h => h,
      fun h => absurd rfl h⟩
  | succ fuel ih =>
    intro top a
    by_cases h : top / 2 ≤ a
    · refine ⟨0, Nat.zero_le _, ?_, ?_, ?_, fun h0 => absurd rfl h0⟩
      · simp [binade_top, h]
      · intro _
        simp only [binade_top, if_pos h]
        exact h
      · intro ha
        simp only [binade_top, if_pos h]
        exact ha
    · obtain ⟨k, hk, hT, hlow, hup, -⟩ := ih (top / 2) a
      have hlt : a < top / 2 := not_le.mp h
      refine ⟨k + 1, Nat.succ_le_succ hk, ?_, ?_, ?_, fun _ => hlt⟩
      · simp only [binade_top, if_neg h]
        rw [hT, pow_succ, div_div, mul_comm]
      · intro hk1
        simp only [binade_top, if_neg h]
        exact hlow (Nat.lt_of_succ_lt_succ hk1)
      · intro _
        simp only [binade_top, if_neg h]
        exact hup hlt

/-- The grid on which `round_binary32` rounds `x`: multiples of `2^(e-24)`, where `e` is
the exponent of the binade end above `|x|`, at least `-125` (the subnormal range) and at
most `128`. -/
theorem round_binary32_grid (x : F) :
    ∃ e : Int, -125 ≤ e ∧ e ≤ 128 ∧
      round_binary32 x = (round_even (x / (2 : F) ^ (e - 24)) : F) * (2 : F) ^ (e - 24) ∧
      (|x| < (2 : F) ^ (e - 1) → e = -125) ∧ ((2 : F) ^ e ≤ |x| → e = 128) := by
  obtain ⟨k, hk, hT, hlow, hup, hk0⟩ := binade_top_spec 253 ((2 : F) ^ 128) |x|
  have h2 : (2 : F) ≠ 0 := two_ne_zero
  have hTz : binade_top 253 ((2 : F) ^ 128) |x| = (2 : F) ^ ((128 : Int) - (k : Int)) := by
    rw [hT, zpow_sub₀ h2, zpow_natCast]
    norm_num
  have hulp : binade_top 253 ((2 : F) ^ 128) |x| / 2 ^ 24
      = (2 : F) ^ ((128 : Int) - (k : Int) - 24) := by
    rw [hTz, zpow_sub₀ h2 (128 - (k : Int)) 24]
    norm_num
  refine ⟨128 - k, by omega, by omega, ?_, ?_, ?_⟩
  · unfold round_binary32
    simp only []
    rw [hulp]
  · intro hx
    by_contra hne
    have hk1 : k < 253 := by omega
    have h1 := hlow hk1
    rw [hTz] at h1
    have h3 : (2 : F) ^ ((128 : Int) - (k : Int) - 1) = (2 : F) ^ ((128 : Int) - (k : Int)) / 2 := by
      rw [zpow_sub₀ h2]
      norm_num
    rw [h3] at hx
    exact absurd h1 (not_le.mpr hx)
  · intro hx
    by_contra hne
    have hk1 : k ≠ 0 := by omega
    have h1 := hk0 hk1
    have h3 : |x| < (2 : F) ^ 128 := lt_trans h1 (by norm_num)
    have h4 := hup h3
    rw [hTz] at h4
    exact absurd hx (not_le.mpr h4)

theorem round_binary32_neg (x : F) : round_binary32 (-x) = -round_binary32 x := by
  unfold round_binary32
  simp only [abs_neg]
  rw [neg_div, round_even_neg]
  push_cast
  ring

omit [FloorRing F] in
theorem two_zpow_pos (e : Int) : (0 : F) < (2 : F) ^ e := zpow_pos (by norm_num) e

omit [FloorRing F] in
theorem two_zpow_div (e : Int) (n : Nat) :
    (2 : F) ^ e / (2 : F) ^ (e - n) = ((2 ^ n : Int) : F) := by
  rw [zpow_sub₀ (two_ne_zero), zpow_natCast]
  have h := two_zpow_pos (F := F) e
  push_cast
  field_simp

omit [FloorRing F] in
theorem two_zpow_pred_div (e : Int) :
    (2 : F) ^ (e - 1) / (2 : F) ^ (e - 24) = ((2 ^ 23 : Int) : F) := by
  have h : e - 24 = (e - 1) - (23 : Nat) := by omega
  rw [h]
  exact two_zpow_div (e - 1) 23

/-- A value rounded on the grid of step `2^(e-24)` does not pass `2^e`. -/
theorem grid_le (x : F) (e : Int) (hx : x ≤ (2 : F) ^ e) :
    (round_even (x / (2 : F) ^ (e - 24)) : F) * (2 : F) ^ (e - 24) ≤ (2 : F) ^ e := by
  have hu := two_zpow_pos (F := F) (e - 24)
  have hq : x / (2 : F) ^ (e - 24) ≤ ((2 ^ 24 : Int) : F) := by
    rw [← two_zpow_div e 24]
    exact div_le_div_of_nonneg_right hx hu.le
  have h1 := round_even_le_int _ _ hq
  have h2 : (round_even (x / (2 : F) ^ (e - 24)) : F) ≤ ((2 ^ 24 : Int) : F) := by
    exact_mod_cast h1
  calc (round_even (x / (2 : F) ^ (e - 24)) : F) * (2 : F) ^ (e - 24)
      ≤ ((2 ^ 24 : Int) : F) * (2 : F) ^ (e - 24) := mul_le_mul_of_nonneg_right h2 hu.le
    _ = (2 : F) ^ e := by
        rw [← two_zpow_div e 24]
        field_simp

/-- A value rounded on the grid of step `2^(e-24)` does not fall below `2^(e-1)`. -/
theorem le_grid (x : F) (e : Int) (hx : (2 : F) ^ (e - 1) ≤ x) :
    (2 : F) ^ (e - 1) ≤ (round_even (x / (2 : F) ^ (e - 24)) : F) * (2 : F) ^ (e - 24) := by
  have hu := two_zpow_pos (F := F) (e - 24)
  have hq : ((2 ^ 23 : Int) : F) ≤ x / (2 : F) ^ (e - 24) := by
    rw [← two_zpow_pred_div e]
    exact div_le_div_of_nonneg_right hx hu.le
  have h1 := int_le_round_even _ _ hq
  have h2 : ((2 ^ 23 : Int) : F) ≤ (round_even (x / (2 : F) ^ (e - 24)) : F) := by
    exact_mod_cast h1
  calc (2 : F) ^ (e - 1) = ((2 ^ 23 : Int) : F) * (2 : F) ^ (e - 24) := by
        rw [← two_zpow_pred_div e]
        field_simp
    _ ≤ (round_even (x / (2 : F) ^ (e - 24)) : F) * (2 : F) ^ (e - 24) :=
        mul_le_mul_of_nonneg_right h2 hu.le

/-- The rounding error on the grid of step `2^(e-24)` is at most half a step. -/
theorem grid_error (x : F) (e : Int) :
    |(round_even (x / (2 : F) ^ (e - 24)) : F) * (2 : F) ^ (e - 24) - x|
      ≤ (2 : F) ^ (e - 24) / 2 := by
  have hu := two_zpow_pos (F := F) (e - 24)
  have h := round_even_error (x / (2 : F) ^ (e - 24))
  have he : (round_even (x / (2 : F) ^ (e - 24)) : F) * (2 : F) ^ (e - 24) - x
      = ((round_even (x / (2 : F) ^ (e - 24)) : F) - x / (2 : F) ^ (e - 24))
        * (2 : F) ^ (e - 24) := by
    field_simp
  rw [he, abs_mul, abs_of_pos hu]
  calc |(round_even (x / (2 : F) ^ (e - 24)) : F) - x / (2 : F) ^ (e - 24)| * (2 : F) ^ (e - 24)
      ≤ 1 / 2 * (2 : F) ^ (e - 24) := mul_le_mul_of_nonneg_right h hu.le
    _ = (2 : F) ^ (e - 24) / 2 := by ring

theorem round_binary32_nonneg (x : F) (hx : 0 ≤ x) : 0 ≤ round_binary32 x := by
  obtain ⟨e, -, -, hr, -, -⟩ := round_binary32_grid x
  rw [hr]
  have hu := two_zpow_pos (F := F) (e - 24)
  have h1 := int_le_round_even (x / (2 : F) ^ (e - 24)) 0 (by
    push_cast
    exact div_nonneg hx hu.le)
  have h2 : (0 : F) ≤ (round_even (x / (2 : F) ^ (e - 24)) : F) := by exact_mod_cast h1
  exact mul_nonneg h2 hu.le

/-- Relative error of the conversion: at most `2^-24` for a value of magnitude at least
`2^-126`, the smallest normal `float`. -/
theorem round_binary32_rel (x : F) (hx : 1 / 2 ^ 126 ≤ |x|) :
    |round_binary32 x - x| ≤ |x| / 2 ^ 24 := by
  obtain ⟨e, -, -, hr, hlow, -⟩ := round_binary32_grid x
  rw [hr]
  have h1 : (2 : F) ^ (e - 1) ≤ |x| := by
    by_contra hc
    have he := hlow (not_le.mp hc)
    rw [he] at hc
    apply hc
    have : (2 : F) ^ ((-125 : Int) - 1) = 1 / 2 ^ 126 := by
      rw [show ((-125 : Int) - 1) = -((126 : Nat) : Int) by norm_num, zpow_neg, zpow_natCast]
      norm_num
    rw [this]
    exact hx
  have h2 : (2 : F) ^ (e - 24) / 2 = (2 : F) ^ (e - 1) / 2 ^ 24 := by
    have h3 := two_zpow_pred_div (F := F) e
    have hu := two_zpow_pos (F := F) (e - 24)
    rw [div_eq_iff hu.ne'] at h3
    rw [h3]
    push_cast
    ring
  calc _ ≤ (2 : F) ^ (e - 24) / 2 := grid_error x e
    _ = (2 : F) ^ (e - 1) / 2 ^ 24 := h2
    _ ≤ |x| / 2 ^ 24 := div_le_div_of_nonneg_right h1 (by positivity)

/-- On the unit interval the conversion stays in the interval and moves a value by at
most `2^-25`. -/
theorem round_binary32_unit (x : F) (h0 : 0 ≤ x) (h1 : x ≤ 1) :
    0 ≤ round_binary32 x ∧ round_binary32 x ≤ 1 ∧ |round_binary32 x - x| ≤ 1 / 2 ^ 25 := by
  refine ⟨round_binary32_nonneg x h0, ?_⟩
  obtain ⟨e, -, he128, hr, hlow, hup⟩ := round_binary32_grid x
  rw [abs_of_nonneg h0] at hlow hup
  rw [hr]
  by_cases he : e ≤ 0
  · have hxe : x ≤ (2 : F) ^ e := by
      by_contra hc
      have := hup (le_of_lt (not_le.mp hc))
      omega
    have h2e : (2 : F) ^ e ≤ 1 := by
      have := zpow_le_zpow_right₀ (one_le_two : (1 : F) ≤ 2) he
      simpa using this
    refine ⟨le_trans (grid_le x e hxe) h2e, le_trans (grid_error x e) ?_⟩
    have h3 : (2 : F) ^ (e - 24) ≤ (2 : F) ^ (-(24 : Int)) :=
      zpow_le_zpow_right₀ one_le_two (by omega)
    have h4 : (2 : F) ^ (-(24 : Int)) = 1 / 2 ^ 24 := by
      rw [zpow_neg]
      norm_num
    rw [h4] at h3
    calc (2 : F) ^ (e - 24) / 2 ≤ 1 / 2 ^ 24 / 2 := div_le_div_of_nonneg_right h3 (by norm_num)
      _ = 1 / 2 ^ 25 := by norm_num
  · have he1 : 1 ≤ e := by omega
    have hx1 : (2 : F) ^ (e - 1) ≤ x := by
      by_contra hc
      have := hlow (not_le.mp hc)
      omega
    have h5 : (1 : F) ≤ (2 : F) ^ (e - 1) := by
      have := zpow_le_zpow_right₀ (one_le_two : (1 : F) ≤ 2) (show (0 : Int) ≤ e - 1 by omega)
      simpa using this
    have hx : x = 1 := le_antisymm h1 (le_trans h5 hx1)
    have h6 : (2 : F) ^ (e - 1) = 1 := le_antisymm (by rw [← hx]; exact hx1) h5
    have h7 : (round_even (x / (2 : F) ^ (e - 24)) : F) * (2 : F) ^ (e - 24) = 1 := by
      have h8 : x / (2 : F) ^ (e - 24) = ((2 ^ 23 : Int) : F) := by
        rw [← two_zpow_pred_div e, h6, hx]
      rw [h8, round_even_intCast, ← two_zpow_pred_div e, h6]
      have hu := two_zpow_pos (F := F) (e - 24)
      field_simp
    rw [h7, hx]
    refine ⟨le_rfl, ?_⟩
    simp

theorem round_binary32_one : round_binary32 (1 : F) = 1 := by
  obtain ⟨h0, h1, h2⟩ := round_binary32_unit (1 : F) zero_le_one le_rfl
  have h3 : (1 : F) ≤ round_binary32 1 := by
    obtain ⟨e, -, -, hr, hlow, hup⟩ := round_binary32_grid (1 : F)
    rw [abs_one] at hlow hup
    rw [hr]
    have he1 : 1 ≤ e := by
      by_contra hc
      have he0 : e ≤ 0 := by omega
      have h2e : (2 : F) ^ e ≤ 1 := by
        have := zpow_le_zpow_right₀ (one_le_two : (1 : F) ≤ 2) he0
        simpa using this
      have := hup h2e
      omega
    have hx1 : (2 : F) ^ (e - 1) ≤ 1 := by
      by_contra hc
      have := hlow (not_le.mp hc)
      omega
    have h5 : (1 : F) ≤ (2 : F) ^ (e - 1) := by
      have := zpow_le_zpow_right₀ (one_le_two : (1 : F) ≤ 2) (show (0 : Int) ≤ e - 1 by omega)
      simpa using this
    exact le_trans h5 (le_grid 1 e hx1)
  exact le_antisymm h1 h3

theorem round_binary32_zero : round_binary32 (0 : F) = 0 := by
  have h := round_binary32_neg (0 : F)
  rw [neg_zero] at h
  linarith

end Rounding

section Rounding2
variable {F : Type} [LinearOrderedField F] [FloorRing F]

/-- A number with at most 24 significant bits and an exponent in the range of `float`
is a `float`: the conversion returns it unchanged. -/
theorem round_binary32_of_grid (m k : Int) (hm : |m| ≤ 2 ^ 24) (hk : -149 ≤ k) :
    round_binary32 ((m : F) * (2 : F) ^ k) = (m : F) * (2 : F) ^ k := by
  obtain ⟨e, he0, -, hr, hlow, -⟩ := round_binary32_grid ((m : F) * (2 : F) ^ k)
  have h2 : (2 : F) ≠ 0 := two_ne_zero
  have hk0 := two_zpow_pos (F := F) k
  have hu := two_zpow_pos (F := F) (e - 24)
  have habs : |(m : F) * (2 : F) ^ k| = ((|m| : Int) : F) * (2 : F) ^ k := by
    rw [abs_mul, abs_of_pos hk0, Int.cast_abs]
  -- the quotient by the grid step is an integer
  have hint : ∃ j : Int, (m : F) * (2 : F) ^ k / (2 : F) ^ (e - 24) = (j : F) := by
    by_cases hge : 0 ≤ k - e + 24
    · refine ⟨m * 2 ^ (k - e + 24).toNat, ?_⟩
      have e1 : (2 : F) ^ k = (2 : F) ^ ((k - e + 24).toNat : Int) * (2 : F) ^ (e - 24) := by
        rw [← zpow_add₀ h2, Int.toNat_of_nonneg hge]
        congr 1
        ring
      rw [e1, zpow_natCast]
      push_cast
      field_simp
      ring
    · have hlt : k - e + 24 ≤ -1 := by omega
      have hx1 : (2 : F) ^ (e - 1) ≤ |(m : F) * (2 : F) ^ k| := by
        by_contra hc
        have := hlow (not_le.mp hc)
        omega
      rw [habs] at hx1
      have hm1 : ((|m| : Int) : F) ≤ ((2 ^ 24 : Int) : F) := by exact_mod_cast hm
      have hx2 : ((|m| : Int) : F) * (2 : F) ^ k ≤ (2 : F) ^ (k + 24) := by
        have : (2 : F) ^ (k + 24) = ((2 ^ 24 : Int) : F) * (2 : F) ^ k := by
          rw [zpow_add₀ h2]
          push_cast
          rw [mul_comm]
          norm_num
        rw [this]
        exact mul_le_mul_of_nonneg_right hm1 hk0.le
      have hee : e - 1 ≤ k + 24 :=
        (zpow_le_zpow_iff_right₀ (one_lt_two : (1 : F) < 2)).mp (le_trans hx1 hx2)
      have he : e = k + 25 := by omega
      have hm2 : ((2 ^ 24 : Int) : F) ≤ ((|m| : Int) : F) := by
        have h3 : (2 : F) ^ (k + 24) ≤ ((|m| : Int) : F) * (2 : F) ^ k := by
          have : e - 1 = k + 24 := by omega
          rw [this] at hx1
          exact hx1
        have h4 : (2 : F) ^ (k + 24) = ((2 ^ 24 : Int) : F) * (2 : F) ^ k := by
          rw [zpow_add₀ h2]
          push_cast
          rw [mul_comm]
          norm_num
        rw [h4] at h3
        exact le_of_mul_le_mul_right h3 hk0
      have hm3 : |m| = 2 ^ 24 := le_antisymm hm (by exact_mod_cast hm2)
      have e2 : (2 : F) ^ (e - 24) = 2 * (2 : F) ^ k := by
        rw [he, show k + 25 - 24 = k + 1 by ring, zpow_add₀ h2, zpow_one, mul_comm]
      rcases abs_eq (by norm_num : (0 : Int) ≤ 2 ^ 24) |>.mp hm3 with hmm | hmm
      · refine ⟨2 ^ 23, ?_⟩
        rw [e2, hmm]
        push_cast
        field_simp
        ring
      · refine ⟨-2 ^ 23, ?_⟩
        rw [e2, hmm]
        push_cast
        field_simp
        ring
  obtain ⟨j, hj⟩ := hint
  rw [hr, hj, round_even_intCast, ← hj]
  field_simp

/-- The conversion returns a `float`: converting its result again changes nothing. -/
theorem round_binary32_idem (x : F) (hx : |x| < 2 ^ 128) :
    round_binary32 (round_binary32 x) = round_binary32 x := by
  obtain ⟨e, he0, he1, hr, -, hup⟩ := round_binary32_grid x
  have hxe : |x| ≤ (2 : F) ^ e := by
    by_contra hc
    have he := hup (le_of_lt (not_le.mp hc))
    rw [he] at hc
    apply hc
    have : (2 : F) ^ (128 : Int) = 2 ^ 128 := by norm_num
    rw [this]
    exact hx.le
  obtain ⟨hx1, hx2⟩ := abs_le.mp hxe
  have hu := two_zpow_pos (F := F) (e - 24)
  have hn1 : round_even (x / (2 : F) ^ (e - 24)) ≤ 2 ^ 24 := by
    apply round_even_le_int
    rw [← two_zpow_div e 24]
    exact div_le_div_of_nonneg_right hx2 hu.le
  have hn2 : -(2 ^ 24) ≤ round_even (x / (2 : F) ^ (e - 24)) := by
    apply int_le_round_even
    have : ((-(2 ^ 24) : Int) : F) = -((2 ^ 24 : Int) : F) := by push_cast; ring
    rw [this, ← two_zpow_div e 24, ← neg_div]
    exact div_le_div_of_nonneg_right hx1 hu.le
  rw [hr]
  exact round_binary32_of_grid _ _ (abs_le.mpr ⟨hn2, hn1⟩) (by omega)

/-- Below one half the conversion moves a value by at most `2^-26`. -/
theorem round_binary32_half (x : F) (h0 : 0 ≤ x) (h1 : x < 1 / 2) :
    |round_binary32 x - x| ≤ 1 / 2 ^ 26 := by
  obtain ⟨e, -, -, hr, hlow, -⟩ := round_binary32_grid x
  rw [abs_of_nonneg h0] at hlow
  have he : e ≤ -1 := by
    by_contra hc
    have hx1 : (2 : F) ^ (e - 1) ≤ x := by
      by_contra hc2
      have := hlow (not_le.mp hc2)
      omega
    have h5 : (1 / 2 : F) ≤ (2 : F) ^ (e - 1) := by
      have := zpow_le_zpow_right₀ (one_le_two : (1 : F) ≤ 2) (show (-1 : Int) ≤ e - 1 by omega)
      rw [zpow_neg, zpow_one] at this
      simpa using this
    linarith
  rw [hr]
  refine le_trans (grid_error x e) ?_
  have h3 : (2 : F) ^ (e - 24) ≤ (2 : F) ^ (-(25 : Int)) :=
    zpow_le_zpow_right₀ one_le_two (by omega)
  have h4 : (2 : F) ^ (-(25 : Int)) = 1 / 2 ^ 25 := by
    rw [zpow_neg]
    norm_num
  rw [h4] at h3
  calc (2 : F) ^ (e - 24) / 2 ≤ 1 / 2 ^ 25 / 2 := div_le_div_of_nonneg_right h3 (by norm_num)
    _ = 1 / 2 ^ 26 := by norm_num

/-- The largest `float` below one is `1 - 2^-24`. -/
theorem round_binary32_below_one (x : F) (h0 : 0 ≤ x) (h1 : x ≤ 1)
    (hne : round_binary32 x ≠ 1) : round_binary32 x ≤ 1 - 1 / 2 ^ 24 := by
  obtain ⟨e, -, -, hr, hlow, hup⟩ := round_binary32_grid x
  rw [abs_of_nonneg h0] at hlow hup
  have hx1 : x < 1 := by
    rcases h1.lt_or_eq with h | h
    · exact h
    · rw [h, round_binary32_one] at hne
      exact absurd rfl hne
  have he : e ≤ 0 := by
    by_contra hc
    have hx2 : (2 : F) ^ (e - 1) ≤ x := by
      by_contra hc2
      have := hlow (not_le.mp hc2)
      omega
    have h5 : (1 : F) ≤ (2 : F) ^ (e - 1) := by
      have := zpow_le_zpow_right₀ (one_le_two : (1 : F) ≤ 2) (show (0 : Int) ≤ e - 1 by omega)
      simpa using this
    linarith
  have hxe : x ≤ (2 : F) ^ e := by
    by_contra hc
    have := hup (le_of_lt (not_le.mp hc))
    omega
  rcases he.lt_or_eq with hlt | heq
  · have h2e : (2 : F) ^ e ≤ 1 / 2 := by
      have := zpow_le_zpow_right₀ (one_le_two : (1 : F) ≤ 2) (show e ≤ -1 by omega)
      rw [zpow_neg, zpow_one] at this
      simpa using this
    rw [hr]
    have h24 : (1 : F) / 2 ≤ 1 - 1 / 2 ^ 24 := by norm_num
    exact le_trans (le_trans (grid_le x e hxe) h2e) h24
  · subst heq
    have hu : (2 : F) ^ ((0 : Int) - 24) = 1 / 2 ^ 24 := by
      rw [show ((0 : Int) - 24) = -((24 : Nat) : Int) by norm_num, zpow_neg, zpow_natCast]
      norm_num
    rw [hr, hu] at hne ⊢
    have hq : x / (1 / 2 ^ 24) ≤ ((2 ^ 24 : Int) : F) := by
      push_cast
      rw [div_le_iff₀ (by positivity)]
      norm_num
      linarith
    have hn := round_even_le_int _ _ hq
    have hn2 : round_even (x / (1 / 2 ^ 24)) ≠ 2 ^ 24 := by
      intro hc
      apply hne
      rw [hc]
      push_cast
      norm_num
    have hn3 : round_even (x / (1 / 2 ^ 24)) ≤ 2 ^ 24 - 1 := by omega
    have hn4 : (round_even (x / (1 / 2 ^ 24)) : F) ≤ ((2 ^ 24 - 1 : Int) : F) := by
      exact_mod_cast hn3
    calc (round_even (x / (1 / 2 ^ 24)) : F) * (1 / 2 ^ 24)
        ≤ ((2 ^ 24 - 1 : Int) : F) * (1 / 2 ^ 24) :=
          mul_le_mul_of_nonneg_right hn4 (by positivity)
      _ = 1 - 1 / 2 ^ 24 := by
          push_cast
          norm_num

end Rounding2

/-- The value `uint32_to_float` returns has at most 24 significant bits. -/
theorem uint32_to_float_form (n : Nat) (h : n < 2 ^ 32) :
    ∃ q k : Nat, q ≤ 2 ^ 24 ∧ k ≤ 8 ∧ Mersenne.uint32_to_float n = q * 2 ^ k := by
  have step : ∀ k : Nat, k ≤ 8 → n < 2 ^ (24 + k) →
      ∃ q : Nat, q ≤ 2 ^ 24 ∧
        (if 2 * (n % 2 ^ k) > 2 ^ k ∨ (2 * (n % 2 ^ k) = 2 ^ k ∧ n / 2 ^ k % 2 = 1)
          then n / 2 ^ k + 1 else n / 2 ^ k) * 2 ^ k = q * 2 ^ k := by
    intro k _ hn
    have hq : n / 2 ^ k < 2 ^ 24 := by
      rw [Nat.div_lt_iff_lt_mul (by positivity), ← pow_add]
      exact hn
    refine ⟨_, ?_, rfl⟩
    split_ifs <;> omega
  unfold Mersenne.uint32_to_float
  by_cases h0 : n < 2 ^ 24
  · simp only [if_pos h0]
    obtain ⟨q, hq, e⟩ := step 0 (by norm_num) h0
    exact ⟨q, 0, hq, by norm_num, e⟩
  by_cases h1 : n < 2 ^ 25
  · simp only [if_neg h0, if_pos h1]
    obtain ⟨q, hq, e⟩ := step 1 (by norm_num) h1
    exact ⟨q, 1, hq, by norm_num, e⟩
  by_cases h2 : n < 2 ^ 26
  · simp only [if_neg h0, if_neg h1, if_pos h2]
    obtain ⟨q, hq, e⟩ := step 2 (by norm_num) h2
    exact ⟨q, 2, hq, by norm_num, e⟩
  by_cases h3 : n < 2 ^ 27
  · simp only [if_neg h0, if_neg h1, if_neg h2, if_pos h3]
    obtain ⟨q, hq, e⟩ := step 3 (by norm_num) h3
    exact ⟨q, 3, hq, by norm_num, e⟩
  by_cases h4 : n < 2 ^ 28
  · simp only [if_neg h0, if_neg h1, if_neg h2, if_neg h3, if_pos h4]
    obtain ⟨q, hq, e⟩ := step 4 (by norm_num) h4
    exact ⟨q, 4, hq, by norm_num, e⟩
  by_cases h5 : n < 2 ^ 29
  · simp only [if_neg h0, if_neg h1, if_neg h2, if_neg h3, if_neg h4, if_pos h5]
    obtain ⟨q, hq, e⟩ := step 5 (by norm_num) h5
    exact ⟨q, 5, hq, by norm_num, e⟩
  by_cases h6 : n < 2 ^ 30
  · simp only [if_neg h0, if_neg h1, if_neg h2, if_neg h3, if_neg h4, if_neg h5, if_pos h6]
    obtain ⟨q, hq, e⟩ := step 6 (by norm_num) h6
    exact ⟨q, 6, hq, by norm_num, e⟩
  by_cases h7 : n < 2 ^ 31
  · simp only [if_neg h0, if_neg h1, if_neg h2, if_neg h3, if_neg h4, if_neg h5, if_neg h6,
      if_pos h7]
    obtain ⟨q, hq, e⟩ := step 7 (by norm_num) h7
    exact ⟨q, 7, hq, by norm_num, e⟩
  · simp only [if_neg h0, if_neg h1, if_neg h2, if_neg h3, if_neg h4, if_neg h5, if_neg h6,
      if_neg h7]
    obtain ⟨q, hq, e⟩ := step 8 (by norm_num) h
    exact ⟨q, 8, hq, by norm_num, e⟩

/-- The value `get_float()` returns is a `float`: the conversion leaves it unchanged. -/
theorem get_float_float {F : Type} [LinearOrderedField F] [FloorRing F] (g : Mersenne) :
    round_binary32 (g.get_float : F × Mersenne).1 = (g.get_float : F × Mersenne).1 := by
  obtain ⟨q, k, hq, hk, e⟩ := uint32_to_float_form g.next.1 (next_lt_two_pow32 g)
  have h : (g.get_float : F × Mersenne).1
      = ((q : Int) : F) * (2 : F) ^ ((k : Int) - 32) := by
    simp only [Mersenne.get_float, e]
    rw [zpow_sub₀ (two_ne_zero), zpow_natCast]
    push_cast
    norm_num
    ring
  rw [h]
  exact round_binary32_of_grid _ _ (by
    rw [abs_of_nonneg (by positivity)]
    exact_mod_cast hq) (by omega)

/-- A constructor call that returns, from the evaluation of the fields of the camera it
returns. -/
theorem camera_ok_of_fields {F : Type} [LinearOrderedField F] (r : Except Fault (Camera F))
    (c : Camera F)
    (h : (match r with
      | Except.error _ => false
      | Except.ok a =>
        decide (a.sensor_width = c.sensor_width) && decide (a.sensor_height = c.sensor_height)
        && decide (a.aspect_ratio = c.aspect_ratio) && decide (a.image_width = c.image_width)
        && decide (a.image_height = c.image_height)
        && decide (a.position.x = c.position.x) && decide (a.position.y = c.position.y)
        && decide (a.position.z = c.position.z)
        && decide (a.forward.x = c.forward.x) && decide (a.forward.y = c.forward.y)
        && decide (a.forward.z = c.forward.z)
        && decide (a.right.x = c.right.x) && decide (a.right.y = c.right.y)
        && decide (a.right.z = c.right.z)
        && decide (a.up.x = c.up.x) && decide (a.up.y = c.up.y) && decide (a.up.z = c.up.z)
        && decide (a.sensor_area = c.sensor_area) && decide (a.focal_length = c.focal_length)
        && decide (a.lens_area = c.lens_area) && decide (a.scalar = c.scalar)
        && decide (a.dx = c.dx) && decide (a.dy = c.dy)) = true) :
    r = Except.ok c := by
  cases r with
  | error e => cases h
  | ok a =>
    simp only [Bool.and_eq_true, decide_eq_true_eq] at h
    obtain ⟨a1, a2, a3, a4, a5, ⟨a6, a7, a8⟩, ⟨a9, a10, a11⟩, ⟨a12, a13, a14⟩,
      ⟨a15, a16, a17⟩, a18, a19, a20, a21, a22, a23⟩ := a
    obtain ⟨c1, c2, c3, c4, c5, ⟨c6, c7, c8⟩, ⟨c9, c10, c11⟩, ⟨c12, c13, c14⟩,
      ⟨c15, c16, c17⟩, c18, c19, c20, c21, c22, c23⟩ := c
    simp only at h
    obtain ⟨⟨⟨⟨⟨⟨⟨⟨⟨⟨⟨⟨⟨⟨⟨⟨⟨⟨⟨⟨⟨⟨h1, h2⟩, h3⟩, h4⟩, h5⟩, h6⟩, h7⟩, h8⟩, h9⟩, h10⟩, h11⟩, h12⟩,
      h13⟩, h14⟩, h15⟩, h16⟩, h17⟩, h18⟩, h19⟩, h20⟩, h21⟩, h22⟩, h23⟩ := h
    subst h1 h2 h3 h4 h5 h6 h7 h8 h9 h10 h11 h12 h13 h14 h15 h16 h17 h18 h19 h20 h21 h22 h23
    rfl

section RelErrFacts
variable {F : Type} [LinearOrderedField F]

theorem relErr_refl (y : F) (hy : 0 < y) : RelErr 0 0 y y := by
  refine ⟨hy, ?_, ?_⟩ <;> simp

theorem relErr_lo_pos (a b : Nat) :
    (0 : F) < (1 - 1 / 2 ^ 24) ^ a / (1 + 1 / 2 ^ 24) ^ b :=
  div_pos (pow_pos (by norm_num) a) (pow_pos (by norm_num) b)

theorem relErr_hi_pos (a b : Nat) :
    (0 : F) < (1 + 1 / 2 ^ 24) ^ a / (1 - 1 / 2 ^ 24) ^ b :=
  div_pos (pow_pos (by norm_num) a) (pow_pos (by norm_num) b)

theorem relErr_pos {a b : Nat} {x y : F} (h : RelErr a b x y) : 0 < x :=
  lt_of_lt_of_le (mul_pos h.1 (relErr_lo_pos a b)) h.2.1

theorem relErr_mul {a b c d : Nat} {x y x2 y2 : F} (h : RelErr a b x y)
    (h2 : RelErr c d x2 y2) : RelErr (a + c) (b + d) (x * x2) (y * y2) := by
  have hx := relErr_pos h
  have hx2 := relErr_pos h2
  refine ⟨mul_pos h.1 h2.1, ?_, ?_⟩
  · have := mul_le_mul h.2.1 h2.2.1 (mul_pos h2.1 (relErr_lo_pos c d)).le hx.le
    calc y * y2 * ((1 - 1 / 2 ^ 24) ^ (a + c) / (1 + 1 / 2 ^ 24) ^ (b + d))
        = y * ((1 - 1 / 2 ^ 24) ^ a / (1 + 1 / 2 ^ 24) ^ b)
          * (y2 * ((1 - 1 / 2 ^ 24) ^ c / (1 + 1 / 2 ^ 24) ^ d)) := by
          rw [pow_add, pow_add]
          field_simp
          ring
      _ ≤ x * x2 := this
  · have := mul_le_mul h.2.2 h2.2.2 hx2.le (mul_pos h.1 (relErr_hi_pos a b)).le
    calc x * x2 ≤ y * ((1 + 1 / 2 ^ 24) ^ a / (1 - 1 / 2 ^ 24) ^ b)
          * (y2 * ((1 + 1 / 2 ^ 24) ^ c / (1 - 1 / 2 ^ 24) ^ d)) := this
      _ = y * y2 * ((1 + 1 / 2 ^ 24) ^ (a + c) / (1 - 1 / 2 ^ 24) ^ (b + d)) := by
          rw [pow_add, pow_add]
          have h1 : ((1 : F) - 1 / 2 ^ 24) ^ b ≠ 0 := pow_ne_zero _ (by norm_num)
          have h3 : ((1 : F) - 1 / 2 ^ 24) ^ d ≠ 0 := pow_ne_zero _ (by norm_num)
          field_simp
          ring

theorem relErr_inv {a b : Nat} {x y : F} (h : RelErr a b x y) : RelErr b a (1 / x) (1 / y) := by
  have hx := relErr_pos h
  have hy := h.1
  have hlo := relErr_lo_pos (F := F) a b
  have hhi := relErr_hi_pos (F := F) a b
  refine ⟨one_div_pos.mpr hy, ?_, ?_⟩
  · have e : 1 / y * ((1 - 1 / 2 ^ 24) ^ b / (1 + 1 / 2 ^ 24) ^ a)
        = 1 / (y * ((1 + 1 / 2 ^ 24) ^ a / (1 - 1 / 2 ^ 24) ^ b)) := by
      have h1 : ((1 : F) - 1 / 2 ^ 24) ^ b ≠ 0 := pow_ne_zero _ (by norm_num)
      have h3 : ((1 : F) + 1 / 2 ^ 24) ^ a ≠ 0 := pow_ne_zero _ (by norm_num)
      field_simp
      ring
    rw [e]
    exact one_div_le_one_div_of_le hx h.2.2
  · have e : 1 / y * ((1 + 1 / 2 ^ 24) ^ b / (1 - 1 / 2 ^ 24) ^ a)
        = 1 / (y * ((1 - 1 / 2 ^ 24) ^ a / (1 + 1 / 2 ^ 24) ^ b)) := by
      have h1 : ((1 : F) + 1 / 2 ^ 24) ^ b ≠ 0 := pow_ne_zero _ (by norm_num)
      have h3 : ((1 : F) - 1 / 2 ^ 24) ^ a ≠ 0 := pow_ne_zero _ (by norm_num)
      field_simp
      ring
    rw [e]
    exact one_div_le_one_div_of_le (mul_pos hy hlo) h.2.1

theorem relErr_div {a b c d : Nat} {x y x2 y2 : F} (h : RelErr a b x y)
    (h2 : RelErr c d x2 y2) : RelErr (a + d) (b + c) (x / x2) (y / y2) := by
  have := relErr_mul h (relErr_inv h2)
  rw [mul_one_div, mul_one_div] at this
  exact this

/-- With at most eight roundings on each side the value stays within a factor two. -/
theorem relErr_half {a b : Nat} {x y : F} (h : RelErr a b x y) (ha : a ≤ 8) (hb : b ≤ 8) :
    y / 2 ≤ x ∧ x ≤ 2 * y := by
  have hy := h.1
  have h1 : ((1 : F) - 1 / 2 ^ 24) ^ 8 ≤ (1 - 1 / 2 ^ 24) ^ a :=
    pow_le_pow_of_le_one (by norm_num) (by norm_num) ha
  have h2 : ((1 : F) + 1 / 2 ^ 24) ^ b ≤ (1 + 1 / 2 ^ 24) ^ 8 :=
    pow_le_pow_right₀ (by norm_num) hb
  have h3 : ((1 : F) + 1 / 2 ^ 24) ^ a ≤ (1 + 1 / 2 ^ 24) ^ 8 :=
    pow_le_pow_right₀ (by norm_num) ha
  have h4 : ((1 : F) - 1 / 2 ^ 24) ^ 8 ≤ (1 - 1 / 2 ^ 24) ^ b :=
    pow_le_pow_of_le_one (by norm_num) (by norm_num) hb
  have h5 : (0 : F) < (1 - 1 / 2 ^ 24) ^ 8 := pow_pos (by norm_num) 8
  have hlo : (1 / 2 : F) ≤ (1 - 1 / 2 ^ 24) ^ a / (1 + 1 / 2 ^ 24) ^ b := by
    calc (1 / 2 : F) ≤ (1 - 1 / 2 ^ 24) ^ 8 / (1 + 1 / 2 ^ 24) ^ 8 := by norm_num
      _ ≤ (1 - 1 / 2 ^ 24) ^ a / (1 + 1 / 2 ^ 24) ^ b :=
        div_le_div₀ (pow_pos (by norm_num) a).le h1 (pow_pos (by norm_num) b) h2
  have hhi : (1 + 1 / 2 ^ 24) ^ a / (1 - 1 / 2 ^ 24) ^ b ≤ (2 : F) := by
    calc (1 + 1 / 2 ^ 24) ^ a / (1 - 1 / 2 ^ 24) ^ b
        ≤ (1 + 1 / 2 ^ 24) ^ 8 / (1 - 1 / 2 ^ 24) ^ 8 :=
          div_le_div₀ (pow_pos (by norm_num) 8).le h3 h5 h4
      _ ≤ 2 := by norm_num
  constructor
  · calc y / 2 = y * (1 / 2) := by ring
      _ ≤ y * ((1 - 1 / 2 ^ 24) ^ a / (1 + 1 / 2 ^ 24) ^ b) :=
        mul_le_mul_of_nonneg_left hlo hy.le
      _ ≤ x := h.2.1
  · calc x ≤ y * ((1 + 1 / 2 ^ 24) ^ a / (1 - 1 / 2 ^ 24) ^ b) := h.2.2
      _ ≤ y * 2 := mul_le_mul_of_nonneg_left hhi hy.le
      _ = 2 * y := by ring

/-- Three roundings in the numerator and two in the denominator change a value by at
most the fraction `6 * 2^-24` of it. -/
theorem relErr_three_two {x y : F} (h : RelErr 3 2 x y) : |x - y| ≤ y * (6 / 2 ^ 24) := by
  have hy := h.1
  have hlo : (1 : F) - 6 / 2 ^ 24 ≤ (1 - 1 / 2 ^ 24) ^ 3 / (1 + 1 / 2 ^ 24) ^ 2 := by
    norm_num
  have hhi : (1 + 1 / 2 ^ 24) ^ 3 / (1 - 1 / 2 ^ 24) ^ 2 ≤ (1 : F) + 6 / 2 ^ 24 := by
    norm_num
  have h1 := le_trans (mul_le_mul_of_nonneg_left hlo hy.le) h.2.1
  have h2 := le_trans h.2.2 (mul_le_mul_of_nonneg_left hhi hy.le)
  rw [abs_le]
  constructor <;> linarith

variable [FloorRing F]

/-- A rounding to binary32 of a value in the normal range adds one factor. -/
theorem relErr_round {a b : Nat} {x y : F} (h : RelErr a b x y) (hx : 1 / 2 ^ 126 ≤ x) :
    RelErr (a + 1) b (round_binary32 x) y := by
  have hx0 := relErr_pos h
  have hr := round_binary32_rel x (by rw [abs_of_pos hx0]; exact hx)
  rw [abs_of_pos hx0, abs_le] at hr
  have h1 : x * (1 - 1 / 2 ^ 24) ≤ round_binary32 x := by linarith [hr.1]
  have h2 : round_binary32 x ≤ x * (1 + 1 / 2 ^ 24) := by linarith [hr.2]
  have hb1 : (0 : F) < (1 + 1 / 2 ^ 24) ^ b := pow_pos (by norm_num) b
  have hb2 : (0 : F) < (1 - 1 / 2 ^ 24) ^ b := pow_pos (by norm_num) b
  refine ⟨h.1, ?_, ?_⟩
  · calc y * ((1 - 1 / 2 ^ 24) ^ (a + 1) / (1 + 1 / 2 ^ 24) ^ b)
        = y * ((1 - 1 / 2 ^ 24) ^ a / (1 + 1 / 2 ^ 24) ^ b) * (1 - 1 / 2 ^ 24) := by
          rw [pow_succ]
          field_simp
          ring
      _ ≤ x * (1 - 1 / 2 ^ 24) := mul_le_mul_of_nonneg_right h.2.1 (by norm_num)
      _ ≤ round_binary32 x := h1
  · calc round_binary32 x ≤ x * (1 + 1 / 2 ^ 24) := h2
      _ ≤ y * ((1 + 1 / 2 ^ 24) ^ a / (1 - 1 / 2 ^ 24) ^ b) * (1 + 1 / 2 ^ 24) :=
          mul_le_mul_of_nonneg_right h.2.2 (by norm_num)
      _ = y * ((1 + 1 / 2 ^ 24) ^ (a + 1) / (1 - 1 / 2 ^ 24) ^ b) := by
          rw [pow_succ]
          field_simp
          ring

end RelErrFacts

section HelperAxis
variable {F : Type} [LinearOrderedField F]

/-- **C32 (amended).** For every vector of positive length, the `z` axis the `Orthogonal`
constructor computes is a unit vector, the helper axis is world `Y` when `|z.x|` exceeds
the `float` constant `0.995f = 8346665 / 2^23` (which is larger than `0.995`) and world
`X` otherwise, and the cross product of `z` with the helper, which the constructor
normalises to obtain the `y` axis, has squared length at least `1 - 0.995f^2 > 0`; its
magnitude, the divisor of that normalisation, is positive. -/
theorem C32_helper_axis (M : FloatOps F) (hM : M.ExactSqrt) (vector : Double3 F)
    (hv : 0 < vector.magnitude M) :
    (vector.normalise M).dot (vector.normalise M) = 1 ∧
    (Orthogonal.ctor M vector).z_axis = vector.normalise M ∧
    (Orthogonal.ctor M vector).y_axis
      = ((vector.normalise M).cross
          (if |(vector.normalise M).x| > 8346665 / 8388608 then Double3.Y
            else Double3.X)).normalise M ∧
    (995 / 1000 : F) < 8346665 / 8388608 ∧
    (0 : F) < 1 - (8346665 / 8388608) ^ 2 ∧
    1 - (8346665 / 8388608) ^ 2
      ≤ ((vector.normalise M).cross
          (if |(vector.normalise M).x| > 8346665 / 8388608 then Double3.Y
            else Double3.X)).dot
        ((vector.normalise M).cross
          (if |(vector.normalise M).x| > 8346665 / 8388608 then Double3.Y
            else Double3.X)) ∧
    0 < ((vector.normalise M).cross
          (if |(vector.normalise M).x| > 8346665 / 8388608 then Double3.Y
            else Double3.X)).magnitude M := by
  have hz := normalise_dot_self M hM vector hv
  have hc1 : (Orthogonal.ctor M vector).z_axis = vector.normalise M := rfl
  have hc2 : (Orthogonal.ctor M vector).y_axis
      = ((vector.normalise M).cross
          (if |(vector.normalise M).x| > 8346665 / 8388608 then Double3.Y
            else Double3.X)).normalise M :=
    rfl
  have hbound : ∀ z : Double3 F, z.dot z = 1 → 1 - (8346665 / 8388608 : F) ^ 2
      ≤ (z.cross (if |z.x| > 8346665 / 8388608 then Double3.Y else Double3.X)).dot
        (z.cross (if |z.x| > 8346665 / 8388608 then Double3.Y else Double3.X)) := by
    intro z hz
    have hz1 : z.x * z.x + z.y * z.y + z.z * z.z = 1 := by
      simpa only [Double3.dot] using hz
    by_cases h : |z.x| > 8346665 / 8388608
    · have hx2 : (8346665 / 8388608 : F) * (8346665 / 8388608) < z.x * z.x := by
        have h2 : (8346665 / 8388608 : F) * (8346665 / 8388608) < |z.x| * |z.x| := by
          nlinarith [h]
        rwa [abs_mul_abs_self] at h2
      simp only [h, if_true, Double3.cross, Double3.Y, Double3.dot]
      nlinarith [mul_self_nonneg z.z]
    · have hx : |z.x| ≤ 8346665 / 8388608 := not_lt.mp h
      have hx2 : z.x * z.x ≤ (8346665 / 8388608) * (8346665 / 8388608) := by
        have := abs_le.mp hx
        nlinarith [this.1, this.2]
      simp only [h, if_false, Double3.cross, Double3.X, Double3.dot]
      nlinarith [mul_self_nonneg z.z, mul_self_nonneg z.y]
  have hpos : (0 : F) < 1 - (8346665 / 8388608) ^ 2 := by norm_num
  refine ⟨hz, hc1, hc2, by norm_num, hpos, hbound _ hz, ?_⟩
  unfold Double3.magnitude
  apply sqrt_pos_of_exact M hM
  have := lt_of_lt_of_le hpos (hbound _ hz)
  simpa only [Double3.dot] using this

end HelperAxis

/-- Counterexample to C32 as stated: the unit vector
`z = (763698740, 76657629, 0) / 767536421` has `0.995 < z.x < 0.995f`; the constructor
keeps it as `z` axis and takes the helper `X`, and the cross product `z x X = (0, 0, -z.y)`
has squared length `1 - z.x^2`, which is below `1 - 0.995^2`. -/
theorem C32_cross_below_bound :
    (Double3.mk (763698740 / 767536421 : ℚ) (76657629 / 767536421) 0).dot
      (Double3.mk (763698740 / 767536421 : ℚ) (76657629 / 767536421) 0) = 1 ∧
    ((Orthogonal.ctor rationalOps
        (Double3.mk (763698740 / 767536421 : ℚ) (76657629 / 767536421) 0)).z_axis.x,
      (Orthogonal.ctor rationalOps
        (Double3.mk (763698740 / 767536421 : ℚ) (76657629 / 767536421) 0)).z_axis.y,
      (Orthogonal.ctor rationalOps
        (Double3.mk (763698740 / 767536421 : ℚ) (76657629 / 767536421) 0)).z_axis.z)
      = (763698740 / 767536421, 76657629 / 767536421, 0) ∧
    (995 / 1000 : ℚ) < |(763698740 / 767536421 : ℚ)| ∧
    ¬ (|(763698740 / 767536421 : ℚ)| > 8346665 / 8388608) ∧
    ((Orthogonal.ctor rationalOps
        (Double3.mk (763698740 / 767536421 : ℚ) (76657629 / 767536421) 0)).y_axis.x,
      (Orthogonal.ctor rationalOps
        (Double3.mk (763698740 / 767536421 : ℚ) (76657629 / 767536421) 0)).y_axis.y,
      (Orthogonal.ctor rationalOps
        (Double3.mk (763698740 / 767536421 : ℚ) (76657629 / 767536421) 0)).y_axis.z)
      = (0, 0, -1) ∧
    ((Double3.mk (763698740 / 767536421 : ℚ) (76657629 / 767536421) 0).cross Double3.X).dot
        ((Double3.mk (763698740 / 767536421 : ℚ) (76657629 / 767536421) 0).cross Double3.X)
      < 1 - (995 / 1000) ^ 2 := by
  decide!

/-- Witness for C32 (amended): the frame built over the reals from the vector
`(0, 0, 2)`. -/
theorem C32_helper_axis_witness :
    0 < (Double3.mk (0 : ℝ) 0 2).magnitude realOps ∧
    (1 : ℝ) - (8346665 / 8388608) ^ 2
      ≤ (((Double3.mk (0 : ℝ) 0 2).normalise realOps).cross
          (if |((Double3.mk (0 : ℝ) 0 2).normalise realOps).x| > 8346665 / 8388608
            then Double3.Y else Double3.X)).dot
        (((Double3.mk (0 : ℝ) 0 2).normalise realOps).cross
          (if |((Double3.mk (0 : ℝ) 0 2).normalise realOps).x| > 8346665 / 8388608
            then Double3.Y else Double3.X)) :=
  have hv : 0 < (Double3.mk (0 : ℝ) 0 2).magnitude realOps := by
    simp [Double3.magnitude, realOps]
  ⟨hv, (C32_helper_axis realOps realOps_exact _ hv).2.2.2.2.2.1⟩

/-- The square root of the real model with rounding is exact. -/
theorem realBinary32Ops_exact : realBinary32Ops.ExactSqrt :=
  ⟨fun _ ha => Real.mul_self_sqrt ha, fun a => Real.sqrt_nonneg a⟩

/-- **C40 (amended).** In the arithmetic of the program (exact square root, every `float`
operation rounded to binary32) the pair `(u, v)` that `Sample::Triangle` returns
satisfies, for every generator state, `0 <= u <= 1`, `0 <= v <= 1` and
`u + v <= 1 + 2^-25`; the point `Emitter::Triangle::emit` returns is
`position + edge1 * u + edge2 * v` for this pair.  The bound `1 + 2^-25` is attained, so
the bound `u + v <= 1` of the claim fails: see `C40_point_outside_triangle`. -/
theorem C40_sample_triangle {F : Type} [LinearOrderedField F] [FloorRing F]
    (M : FloatOps F) (hM : M.ExactSqrt) (hB : M.Binary32) (prng : Mersenne)
    (e : Emitter.Triangle F) :
    0 ≤ (Sample.Triangle M prng).1.1 ∧ 0 ≤ (Sample.Triangle M prng).1.2 ∧
    (Sample.Triangle M prng).1.1 ≤ 1 ∧ (Sample.Triangle M prng).1.2 ≤ 1 ∧
    (Sample.Triangle M prng).1.1 + (Sample.Triangle M prng).1.2 ≤ 1 + 1 / 2 ^ 25 ∧
    (e.emit M prng).1.2.1
      = (e.position.add (e.edge1.mul (Sample.Triangle M prng).1.1)).add
          (e.edge2.mul (Sample.Triangle M prng).1.2) := by
  obtain ⟨ha0, ha1⟩ := @get_float_mem F _ prng
  obtain ⟨hb0, hb1⟩ := @get_float_mem F _ (prng.get_float : F × Mersenne).2
  have hbf := @get_float_float F _ _ (prng.get_float : F × Mersenne).2
  have hs0 : 0 ≤ M.sqrt (prng.get_float : F × Mersenne).1 := hM.2 _
  have hsq := hM.1 _ ha0
  have hs1 : M.sqrt (prng.get_float : F × Mersenne).1 ≤ 1 := by
    by_contra hc
    have hc1 : 1 < M.sqrt (prng.get_float : F × Mersenne).1 := not_le.mp hc
    nlinarith [hsq, hc1, ha1]
  simp only [Sample.Triangle, Emitter.Triangle.emit, Emitter.Triangle.emit_sample, hB _]
  generalize M.sqrt (prng.get_float : F × Mersenne).1 = s at hs0 hs1
  generalize ((prng.get_float : F × Mersenne).2.get_float : F × Mersenne).1 = e2
    at hb0 hb1 hbf
  obtain ⟨he0, he1, -⟩ := round_binary32_unit s hs0 hs1
  obtain ⟨hw0, hw1, hwe⟩ := round_binary32_unit (1 - e2) (by linarith) (by linarith)
  have hp1 : round_binary32 s * e2 ≤ 1 := by nlinarith
  have hp2 : round_binary32 s * round_binary32 (1 - e2) ≤ 1 := by nlinarith
  obtain ⟨hu0, hu1, hue⟩ := round_binary32_unit (round_binary32 s * e2)
    (mul_nonneg he0 hb0) hp1
  obtain ⟨hv0, hv1, hve⟩ := round_binary32_unit (round_binary32 s * round_binary32 (1 - e2))
    (mul_nonneg he0 hw0) hp2
  refine ⟨hu0, hv0, hu1, hv1, ?_, trivial⟩
  have hwu := (abs_le.mp hwe).2
  by_cases h1 : round_binary32 s = 1
  · have hx : |1 - e2| < 2 ^ 128 := by
      rw [abs_of_nonneg (by linarith)]
      exact lt_of_le_of_lt (by linarith : 1 - e2 ≤ 1) (by norm_num)
    rw [h1, one_mul, one_mul, hbf, round_binary32_idem _ hx]
    linarith
  · have hb := round_binary32_below_one s hs0 hs1 h1
    have huu := (abs_le.mp hue).2
    have hvu := (abs_le.mp hve).2
    have hsum : e2 + round_binary32 (1 - e2) ≤ 1 + 1 / 2 ^ 25 := by linarith
    have hprod : round_binary32 s * (e2 + round_binary32 (1 - e2))
        ≤ (1 - 1 / 2 ^ 24) * (1 + 1 / 2 ^ 25) :=
      mul_le_mul hb hsum (by linarith) (by norm_num)
    have hc : ((1 : F) - 1 / 2 ^ 24) * (1 + 1 / 2 ^ 25) + 1 / 2 ^ 25 + 1 / 2 ^ 25
        ≤ 1 + 1 / 2 ^ 25 := by norm_num
    linarith

/-- Witness for C40 (amended): the default generator state and a light, over the reals
with rounding. -/
theorem C40_sample_triangle_witness :
    0 ≤ (Sample.Triangle realBinary32Ops Mersenne.default).1.1 ∧
    0 ≤ (Sample.Triangle realBinary32Ops Mersenne.default).1.2 ∧
    (Sample.Triangle realBinary32Ops Mersenne.default).1.1
      + (Sample.Triangle realBinary32Ops Mersenne.default).1.2 ≤ 1 + 1 / 2 ^ 25 :=
  have h := C40_sample_triangle realBinary32Ops realBinary32Ops_exact (fun _ => rfl)
    Mersenne.default
    (Emitter.Triangle.ctor realBinary32Ops ⟨0, 0, 0⟩ ⟨0, 0, 1⟩ ⟨1, 0, 0⟩ ⟨1, 1, 1⟩)
  ⟨h.1, h.2.1, h.2.2.2.2.1⟩

/-- Counterexample to C40 as stated: from the generator state `2967698185` the two
outputs of `next()` are `4294967178` and `707705502`; the first converts to `2^32`, so
`e1 = 1`, the second gives `e2 = 5528949 / 2^25`, and `1.f - e2` is a tie that rounds
up.  `Sample::Triangle` returns `u = 5528949 / 2^25`, `v = 28025484 / 2^25` with
`u + v = 1 + 2^-25 > 1`, and the point `Emitter::Triangle::emit` returns on the triangle
`(0,0,0), (1,0,0), (0,1,0)` has `x + y > 1`: it lies outside the triangle. -/
theorem C40_point_outside_triangle :
    (Mersenne.mk 2967698185).next.1 = 4294967178 ∧
    (Mersenne.mk 2967698185).next.2.next.1 = 707705502 ∧
    (Sample.Triangle binary32Ops ⟨2967698185⟩).1
      = (5528949 / 33554432, 28025484 / 33554432) ∧
    (Sample.Triangle binary32Ops ⟨2967698185⟩).1.1
      + (Sample.Triangle binary32Ops ⟨2967698185⟩).1.2 = 1 + 1 / 2 ^ 25 ∧
    ¬ ((Sample.Triangle binary32Ops ⟨2967698185⟩).1.1
      + (Sample.Triangle binary32Ops ⟨2967698185⟩).1.2 ≤ 1) ∧
    (((Emitter.Triangle.ctor binary32Ops ⟨0, 0, 0⟩ ⟨1, 0, 0⟩ ⟨0, 1, 0⟩ ⟨1, 1, 1⟩).emit
        binary32Ops ⟨2967698185⟩).1.2.1.x
      + ((Emitter.Triangle.ctor binary32Ops ⟨0, 0, 0⟩ ⟨1, 0, 0⟩ ⟨0, 1, 0⟩ ⟨1, 1, 1⟩).emit
        binary32Ops ⟨2967698185⟩).1.2.1.y > 1) := by
  decide!

section CameraRounded
variable {F : Type} [LinearOrderedField F] [FloorRing F]

end CameraRounded

section CameraEvaluateRounded
variable {F : Type} [LinearOrderedField F] [FloorRing F]

end CameraEvaluateRounded

section CameraThroughput
variable {F : Type} [LinearOrderedField F]

/-- For a direction on the sensor (`evaluate` returns a non-zero `pdf_W`), what
`evaluate` and `We` return, when the conversion to `float` keeps zero. -/
theorem camera_on_sensor (M : FloatOps F) (h0 : M.to_float 0 = 0) (c : Camera F)
    (o d : Double3 F) (hev : (c.evaluate M o d).1 ≠ 0) :
    0 < c.forward.dot d ∧ c.sensor_area ≠ 0 ∧
    c.evaluate M o d
      = (M.to_float (1 / (c.sensor_area * c.forward.dot d * c.forward.dot d * c.forward.dot d)),
          M.to_float (1 / c.lens_area), M.to_float (c.forward.dot d)) ∧
    c.We M o d
      = M.to_float (1 / (c.sensor_area * c.lens_area * c.forward.dot d * c.forward.dot d
          * c.forward.dot d * c.forward.dot d)) := by
  unfold Camera.evaluate at hev ⊢
  by_cases hfar : (o.sub c.position).magnitude M > EPSILON_RAY F
  · rw [if_pos hfar] at hev
    exact absurd rfl hev
  rw [if_neg hfar] at hev ⊢
  simp only [] at hev ⊢
  by_cases hneg : c.forward.dot d < 0
  · rw [if_pos hneg] at hev
    exact absurd rfl hev
  rw [if_neg hneg] at hev ⊢
  by_cases hoff : (Camera.quotient_exceeds_half M (d.dot c.right) (c.forward.dot d * c.scalar)
        = true
      ∨ Camera.quotient_exceeds_half M (d.dot c.up)
          (c.forward.dot d * c.scalar / c.aspect_ratio) = true)
  · rw [if_pos hoff] at hev
    exact absurd rfl hev
  rw [if_neg hoff] at hev ⊢
  simp only [] at hev ⊢
  have hden : c.sensor_area * c.forward.dot d * c.forward.dot d * c.forward.dot d ≠ 0 := by
    intro hz
    rw [hz] at hev
    simp [h0] at hev
  have hc0 : c.forward.dot d ≠ 0 := by
    intro hz
    apply hden
    rw [hz]
    ring
  have hA0 : c.sensor_area ≠ 0 := by
    intro hz
    apply hden
    rw [hz]
    ring
  have hpos : 0 < c.forward.dot d := lt_of_le_of_ne (not_lt.mp hneg) (Ne.symm hc0)
  -- the tests of `We` pass as well
  have hx : ¬(|M.to_float (d.dot c.right / (c.forward.dot d * c.scalar))| > 1 / 2) := by
    intro hgt
    apply hoff
    left
    unfold Camera.quotient_exceeds_half
    by_cases hz : c.forward.dot d * c.scalar = 0
    · rw [hz, div_zero, h0] at hgt
      simp at hgt
      linarith [hgt]
    · rw [if_neg hz]
      exact decide_eq_true hgt
  have hy : ¬(|M.to_float (d.dot c.up / (c.forward.dot d * c.scalar / c.aspect_ratio))|
      > 1 / 2) := by
    intro hgt
    apply hoff
    right
    unfold Camera.quotient_exceeds_half
    by_cases hz : c.forward.dot d * c.scalar / c.aspect_ratio = 0
    · rw [hz, div_zero, h0] at hgt
      simp at hgt
      linarith [hgt]
    · rw [if_neg hz]
      exact decide_eq_true hgt
  refine ⟨hpos, hA0, trivial, ?_⟩
  unfold Camera.We
  simp only []
  rw [if_neg (not_le.mpr hpos), if_neg (by rintro (h | h); exact hx h; exact hy h)]

/-- In exact arithmetic the importance divided by the projected density
`pdf_W / cos_theta` is one, for a direction on the sensor of a camera with
`lens_area = 1`. -/
theorem We_div_pdf_forward (M : FloatOps F) (hE : M.ExactFloat) (c : Camera F)
    (o d : Double3 F) (hev : (c.evaluate M o d).1 ≠ 0) (hl : c.lens_area = 1) :
    c.We M o d / ((c.evaluate M o d).1 / (c.evaluate M o d).2.2) = 1 := by
  obtain ⟨hpos, hA0, he, hw⟩ := camera_on_sensor M (hE 0) c o d hev
  rw [he, hw, hl]
  simp only [hE _]
  have := hpos.ne'
  field_simp

variable [FloorRing F]

/-- In binary32 arithmetic the throughput `We / pdf_forward` of the camera walk is within
`6 * 2^-24` of one, for a direction on the sensor and values in the normal range. -/
theorem We_div_pdf_forward_rounded (M : FloatOps F) (hB : M.Binary32) (c : Camera F)
    (o d : Double3 F) (hev : (c.evaluate M o d).1 ≠ 0) (hl : c.lens_area = 1)
    (hA1 : 1 / 2 ^ 20 ≤ c.sensor_area) (hA2 : c.sensor_area ≤ 2 ^ 20)
    (hc1 : 1 / 2 ^ 20 ≤ c.forward.dot d) (hc2 : c.forward.dot d ≤ 1) :
    |M.to_float (M.to_float (1 * c.We M o d)
        / M.to_float ((c.evaluate M o d).1 / (c.evaluate M o d).2.2)) - 1| ≤ 6 / 2 ^ 24 := by
  have h0 : M.to_float 0 = 0 := by rw [hB, round_binary32_zero]
  obtain ⟨hpos, hA0, he, hw⟩ := camera_on_sensor M h0 c o d hev
  rw [he, hw, hl]
  simp only [hB _, one_mul, mul_one]
  generalize c.sensor_area = A at hA1 hA2 hA0
  generalize c.forward.dot d = t at hpos hc1 hc2
  have hApos : 0 < A := lt_of_lt_of_le (by norm_num) hA1
  have ht2 : t * t ≤ 1 := by nlinarith
  have ht3 : t * t * t ≤ 1 := by nlinarith [mul_pos hpos hpos]
  have ht4 : t * t * t * t ≤ 1 := by nlinarith [mul_pos (mul_pos hpos hpos) hpos]
  have hP3 : 0 < A * t * t * t := by positivity
  have hP4 : 0 < A * t * t * t * t := by positivity
  have hW : (1 : F) / 2 ^ 20 ≤ 1 / (A * t * t * t * t) := by
    apply one_div_le_one_div_of_le hP4
    calc A * t * t * t * t = A * (t * t * t * t) := by ring
      _ ≤ 2 ^ 20 * 1 := mul_le_mul hA2 ht4 (by positivity) (by norm_num)
      _ = 2 ^ 20 := by ring
  have hP : (1 : F) / 2 ^ 20 ≤ 1 / (A * t * t * t) := by
    apply one_div_le_one_div_of_le hP3
    calc A * t * t * t = A * (t * t * t) := by ring
      _ ≤ 2 ^ 20 * 1 := mul_le_mul hA2 ht3 (by positivity) (by norm_num)
      _ = 2 ^ 20 := by ring
  have hWu : 1 / (A * t * t * t * t) ≤ (2 : F) ^ 100 := by
    rw [div_le_iff₀ hP4]
    have h1 : (1 / 2 ^ 20 : F) * (1 / 2 ^ 20) ^ 4 ≤ A * t ^ 4 :=
      mul_le_mul hA1 (pow_le_pow_left₀ (by norm_num) hc1 4) (by positivity) hApos.le
    calc (1 : F) = 2 ^ 100 * ((1 / 2 ^ 20 : F) * (1 / 2 ^ 20) ^ 4) := by norm_num
      _ ≤ 2 ^ 100 * (A * t ^ 4) := mul_le_mul_of_nonneg_left h1 (by norm_num)
      _ = 2 ^ 100 * (A * t * t * t * t) := by ring
  -- the three values `evaluate` and `We` round
  have rW := relErr_round (relErr_refl (1 / (A * t * t * t * t)) (by positivity))
    (le_trans (by norm_num) hW)
  have rP := relErr_round (relErr_refl (1 / (A * t * t * t)) (by positivity))
    (le_trans (by norm_num) hP)
  have rc := relErr_round (relErr_refl t hpos) (le_trans (by norm_num) hc1)
  -- `White * We` is the `float` `We`
  have hidem : round_binary32 (round_binary32 (1 / (A * t * t * t * t)))
      = round_binary32 (1 / (A * t * t * t * t)) := by
    apply round_binary32_idem
    rw [abs_of_pos (by positivity)]
    exact lt_of_le_of_lt hWu (by norm_num)
  rw [hidem]
  -- `pdf_forward`
  have rq := relErr_div rP rc
  have hq : 1 / (A * t * t * t) / t = 1 / (A * t * t * t * t) := by
    field_simp
  rw [hq] at rq
  have hq1 : (1 : F) / 2 ^ 126
      ≤ round_binary32 (1 / (A * t * t * t)) / round_binary32 t :=
    le_trans (le_trans (by norm_num) (div_le_div_of_nonneg_right hW (by norm_num)))
      (relErr_half rq (by norm_num) (by norm_num)).1
  have rpf := relErr_round rq hq1
  -- the quotient
  have rT := relErr_div rW rpf
  have hT : 1 / (A * t * t * t * t) / (1 / (A * t * t * t * t)) = 1 :=
    div_self (by positivity)
  rw [hT] at rT
  have hT1 : (1 : F) / 2 ^ 126
      ≤ round_binary32 (1 / (A * t * t * t * t))
        / round_binary32 (round_binary32 (1 / (A * t * t * t)) / round_binary32 t) :=
    le_trans (by norm_num) (relErr_half rT (by norm_num) (by norm_num)).1
  have rfin := relErr_three_two (relErr_round rT hT1)
  rw [one_mul] at rfin
  exact rfin

/-- **C29 (amended).** In the path `trace_camera_path` returns, the lens vertex `z0` stores the
throughput `White`, and the first surface vertex `z1`, if there is one, stores the
walking throughput `White * We / pdf_forward` with `pdf_forward = pdf_W / cos_theta`,
as the program computes it in `float` operations.  When the direction of the primary ray
lies on the sensor (`Camera::evaluate` returns a non-zero `pdf_W`; the lens area of the
pinhole is `1`): in exact arithmetic this throughput is `White`; in binary32 arithmetic,
for a sensor area between `2^-20` and `2^20` and `cos_theta` between `2^-20` and `1`,
its three channels are equal and within `6 * 2^-24` of one.  They need not be one: see
`C29_throughput_not_white`. -/
theorem C29_camera_throughput (M : FloatOps F) (b : BDPT F) (fuel : Nat) (x y : Nat)
    (prng : Mersenne) (vs : List (Vertex F)) (g : Mersenne) (ray : Section F)
    (hray : ray = (b.camera.generate_ray M x y prng).1)
    (h : BDPT.trace_camera_path M fuel b x y prng = Except.ok (vs, g)) :
    (∃ z0, vs[0]? = some z0 ∧ z0.throughput = Colour.White) ∧
    (∀ z1, vs[1]? = some z1 → z1.throughput = (BDPT.camera_start M b ray).2) ∧
    (BDPT.camera_start M b ray).2
      = (((Colour.White.smul (b.camera.We M ray.origin ray.direction)).to_float M).sdiv
          (M.to_float ((b.camera.evaluate M ray.origin ray.direction).1
            / (b.camera.evaluate M ray.origin ray.direction).2.2))).to_float M ∧
    ((b.camera.evaluate M ray.origin ray.direction).1 ≠ 0 → b.camera.lens_area = 1 →
      (M.ExactFloat → (BDPT.camera_start M b ray).2 = Colour.White) ∧
      (M.Binary32 → 1 / 2 ^ 20 ≤ b.camera.sensor_area → b.camera.sensor_area ≤ 2 ^ 20 →
        1 / 2 ^ 20 ≤ b.camera.forward.dot ray.direction →
        b.camera.forward.dot ray.direction ≤ 1 →
        |(BDPT.camera_start M b ray).2.r - 1| ≤ 6 / 2 ^ 24 ∧
        (BDPT.camera_start M b ray).2.g = (BDPT.camera_start M b ray).2.r ∧
        (BDPT.camera_start M b ray).2.b = (BDPT.camera_start M b ray).2.r)) := by
  unfold BDPT.trace_camera_path at h
  simp only [] at h
  rw [← hray] at h
  generalize (b.camera.generate_ray M x y prng).2 = prng2 at h
  have hstart1 : (BDPT.camera_start M b ray).1
      = [Vertex.ctor { Intersection.default with
            point := ray.origin,
            orthogonal := Orthogonal.ctor M (b.camera.lens_normal M ray.origin) }
          Colour.White
          (M.to_float ((b.camera.evaluate M ray.origin ray.direction).1
            / (b.camera.evaluate M ray.origin ray.direction).2.2))
          (b.camera.evaluate M ray.origin ray.direction).2.1 b.camera.is_dirac false] := rfl
  have hstart2 : (BDPT.camera_start M b ray).2
      = (((Colour.White.smul (b.camera.We M ray.origin ray.direction)).to_float M).sdiv
          (M.to_float ((b.camera.evaluate M ray.origin ray.direction).1
            / (b.camera.evaluate M ray.origin ray.direction).2.2))).to_float M := rfl
  have hinv := camera_loop_inv M b
    (fun vs _ tp => (∃ z0, vs[0]? = some z0 ∧ z0.throughput = Colour.White) ∧ vs ≠ [] ∧
      ((vs.length = 1 ∧ tp = (BDPT.camera_start M b ray).2) ∨
        ∃ z1, vs[1]? = some z1 ∧ z1.throughput = (BDPT.camera_start M b ray).2))
    (fun vs => (∃ z0, vs[0]? = some z0 ∧ z0.throughput = Colour.White) ∧
      ∀ z1, vs[1]? = some z1 → z1.throughput = (BDPT.camera_start M b ray).2)
    (by
      intro vs d tp hI
      refine ⟨hI.1, ?_⟩
      intro z1 hz1
      rcases hI.2.2 with ⟨hlen, -⟩ | ⟨z, hz, ht⟩
      · rw [List.getElem?_eq_none (by omega)] at hz1
        cases hz1
      · rw [hz] at hz1
        cases hz1
        exact ht)
    (by
      intro vs ray1 d tp idata pm smp vs2 hI hb
      obtain ⟨⟨z0, hz0, hw⟩, hne, hcase⟩ := hI
      have hlen := List.length_pos.mpr hne
      rcases camera_bounce_cases M b vs ray1 d tp idata pm smp _ hne hb with
        hs | ⟨l, v, -, -, htp, -, hs⟩
      · cases hs
        refine ⟨⟨z0, hz0, hw⟩, ?_⟩
        intro z1 hz1
        rcases hcase with ⟨hl1, -⟩ | ⟨z, hz, ht⟩
        · rw [List.getElem?_eq_none (by omega)] at hz1
          cases hz1
        · rw [hz] at hz1
          cases hz1
          exact ht
      · have hvs2 : vs2 = vs ++ [v] := by
          rcases hs with ⟨-, hs⟩ | ⟨-, -, hs⟩ | ⟨-, -, _, _, hs⟩
          · cases hs; rfl
          · cases hs; rfl
          · cases hs
        rw [hvs2]
        refine ⟨⟨z0, by rw [List.getElem?_append_left hlen]; exact hz0, hw⟩, ?_⟩
        intro z1 hz1
        rcases hcase with ⟨hl1, htp0⟩ | ⟨z, hz, ht⟩
        · rw [List.getElem?_append_right (by omega), hl1] at hz1
          simp at hz1
          rw [← hz1, htp, htp0]
        · have h1 : 1 < vs.length := by
            rcases List.getElem?_eq_some.mp hz with ⟨h1, -⟩
            exact h1
          rw [List.getElem?_append_left h1, hz] at hz1
          cases hz1
          exact ht)
    (by
      intro vs ray1 d tp idata pm smp vs2 ray2 d2 tp2 hI hb
      obtain ⟨⟨z0, hz0, hw⟩, hne, hcase⟩ := hI
      have hlen := List.length_pos.mpr hne
      rcases camera_bounce_cases M b vs ray1 d tp idata pm smp _ hne hb with
        hs | ⟨l, v, -, -, htp, -, hs⟩
      · cases hs
      · have hvs2 : vs2 = vs ++ [v] := by
          rcases hs with ⟨-, hs⟩ | ⟨-, -, hs⟩ | ⟨-, -, _, _, hs⟩
          · cases hs
          · cases hs
          · cases hs; rfl
        rw [hvs2]
        refine ⟨⟨z0, by rw [List.getElem?_append_left hlen]; exact hz0, hw⟩, by simp, ?_⟩
        right
        rcases hcase with ⟨hl1, htp0⟩ | ⟨z, hz, ht⟩
        · refine ⟨v, ?_, by rw [htp, htp0]⟩
          rw [List.getElem?_append_right (by omega), hl1]
          simp
        · have h1 : 1 < vs.length := by
            rcases List.getElem?_eq_some.mp hz with ⟨h1, -⟩
            exact h1
          exact ⟨z, by rw [List.getElem?_append_left h1]; exact hz, ht⟩)
    fuel _ _ _ _ _ (vs, g)
    ⟨⟨_, by rw [hstart1]; rfl, rfl⟩, by rw [hstart1]; simp, Or.inl ⟨by rw [hstart1]; rfl, rfl⟩⟩ h
  simp only [] at hinv
  refine ⟨hinv.1, hinv.2, hstart2, ?_⟩
  intro hev hl
  constructor
  · intro hE
    have hone := We_div_pdf_forward M hE b.camera ray.origin ray.direction hev hl
    rw [hstart2]
    simp only [Colour.smul, Colour.sdiv, Colour.to_float, Colour.White, one_mul, hE _]
    rw [hone]
  · intro hB hA1 hA2 hc1 hc2
    have hone := We_div_pdf_forward_rounded M hB b.camera ray.origin ray.direction hev hl
      hA1 hA2 hc1 hc2
    rw [hstart2]
    simp only [Colour.smul, Colour.sdiv, Colour.to_float, Colour.White]
    exact ⟨hone, trivial, trivial⟩

end CameraThroughput

/-- The camera `camera_narrow` is the one the constructor builds. -/
theorem camera_narrow_ctor :
    Camera.ctor binary32Ops ⟨0, 0, 0⟩ ⟨0, 1, 0⟩ (21994071 / 1048576) (Config.ctor 2 2 1 3)
      = Except.ok camera_narrow :=
  camera_ok_of_fields _ _ (by decide!)

/-- The camera walk `narrow_run` returns. -/
theorem narrow_run_ok :
    BDPT.trace_camera_path binary32Ops 5 narrow_bdpt 0 0 ⟨78858736⟩
      = Except.ok ((narrow_run.toOption.getD ([], ⟨0⟩)).1,
          (narrow_run.toOption.getD ([], ⟨0⟩)).2) :=
  ok_of_isSome narrow_run ([], ⟨0⟩) (by decide!)

/-- Witness for C29 (amended): the camera walk of `narrow_bdpt` for pixel `(0, 0)` from
the generator state `78858736`, in binary32 arithmetic; the primary ray is on the sensor
and the throughput of the walk is within `6 * 2^-24` of one. -/
theorem C29_camera_throughput_witness :
    (narrow_bdpt.camera.evaluate binary32Ops
      (narrow_bdpt.camera.generate_ray binary32Ops 0 0 ⟨78858736⟩).1.origin
      (narrow_bdpt.camera.generate_ray binary32Ops 0 0 ⟨78858736⟩).1.direction).1 ≠ 0 ∧
    |(BDPT.camera_start binary32Ops narrow_bdpt
        (narrow_bdpt.camera.generate_ray binary32Ops 0 0 ⟨78858736⟩).1).2.r - 1|
      ≤ 6 / 2 ^ 24 :=
  ⟨by decide!,
    (((C29_camera_throughput binary32Ops narrow_bdpt 5 0 0 ⟨78858736⟩ _ _ _ rfl
      narrow_run_ok).2.2.2 (by decide!) rfl).2 (fun _ => rfl) (by decide!) (by decide!)
      (by decide!) (by decide!)).1⟩

/-- Counterexample to C29 as stated: the camera at the origin looking along `+y` with a
`2 x 2` image and focal length `21994071 / 2^20`, the scene `scene_mirror`, pixel `(0, 0)` and
the generator state `78858736`.  The primary ray has the direction `(0, 4/5, 3/5)`, on
the sensor: `evaluate` returns `pdf_W = 11123881 / 2^24`, `cos_theta = 13421773 / 2^24`,
so `pdf_forward = 13904851 / 2^24`, and `We = 3476213 / 2^22 = 13904852 / 2^24`.  The
walk returns two vertices, and `z1` stores the throughput `8388609 / 2^23 = 1 + 2^-23`
in every channel, not `White`. -/
theorem C29_throughput_not_white :
    Camera.ctor binary32Ops ⟨0, 0, 0⟩ ⟨0, 1, 0⟩ (21994071 / 1048576) (Config.ctor 2 2 1 3)
      = Except.ok narrow_bdpt.camera ∧
    ((narrow_bdpt.camera.generate_ray binary32Ops 0 0 ⟨78858736⟩).1.direction.x,
      (narrow_bdpt.camera.generate_ray binary32Ops 0 0 ⟨78858736⟩).1.direction.y,
      (narrow_bdpt.camera.generate_ray binary32Ops 0 0 ⟨78858736⟩).1.direction.z)
      = (0, 4 / 5, 3 / 5) ∧
    narrow_bdpt.camera.evaluate binary32Ops ⟨0, 0, 0⟩ ⟨0, 4 / 5, 3 / 5⟩
      = (11123881 / 16777216, 1, 13421773 / 16777216) ∧
    narrow_bdpt.camera.We binary32Ops ⟨0, 0, 0⟩ ⟨0, 4 / 5, 3 / 5⟩ = 3476213 / 4194304 ∧
    (narrow_run.toOption.map (fun r => r.1.map (fun (v : Vertex ℚ) =>
        (v.throughput.r, v.throughput.g, v.throughput.b, v.pdf_forward))))
      = some [(1, 1, 1, 13904851 / 16777216),
          (8388609 / 8388608, 8388609 / 8388608, 8388609 / 8388608, 5 / 4)] ∧
    (∃ z1 : Vertex ℚ, (narrow_run.toOption.getD ([], ⟨0⟩)).1[1]? = some z1 ∧
      z1.throughput ≠ Colour.White) := by
  refine ⟨camera_narrow_ctor, by decide!, by decide!, by decide!, by decide!, ?_⟩
  have hsome : ((narrow_run.toOption.getD ([], ⟨0⟩)).1[1]?).isSome = true := by decide!
  obtain ⟨z1, hz⟩ := Option.isSome_iff_exists.mp hsome
  refine ⟨z1, hz, ?_⟩
  have hr : ((narrow_run.toOption.getD ([], ⟨0⟩)).1[1]?.map (fun (v : Vertex ℚ) =>
      v.throughput.r)) = some (8388609 / 8388608) := by decide!
  rw [hz] at hr
  intro hw
  rw [Option.map_some', hw] at hr
  revert hr
  decide!

section DiffuseRounded
variable {F : Type} [LinearOrderedField F]

/-- In exact arithmetic the quotient is the albedo. -/
theorem lambert_ratio_exact (M : FloatOps F) (hE : M.ExactFloat) (hpi : M.inv_pi ≠ 0)
    (a z : F) (hz : 0 < z) : lambert_ratio M a z = a := by
  have hz0 : z ≠ 0 := hz.ne'
  simp only [lambert_ratio, hE _]
  field_simp

variable [FloorRing F]

/-- In binary32 arithmetic the quotient of a zero channel is zero. -/
theorem lambert_ratio_zero (M : FloatOps F) (hB : M.Binary32) (z : F) :
    lambert_ratio M 0 z = 0 := by
  simp only [lambert_ratio, hB _, zero_mul, round_binary32_zero, zero_div]

/-- In binary32 arithmetic the quotient differs from the albedo by at most the fraction
`6 * 2^-24` of it, for values in the normal range. -/
theorem lambert_ratio_rounded (M : FloatOps F) (hB : M.Binary32)
    (hp1 : 1 / 4 ≤ M.inv_pi) (_hp2 : M.inv_pi ≤ 1 / 2) (a z : F)
    (hz1 : 1 / 2 ^ 20 ≤ z) (_hz2 : z ≤ 1) (ha1 : 1 / 2 ^ 20 ≤ a) (_ha2 : a ≤ 2 ^ 20) :
    |lambert_ratio M a z - a| ≤ a * (6 / 2 ^ 24) := by
  simp only [lambert_ratio, hB _]
  generalize M.inv_pi = p at hp1
  have hp : 0 < p := lt_of_lt_of_le (by norm_num) hp1
  have hz : 0 < z := lt_of_lt_of_le (by norm_num) hz1
  have ha : 0 < a := lt_of_lt_of_le (by norm_num) ha1
  have hap : (1 : F) / 2 ^ 22 ≤ a * p := by
    calc (1 : F) / 2 ^ 22 = 1 / 2 ^ 20 * (1 / 4) := by norm_num
      _ ≤ a * p := mul_le_mul ha1 hp1 (by norm_num) ha.le
  have hzp : (1 : F) / 2 ^ 22 ≤ z * p := by
    calc (1 : F) / 2 ^ 22 = 1 / 2 ^ 20 * (1 / 4) := by norm_num
      _ ≤ z * p := mul_le_mul hz1 hp1 (by norm_num) hz.le
  have rf := relErr_round (relErr_refl (a * p) (mul_pos ha hp)) (le_trans (by norm_num) hap)
  have rW := relErr_round (relErr_refl (z * p) (mul_pos hz hp)) (le_trans (by norm_num) hzp)
  have rc := relErr_round (relErr_refl z hz) (le_trans (by norm_num) hz1)
  have rq := relErr_div rW rc
  have hq : z * p / z = p := by field_simp
  rw [hq] at rq
  have hq1 : (1 : F) / 2 ^ 126 ≤ round_binary32 (z * p) / round_binary32 z :=
    le_trans (le_trans (by norm_num) (div_le_div_of_nonneg_right hp1 (by norm_num)))
      (relErr_half rq (by norm_num) (by norm_num)).1
  have rpf := relErr_round rq hq1
  have rT := relErr_div rf rpf
  have hT : a * p / p = a := by field_simp
  rw [hT] at rT
  have hT1 : (1 : F) / 2 ^ 126
      ≤ round_binary32 (a * p)
        / round_binary32 (round_binary32 (z * p) / round_binary32 z) :=
    le_trans (le_trans (by norm_num) (div_le_div_of_nonneg_right ha1 (by norm_num)))
      (relErr_half rT (by norm_num) (by norm_num)).1
  exact relErr_three_two (relErr_round rT hT1)

/-- **C34 (amended).** For every sample that `Lambert::sample` returns with the event `Diffuse`:
the iteration of the light walk that receives it appends a vertex storing the running
throughput and, unless the depth test ends the walk, goes on with the throughput
multiplied by the quotient `f / pdf_fwd` (with `pdf_fwd = pdf_W / cos_theta`) times the
shading correction; the iteration of the camera walk goes on with the throughput
multiplied by the quotient; every operation is a `float` operation.  A channel of the
quotient is `lambert_ratio` of the albedo channel and `cos_theta`.  When `cos_theta > 0`:
in exact arithmetic (and `inv_pi` not zero) the quotient equals the albedo; in binary32
arithmetic, with `1/4 <= inv_pi <= 1/2` and `2^-20 <= cos_theta <= 1`, it is zero for a
zero channel and differs from a channel between `2^-20` and `2^20` by at most the
fraction `6 * 2^-24` of it.  It need not equal the albedo: see
`C34_quotient_not_albedo`. -/
theorem C34_diffuse_throughput (M : FloatOps F) (albedo : Colour F)
    (idata : Intersection F) (trace_mode : TraceMode) (prng : Mersenne)
    (hev : ((BxDF.Lambert albedo).sample M idata trace_mode prng).1.2.2.1 = Event.Diffuse)
    (b : BDPT F) (p_emitter : Emitter.Triangle F) (vs : List (Vertex F)) (hne : vs ≠ [])
    (ray : Section F) (depth : Nat) (tp : Colour F) (ratio : Colour F)
    (hratio : ratio
      = ⟨lambert_ratio M albedo.r
            ((BxDF.Lambert albedo).sample M idata trace_mode prng).1.2.2.2.2,
          lambert_ratio M albedo.g
            ((BxDF.Lambert albedo).sample M idata trace_mode prng).1.2.2.2.2,
          lambert_ratio M albedo.b
            ((BxDF.Lambert albedo).sample M idata trace_mode prng).1.2.2.2.2⟩) :
    ratio = ((((BxDF.Lambert albedo).sample M idata trace_mode prng).1.1.to_float M).sdiv
      (M.to_float
        (M.to_float ((BxDF.Lambert albedo).sample M idata trace_mode prng).1.2.2.2.1
          / M.to_float ((BxDF.Lambert albedo).sample M idata trace_mode prng).1.2.2.2.2))
      ).to_float M ∧
    (∃ v : Vertex F, v.throughput = tp ∧
      BDPT.emission_bounce M b p_emitter vs ray depth tp idata (BxDF.Lambert albedo)
          ((BxDF.Lambert albedo).sample M idata trace_mode prng).1
        = Except.ok (if (depth + 1) % 256 > b.max_path_length then BDPT.Step.done (vs ++ [v])
          else BDPT.Step.next (vs ++ [v])
            (Section.ctor_eps idata.point
              ((BxDF.Lambert albedo).sample M idata trace_mode prng).1.2.1 (EPSILON_RAY F))
            ((depth + 1) % 256)
            ((tp.mul ((ratio.smul (M.to_float (ShadingCorrection
              ((BxDF.Lambert albedo).sample M idata trace_mode prng).1.2.1
              idata.from_direction idata TraceMode.Importance))).to_float M)).to_float M))) ∧
    (∃ v : Vertex F, v.throughput = tp ∧
      BDPT.camera_bounce M b vs ray depth tp idata (BxDF.Lambert albedo)
          ((BxDF.Lambert albedo).sample M idata trace_mode prng).1
        = Except.ok (if (depth + 1) % 256 > b.max_path_length then BDPT.Step.done (vs ++ [v])
          else BDPT.Step.next (vs ++ [v])
            (Section.ctor_eps idata.point
              ((BxDF.Lambert albedo).sample M idata trace_mode prng).1.2.1 (EPSILON_RAY F))
            ((depth + 1) % 256) ((tp.mul ratio).to_float M))) ∧
    (0 < ((BxDF.Lambert albedo).sample M idata trace_mode prng).1.2.2.2.2 →
      (M.ExactFloat → M.inv_pi ≠ 0 → ratio = albedo) ∧
      (M.Binary32 → 1 / 4 ≤ M.inv_pi → M.inv_pi ≤ 1 / 2 →
        1 / 2 ^ 20 ≤ ((BxDF.Lambert albedo).sample M idata trace_mode prng).1.2.2.2.2 →
        ((BxDF.Lambert albedo).sample M idata trace_mode prng).1.2.2.2.2 ≤ 1 →
        (albedo.r = 0 → ratio.r = 0) ∧ (albedo.g = 0 → ratio.g = 0) ∧
        (albedo.b = 0 → ratio.b = 0) ∧
        (1 / 2 ^ 20 ≤ albedo.r → albedo.r ≤ 2 ^ 20 →
          |ratio.r - albedo.r| ≤ albedo.r * (6 / 2 ^ 24)) ∧
        (1 / 2 ^ 20 ≤ albedo.g → albedo.g ≤ 2 ^ 20 →
          |ratio.g - albedo.g| ≤ albedo.g * (6 / 2 ^ 24)) ∧
        (1 / 2 ^ 20 ≤ albedo.b → albedo.b ≤ 2 ^ 20 →
          |ratio.b - albedo.b| ≤ albedo.b * (6 / 2 ^ 24)))) := by
  have hs := lambert_sample_of_diffuse M albedo idata trace_mode prng hev
  rw [hs] at hev hratio ⊢
  have hq : ratio = (((BxDF.lambert_sample M albedo idata (Sample.HemiSphere M prng).1).1.to_float
      M).sdiv
      (M.to_float
        (M.to_float (BxDF.lambert_sample M albedo idata (Sample.HemiSphere M prng).1).2.2.2.1
          / M.to_float (BxDF.lambert_sample M albedo idata
              (Sample.HemiSphere M prng).1).2.2.2.2))).to_float M := by
    rw [hratio]
    rfl
  obtain ⟨l, -, hb⟩ := back_of_ne_nil vs hne
  refine ⟨hq, ?_, ?_, ?_⟩
  · unfold BDPT.emission_bounce
    simp only []
    rw [hev]
    simp only []
    rw [hb, ← hq]
    simp only [bind, Except.bind, pure, Except.pure]
    by_cases hd : (depth + 1) % 256 > b.max_path_length
    · simp only [if_pos hd]
      exact ⟨_, rfl, rfl⟩
    · simp only [if_neg hd]
      exact ⟨_, rfl, rfl⟩
  · unfold BDPT.camera_bounce
    simp only []
    rw [hev]
    simp only []
    rw [hb, ← hq]
    simp only [bind, Except.bind, pure, Except.pure]
    by_cases hd : (depth + 1) % 256 > b.max_path_length
    · simp only [if_pos hd]
      exact ⟨_, rfl, rfl⟩
    · simp only [if_neg hd]
      exact ⟨_, rfl, rfl⟩
  · intro hcos
    constructor
    · intro hE hpi
      rw [hratio]
      refine Colour.ext ?_ ?_ ?_
      · exact lambert_ratio_exact M hE hpi _ _ hcos
      · exact lambert_ratio_exact M hE hpi _ _ hcos
      · exact lambert_ratio_exact M hE hpi _ _ hcos
    · intro hB hp1 hp2 hz1 hz2
      rw [hratio]
      refine ⟨?_, ?_, ?_, ?_, ?_, ?_⟩
      · intro h0
        simp only [h0]
        exact lambert_ratio_zero M hB _
      · intro h0
        simp only [h0]
        exact lambert_ratio_zero M hB _
      · intro h0
        simp only [h0]
        exact lambert_ratio_zero M hB _
      · exact lambert_ratio_rounded M hB hp1 hp2 _ _ hz1 hz2
      · exact lambert_ratio_rounded M hB hp1 hp2 _ _ hz1 hz2
      · exact lambert_ratio_rounded M hB hp1 hp2 _ _ hz1 hz2

end DiffuseRounded

/-- Witness for C34 (amended): a Lambert surface of albedo `0.8f` in the three channels
facing `+z`, reached from above, with the generator state `4044877933` and a path of one
vertex, in binary32 arithmetic: the quotient of the red channel is within the fraction
`6 * 2^-24` of the albedo. -/
theorem C34_diffuse_throughput_witness :
    |lambert_ratio binary32Ops (13421773 / 16777216)
        ((BxDF.Lambert (⟨13421773 / 16777216, 13421773 / 16777216,
          13421773 / 16777216⟩ : Colour ℚ)).sample binary32Ops idata_floor
          TraceMode.Radiance ⟨4044877933⟩).1.2.2.2.2 - 13421773 / 16777216|
      ≤ 13421773 / 16777216 * (6 / 2 ^ 24) :=
  ((C34_diffuse_throughput binary32Ops
    ⟨13421773 / 16777216, 13421773 / 16777216, 13421773 / 16777216⟩
    idata_floor TraceMode.Radiance ⟨4044877933⟩ (by decide!) wall_light_bdpt
    emitter_wall_light
    [Vertex.ctor ⟨⟨0, 0, 1⟩, ⟨0, 0, -1⟩, ⟨0, 0, -1⟩, ⟨0, 0, -1⟩, Orthogonal.default, 0⟩
      Colour.White 1 1 true false]
    (by simp) ⟨⟨0, 0, 1⟩, ⟨0, 0, -1⟩⟩ 1 Colour.White _ rfl).2.2.2 (by decide!)).2
    (fun _ => rfl) (by decide!) (by decide!) (by decide!) (by decide!)
    |>.2.2.2.1 (by decide!) (by decide!)

/-- Counterexample to C34 as stated: a Lambert surface with the albedo
`0.8f = 13421773 / 2^24` in the three channels and the generator state `4044877933`, whose second output
`2835349504 = 169 * 2^24` gives `z = 169/256` and `cos_theta = 13/16 > 0`.
`Lambert::sample` returns the event `Diffuse`, the factor `f = 8544566 / 2^25`, and
`pdf_W = 8678074 / 2^25` after narrowing; `pdf_forward = pdf_W / cos_theta` is
`10680706 / 2^25` and the quotient `f / pdf_forward` is `13421775 / 2^24`, not the
albedo; the camera walk goes on from the throughput `White` with this quotient. -/
theorem C34_quotient_not_albedo :
    (Mersenne.mk 4044877933).next.2.next.1 = 2835349504 ∧
    ((BxDF.Lambert (⟨13421773 / 16777216, 13421773 / 16777216,
        13421773 / 16777216⟩ : Colour ℚ)).sample binary32Ops idata_floor
        TraceMode.Radiance ⟨4044877933⟩).1.2.2.1 = Event.Diffuse ∧
    ((BxDF.Lambert (⟨13421773 / 16777216, 13421773 / 16777216,
        13421773 / 16777216⟩ : Colour ℚ)).sample binary32Ops idata_floor
        TraceMode.Radiance ⟨4044877933⟩).1.2.2.2.2 = 13 / 16 ∧
    binary32Ops.to_float ((BxDF.Lambert (⟨13421773 / 16777216, 13421773 / 16777216,
        13421773 / 16777216⟩ : Colour ℚ)).sample binary32Ops idata_floor
        TraceMode.Radiance ⟨4044877933⟩).1.1.r = 8544566 / 33554432 ∧
    binary32Ops.to_float ((BxDF.Lambert (⟨13421773 / 16777216, 13421773 / 16777216,
        13421773 / 16777216⟩ : Colour ℚ)).sample binary32Ops idata_floor
        TraceMode.Radiance ⟨4044877933⟩).1.2.2.2.1 = 8678074 / 33554432 ∧
    binary32Ops.to_float (8678074 / 33554432 / binary32Ops.to_float (13 / 16))
      = 10680706 / 33554432 ∧
    lambert_ratio binary32Ops (13421773 / 16777216) (13 / 16) = 13421775 / 16777216 ∧
    lambert_ratio binary32Ops (13421773 / 16777216) (13 / 16) ≠ 13421773 / 16777216 ∧
    ((BDPT.Step.throughput (BDPT.camera_bounce binary32Ops wall_light_bdpt
        [Vertex.ctor ⟨⟨0, 0, 1⟩, ⟨0, 0, -1⟩, ⟨0, 0, -1⟩, ⟨0, 0, -1⟩, Orthogonal.default, 0⟩
          Colour.White 1 1 true false]
        ⟨⟨0, 0, 1⟩, ⟨0, 0, -1⟩⟩ 1 Colour.White idata_floor
        (BxDF.Lambert ⟨13421773 / 16777216, 13421773 / 16777216, 13421773 / 16777216⟩)
        ((BxDF.Lambert (⟨13421773 / 16777216, 13421773 / 16777216,
          13421773 / 16777216⟩ : Colour ℚ)).sample binary32Ops idata_floor
          TraceMode.Radiance ⟨4044877933⟩).1)).map
      (fun c => (c.r, c.g, c.b)))
      = some (13421775 / 16777216, 13421775 / 16777216, 13421775 / 16777216) := by
  decide!

section NodeValues
variable {F : Type} [LinearOrderedField F]

end NodeValues

section WeightDivisionsValues
variable {F : Type} [LinearOrderedField F]

end WeightDivisionsValues

end BPT
